import Mathlib

/-!
vcml: registers, the generic memory and the initiator socket

A shallow embedding of `include/vcml/register.h` (the templated register
`reg<HOST, DATA, N>` with its banks, callbacks, `reset` and the byte-granular
`do_read` / `do_write` loops), of `src/vcml/models/generic/memory.cpp`
(`read`, `write`, `load`, the placement done by the constructor and
`images_from_string`) and of `src/vcml/master_socket.cpp` (`send`,
`access_dmi`, `access`), followed by theorems about them.

Conventions
* `u64` values are natural numbers below `2^64`; every `u64` addition and
  subtraction of the source is reduced modulo `2^64` explicitly.
* A value of the template type `DATA` is its object representation: exactly
  `sizeof(DATA)` bytes.  `memcpy` on `(unsigned char*)&val + off` becomes a
  splice of that byte list.  Numeric readings (`0x44332211`) use the
  little-endian order of the hosts the test-suite runs on.
* C++ exceptions (`VCML_ERROR`) and undefined behaviour (a `memcpy` that runs
  past the object it targets) are explicit outcomes.
-/

namespace vcml

/-! ## Machine words -/

/-- The modulus of `u64` arithmetic. -/
def U64 : Nat := 2 ^ 64

/-- The modulus of `unsigned int` arithmetic. -/
def U32 : Nat := 2 ^ 32

/-- Wrapping `u64` addition. -/
def u64_add (a b : Nat) : Nat := (a + b) % U64

/-- Wrapping `u64` subtraction. -/
def u64_sub (a b : Nat) : Nat := (a + U64 - b % U64) % U64

/-! ## range -/

/-- Modelled from the spec: `vcml/range.h` is not part of the sources at hand.
A range is the inclusive interval `[start, end]` of `u64` addresses.  Its two
members are public and the code assigns to them (`addr.start += size` in
`reg::do_read`), so the invariant `start ≤ end` of the spec is not part of
this type; it is what the constructor establishes (`range.construct`). -/
structure range where
  start : Nat
  end_ : Nat
  deriving DecidableEq, Repr

/-- Modelled from the spec: `length = end - start + 1`, computed in `u64`. -/
def range.length (a : range) : Nat := u64_add (u64_sub a.end_ a.start) 1

/-! ## DATA: object representations -/

/-- A value of the template type `DATA`, given by its `sizeof(DATA) = sz`
bytes in memory order. -/
structure DATA (sz : Nat) where
  bytes : List UInt8
  size_eq : bytes.length = sz
  deriving DecidableEq

/-- Little-endian reading of a byte string as a number. -/
def le_value : List UInt8 → Nat
  | [] => 0
  | b :: bs => b.toNat + 256 * le_value bs

/-- The numeric value of an integral `DATA` on a little-endian host. -/
def DATA.value {sz : Nat} (v : DATA sz) : Nat := le_value v.bytes

/-- The `DATA` whose bytes are all equal to `b`. -/
def DATA.fill (sz : Nat) (b : UInt8) : DATA sz :=
  ⟨List.replicate sz b, List.length_replicate sz b⟩

/-- The statement `memcpy((unsigned char*)&val + off, src, size)`: `size` bytes
of `src` replace the bytes `off .. off+size-1` of `val`.  Writing past the
end of `val`, or reading past the end of the source buffer, is undefined
behaviour (`none`). -/
def DATA.poke {sz : Nat} (val : DATA sz) (off : Nat) (src : List UInt8) (size : Nat) :
    Option (DATA sz) :=
  if h : off + size ≤ sz ∧ size ≤ src.length then
    some ⟨val.bytes.take off ++ (src.take size ++ val.bytes.drop (off + size)), by
      have hb := val.size_eq
      simp only [List.length_append, List.length_take, List.length_drop]
      omega⟩
  else none

/-- The statement `memcpy(dest, (unsigned char*)&val + off, size)`: the bytes
`off .. off+size-1` of `val`.  Reading past the end of `val` is undefined
behaviour (`none`). -/
def DATA.peek {sz : Nat} (val : DATA sz) (off size : Nat) : Option (List UInt8) :=
  if off + size ≤ sz then some ((val.bytes.drop off).take size) else none

/-! ## reg -/

/-- The reports `VCML_ERROR_ON` raises inside `reg`. -/
inductive report where
  | index_out_of_bounds (idx : Nat)
  | cannot_create_banks
  deriving DecidableEq, Repr

/-- One invocation of a register callback on the host, with its arguments. -/
inductive call (sz : Nat) where
  | read
  | write (val : DATA sz)
  | tagged_read (tag : Nat)
  | tagged_write (val : DATA sz) (tag : Nat)
  deriving DecidableEq

/-- The register `reg<HOST, DATA, N>` with `sizeof(DATA) = sz`.

* `address` is `get_address()`, the start of the register's range;
* `m_value` is the storage of the base class `property<DATA, N>` (bank 0),
  `m_default` its `get_default()`;
* `m_banks` is the `std::map<int, DATA*>` of private banks;
* the four callbacks are member functions of the host: they take the host
  state and yield a value and the new host state. -/
structure reg (HOST : Type) (sz N : Nat) where
  address : Nat
  m_banked : Bool
  m_init : Fin N → DATA sz
  m_value : Fin N → DATA sz
  m_default : DATA sz
  m_banks : Int → Option (Fin N → DATA sz)
  read : Option (HOST → DATA sz × HOST)
  write : Option (HOST → DATA sz → DATA sz × HOST)
  tag : Nat
  tagged_read : Option (HOST → Nat → DATA sz × HOST)
  tagged_write : Option (HOST → DATA sz → Nat → DATA sz × HOST)

/-- The range `reg_base` is constructed with: `[addr, addr + N * sizeof(DATA) - 1]`. -/
def reg.get_range {HOST : Type} {sz N : Nat} (r : reg HOST sz N) : range :=
  ⟨r.address, u64_sub (u64_add r.address (N * sz)) 1⟩

/-- The template and constructor arguments describe a register that exists:
`sizeof(DATA) > 0`, `N` is an `unsigned int`, the size `N * sizeof(DATA)` is a
`u64`, and the range `[addr, addr + size - 1]` does not wrap. -/
def reg.wf {HOST : Type} {sz N : Nat} (r : reg HOST sz N) : Prop :=
  0 < sz ∧ N < U32 ∧ N * sz < U64 ∧ r.address + N * sz ≤ U64

instance {HOST : Type} {sz N : Nat} (r : reg HOST sz N) : Decidable r.wf := by
  unfold reg.wf; exact inferInstance

/-- How a piece of `reg` code ended: it ran to its end, a report was thrown,
it hit undefined behaviour, or the step budget of this model was used up
before a loop ended. -/
inductive outcome where
  | completed
  | raised (e : report)
  | undefined_behaviour
  | out_of_fuel
  deriving DecidableEq, Repr

/-- The lvalue a call of `bank(bk, idx)` refers to. -/
inductive cell (N : Nat) where
  | shared (i : Fin N)
  | banked (bk : Int) (i : Fin N)
  deriving DecidableEq

/-- `reg::init_bank`. -/
def reg.init_bank {HOST : Type} {sz N : Nat} (r : reg HOST sz N) (bank : Int) :
    Except report (reg HOST sz N) :=
  if !r.m_banked then .error .cannot_create_banks
  else if bank = 0 ∨ (r.m_banks bank).isSome then .ok r
  else .ok { r with m_banks := fun k => if k = bank then some r.m_init else r.m_banks k }

/-- The non-const `reg::bank(int bk, unsigned int idx)`: the register after
the call (a bank may have been created) and the cell the returned reference
designates. -/
def reg.bank {HOST : Type} {sz N : Nat} (r : reg HOST sz N) (bk : Int) (idx : Nat) :
    Except report (reg HOST sz N × cell N) :=
  if h : idx < N then
    if bk = 0 ∨ !r.m_banked then .ok (r, .shared ⟨idx, h⟩)
    else if !(r.m_banks bk).isSome then
      match r.init_bank bk with
      | .error e => .error e
      | .ok r1 => .ok (r1, .banked bk ⟨idx, h⟩)
    else .ok (r, .banked bk ⟨idx, h⟩)
  else .error (.index_out_of_bounds idx)

/-- The const `reg::bank(int bk, unsigned int idx) const`. -/
def reg.bank_const {HOST : Type} {sz N : Nat} (r : reg HOST sz N) (bk : Int) (idx : Nat) :
    Except report (DATA sz) :=
  if h : idx < N then
    if bk = 0 ∨ !r.m_banked then .ok (r.m_value ⟨idx, h⟩)
    else match r.m_banks bk with
      | none => .ok r.m_default
      | some a => .ok (a ⟨idx, h⟩)
  else .error (.index_out_of_bounds idx)

/-- Reading through a reference returned by `bank`.  A reference into a bank
that does not exist dangles (`none`). -/
def reg.load {HOST : Type} {sz N : Nat} (r : reg HOST sz N) : cell N → Option (DATA sz)
  | .shared i => some (r.m_value i)
  | .banked bk i => (r.m_banks bk).map (fun a => a i)

/-- Assigning through a reference returned by `bank`. -/
def reg.store {HOST : Type} {sz N : Nat} (r : reg HOST sz N) (c : cell N) (v : DATA sz) :
    Option (reg HOST sz N) :=
  match c with
  | .shared i => some { r with m_value := Function.update r.m_value i v }
  | .banked bk i =>
    match r.m_banks bk with
    | none => none
    | some a =>
      some { r with m_banks := fun k => if k = bk then some (Function.update a i v) else r.m_banks k }

/-- The rvalue use `DATA val = bank(bk, idx);` of the non-const overload: the
register after the call and the value read. -/
def reg.bank_get {HOST : Type} {sz N : Nat} (r : reg HOST sz N) (bk : Int) (idx : Nat) :
    Except outcome (reg HOST sz N × DATA sz) :=
  match r.bank bk idx with
  | .error e => .error (.raised e)
  | .ok (r1, c) =>
    match r1.load c with
    | none => .error .undefined_behaviour
    | some v => .ok (r1, v)

/-- The assignment `bank(bk, idx) = val;`. -/
def reg.bank_set {HOST : Type} {sz N : Nat} (r : reg HOST sz N) (bk : Int) (idx : Nat)
    (val : DATA sz) : Except outcome (reg HOST sz N) :=
  match r.bank bk idx with
  | .error e => .error (.raised e)
  | .ok (r1, c) =>
    match r1.store c val with
    | none => .error .undefined_behaviour
    | some r2 => .ok r2

/-! ### Closed forms of a bank access -/

/-- The cells of bank `bk` as an access sees them: a bank that does not exist
yet is created from the init values. -/
def reg.bank_cells {HOST : Type} {sz N : Nat} (r : reg HOST sz N) (bk : Int) : Fin N → DATA sz :=
  (r.m_banks bk).getD r.m_init

/-- Whether an access with bank identifier `bk` goes to the shared storage. -/
def reg.is_shared {HOST : Type} {sz N : Nat} (r : reg HOST sz N) (bk : Int) : Bool :=
  decide (bk = 0) || !r.m_banked

/-- The register after an access to bank `bk`. -/
def reg.touched {HOST : Type} {sz N : Nat} (r : reg HOST sz N) (bk : Int) : reg HOST sz N :=
  if r.is_shared bk then r
  else { r with m_banks := fun k => if k = bk then some (r.bank_cells bk) else r.m_banks k }

/-- The value an access to cell `i` of bank `bk` reads. -/
def reg.seen {HOST : Type} {sz N : Nat} (r : reg HOST sz N) (bk : Int) (i : Fin N) : DATA sz :=
  if r.is_shared bk then r.m_value i else r.bank_cells bk i

/-- The register after `v` was assigned to cell `i` of bank `bk`. -/
def reg.assigned {HOST : Type} {sz N : Nat} (r : reg HOST sz N) (bk : Int) (i : Fin N)
    (v : DATA sz) : reg HOST sz N :=
  if r.is_shared bk then { r with m_value := Function.update r.m_value i v }
  else { r with m_banks := fun k =>
           if k = bk then some (Function.update (r.bank_cells bk) i v) else r.m_banks k }

/-! ## do_read / do_write -/

/-- The variables of the `do_write` loop: the register, the host, the local
copy `addr` of the range, the source bytes still ahead of `src`, and the
callback invocations so far. -/
structure wstate (HOST : Type) (sz N : Nat) where
  self : reg HOST sz N
  host : HOST
  addr : range
  src : List UInt8
  calls : List (call sz)

/-- The variables of the `do_read` loop; `dest` holds the bytes written to
the destination buffer so far (the buffer is filled front to back). -/
structure rstate (HOST : Type) (sz N : Nat) where
  self : reg HOST sz N
  host : HOST
  addr : range
  dest : List UInt8
  calls : List (call sz)

/-- The three quantities both loops compute at the top of an iteration:
`idx`, `off` and `size`. -/
def reg.chunk {HOST : Type} {sz N : Nat} (r : reg HOST sz N) (addr : range) : Nat × Nat × Nat :=
  (u64_sub addr.start r.address / sz,
   u64_sub addr.start r.address % sz,
   min addr.length sz)

/-- The argument handed to a tagged callback, `N > 1 ? idx : tag`, converted
to `unsigned int`. -/
def reg.tag_or_idx {HOST : Type} {sz N : Nat} (r : reg HOST sz N) (idx : Nat) : Nat :=
  (if 1 < N then idx else r.tag) % U32

/-- The callback dispatch of `do_write`. -/
def reg.write_dispatch {HOST : Type} {sz N : Nat} (r : reg HOST sz N) (h : HOST)
    (val : DATA sz) (idx : Nat) : DATA sz × HOST × List (call sz) :=
  match r.tagged_write with
  | some f => ((f h val (r.tag_or_idx idx)).1, (f h val (r.tag_or_idx idx)).2,
      [call.tagged_write val (r.tag_or_idx idx)])
  | none =>
    match r.write with
    | some f => ((f h val).1, (f h val).2, [call.write val])
    | none => (val, h, [])

/-- The callback dispatch of `do_read`. -/
def reg.read_dispatch {HOST : Type} {sz N : Nat} (r : reg HOST sz N) (h : HOST)
    (val : DATA sz) (idx : Nat) : DATA sz × HOST × List (call sz) :=
  match r.tagged_read with
  | some f => ((f h (r.tag_or_idx idx)).1, (f h (r.tag_or_idx idx)).2,
      [call.tagged_read (r.tag_or_idx idx)])
  | none =>
    match r.read with
    | some f => ((f h).1, (f h).2, [call.read])
    | none => (val, h, [])

/-- One iteration of the `while` loop of `reg::do_write`.  `current_cpu` is
the host's `current_cpu()`, so that `current_bank(idx)` is
`bank(current_cpu host, idx)`.  The result is the state the iteration leaves
and, when the iteration does not reach its end, why. -/
def reg.do_write_body {HOST : Type} {sz N : Nat} (current_cpu : HOST → Int)
    (s : wstate HOST sz N) : wstate HOST sz N × Option outcome :=
  let idx := (s.self.chunk s.addr).1
  let off := (s.self.chunk s.addr).2.1
  let size := (s.self.chunk s.addr).2.2
  match s.self.bank_get (current_cpu s.host) (idx % U32) with
  | .error o => (s, some o)
  | .ok (r1, val) =>
    match val.poke off s.src size with
    | none => ({ s with self := r1 }, some .undefined_behaviour)
    | some val1 =>
      let d := r1.write_dispatch s.host val1 idx
      match r1.bank_set (current_cpu d.2.1) (idx % U32) d.1 with
      | .error o => ({ s with self := r1, host := d.2.1, calls := s.calls ++ d.2.2 }, some o)
      | .ok r2 =>
        ({ self := r2, host := d.2.1,
           addr := { s.addr with start := u64_add s.addr.start size },
           src := s.src.drop size, calls := s.calls ++ d.2.2 }, none)

/-- The `while (addr.start <= addr.end)` loop of `reg::do_write`, run for at
most `fuel` iterations. -/
def reg.do_write_loop {HOST : Type} {sz N : Nat} (current_cpu : HOST → Int) :
    Nat → wstate HOST sz N → wstate HOST sz N × outcome
  | 0, s => if s.addr.start ≤ s.addr.end_ then (s, .out_of_fuel) else (s, .completed)
  | fuel + 1, s =>
    if s.addr.start ≤ s.addr.end_ then
      match reg.do_write_body current_cpu s with
      | (s1, some o) => (s1, o)
      | (s1, none) => reg.do_write_loop current_cpu fuel s1
    else (s, .completed)

/-- `reg::do_write(txaddr, data)` on host state `h`. -/
def reg.do_write {HOST : Type} {sz N : Nat} (current_cpu : HOST → Int) (fuel : Nat)
    (r : reg HOST sz N) (h : HOST) (txaddr : range) (data : List UInt8) :
    wstate HOST sz N × outcome :=
  reg.do_write_loop current_cpu fuel
    { self := r, host := h, addr := txaddr, src := data, calls := [] }

/-- One iteration of the `while` loop of `reg::do_read`. -/
def reg.do_read_body {HOST : Type} {sz N : Nat} (current_cpu : HOST → Int)
    (s : rstate HOST sz N) : rstate HOST sz N × Option outcome :=
  let idx := (s.self.chunk s.addr).1
  let off := (s.self.chunk s.addr).2.1
  let size := (s.self.chunk s.addr).2.2
  match s.self.bank_get (current_cpu s.host) (idx % U32) with
  | .error o => (s, some o)
  | .ok (r1, val) =>
    let d := r1.read_dispatch s.host val idx
    match r1.bank_set (current_cpu d.2.1) (idx % U32) d.1 with
    | .error o => ({ s with self := r1, host := d.2.1, calls := s.calls ++ d.2.2 }, some o)
    | .ok r2 =>
      match d.1.peek off size with
      | none => ({ s with self := r2, host := d.2.1, calls := s.calls ++ d.2.2 },
          some .undefined_behaviour)
      | some bs =>
        ({ self := r2, host := d.2.1,
           addr := { s.addr with start := u64_add s.addr.start size },
           dest := s.dest ++ bs, calls := s.calls ++ d.2.2 }, none)

/-- The `while (addr.start <= addr.end)` loop of `reg::do_read`, run for at
most `fuel` iterations. -/
def reg.do_read_loop {HOST : Type} {sz N : Nat} (current_cpu : HOST → Int) :
    Nat → rstate HOST sz N → rstate HOST sz N × outcome
  | 0, s => if s.addr.start ≤ s.addr.end_ then (s, .out_of_fuel) else (s, .completed)
  | fuel + 1, s =>
    if s.addr.start ≤ s.addr.end_ then
      match reg.do_read_body current_cpu s with
      | (s1, some o) => (s1, o)
      | (s1, none) => reg.do_read_loop current_cpu fuel s1
    else (s, .completed)

/-- `reg::do_read(txaddr, ptr)` on host state `h`. -/
def reg.do_read {HOST : Type} {sz N : Nat} (current_cpu : HOST → Int) (fuel : Nat)
    (r : reg HOST sz N) (h : HOST) (txaddr : range) :
    rstate HOST sz N × outcome :=
  reg.do_read_loop current_cpu fuel
    { self := r, host := h, addr := txaddr, dest := [], calls := [] }

/-- The address range of the bytes `off .. off+n-1` of cell `idx` of the
register. -/
def reg.cell_range {HOST : Type} {sz N : Nat} (r : reg HOST sz N) (idx off n : Nat) : range :=
  ⟨r.address + idx * sz + off, r.address + idx * sz + off + n - 1⟩

/-- Modelled from the spec: `range::inside`, the range `a` lies inside the
range `b`. -/
def range.inside (a b : range) : Prop := b.start ≤ a.start ∧ a.end_ ≤ b.end_

instance (a b : range) : Decidable (a.inside b) := by
  unfold range.inside; exact inferInstance

/-! ## The registers of the test-suite -/

/-- A host without state of its own beyond the CPU (bank) identifier of the
running transaction. -/
abbrev cpu_host := Int

/-- The `u32` with the given four bytes. -/
def u32_of (b0 b1 b2 b3 : UInt8) : DATA 4 := ⟨[b0, b1, b2, b3], rfl⟩

/-- The register `test_reg_a("test_reg_a", 0x0, 0xffffffff)` of the mock
peripheral, a `reg<mock_peripheral, u32>` without callbacks. -/
def test_reg_a : reg cpu_host 4 1 :=
  { address := 0, m_banked := false,
    m_init := fun _ => DATA.fill 4 0xff, m_value := fun _ => DATA.fill 4 0xff,
    m_default := DATA.fill 4 0xff, m_banks := fun _ => none,
    read := none, write := none, tag := 0, tagged_read := none, tagged_write := none }

/-- The register `test_reg_b("test_reg_b", 0x4, 0xffffffff)` with a read
callback returning `rd` and a write callback returning `wr`. -/
def test_reg_b (rd wr : DATA 4) : reg cpu_host 4 1 :=
  { address := 4, m_banked := false,
    m_init := fun _ => DATA.fill 4 0xff, m_value := fun _ => DATA.fill 4 0xff,
    m_default := DATA.fill 4 0xff, m_banks := fun _ => none,
    read := some (fun h => (rd, h)), write := some (fun h _ => (wr, h)),
    tag := 0, tagged_read := none, tagged_write := none }

/-- An array register `reg<HOST, u32, 2>` at address 0 without callbacks. -/
def array_reg : reg cpu_host 4 2 :=
  { address := 0, m_banked := false,
    m_init := fun _ => DATA.fill 4 0, m_value := fun _ => DATA.fill 4 0,
    m_default := DATA.fill 4 0, m_banks := fun _ => none,
    read := none, write := none, tag := 0, tagged_read := none, tagged_write := none }

/-! ## Sideband and payload -/

/-- The sideband `tlm_sbi`, given by the 64-bit `code` of its union.  The
bit-fields are laid out in declaration order from bit 0 (the layout g++ gives
them on x86-64): the six flags in the bits 0..5, `cpuid` in the bits 6..25 and
`level` in the bits 32..51; the bits 26..31 and 52..63 belong to no member. -/
structure tlm_sbi where
  code : Nat
  deriving DecidableEq, Repr

/-- Flag `is_debug`, bit 0. -/
def tlm_sbi.is_debug (a : tlm_sbi) : Bool := a.code.testBit 0
/-- Flag `is_nodmi`, bit 1. -/
def tlm_sbi.is_nodmi (a : tlm_sbi) : Bool := a.code.testBit 1
/-- Flag `is_sync`, bit 2. -/
def tlm_sbi.is_sync (a : tlm_sbi) : Bool := a.code.testBit 2
/-- Flag `is_insn`, bit 3. -/
def tlm_sbi.is_insn (a : tlm_sbi) : Bool := a.code.testBit 3
/-- Flag `is_excl`, bit 4. -/
def tlm_sbi.is_excl (a : tlm_sbi) : Bool := a.code.testBit 4
/-- Flag `is_lock`, bit 5. -/
def tlm_sbi.is_lock (a : tlm_sbi) : Bool := a.code.testBit 5

/-- `tlm_sbi::operator |`. -/
def tlm_sbi.or (a b : tlm_sbi) : tlm_sbi := ⟨a.code ||| b.code⟩

/-- `tlm_sbi::operator &`. -/
def tlm_sbi.and (a b : tlm_sbi) : tlm_sbi := ⟨a.code &&& b.code⟩

/-- The constant `SBI_NONE`. -/
def SBI_NONE : tlm_sbi := ⟨0⟩
/-- The constant `SBI_DEBUG`. -/
def SBI_DEBUG : tlm_sbi := ⟨1⟩
/-- The constant `SBI_EXCL`. -/
def SBI_EXCL : tlm_sbi := ⟨16⟩

/-- The response status of a generic payload (TLM-2.0). -/
inductive tlm_response_status where
  | TLM_OK_RESPONSE
  | TLM_INCOMPLETE_RESPONSE
  | TLM_GENERIC_ERROR_RESPONSE
  | TLM_ADDRESS_ERROR_RESPONSE
  | TLM_COMMAND_ERROR_RESPONSE
  | TLM_BURST_ERROR_RESPONSE
  | TLM_BYTE_ENABLE_ERROR_RESPONSE
  deriving DecidableEq, Repr

/-- The command of a generic payload (TLM-2.0). -/
inductive tlm_command where
  | TLM_READ_COMMAND
  | TLM_WRITE_COMMAND
  | TLM_IGNORE_COMMAND
  deriving DecidableEq, Repr

/-- The fields of `tlm_generic_payload` that `master_socket` touches.  The
byte-enable pointer is `none` when it is `nullptr`; `sbi` is the `sbiext`
extension. -/
structure tlm_generic_payload where
  command : tlm_command
  address : Nat
  data : List UInt8
  data_length : Nat
  streaming_width : Nat
  byte_enable_ptr : Option (List UInt8)
  byte_enable_length : Nat
  response_status : tlm_response_status
  dmi_allowed : Bool
  sbi : Option tlm_sbi
  deriving DecidableEq, Repr

/-- `tlm_generic_payload::is_response_ok`. -/
def tlm_generic_payload.is_response_ok (tx : tlm_generic_payload) : Bool :=
  tx.response_status = .TLM_OK_RESPONSE

/-- `tx_get_sbi`: the extension, or `SBI_NONE` without one. -/
def tx_get_sbi (tx : tlm_generic_payload) : tlm_sbi := tx.sbi.getD SBI_NONE

/-- `tx_is_excl`. -/
def tx_is_excl (tx : tlm_generic_payload) : Bool := (tx_get_sbi tx).is_excl

/-- Modelled from the spec: `tx_set_sbi` is declared in `tlm_sbi.h` and defined
in a file that is not part of the sources at hand; it sets the payload's
sideband extension to `info`. -/
def tx_set_sbi (tx : tlm_generic_payload) (info : tlm_sbi) : tlm_generic_payload :=
  { tx with sbi := some info }

/-- A DMI descriptor `tlm_dmi` (TLM-2.0). -/
structure tlm_dmi where
  start_address : Nat
  end_address : Nat
  dmi_ptr : Nat
  read_allowed : Bool
  write_allowed : Bool
  read_latency : Nat
  write_latency : Nat
  deriving DecidableEq, Repr

/-! ## master_socket -/

/-- A call `master_socket::send` makes on its surroundings. -/
inductive socket_call where
  | transport_dbg (tx : tlm_generic_payload)
  | b_transport (tx : tlm_generic_payload) (offset : Nat)
  | get_direct_mem_ptr (tx : tlm_generic_payload)
  | map_dmi (dmi : tlm_dmi)
  | sync
  deriving DecidableEq, Repr

/-- The errors `master_socket::send` throws. -/
inductive socket_report where
  | time_advanced_during_debug_call
  | non_debug_access_outside_thread
  | b_transport_time_went_backwards
  deriving DecidableEq, Repr

/-- What a `master_socket` is connected to.  `W` is the state of everything
outside the socket (the bound target, the kernel, the host component).
Times are `sc_time` values counted in the kernel's resolution. -/
structure master_socket (W : Type) where
  m_sbi : tlm_sbi
  allow_dmi : Bool
  is_thread : W → Bool
  thctl_is_sysc_thread : W → Bool
  sc_time_stamp : W → Nat
  needs_sync : W → Nat → Bool
  sync : W → Nat → W × Nat
  transport_dbg : W → tlm_generic_payload → W × tlm_generic_payload × Nat
  b_transport : W → tlm_generic_payload → Nat → W × tlm_generic_payload × Nat
  get_direct_mem_ptr : W → tlm_generic_payload → W × tlm_generic_payload × Option tlm_dmi
  map_dmi : List tlm_dmi → tlm_dmi → List tlm_dmi

/-- The mutable surroundings of a socket: the outside world, the host's
`local_time()` offset, the socket's DMI cache, and the calls made so far. -/
structure socket_state (W : Type) where
  world : W
  local_time : Nat
  m_dmi_cache : List tlm_dmi
  calls : List socket_call

/-- The statement `if (info.is_sync || m_host->needs_sync()) m_host->sync();`. -/
def master_socket.sync_if_needed {W : Type} (m : master_socket W) (info : tlm_sbi)
    (s : socket_state W) : socket_state W :=
  if info.is_sync || m.needs_sync s.world s.local_time then
    { s with world := (m.sync s.world s.local_time).1,
             local_time := (m.sync s.world s.local_time).2,
             calls := s.calls ++ [socket_call.sync] }
  else s

/-- The transport part of `master_socket::send` (the `if (info.is_debug)`
statement): the bytes moved, the payload and the surroundings afterwards. -/
def master_socket.send_transport {W : Type} (m : master_socket W) (s : socket_state W)
    (tx : tlm_generic_payload) (info : tlm_sbi) :
    Except socket_report (Nat × tlm_generic_payload × socket_state W) :=
  if info.is_debug then
    let t1 := m.sc_time_stamp s.world
    let r := m.transport_dbg s.world tx
    let t2 := m.sc_time_stamp r.1
    if m.thctl_is_sysc_thread r.1 && t1 != t2 then
      .error .time_advanced_during_debug_call
    else
      .ok (r.2.2 % U32, r.2.1,
        { s with world := r.1, calls := s.calls ++ [socket_call.transport_dbg tx] })
  else
    if !m.is_thread s.world then .error .non_debug_access_outside_thread
    else
      let s1 := m.sync_if_needed info s
      let locl := m.sc_time_stamp s1.world + s1.local_time
      let r := m.b_transport s1.world tx s1.local_time
      let now := m.sc_time_stamp r.1 + r.2.2
      if now < locl then .error .b_transport_time_went_backwards
      else
        let s2 : socket_state W :=
          { s1 with world := r.1, local_time := r.2.2,
                    calls := s1.calls ++ [socket_call.b_transport tx s1.local_time] }
        let s3 := m.sync_if_needed info s2
        .ok (if r.2.1.is_response_ok then r.2.1.data_length else 0, r.2.1, s3)

/-- The statement `if (m_host->allow_dmi && tx.is_dmi_allowed()) ...` that ends
`master_socket::send`. -/
def master_socket.send_dmi {W : Type} (m : master_socket W) (s : socket_state W)
    (tx : tlm_generic_payload) : tlm_generic_payload × socket_state W :=
  if m.allow_dmi && tx.dmi_allowed then
    let r := m.get_direct_mem_ptr s.world tx
    match r.2.2 with
    | some dmi =>
      (r.2.1, { s with world := r.1, m_dmi_cache := m.map_dmi s.m_dmi_cache dmi,
                       calls := s.calls ++ [socket_call.get_direct_mem_ptr tx, socket_call.map_dmi dmi] })
    | none =>
      (r.2.1, { s with world := r.1, calls := s.calls ++ [socket_call.get_direct_mem_ptr tx] })
  else (tx, s)

/-- `master_socket::send(tx, info)`: the bytes returned, the payload and the
surroundings afterwards, or the report thrown. -/
def master_socket.send {W : Type} (m : master_socket W) (s : socket_state W)
    (tx : tlm_generic_payload) (info : tlm_sbi) :
    Except socket_report (Nat × tlm_generic_payload × socket_state W) :=
  let size := tx.data_length
  let width := tx.streaming_width
  let beptr := tx.byte_enable_ptr
  let belen := tx.byte_enable_length
  if width = 0 ∨ width > size ∨ size % width ≠ 0 then
    .ok (0, { tx with response_status := .TLM_BURST_ERROR_RESPONSE }, s)
  else if beptr.isSome ∧ belen = 0 then
    .ok (0, { tx with response_status := .TLM_BYTE_ENABLE_ERROR_RESPONSE }, s)
  else
    let tx1 := tx_set_sbi
      { tx with response_status := .TLM_INCOMPLETE_RESPONSE, dmi_allowed := false }
      (m.m_sbi.or info)
    match m.send_transport s tx1 info with
    | .error e => .error e
    | .ok (bytes, tx2, s2) =>
      let bytes1 := if info.is_excl && !tx_is_excl tx2 then 0 else bytes
      let r := m.send_dmi s2 tx2
      .ok (bytes1, r.1, r.2)


/-- A banked `reg<HOST, u32, 2>` at address 0 without callbacks, with init
value `0xffffffff`, zeroed shared storage and no bank allocated. -/
def banked_reg : reg cpu_host 4 2 :=
  { address := 0, m_banked := true,
    m_init := fun _ => DATA.fill 4 0xff, m_value := fun _ => DATA.fill 4 0,
    m_default := DATA.fill 4 0xff, m_banks := fun _ => none,
    read := none, write := none, tag := 0, tagged_read := none, tagged_write := none }

/-- The register `test_reg_a` after `test_reg_a = 0`. -/
def zero_reg_a : reg cpu_host 4 1 := { test_reg_a with m_value := fun _ => DATA.fill 4 0 }

/-- A socket whose target answers every transport with `TLM_OK_RESPONSE` and
counts the transports it has seen; the outside world is that counter. -/
def counting_socket : master_socket Nat :=
  { m_sbi := SBI_NONE, allow_dmi := false,
    is_thread := fun _ => true, thctl_is_sysc_thread := fun _ => true,
    sc_time_stamp := fun _ => 0, needs_sync := fun _ _ => false,
    sync := fun w t => (w, t),
    transport_dbg := fun w tx =>
      (w + 1, { tx with response_status := .TLM_OK_RESPONSE }, tx.data_length),
    b_transport := fun w tx t =>
      (w + 1, { tx with response_status := .TLM_OK_RESPONSE }, t),
    get_direct_mem_ptr := fun w tx => (w, tx, none),
    map_dmi := fun c d => d :: c }

/-- A 4-byte read payload at address 0 with the given streaming width and
byte enables. -/
def read_payload (width : Nat) (be : Option (List UInt8)) (belen : Nat) : tlm_generic_payload :=
  { command := .TLM_READ_COMMAND, address := 0, data := [0, 0, 0, 0], data_length := 4,
    streaming_width := width, byte_enable_ptr := be, byte_enable_length := belen,
    response_status := .TLM_INCOMPLETE_RESPONSE, dmi_allowed := false, sbi := none }

/-- Surroundings in which nothing has happened yet. -/
def fresh_state : socket_state Nat :=
  { world := 0, local_time := 0, m_dmi_cache := [], calls := [] }

/-! ## reg::reset -/

/-- The loop `for (unsigned int i = 0; i < N; i++) cells[i] = m_init[i];` over
an array of `N` cells. -/
def reg.fill_from_init {HOST : Type} {sz N : Nat} (r : reg HOST sz N)
    (cells : Fin N → DATA sz) : Fin N → DATA sz :=
  (List.finRange N).foldl (fun c i => Function.update c i (r.m_init i)) cells

/-- `reg::reset`: the first loop assigns the init values to the storage of
`property<DATA, N>`, the second one to every bank in `m_banks`. -/
def reg.reset {HOST : Type} {sz N : Nat} (r : reg HOST sz N) : reg HOST sz N :=
  { r with m_value := r.fill_from_init r.m_value,
           m_banks := fun k => (r.m_banks k).map (fun a => r.fill_from_init a) }

/-! ## generic::memory -/

/-- The statement `memcpy(dst + pos, src, n)` on byte arrays: the first `n`
bytes of `src` replace the bytes `pos .. pos+n-1` of `dst`.  Leaving `dst` or
`src` is undefined behaviour (`none`). -/
def memcpy (dst : List UInt8) (pos : Nat) (src : List UInt8) (n : Nat) : Option (List UInt8) :=
  if pos + n ≤ dst.length ∧ n ≤ src.length then
    some (dst.take pos ++ (src.take n ++ dst.drop (pos + n)))
  else none

/-- The state of a `generic::memory` that `read`, `write` and `load` use: the
properties `size` and `readonly`, and the `size` bytes at `m_memory`. -/
structure memory where
  size : Nat
  readonly : Bool
  m_memory : List UInt8
  deriving DecidableEq, Repr

/-- The memory holds `size` bytes and `size` is a non-zero `u64`, as the
constructor leaves it. -/
def memory.wf (m : memory) : Prop := m.m_memory.length = m.size ∧ 0 < m.size ∧ m.size < U64

instance (m : memory) : Decidable m.wf := by
  unfold memory.wf; exact inferInstance

/-- `memory::read(addr, data, info)`: the status returned and the caller's
buffer `data` afterwards. -/
def memory.read (m : memory) (addr : range) (data : List UInt8) (_info : tlm_sbi) :
    Option (tlm_response_status × List UInt8) :=
  if addr.end_ ≥ m.size then some (.TLM_ADDRESS_ERROR_RESPONSE, data)
  else
    match memcpy data 0 (m.m_memory.drop addr.start) addr.length with
    | none => none
    | some d => some (.TLM_OK_RESPONSE, d)

/-- `memory::write(addr, data, info)`: the status returned and the memory
afterwards. -/
def memory.write (m : memory) (addr : range) (data : List UInt8) (info : tlm_sbi) :
    Option (tlm_response_status × memory) :=
  if addr.end_ ≥ m.size then some (.TLM_ADDRESS_ERROR_RESPONSE, m)
  else if m.readonly && !info.is_debug then some (.TLM_COMMAND_ERROR_RESPONSE, m)
  else
    match memcpy m.m_memory addr.start data addr.length with
    | none => none
    | some d => some (.TLM_OK_RESPONSE, { m with m_memory := d })

/-- `memory::load(binary, offset)`.  `file` is the content of the file named
`binary`, or `none` when the file cannot be opened; `file.tellg()` on the
stream opened at its end is the length of the content. -/
def memory.load (m : memory) (file : Option (List UInt8)) (offset : Nat) : Option memory :=
  match file with
  | none => some m
  | some content =>
    if offset ≥ m.size then some m
    else
      let nbytes := if content.length > u64_sub m.size offset then u64_sub m.size offset
                    else content.length
      match memcpy m.m_memory offset content nbytes with
      | none => none
      | some d => some { m with m_memory := d }

/-- The errors the constructor of `memory` raises. -/
inductive memory_report where
  | memory_size_cannot_be_0
  | requested_alignment_too_big
  | mmap_failed
  deriving DecidableEq, Repr

/-- The mask `extra = (1ull << align) - 1` of the constructor. -/
def memory.extra (align : Nat) : Nat := u64_sub ((1 <<< align) % U64) 1

/-- The pointer `(m_base + extra) & ~extra` of the constructor, computed in
the 64-bit `std::uintptr_t`. -/
def memory.aligned (base align : Nat) : Nat :=
  u64_add base (memory.extra align) &&& (U64 - 1 - memory.extra align)

/-- The placement done by the constructor `memory::memory(nm, sz, read_only,
alignment, rl, wl)`: the checks on `size` and `align`, the `mmap` of
`size + extra` bytes (`mmap` maps a requested length to the base address of
the mapping, or to `none` for `MAP_FAILED`), and the choice of `m_memory`.
The result is the pair `(m_base, m_memory)`. -/
def memory.place (sz align : Nat) (mmap : Nat → Option Nat) :
    Except memory_report (Nat × Nat) :=
  if sz = 0 then .error .memory_size_cannot_be_0
  else if align ≥ 64 then .error .requested_alignment_too_big
  else
    match mmap (u64_add sz (memory.extra align)) with
    | none => .error .mmap_failed
    | some base => .ok (base, memory.aligned base align)

/-- A read-only memory of 8 bytes `00 01 .. 07`. -/
def rom8 : memory := { size := 8, readonly := true, m_memory := [0, 1, 2, 3, 4, 5, 6, 7] }

/-- A writable memory of 8 bytes `00 01 .. 07`. -/
def ram8 : memory := { size := 8, readonly := false, m_memory := [0, 1, 2, 3, 4, 5, 6, 7] }

/-! ## images_from_string -/

/-- The C library's `isspace` in the "C" locale: space, `\t`, `\n`, `\v`,
`\f` and `\r`. -/
def isspace (c : Char) : Bool := c.toNat = 32 || (9 ≤ c.toNat && c.toNat ≤ 13)

/-- The value of a character as a digit of `strtoull`: `0-9`, then letters of
either case from 10 on. -/
def digit_of (c : Char) : Option Nat :=
  if 48 ≤ c.toNat ∧ c.toNat ≤ 57 then some (c.toNat - 48)
  else if 97 ≤ c.toNat ∧ c.toNat ≤ 122 then some (c.toNat - 97 + 10)
  else if 65 ≤ c.toNat ∧ c.toNat ≤ 90 then some (c.toNat - 65 + 10)
  else none

/-- The digit loop of `strtoull`: the value of the longest run of digits of
the base at the start of the text, continuing from `acc`. -/
def digits_value (base : Nat) : List Char → Nat → Nat
  | [], acc => acc
  | c :: cs, acc =>
    match digit_of c with
    | some d => if d < base then digits_value base cs (acc * base + d) else acc
    | none => acc

/-- The sign `strtoull` accepts in front of the number: whether it is a minus,
and the text after it. -/
def strtoull_sign : List Char → Bool × List Char
  | c :: r => if c = '-' then (true, r) else if c = '+' then (false, r) else (false, c :: r)
  | [] => (false, [])

/-- The base `strtoull` chooses for base argument 0 and the text the digits
start at: 16 after `0x` or `0X` followed by a hexadecimal digit, 8 for a
leading `0`, 10 otherwise. -/
def strtoull_base : List Char → Nat × List Char
  | c :: x :: d :: r =>
    if c = '0' ∧ (x = 'x' ∨ x = 'X') ∧ (digit_of d).any (fun v => decide (v < 16)) then
      (16, d :: r)
    else if c = '0' then (8, c :: x :: d :: r) else (10, c :: x :: d :: r)
  | s => if s.head? = some '0' then (8, s) else (10, s)

/-- The C library's `strtoull(str, NULL, 0)`: leading white space, an
optional sign, the base chosen from the prefix, the longest run of digits;
`ULLONG_MAX` when the value does not fit, the negation in `u64` after a minus
sign. -/
def strtoull (s : List Char) : Nat :=
  let t := strtoull_sign (s.dropWhile isspace)
  let b := strtoull_base t.2
  let v := digits_value b.1 b.2 0
  if v ≥ U64 then U64 - 1 else if t.1 then u64_sub 0 v else v

/-- Modelled from the spec: `split(str, delim)` is declared in a header that is
not part of the sources at hand.  It cuts the text at every occurrence of
`delim`, in order; the pieces are the texts between the delimiters (an entry
`<path>@<offset>` has the pieces `<path>` and `<offset>`). -/
def split : List Char → Char → List (List Char)
  | [], _ => [[]]
  | c :: cs, delim =>
    if c = delim then [] :: split cs delim
    else
      match split cs delim with
      | [] => [[c]]
      | p :: ps => (c :: p) :: ps

/-- The `struct image_info`. -/
structure image_info where
  file : List Char
  offset : Nat
  deriving DecidableEq, Repr

/-- `images_from_string(s)`, for a given `split`. -/
def images_from_string (split : List Char → Char → List (List Char)) (s : List Char) :
    List image_info :=
  let s1 := s.filter (fun c => !isspace c)
  (split s1 ';').filterMap (fun cur =>
    if cur.isEmpty then none
    else
      match split cur '@' with
      | [] => none
      | file :: rest =>
        some { file := file,
               offset := match rest with
                 | [] => 0
                 | o :: _ => strtoull o })

/-- The reading the image-list format names for an offset: hexadecimal after
`0x`, decimal otherwise. -/
def decimal_or_hex : List Char → Nat
  | c :: x :: r =>
    if c = '0' ∧ (x = 'x' ∨ x = 'X') then digits_value 16 r 0
    else digits_value 10 (c :: x :: r) 0
  | s => digits_value 10 s 0

/-- The entry of one token `<file>[@<offset>]` of the image list: the text
before the first `@`, and the text after it (up to a further `@`) as
`strtoull` reads it with base 0, or 0 without `@`. -/
def image_of_token (cur : List Char) : image_info :=
  { file := cur.takeWhile (fun c => c != '@'),
    offset := match cur.dropWhile (fun c => c != '@') with
      | [] => 0
      | _ :: r => strtoull (r.takeWhile (fun c => c != '@')) }

/-- The value of a numeral whose characters are all digits of the base, most
significant digit first. -/
def numeral (base : Nat) (ds : List Char) : Nat :=
  ds.foldl (fun acc c => acc * base + (digit_of c).getD 0) 0

/-- Whether every character is a digit of the base. -/
def all_digits (base : Nat) (ds : List Char) : Bool :=
  ds.all (fun c => (digit_of c).any (fun v => decide (v < base)))

/-! ## master_socket::access -/

/-- Modelled from the spec: `tx_setup` is declared in a header that is not part
of the sources at hand.  It prepares a payload for a transaction of `size`
bytes at `addr`: command, address, data pointer and length are set, the
streaming width is the length, byte enables are off, the response is
`TLM_INCOMPLETE_RESPONSE` and DMI is not allowed; extensions are kept. -/
def tx_setup (tx : tlm_generic_payload) (cmd : tlm_command) (addr : Nat) (data : List UInt8)
    (size : Nat) : tlm_generic_payload :=
  { tx with command := cmd, address := addr, data := data, data_length := size,
            streaming_width := size, byte_enable_ptr := none, byte_enable_length := 0,
            response_status := .TLM_INCOMPLETE_RESPONSE, dmi_allowed := false }

/-- Modelled from the spec: the access a DMI descriptor must grant for a
command (`dmi_cache.h` is not part of the sources at hand): a READ needs read
access, a WRITE needs write access. -/
def dmi_dominates (dmi : tlm_dmi) (cmd : tlm_command) : Bool :=
  match cmd with
  | .TLM_READ_COMMAND => dmi.read_allowed
  | .TLM_WRITE_COMMAND => dmi.write_allowed
  | .TLM_IGNORE_COMMAND => true

/-- Modelled from the spec: `dmi_cache::lookup(addr, size, cmd, dmi)` is "the
first descriptor whose range contains `[addr, addr+size-1]` and whose access
dominates the requested access". -/
def dmi_cache_lookup (cache : List tlm_dmi) (addr size : Nat) (cmd : tlm_command) :
    Option tlm_dmi :=
  cache.find? (fun d =>
    decide (d.start_address ≤ addr ∧ addr + size - 1 ≤ d.end_address) && dmi_dominates d cmd)

/-- Modelled from the spec: `dmi_get_ptr(dmi, addr)`, the host address of
`addr`, is `host_ptr + (addr - start)`. -/
def dmi_get_ptr (dmi : tlm_dmi) (addr : Nat) : Nat := dmi.dmi_ptr + (addr - dmi.start_address)

/-- The host memory DMI pointers point into; it is part of the outside
world `W`. -/
structure host_memory (W : Type) where
  peek : W → Nat → UInt8
  poke : W → Nat → UInt8 → W

/-- The `n` bytes at host address `ptr`. -/
def host_memory.read_bytes {W : Type} (hm : host_memory W) (w : W) (ptr n : Nat) : List UInt8 :=
  (List.range n).map (fun i => hm.peek w (ptr + i))

/-- The world after the bytes were stored from host address `ptr` on. -/
def host_memory.write_bytes {W : Type} (hm : host_memory W) (w : W) (ptr : Nat) :
    List UInt8 → W
  | [] => w
  | b :: bs => hm.write_bytes (hm.poke w ptr b) (ptr + 1) bs

/-- The call `m_host->sync()`. -/
def master_socket.host_sync {W : Type} (m : master_socket W) (s : socket_state W) :
    socket_state W :=
  { s with world := (m.sync s.world s.local_time).1,
           local_time := (m.sync s.world s.local_time).2,
           calls := s.calls ++ [socket_call.sync] }

/-- The two `memcpy` branches of `master_socket::access_dmi`: the caller's
buffer and the surroundings afterwards, and the latency of the descriptor for
the command.  The caller's buffer holds at least `size` bytes. -/
def master_socket.dmi_copy {W : Type} (hm : host_memory W) (s : socket_state W)
    (dmi : tlm_dmi) (cmd : tlm_command) (addr : Nat) (data : List UInt8) (size : Nat) :
    List UInt8 × socket_state W × Nat :=
  match cmd with
  | .TLM_READ_COMMAND =>
    (hm.read_bytes s.world (dmi_get_ptr dmi addr) size ++ data.drop size, s, dmi.read_latency)
  | .TLM_WRITE_COMMAND =>
    (data, { s with world := hm.write_bytes s.world (dmi_get_ptr dmi addr) (data.take size) },
      dmi.write_latency)
  | .TLM_IGNORE_COMMAND => (data, s, 0)

/-- `master_socket::access_dmi(cmd, addr, data, size, info)`: the status
returned, the caller's buffer and the surroundings afterwards. -/
def master_socket.access_dmi {W : Type} (m : master_socket W) (hm : host_memory W)
    (s : socket_state W) (cmd : tlm_command) (addr : Nat) (data : List UInt8) (size : Nat)
    (info : tlm_sbi) : tlm_response_status × List UInt8 × socket_state W :=
  if info.is_nodmi || info.is_excl then (.TLM_INCOMPLETE_RESPONSE, data, s)
  else
    let elevate := if info.is_debug then tlm_command.TLM_READ_COMMAND else cmd
    match dmi_cache_lookup s.m_dmi_cache addr size elevate with
    | none => (.TLM_INCOMPLETE_RESPONSE, data, s)
    | some dmi =>
      let s1 := if info.is_sync && !info.is_debug then m.host_sync s else s
      let c := master_socket.dmi_copy hm s1 dmi cmd addr data size
      let s2 :=
        if !info.is_debug then
          let s3 : socket_state W := { c.2.1 with local_time := c.2.1.local_time + c.2.2 }
          if info.is_sync then m.host_sync s3 else s3
        else c.2.1
      (.TLM_OK_RESPONSE, c.1, s2)

/-- What `master_socket::access` hands back: the status returned, the value
stored to `*bytes`, the caller's buffer, the payload that was sent (`none`
when the access was served by DMI) and the surroundings. -/
structure access_result (W : Type) where
  rs : tlm_response_status
  bytes : Nat
  data : List UInt8
  tx : Option tlm_generic_payload
  state : socket_state W

/-- The block `if (rs == TLM_INCOMPLETE_RESPONSE) { ... }` of
`master_socket::access`: the payload `tx` (which is `m_txd` for a debug access
and `m_tx` otherwise) is set up, sent, and its response read back.
`setup` is `tx_setup`. -/
def master_socket.access_payload {W : Type} (m : master_socket W)
    (setup : tlm_generic_payload → tlm_command → Nat → List UInt8 → Nat → tlm_generic_payload)
    (s : socket_state W) (tx : tlm_generic_payload) (cmd : tlm_command) (addr : Nat)
    (data : List UInt8) (size : Nat) (info : tlm_sbi) :
    Except socket_report (access_result W) :=
  match m.send s (setup tx cmd addr data size) info with
  | .error e => .error e
  | .ok (n, tx1, s1) =>
    .ok { rs := if tx1.response_status = .TLM_INCOMPLETE_RESPONSE ∧ info.is_debug = true
                then .TLM_OK_RESPONSE else tx1.response_status,
          bytes := n, data := tx1.data, tx := some tx1, state := s1 }

/-- `master_socket::access(cmd, addr, data, size, info, bytes)` on a socket with
the payloads `m_tx` and `m_txd`. -/
def master_socket.access {W : Type} (m : master_socket W) (hm : host_memory W)
    (setup : tlm_generic_payload → tlm_command → Nat → List UInt8 → Nat → tlm_generic_payload)
    (s : socket_state W) (m_tx m_txd : tlm_generic_payload) (cmd : tlm_command) (addr : Nat)
    (data : List UInt8) (size : Nat) (info : tlm_sbi) :
    Except socket_report (access_result W) :=
  if !info.is_debug && !m.is_thread s.world then .error .non_debug_access_outside_thread
  else
    let r :=
      if cmd != .TLM_IGNORE_COMMAND && m.allow_dmi then m.access_dmi hm s cmd addr data size info
      else (.TLM_INCOMPLETE_RESPONSE, data, s)
    if r.1 = .TLM_INCOMPLETE_RESPONSE then
      m.access_payload setup r.2.2 (if info.is_debug then m_txd else m_tx) cmd addr r.2.1 size
        info
    else
      .ok { rs := r.1, bytes := size, data := r.2.1, tx := none, state := r.2.2 }

/-- A host memory kept as a list of (address, byte) stores over a zeroed
memory; the world is that list. -/
def store_log : host_memory (List (Nat × UInt8)) :=
  { peek := fun w a => ((w.find? (fun e => e.1 = a)).map (fun e => e.2)).getD 0,
    poke := fun w a b => (a, b) :: w }

/-- A socket over the store-log world with DMI allowed, whose target leaves
the response of a debug transport untouched and, on `b_transport`, answers
`TLM_OK_RESPONSE`, drops the sideband extension and adds 10 to the time
offset. -/
def quiet_socket : master_socket (List (Nat × UInt8)) :=
  { m_sbi := SBI_NONE, allow_dmi := true,
    is_thread := fun _ => true, thctl_is_sysc_thread := fun _ => true,
    sc_time_stamp := fun _ => 0, needs_sync := fun _ _ => false,
    sync := fun w _ => (w, 0),
    transport_dbg := fun w tx => (w, tx, tx.data_length),
    b_transport := fun w tx t =>
      (w, { tx with response_status := .TLM_OK_RESPONSE, sbi := none }, t + 10),
    get_direct_mem_ptr := fun w tx => (w, tx, none),
    map_dmi := fun c d => d :: c }

/-- A read-write DMI descriptor for the addresses 0..0xfff at host address
`0x1000`, with read latency 5 and write latency 7. -/
def page_dmi : tlm_dmi :=
  { start_address := 0, end_address := 0xfff, dmi_ptr := 0x1000,
    read_allowed := true, write_allowed := true, read_latency := 5, write_latency := 7 }

/-- Surroundings of `quiet_socket` with `page_dmi` cached and a local time
offset of 3. -/
def cached_state : socket_state (List (Nat × UInt8)) :=
  { world := [], local_time := 3, m_dmi_cache := [page_dmi], calls := [] }

/-- Surroundings of `quiet_socket` with an empty DMI cache and a local time
offset of 3. -/
def uncached_state : socket_state (List (Nat × UInt8)) :=
  { world := [], local_time := 3, m_dmi_cache := [], calls := [] }

/-- The constant `SBI_NODMI`. -/
def SBI_NODMI : tlm_sbi := ⟨2⟩

/-- The constant `SBI_SYNC`. -/
def SBI_SYNC : tlm_sbi := ⟨4⟩

/-! ## master_socket::access_dmi on a cache hit -/

/-- A socket like `quiet_socket` whose `sync` notes the time offset it is
called with in the world (as a store at address 0 of the log) and resets the
offset to 0. -/
def syncing_socket : master_socket (List (Nat × UInt8)) :=
  { quiet_socket with sync := fun w t => ((0, UInt8.ofNat t) :: w, 0) }

/-! ## tlm_sbi: comparison, fields and constants -/

/-- The comparison `a == b` of two sidebands. -/
def tlm_sbi.eq (a b : tlm_sbi) : Bool := a.code == b.code

/-- The comparison `a != b` of two sidebands. -/
def tlm_sbi.ne (a b : tlm_sbi) : Bool := a.code != b.code

/-- The bits a signed bit-field of `width` bits keeps of the value stored to
it: the value modulo `2^width`. -/
def bitfield_store (width : Nat) (v : Int) : Nat := (v % (2 : Int) ^ width).toNat

/-- The value read from a signed bit-field of `width` bits (`int f:width`)
that holds the low `width` bits of `bits`: the two's complement reading. -/
def bitfield_load (width : Nat) (bits : Nat) : Int :=
  if bits % 2 ^ width < 2 ^ (width - 1) then ((bits % 2 ^ width : Nat) : Int)
  else ((bits % 2 ^ width : Nat) : Int) - (2 : Int) ^ width

/-- The member `int cpuid:20`, which follows the six flags (bits 6..25 of the
code). -/
def tlm_sbi.cpuid (a : tlm_sbi) : Int := bitfield_load 20 (a.code / 2 ^ 6)

/-- The member `int level:20`, which follows `cpuid`.  The six bits left in
the 32-bit unit of `cpuid` (26..31) cannot hold it, so it starts the next
unit (g++ on x86-64): bits 32..51 of the code. -/
def tlm_sbi.level (a : tlm_sbi) : Int := bitfield_load 20 (a.code / 2 ^ 32)

/-- The bits of a 64-bit word that no member of `tlm_sbi` names: 26..31 and
52..63. -/
def tlm_sbi.padding (word : Nat) : Nat :=
  2 ^ 26 * (word / 2 ^ 26 % 2 ^ 6) + 2 ^ 52 * (word / 2 ^ 52 % 2 ^ 12)

/-- The constructor `tlm_sbi(debug, nodmi, sync, insn, excl, lock, cpu, lvl)`
run on an object whose storage holds `word`: every bit-field is initialised
with its argument; the bits that no member names keep what the storage
held. -/
def tlm_sbi.construct (word : Nat) (debug nodmi sync insn excl lock : Bool) (cpu lvl : Int) :
    tlm_sbi :=
  ⟨debug.toNat + 2 * nodmi.toNat + 4 * sync.toNat + 8 * insn.toNat + 16 * excl.toNat
    + 32 * lock.toNat + 2 ^ 6 * bitfield_store 20 cpu + 2 ^ 32 * bitfield_store 20 lvl
    + tlm_sbi.padding word⟩

/-- The constructor on zero-initialised storage, as it runs for the constants
`SBI_NONE` .. `SBI_LOCK` (objects of static storage duration). -/
def tlm_sbi.of_fields (debug nodmi sync insn excl lock : Bool) (cpu lvl : Int) : tlm_sbi :=
  tlm_sbi.construct 0 debug nodmi sync insn excl lock cpu lvl

/-- The constant `SBI_INSN`. -/
def SBI_INSN : tlm_sbi := ⟨8⟩

/-- The constant `SBI_LOCK`. -/
def SBI_LOCK : tlm_sbi := ⟨32⟩

/-- `SBI_CPUID(cpu)`; `word` is what the storage of the object returned held
before the constructor ran. -/
def SBI_CPUID (cpu : Int) (word : Nat) : tlm_sbi :=
  tlm_sbi.construct word false false false false false false cpu 0

/-- `SBI_LEVEL(lvl)`; `word` is what the storage of the object returned held
before the constructor ran. -/
def SBI_LEVEL (lvl : Int) (word : Nat) : tlm_sbi :=
  tlm_sbi.construct word false false false false false false 0 lvl

/-! ## gdbserver: packet handlers -/

/-- `char2int(c)`: the value of a hexadecimal digit, 0 for the NUL character
and -1 for every other character. -/
def char2int (c : Char) : Int :=
  if 97 ≤ c.toNat ∧ c.toNat ≤ 102 then (c.toNat : Int) - 97 + 10
  else if 65 ≤ c.toNat ∧ c.toNat ≤ 70 then (c.toNat : Int) - 65 + 10
  else if 48 ≤ c.toNat ∧ c.toNat ≤ 57 then (c.toNat : Int) - 48
  else if c.toNat = 0 then 0 else -1

/-- The 32-bit two's complement word of an `int`. -/
def int_bits (x : Int) : Nat := (x % (2 : Int) ^ 32).toNat

/-- The conversion of an `int` to `u64`. -/
def int_to_u64 (x : Int) : Nat := (x % (2 : Int) ^ 64).toNat

/-- The conversion of a `char` to `u8`. -/
def char_to_u8 (c : Char) : UInt8 := UInt8.ofNat c.toNat

/-- `str2int(s, n)`: the loop runs from `s[n-1]` down to `s[0]`, shifting the
value left by four bits and or-ing the digit in.  `s` is the text the pointer
points at, terminator included; reading past it is undefined (`none`). -/
def str2int (s : List Char) (n : Nat) : Option Nat :=
  if n ≤ s.length then
    some ((s.take n).reverse.foldl (fun val c => ((val * 16) % U64) ||| int_to_u64 (char2int c)) 0)
  else none

/-- `char_unescape(s)`: the byte decoded and the pointer afterwards.  `s` is
the text the pointer points at, terminator included; reading past it is
undefined (`none`). -/
def char_unescape : List Char → Option (UInt8 × List Char)
  | [] => none
  | c :: r =>
    if char_to_u8 c = 125 then
      match r with
      | [] => none
      | d :: r2 => some (UInt8.ofNat ((d.toNat % 256) ^^^ 0x20), r2)
    else some (char_to_u8 c, r)

/-- The characters of a C string as a pointer walks them: the text and the
terminating NUL. -/
def cstr (s : List Char) : List Char := s ++ [Char.ofNat 0]

/-- The C library's `strlen`: the number of characters before the first NUL. -/
def strlen (s : List Char) : Nat := (s.takeWhile (fun c => c != Char.ofNat 0)).length

/-- The C library's `strchr(s, c)` for a character `c` other than NUL: the
text from the first `c` on, `none` (a null pointer) when no `c` comes before
the end of the string. -/
def strchr : List Char → Char → Option (List Char)
  | [], _ => none
  | x :: r, c =>
    if x = c then some (x :: r) else if x = Char.ofNat 0 then none else strchr r c

/-- Whether a character is a hexadecimal digit. -/
def isxdigit (c : Char) : Bool := (digit_of c).any (fun v => decide (v < 16))

/-- The conversions `%x` and `%llx` of `sscanf`, as the C library reads an
unsigned hexadecimal number: white space is skipped; an optional sign, an
optional `0x` or `0X` in front of a hexadecimal digit and the longest run of
hexadecimal digits are read; without a digit the conversion fails.  The result
is the value as an `unsigned long long` (`ULLONG_MAX` when it does not fit,
negated in `u64` after a minus sign) and the text that follows. -/
def scan_hex (s : List Char) : Option (Nat × List Char) :=
  let t := strtoull_sign (s.dropWhile isspace)
  let u := match t.2 with
    | c :: x :: d :: r =>
      if c = '0' ∧ (x = 'x' ∨ x = 'X') ∧ isxdigit d = true then d :: r else c :: x :: d :: r
    | v => v
  if (u.takeWhile isxdigit).isEmpty then none
  else
    let v := digits_value 16 u 0
    some (if v ≥ U64 then U64 - 1 else if t.1 then u64_sub 0 v else v, u.dropWhile isxdigit)

/-- The calls `sscanf(command, "p%x", &reg)` and `sscanf(command, "P%x=", &reg)`
with first character `c`: the register index when the call returns 1.  The
value is stored to an `unsigned int`. -/
def sscanf_reg (c : Char) (command : List Char) : Option Nat :=
  match command with
  | [] => none
  | x :: r => if x = c then (scan_hex r).map (fun p => p.1 % U32) else none

/-- The calls `sscanf(command, "m%llx,%llx", &addr, &size)` and its likes for
`M` and `X`, with first character `c`: address and size when the call
returns 2. -/
def sscanf_mem (c : Char) (command : List Char) : Option (Nat × Nat) :=
  match command with
  | [] => none
  | x :: r =>
    if x = c then
      match scan_hex r with
      | none => none
      | some (addr, r1) =>
        match r1 with
        | [] => none
        | y :: r2 => if y = ',' then (scan_hex r2).map (fun p => (addr, p.1)) else none
    else none

/-- A hexadecimal digit as the stream prints it with `std::hex`. -/
def hex_digit (d : Nat) : Char := Char.ofNat (if d < 10 then 48 + d else 87 + d)

/-- The text of `ss << std::setw(2) << (int)b` on a stream with `std::hex` and
fill character `0`: two lowercase hexadecimal digits, high nibble first. -/
def hex_byte (b : UInt8) : List Char := [hex_digit (b.toNat / 16), hex_digit (b.toNat % 16)]

/-- The byte `char2int(a) << 4 | char2int(b)` stored to a `u8`. -/
def byte_of_hex (a b : Char) : UInt8 :=
  UInt8.ofNat (((int_bits (char2int a) * 16) % U32) ||| int_bits (char2int b))

/-- The constants of `gdbserver.h` the handlers use; the header is not part
of the sources at hand, so they are parameters. -/
structure gdb_constants where
  ERR_COMMAND : List Char
  ERR_PARAM : List Char
  ERR_INTERNAL : List Char
  ERR_UNKNOWN : List Char
  BUFFER_SIZE : Nat

/-- The stub `m_stub` the server drives, over the state `S` of the target.
The number and the widths of the registers are fixed.  A read hands back the
success flag and the bytes of the buffer after the call (byte `i` of it); a
write is handed the bytes.  A report the stub raises in a memory access is
caught by `access_pmem`, which then returns false: it is part of the flag. -/
structure gdbstub (S : Type) where
  async_num_registers : Nat
  async_register_width : Nat → Nat
  async_read_reg : S → Nat → Nat → S × Bool × (Nat → UInt8)
  async_write_reg : S → Nat → List UInt8 → S × Bool
  async_page_size : S → Option Nat
  async_virt_to_phys : S → Nat → Option Nat
  async_read_mem : S → Nat → Nat → S × Bool × (Nat → UInt8)
  async_write_mem : S → Nat → List UInt8 → S × Bool

/-- One call of `access_pmem`: the direction, the physical address, the size,
the bytes (handed to the stub by a write, in the buffer after a read) and the
value returned. -/
structure pmem_access where
  iswr : Bool
  addr : Nat
  size : Nat
  bytes : List UInt8
  ok : Bool
  deriving DecidableEq, Repr

/-- A call of the stub that a handler makes. -/
inductive stub_call where
  | mem (a : pmem_access)
  | read_reg (idx size : Nat) (ok : Bool) (bytes : List UInt8)
  | write_reg (idx : Nat) (bytes : List UInt8) (ok : Bool)
  deriving DecidableEq, Repr

/-- `gdbserver::access_pmem(iswr, addr, buffer + pos, size)`: the state of the
target and the buffer afterwards, and the record of the call.  An access that
leaves the buffer is undefined (`none`). -/
def gdbserver.access_pmem {S : Type} (stub : gdbstub S) (iswr : Bool) (s : S) (addr : Nat)
    (buffer : List UInt8) (pos size : Nat) : Option (S × List UInt8 × pmem_access) :=
  if iswr then
    if pos + size ≤ buffer.length then
      some ((stub.async_write_mem s addr ((buffer.drop pos).take size)).1, buffer,
        { iswr := true, addr := addr, size := size, bytes := (buffer.drop pos).take size,
          ok := (stub.async_write_mem s addr ((buffer.drop pos).take size)).2 })
    else none
  else
    (memcpy buffer pos ((List.range size).map (stub.async_read_mem s addr size).2.2) size).map
      (fun b => ((stub.async_read_mem s addr size).1, b,
        { iswr := false, addr := addr, size := size,
          bytes := (List.range size).map (stub.async_read_mem s addr size).2.2,
          ok := (stub.async_read_mem s addr size).2.1 }))

/-- One iteration of the loop of `access_vmem`: the state of the target it
starts in, the virtual address and length of the chunk, the physical address
if the stub translates the virtual one, and the physical access made. -/
structure vmem_chunk (S : Type) where
  before : S
  addr : Nat
  todo : Nat
  pa : Option Nat
  access : Option pmem_access

/-- The body of the loop of `access_vmem` for a chunk of `todo` bytes at the
virtual address `addr`, with the buffer pointer at `buffer + pos`: a physical
access when the stub translates `addr`, `memset(buffer, 0xee, todo)`
otherwise.  The result is the state of the target, the buffer and the record
of the iteration; `memset` outside the buffer is undefined (`none`). -/
def gdbserver.access_vmem_step {S : Type} (stub : gdbstub S) (iswr : Bool) (s : S) (addr : Nat)
    (buffer : List UInt8) (pos todo : Nat) : Option (S × List UInt8 × vmem_chunk S) :=
  match stub.async_virt_to_phys s addr with
  | some pa =>
    (gdbserver.access_pmem stub iswr s pa buffer pos todo).map
      (fun r => (r.1, r.2.1,
        { before := s, addr := addr, todo := todo, pa := some pa, access := some r.2.2 }))
  | none =>
    (memcpy buffer pos (List.replicate todo 0xee) todo).map
      (fun b => (s, b, { before := s, addr := addr, todo := todo, pa := none, access := none }))

/-- The loop `while (addr < end) { ... }` of `access_vmem` with the buffer
pointer at `buffer + pos`: the state of the target, the buffer and the
iterations made.  A page size of 0 divides by zero (`none`); running out of
fuel is `none` as well. -/
def gdbserver.access_vmem_loop {S : Type} (stub : gdbstub S) (iswr : Bool)
    (page_size end_ : Nat) :
    Nat → S → Nat → List UInt8 → Nat → Option (S × List UInt8 × List (vmem_chunk S))
  | 0, s, addr, buffer, _ => if addr < end_ then none else some (s, buffer, [])
  | fuel + 1, s, addr, buffer, pos =>
    if addr < end_ then
      if page_size = 0 then none
      else
        match gdbserver.access_vmem_step stub iswr s addr buffer pos
            (min (u64_sub end_ addr) (u64_sub page_size (addr % page_size))) with
        | none => none
        | some r =>
          (gdbserver.access_vmem_loop stub iswr page_size end_ fuel r.1
              (u64_add addr (min (u64_sub end_ addr) (u64_sub page_size (addr % page_size))))
              r.2.1 (pos + min (u64_sub end_ addr) (u64_sub page_size (addr % page_size)))).map
            (fun t => (t.1, t.2.1, r.2.2 :: t.2.2))
    else some (s, buffer, [])

/-- What `access_vmem` leaves: the value returned, the state of the target,
the buffer, the iterations of its loop and the physical accesses made, in
order. -/
structure vmem_result (S : Type) where
  ok : Bool
  stub : S
  buffer : List UInt8
  chunks : List (vmem_chunk S)
  log : List pmem_access

/-- `gdbserver::access_vmem(iswr, addr, buffer, size)`.  Every iteration of the
loop advances `addr` by at least one, so `size` iterations are enough. -/
def gdbserver.access_vmem {S : Type} (stub : gdbstub S) (iswr : Bool) (s : S) (addr : Nat)
    (buffer : List UInt8) (size : Nat) : Option (vmem_result S) :=
  match stub.async_page_size s with
  | none =>
    (gdbserver.access_pmem stub iswr s addr buffer 0 size).map
      (fun r => { ok := r.2.2.ok, stub := r.1, buffer := r.2.1, chunks := [], log := [r.2.2] })
  | some page_size =>
    (gdbserver.access_vmem_loop stub iswr page_size (u64_add addr size) size s addr buffer 0).map
      (fun t => { ok := true, stub := t.1, buffer := t.2.1, chunks := t.2.2,
                  log := t.2.2.filterMap (fun c => c.access) })

/-- What a handler leaves: the reply, the state of the target and the calls
of the stub it made, in order. -/
structure gdb_result (S : Type) where
  reply : List Char
  stub : S
  log : List stub_call

/-- The text the register handlers print for a buffer of `regsz` bytes: two
hexadecimal digits per byte when the read succeeded, `xx` per byte
otherwise. -/
def reg_text (ok : Bool) (buffer : Nat → UInt8) (regsz : Nat) : List Char :=
  (List.range regsz).flatMap (fun byte => if ok then hex_byte (buffer byte) else ['x', 'x'])

/-- `gdbserver::handle_reg_read(command)`.  The byte counter of the printing
loop is an `unsigned int`: for a width of `2^32` or more it never reaches the
width and the loop does not end (`none`). -/
def gdbserver.handle_reg_read {S : Type} (k : gdb_constants) (stub : gdbstub S) (s : S)
    (command : List Char) : Option (gdb_result S) :=
  match sscanf_reg 'p' command with
  | none => some { reply := k.ERR_COMMAND, stub := s, log := [] }
  | some reg =>
    if stub.async_register_width reg = 0 then
      some { reply := ['x', 'x', 'x', 'x', 'x', 'x', 'x', 'x'], stub := s, log := [] }
    else if stub.async_register_width reg ≥ U32 then none
    else
      some
        { reply := reg_text (stub.async_read_reg s reg (stub.async_register_width reg)).2.1
            (stub.async_read_reg s reg (stub.async_register_width reg)).2.2
            (stub.async_register_width reg),
          stub := (stub.async_read_reg s reg (stub.async_register_width reg)).1,
          log := [stub_call.read_reg reg (stub.async_register_width reg)
            (stub.async_read_reg s reg (stub.async_register_width reg)).2.1
            ((List.range (stub.async_register_width reg)).map
              (stub.async_read_reg s reg (stub.async_register_width reg)).2.2)] }

/-- The loop `for (byte = 0; byte < n; byte++, str += 2) buffer[byte] = ...`
of the register writes: the `n` bytes decoded and the pointer afterwards.
`str` is the text the pointer points at, terminator included; reading past it
is undefined (`none`). -/
def hex_decode : Nat → List Char → Option (List UInt8 × List Char)
  | 0, str => some ([], str)
  | n + 1, a :: b :: r => (hex_decode n r).map (fun t => (byte_of_hex a b :: t.1, t.2))
  | _ + 1, _ => none

/-- `gdbserver::handle_reg_write(command)`.  The byte counter of the decoding
loop is an `unsigned int`: for a width of `2^32` or more the loop does not end
within the text (`none`). -/
def gdbserver.handle_reg_write {S : Type} (k : gdb_constants) (stub : gdbstub S) (s : S)
    (command : List Char) : Option (gdb_result S) :=
  match sscanf_reg 'P' command with
  | none => some { reply := k.ERR_COMMAND, stub := s, log := [] }
  | some reg =>
    if stub.async_register_width reg = 0 then some { reply := ['O', 'K'], stub := s, log := [] }
    else
      match strchr command '=' with
      | none => some { reply := k.ERR_COMMAND, stub := s, log := [] }
      | some str =>
        if strlen str.tail ≠ (stub.async_register_width reg * 2) % U64 then
          some { reply := k.ERR_COMMAND, stub := s, log := [] }
        else if stub.async_register_width reg ≥ U32 then none
        else
          match hex_decode (stub.async_register_width reg) (cstr str.tail) with
          | none => none
          | some d =>
            some { reply := if (stub.async_write_reg s reg d.1).2 then ['O', 'K']
                            else k.ERR_INTERNAL,
                   stub := (stub.async_write_reg s reg d.1).1,
                   log := [stub_call.write_reg reg d.1 (stub.async_write_reg s reg d.1).2] }

/-- The loop over the registers of `handle_reg_read_all`: the state of the
target, the text printed and the reads made. -/
def gdbserver.reg_read_loop {S : Type} (stub : gdbstub S) :
    List Nat → S → S × List Char × List stub_call
  | [], s => (s, [], [])
  | reg :: rest, s =>
    if stub.async_register_width reg = 0 then gdbserver.reg_read_loop stub rest s
    else
      ((gdbserver.reg_read_loop stub rest
          (stub.async_read_reg s reg (stub.async_register_width reg)).1).1,
        reg_text (stub.async_read_reg s reg (stub.async_register_width reg)).2.1
            (stub.async_read_reg s reg (stub.async_register_width reg)).2.2
            (stub.async_register_width reg)
          ++ (gdbserver.reg_read_loop stub rest
            (stub.async_read_reg s reg (stub.async_register_width reg)).1).2.1,
        stub_call.read_reg reg (stub.async_register_width reg)
            (stub.async_read_reg s reg (stub.async_register_width reg)).2.1
            ((List.range (stub.async_register_width reg)).map
              (stub.async_read_reg s reg (stub.async_register_width reg)).2.2)
          :: (gdbserver.reg_read_loop stub rest
            (stub.async_read_reg s reg (stub.async_register_width reg)).1).2.2)

/-- `gdbserver::handle_reg_read_all(command)`. -/
def gdbserver.handle_reg_read_all {S : Type} (stub : gdbstub S) (s : S) : gdb_result S :=
  { reply := (gdbserver.reg_read_loop stub (List.range stub.async_num_registers) s).2.1,
    stub := (gdbserver.reg_read_loop stub (List.range stub.async_num_registers) s).1,
    log := (gdbserver.reg_read_loop stub (List.range stub.async_num_registers) s).2.2 }

/-- The loop `bufsz += m_stub->async_register_width(reg) * 2` of
`handle_reg_write_all`, in `u64`. -/
def gdbserver.bufsz {S : Type} (stub : gdbstub S) : Nat :=
  (List.range stub.async_num_registers).foldl
    (fun acc reg => u64_add acc ((stub.async_register_width reg * 2) % U64)) 0

/-- The loop over the registers of `handle_reg_write_all` with the pointer
`str`: the state of the target and the writes made. -/
def gdbserver.reg_write_loop {S : Type} (stub : gdbstub S) :
    List Nat → S → List Char → Option (S × List stub_call)
  | [], s, _ => some (s, [])
  | reg :: rest, s, str =>
    if stub.async_register_width reg = 0 then gdbserver.reg_write_loop stub rest s str
    else
      match hex_decode (stub.async_register_width reg) str with
      | none => none
      | some d =>
        (gdbserver.reg_write_loop stub rest (stub.async_write_reg s reg d.1).1 d.2).map
          (fun t => (t.1, stub_call.write_reg reg d.1 (stub.async_write_reg s reg d.1).2 :: t.2))

/-- `gdbserver::handle_reg_write_all(command)`; `command + 1` on an empty
command is past the terminator (`none`). -/
def gdbserver.handle_reg_write_all {S : Type} (k : gdb_constants) (stub : gdbstub S) (s : S)
    (command : List Char) : Option (gdb_result S) :=
  match command with
  | [] => none
  | _ :: str =>
    if strlen str ≠ gdbserver.bufsz stub then
      some { reply := k.ERR_COMMAND, stub := s, log := [] }
    else
      (gdbserver.reg_write_loop stub (List.range stub.async_num_registers) s (cstr str)).map
        (fun t => { reply := ['O', 'K'], stub := t.1, log := t.2 })

/-- The reply of a memory handler after `access_vmem`. -/
def gdbserver.mem_reply {S : Type} (k : gdb_constants) (r : vmem_result S)
    (reply : List Char) : gdb_result S :=
  { reply := if r.ok then reply else k.ERR_UNKNOWN, stub := r.stub,
    log := r.log.map stub_call.mem }

/-- `gdbserver::handle_mem_read(command)`; `buffer` is what the local array
`u8 buffer[BUFFER_SIZE]`, which is not initialised, holds on entry. -/
def gdbserver.handle_mem_read {S : Type} (k : gdb_constants) (stub : gdbstub S) (s : S)
    (buffer : List UInt8) (command : List Char) : Option (gdb_result S) :=
  match sscanf_mem 'm' command with
  | none => some { reply := k.ERR_COMMAND, stub := s, log := [] }
  | some (addr, size) =>
    if size > k.BUFFER_SIZE then some { reply := k.ERR_PARAM, stub := s, log := [] }
    else
      (gdbserver.access_vmem stub false s addr buffer size).map
        (fun r => gdbserver.mem_reply k r
          ((List.range size).flatMap (fun i => hex_byte (r.buffer.getD i 0))))

/-- The loop `for (i = 0; i < size; i++) buffer[i] = str2int(data++, 2)` of
`handle_mem_write`: the `size` bytes stored.  `data` is the text the pointer
points at, terminator included. -/
def gdbserver.mem_write_decode : Nat → List Char → Option (List UInt8)
  | 0, _ => some []
  | n + 1, data =>
    match str2int data 2 with
    | none => none
    | some v => (gdbserver.mem_write_decode n data.tail).map (fun t => UInt8.ofNat v :: t)

/-- `gdbserver::handle_mem_write(command)`; `buffer` is what the local array
holds on entry. -/
def gdbserver.handle_mem_write {S : Type} (k : gdb_constants) (stub : gdbstub S) (s : S)
    (buffer : List UInt8) (command : List Char) : Option (gdb_result S) :=
  match sscanf_mem 'M' command with
  | none => some { reply := k.ERR_COMMAND, stub := s, log := [] }
  | some (addr, size) =>
    if size > k.BUFFER_SIZE then some { reply := k.ERR_PARAM, stub := s, log := [] }
    else
      match strchr command ':' with
      | none => some { reply := k.ERR_COMMAND, stub := s, log := [] }
      | some data =>
        match gdbserver.mem_write_decode size (cstr data.tail) with
        | none => none
        | some bytes =>
          (gdbserver.access_vmem stub true s addr (bytes ++ buffer.drop size) size).map
            (fun r => gdbserver.mem_reply k r ['O', 'K'])

/-- The loop `for (i = 0; i < size; i++) buffer[i] = char_unescape(data)` of
`handle_mem_write_bin`: the `size` bytes stored. -/
def gdbserver.unescape_loop : Nat → List Char → Option (List UInt8)
  | 0, _ => some []
  | n + 1, data =>
    match char_unescape data with
    | none => none
    | some d => (gdbserver.unescape_loop n d.2).map (fun t => d.1 :: t)

/-- `gdbserver::handle_mem_write_bin(command)`; `buffer` is what the local
array holds on entry. -/
def gdbserver.handle_mem_write_bin {S : Type} (k : gdb_constants) (stub : gdbstub S) (s : S)
    (buffer : List UInt8) (command : List Char) : Option (gdb_result S) :=
  match sscanf_mem 'X' command with
  | none => some { reply := k.ERR_COMMAND, stub := s, log := [] }
  | some (addr, size) =>
    if size > k.BUFFER_SIZE then some { reply := k.ERR_PARAM, stub := s, log := [] }
    else if size = 0 then some { reply := ['O', 'K'], stub := s, log := [] }
    else
      match strchr command ':' with
      | none => some { reply := k.ERR_COMMAND, stub := s, log := [] }
      | some data =>
        match gdbserver.unescape_loop size (cstr data.tail) with
        | none => none
        | some bytes =>
          (gdbserver.access_vmem stub true s addr (bytes ++ buffer.drop size) size).map
            (fun r => gdbserver.mem_reply k r ['O', 'K'])

/-- The rule of the binary-write escape, applied to a whole text from left to
right: a byte other than `0x7d` stands for itself; `0x7d` followed by a byte
`c` stands for `c XOR 0x20`; a lone `0x7d` at the end stands for nothing. -/
def unescape_rule : List Char → List UInt8
  | [] => []
  | [c] => if char_to_u8 c = 125 then [] else [char_to_u8 c]
  | c :: d :: r =>
    if char_to_u8 c = 125 then UInt8.ofNat ((d.toNat % 256) ^^^ 0x20) :: unescape_rule r
    else char_to_u8 c :: unescape_rule (d :: r)

/-- The hexadecimal text of a byte sequence: two lowercase digits per byte,
high nibble first, bytes in order. -/
def hex_text (bytes : List UInt8) : List Char := bytes.flatMap hex_byte

/-- Error replies `E01` .. `E04` and a buffer of 16 bytes. -/
def test_constants : gdb_constants :=
  { ERR_COMMAND := ['E', '0', '1'], ERR_PARAM := ['E', '0', '2'],
    ERR_INTERNAL := ['E', '0', '3'], ERR_UNKNOWN := ['E', '0', '4'], BUFFER_SIZE := 16 }

/-- The state of a test target: the memory as a list of (address, byte)
stores over zeroes, and the contents of its registers. -/
structure test_target where
  mem : List (Nat × UInt8)
  regs : List (List UInt8)
  deriving DecidableEq, Repr

/-- The byte of the test target at an address. -/
def test_target.peek (t : test_target) (a : Nat) : UInt8 :=
  ((t.mem.find? (fun e => e.1 = a)).map (fun e => e.2)).getD 0

/-- A stub without address translation over the test target, with three
registers of the widths 4, 0 and 2; every access succeeds. -/
def flat_stub : gdbstub test_target :=
  { async_num_registers := 3,
    async_register_width := fun reg => [4, 0, 2].getD reg 0,
    async_read_reg := fun t reg _ => (t, decide (reg < 3), fun i => (t.regs.getD reg []).getD i 0),
    async_write_reg := fun t reg bytes => ({ t with regs := t.regs.set reg bytes }, decide (reg < 3)),
    async_page_size := fun _ => none,
    async_virt_to_phys := fun _ a => some a,
    async_read_mem := fun t a _ => (t, true, fun i => t.peek (a + i)),
    async_write_mem := fun t a bytes =>
      ({ t with mem := (bytes.enum.map (fun e => (a + e.1, e.2))).reverse ++ t.mem }, true) }

/-- The stub `flat_stub` with pages of 16 bytes, of which the first two are
mapped to the physical addresses from `0x100` on. -/
def paged_stub : gdbstub test_target :=
  { flat_stub with
    async_page_size := fun _ => some 16,
    async_virt_to_phys := fun _ a => if a < 32 then some (a + 0x100) else none }

/-- The stub `flat_stub` with a memory read that always fails. -/
def deaf_stub : gdbstub test_target :=
  { flat_stub with async_read_mem := fun t _ _ => (t, false, fun _ => 0) }

/-- A test target with the bytes `0xab`, `0xcd` at the addresses `0x10f`,
`0x110` and the register contents `01 02 03 04`, none, `a0 0b`. -/
def test_state : test_target :=
  { mem := [(0x10f, 0xab), (0x110, 0xcd)], regs := [[1, 2, 3, 4], [], [0xa0, 0x0b]] }

/-- Whether `txt` is a hexadecimal numeral of the value `v`: a non-empty text
of hexadecimal digits, most significant first, with a value `v` below
`2^64`. -/
def is_hex_of (txt : List Char) (v : Nat) : Bool :=
  !txt.isEmpty && all_digits 16 txt && decide (numeral 16 txt = v) && decide (v < U64)

/-- The register and the bytes of a register access, `none` for a memory
access. -/
def stub_call.reg_bytes : stub_call → Option (Nat × List UInt8)
  | .mem _ => none
  | .read_reg idx _ _ bytes => some (idx, bytes)
  | .write_reg idx bytes _ => some (idx, bytes)

/-- Whether the call is a register read that succeeded. -/
def stub_call.is_good_read : stub_call → Bool
  | .read_reg _ _ ok _ => ok
  | _ => false

/-- Whether the call is a register write. -/
def stub_call.is_write_reg : stub_call → Bool
  | .write_reg _ _ _ => true
  | _ => false

/-- What the description says of one chunk of `access_vmem` that starts `off`
bytes into the buffer, for the buffer `buf` handed in and the buffer `buf'`
left: `pa` is the stub's translation of the chunk's start address; a chunk
that does not translate makes no physical access and its bytes of the buffer
are left as `0xee`; a chunk that translates makes one physical access of the
chunk's length at the translated address, a write with the chunk's slice of
the buffer, a read into it. -/
def vmem_chunk.served {S : Type} (stub : gdbstub S) (iswr : Bool) (buf buf' : List UInt8)
    (off : Nat) (c : vmem_chunk S) : Prop :=
  c.pa = stub.async_virt_to_phys c.before c.addr ∧
  (c.pa = none → c.access = none ∧ ∀ i, i < c.todo → buf'[off + i]? = some 0xee) ∧
  (∀ p, c.pa = some p →
    ∃ a, c.access = some a ∧ a.iswr = iswr ∧ a.addr = p ∧ a.size = c.todo ∧
      (iswr = true →
        a.bytes = (buf.drop off).take c.todo ∧
        a.ok = (stub.async_write_mem c.before p a.bytes).2) ∧
      (iswr = false →
        a.bytes = (List.range c.todo).map (stub.async_read_mem c.before p c.todo).2.2 ∧
        a.ok = (stub.async_read_mem c.before p c.todo).2.1 ∧
        ∀ i, i < c.todo → buf'[off + i]? = a.bytes[i]?))

/-- The sixteen lowercase hexadecimal digits. -/
def lower_hex : List Char := "0123456789abcdef".toList

/-! ## gdbserver: breakpoints and watchpoints -/

/-- The calls `sscanf(command, "Z%llx,%llx,%llx", &type, &addr, &length)` and
its like for `z`, with first character `c`: type, address and length when the
call returns 3. -/
def sscanf_bp (c : Char) (command : List Char) : Option (Nat × Nat × Nat) :=
  match command with
  | [] => none
  | x :: r =>
    if x = c then
      match scan_hex r with
      | none => none
      | some (type, r1) =>
        match r1 with
        | [] => none
        | y :: r2 =>
          if y = ',' then
            match scan_hex r2 with
            | none => none
            | some (addr, r3) =>
              match r3 with
              | [] => none
              | z :: r4 =>
                if z = ',' then (scan_hex r4).map (fun p => (type, addr, p.1)) else none
          else none
    else none

/-- Modelled from the spec: the breakpoint types of `gdbserver.h`, which is
not part of the sources at hand, are the numbers of the remote protocol:
"breakpoint(0/1) or watchpoint(2 write, 3 read, 4 access)". -/
def GDB_BREAKPOINT_SW : Nat := 0

/-- The type of a hardware breakpoint; see `GDB_BREAKPOINT_SW`. -/
def GDB_BREAKPOINT_HW : Nat := 1

/-- The type of a write watchpoint; see `GDB_BREAKPOINT_SW`. -/
def GDB_WATCHPOINT_WRITE : Nat := 2

/-- The type of a read watchpoint; see `GDB_BREAKPOINT_SW`. -/
def GDB_WATCHPOINT_READ : Nat := 3

/-- The type of an access watchpoint; see `GDB_BREAKPOINT_SW`. -/
def GDB_WATCHPOINT_ACCESS : Nat := 4

/-- The access masks handed to the watchpoint functions. -/
inductive vcml_access where
  | VCML_ACCESS_READ
  | VCML_ACCESS_WRITE
  | VCML_ACCESS_READ_WRITE
  deriving DecidableEq, Repr

/-- The breakpoint and watchpoint functions of the stub `m_stub`, over the
state `S` of the target: each returns the state afterwards and its result. -/
structure gdb_breakpoints (S : Type) where
  async_insert_breakpoint : S → Nat → S × Bool
  async_remove_breakpoint : S → Nat → S × Bool
  async_insert_watchpoint : S → range → vcml_access → S × Bool
  async_remove_watchpoint : S → range → vcml_access → S × Bool

/-- A call of a breakpoint or watchpoint function of the stub. -/
inductive bp_call where
  | insert_breakpoint (addr : Nat)
  | remove_breakpoint (addr : Nat)
  | insert_watchpoint (mem : range) (acs : vcml_access)
  | remove_watchpoint (mem : range) (acs : vcml_access)
  deriving DecidableEq, Repr

/-- What a breakpoint handler leaves: the reply, the state of the target and
the calls of the stub it made. -/
structure bp_result (S : Type) where
  reply : List Char
  stub : S
  log : List bp_call

/-- The end of a `case` of the breakpoint handlers after the call `c` of the
stub gave `r`: `ERR_INTERNAL` when it returned false, `OK` otherwise. -/
def gdbserver.breakpoint_reply {S : Type} (k : gdb_constants) (r : S × Bool) (c : bp_call) :
    bp_result S :=
  { reply := if r.2 then ['O', 'K'] else k.ERR_INTERNAL, stub := r.1, log := [c] }

/-- The range `mem(addr, addr + length - 1)` both breakpoint handlers
construct, the end computed in `u64`. -/
def gdbserver.breakpoint_range (addr length : Nat) : range :=
  ⟨addr, u64_sub (u64_add addr length) 1⟩

/-- `gdbserver::handle_breakpoint_set(command)`. -/
def gdbserver.handle_breakpoint_set {S : Type} (k : gdb_constants) (bp : gdb_breakpoints S)
    (s : S) (command : List Char) : bp_result S :=
  match sscanf_bp 'Z' command with
  | none => { reply := k.ERR_COMMAND, stub := s, log := [] }
  | some (type, addr, length) =>
    if type = GDB_BREAKPOINT_SW ∨ type = GDB_BREAKPOINT_HW then
      gdbserver.breakpoint_reply k (bp.async_insert_breakpoint s addr)
        (.insert_breakpoint addr)
    else if type = GDB_WATCHPOINT_WRITE then
      gdbserver.breakpoint_reply k
        (bp.async_insert_watchpoint s (gdbserver.breakpoint_range addr length)
          .VCML_ACCESS_WRITE)
        (.insert_watchpoint (gdbserver.breakpoint_range addr length) .VCML_ACCESS_WRITE)
    else if type = GDB_WATCHPOINT_READ then
      gdbserver.breakpoint_reply k
        (bp.async_insert_watchpoint s (gdbserver.breakpoint_range addr length)
          .VCML_ACCESS_READ)
        (.insert_watchpoint (gdbserver.breakpoint_range addr length) .VCML_ACCESS_READ)
    else if type = GDB_WATCHPOINT_ACCESS then
      gdbserver.breakpoint_reply k
        (bp.async_insert_watchpoint s (gdbserver.breakpoint_range addr length)
          .VCML_ACCESS_READ_WRITE)
        (.insert_watchpoint (gdbserver.breakpoint_range addr length) .VCML_ACCESS_READ_WRITE)
    else { reply := k.ERR_COMMAND, stub := s, log := [] }

/-- `gdbserver::handle_breakpoint_delete(command)`. -/
def gdbserver.handle_breakpoint_delete {S : Type} (k : gdb_constants) (bp : gdb_breakpoints S)
    (s : S) (command : List Char) : bp_result S :=
  match sscanf_bp 'z' command with
  | none => { reply := k.ERR_COMMAND, stub := s, log := [] }
  | some (type, addr, length) =>
    if type = GDB_BREAKPOINT_SW ∨ type = GDB_BREAKPOINT_HW then
      gdbserver.breakpoint_reply k (bp.async_remove_breakpoint s addr)
        (.remove_breakpoint addr)
    else if type = GDB_WATCHPOINT_WRITE then
      gdbserver.breakpoint_reply k
        (bp.async_remove_watchpoint s (gdbserver.breakpoint_range addr length)
          .VCML_ACCESS_WRITE)
        (.remove_watchpoint (gdbserver.breakpoint_range addr length) .VCML_ACCESS_WRITE)
    else if type = GDB_WATCHPOINT_READ then
      gdbserver.breakpoint_reply k
        (bp.async_remove_watchpoint s (gdbserver.breakpoint_range addr length)
          .VCML_ACCESS_READ)
        (.remove_watchpoint (gdbserver.breakpoint_range addr length) .VCML_ACCESS_READ)
    else if type = GDB_WATCHPOINT_ACCESS then
      gdbserver.breakpoint_reply k
        (bp.async_remove_watchpoint s (gdbserver.breakpoint_range addr length)
          .VCML_ACCESS_READ_WRITE)
        (.remove_watchpoint (gdbserver.breakpoint_range addr length) .VCML_ACCESS_READ_WRITE)
    else { reply := k.ERR_COMMAND, stub := s, log := [] }

/-- Modelled from the spec: the constructor `range(s, e)` of `vcml/range.h`,
which is not part of the sources at hand.  The spec gives every Range the
invariant `start ≤ end`: the constructor yields the range `[s, e]` for
`s ≤ e` and yields no range otherwise. -/
def range.construct (s e : Nat) : Option range := if s ≤ e then some ⟨s, e⟩ else none

/-- A stub whose state is the list of the breakpoints and watchpoints set, the
latest first: inserting succeeds, removing succeeds when the item is set. -/
def listing_stub : gdb_breakpoints (List bp_call) :=
  { async_insert_breakpoint := fun s a => (bp_call.insert_breakpoint a :: s, true),
    async_remove_breakpoint := fun s a =>
      (s.erase (bp_call.insert_breakpoint a), decide (bp_call.insert_breakpoint a ∈ s)),
    async_insert_watchpoint := fun s m acs => (bp_call.insert_watchpoint m acs :: s, true),
    async_remove_watchpoint := fun s m acs =>
      (s.erase (bp_call.insert_watchpoint m acs), decide (bp_call.insert_watchpoint m acs ∈ s)) }

/-! ## gdbserver: the status -/

/-- The `enum gdb_status`, with the values the switch of `gdbserver::simulate`
lists. -/
inductive gdb_status where
  | GDB_STOPPED
  | GDB_STEPPING
  | GDB_RUNNING
  | GDB_KILLED
  deriving DecidableEq, Repr

/-- The members of a `gdbserver` that the status handling reads and writes,
and `resumes`, the number of calls of `resume()` made so far. -/
structure gdbserver_state where
  m_status : gdb_status
  m_default : gdb_status
  m_sync : Bool
  m_signal : Int
  resumes : Nat
  deriving DecidableEq, Repr

/-- The member initialisers of the constructor `gdbserver(port, stub, status)`. -/
def gdbserver.construct (status : gdb_status) : gdbserver_state :=
  { m_status := status, m_default := status, m_sync := true, m_signal := -1, resumes := 0 }

/-- `gdbserver::update_status(status)`. -/
def gdbserver.update_status (g : gdbserver_state) (status : gdb_status) : gdbserver_state :=
  if g.m_status = status then g
  else { g with m_status := status, resumes := g.resumes + 1 }

/-- `gdbserver::handle_connect(peer)`. -/
def gdbserver.handle_connect (g : gdbserver_state) : gdbserver_state :=
  gdbserver.update_status g .GDB_STOPPED

/-- `gdbserver::handle_disconnect()`. -/
def gdbserver.handle_disconnect (g : gdbserver_state) : gdbserver_state :=
  gdbserver.update_status g g.m_default

/-- Modelled from the spec: the signal number `GDBSIG_TRAP` of `gdbserver.h`,
which is not part of the sources at hand, is the trap signal 5 of the remote
protocol. -/
def GDBSIG_TRAP : Int := 5

/-- What can happen to a `gdbserver` after its construction, as far as the
status members are concerned.

* `connect`, `disconnect`: the server calls `handle_connect`,
  `handle_disconnect`;
* `step`, `cont`: the statement `update_status(...)` at the start of
  `handle_step`, `handle_continue`;
* `loop_signal`: the branch `m_status = GDB_STOPPED; m_signal = GDBSIG_TRAP;`
  inside their loops;
* `detach`, `kill`: `handle_detach`, `handle_kill`; both call the server's
  `disconnect()`, which is modelled from the spec ("disconnect → default"): it
  runs `handle_disconnect` when a client is connected;
* `notify`: modelled from the spec, "any trap from the CPU (`notify(sig)`)
  transitions to STOPPED with that signal";
* `packet`: any other packet handler; none of them writes a status member. -/
inductive gdb_event where
  | connect
  | disconnect
  | step
  | cont
  | loop_signal
  | detach (connected : Bool)
  | kill (connected : Bool)
  | notify (sig : Int)
  | packet
  deriving DecidableEq, Repr

/-- The server after one event. -/
def gdbserver.apply (e : gdb_event) (g : gdbserver_state) : gdbserver_state :=
  match e with
  | .connect => gdbserver.handle_connect g
  | .disconnect => gdbserver.handle_disconnect g
  | .step => gdbserver.update_status g .GDB_STEPPING
  | .cont => gdbserver.update_status g .GDB_RUNNING
  | .loop_signal => { g with m_status := .GDB_STOPPED, m_signal := GDBSIG_TRAP }
  | .detach connected => if connected then gdbserver.handle_disconnect g else g
  | .kill connected =>
    gdbserver.update_status (if connected then gdbserver.handle_disconnect g else g) .GDB_KILLED
  | .notify sig => { g with m_status := .GDB_STOPPED, m_signal := sig }
  | .packet => g

/-- The server after a sequence of events. -/
def gdbserver.run (evs : List gdb_event) (g : gdbserver_state) : gdbserver_state :=
  evs.foldl (fun s e => gdbserver.apply e s) g

/-! ## backend_term -/

/-- A disposition of a signal: the default action, ignoring it, the function
`backend_term::handle_signal`, or some other handler of the program. -/
inductive sighandler where
  | SIG_DFL
  | SIG_IGN
  | handle_signal
  | other (id : Nat)
  deriving DecidableEq, Repr

/-- The two signals a `backend_term` deals with. -/
inductive signum where
  | SIGINT
  | SIGTSTP
  deriving DecidableEq, Repr

/-- The dispositions of `SIGINT` and `SIGTSTP` of the process. -/
structure signals where
  sigint : sighandler
  sigtstp : sighandler
  deriving DecidableEq, Repr

/-- The C library's `signal(sig, handler)`: the disposition before the call
and the dispositions after it. -/
def signal (t : signals) (sig : signum) (handler : sighandler) : sighandler × signals :=
  match sig with
  | .SIGINT => (t.sigint, { t with sigint := handler })
  | .SIGTSTP => (t.sigtstp, { t with sigtstp := handler })

/-- The surroundings of a `backend_term`: the signal dispositions of the
process, whether `backend_term::singleton` is set, whether standard input is a
terminal and `tcgetattr`, `tcsetattr` succeed, whether the simulation is
running and suspended, and what has happened so far: `sc_stop()` was called,
`force_resume()` was called, the process has exited, and the handlers that were
called on from the backend's own. -/
structure term_process where
  handlers : signals
  singleton : Bool
  isatty : Bool
  tcgetattr_ok : Bool
  tcsetattr_ok : Bool
  sc_is_running : Bool
  simulation_suspended : Bool
  sc_stop_called : Bool
  force_resumed : Bool
  exited : Bool
  chained : List sighandler
  deriving DecidableEq, Repr

/-- The members of a `backend_term`; `vintr` and `vsusp` are the characters
`m_termios.c_cc[VINTR]` and `m_termios.c_cc[VSUSP]`.  Times are in seconds. -/
structure backend_term where
  m_signal : Nat
  m_exit : Bool
  m_stopped : Bool
  vintr : Nat
  vsusp : Nat
  m_time : ℚ
  m_sigint : sighandler
  m_sigstp : sighandler
  deriving DecidableEq, Repr

/-- The reports the constructor of `backend_term` raises. -/
inductive term_report where
  | multiple_terminal_backends
  | not_a_terminal
  | failed_to_get_terminal_attributes
  | failed_to_set_terminal_attributes
  deriving DecidableEq, Repr

/-- The constructor `backend_term(nm)` at the time `now = realtime()`, on a
terminal with the interrupt and suspend characters `vintr`, `vsusp`. -/
def backend_term.construct (now : ℚ) (vintr vsusp : Nat) (p : term_process) :
    Except term_report (backend_term × term_process) :=
  if p.singleton then .error .multiple_terminal_backends
  else if !p.isatty then .error .not_a_terminal
  else if !p.tcgetattr_ok then .error .failed_to_get_terminal_attributes
  else if !p.tcsetattr_ok then .error .failed_to_set_terminal_attributes
  else
    .ok ({ m_signal := 0, m_exit := false, m_stopped := false, vintr := vintr, vsusp := vsusp,
           m_time := now,
           m_sigint := (signal p.handlers .SIGINT .handle_signal).1,
           m_sigstp :=
             (signal (signal p.handlers .SIGINT .handle_signal).2 .SIGTSTP .handle_signal).1 },
         { p with
           singleton := true,
           handlers :=
             (signal (signal p.handlers .SIGINT .handle_signal).2 .SIGTSTP .handle_signal).2 })

/-- `backend_term::cleanup()`: the two calls of `signal`, in order. -/
def backend_term.cleanup (b : backend_term) (p : term_process) : term_process :=
  { p with
    handlers := (signal (signal p.handlers .SIGINT b.m_sigint).2 .SIGINT b.m_sigstp).2 }

/-- The end of `backend_term::handle_sigint`, after the `if`: the time and the
interrupt character are stored and the handler that was installed before the
backend's is called, unless it is `SIG_DFL` or `SIG_IGN`. -/
def backend_term.sigint_tail (now : ℚ) (b : backend_term) (p : term_process) :
    backend_term × term_process :=
  ({ b with m_time := now, m_signal := b.vintr },
   if b.m_sigint ≠ .SIG_DFL ∧ b.m_sigint ≠ .SIG_IGN then
     { p with chained := p.chained ++ [b.m_sigint] }
   else p)

/-- `backend_term::handle_sigint(sig)` at the time `now = realtime()`.  After
`exit` nothing else happens. -/
def backend_term.handle_sigint (now : ℚ) (b : backend_term) (p : term_process) :
    backend_term × term_process :=
  if now - b.m_time < 1 then
    if b.m_stopped || b.m_exit || !p.sc_is_running then
      (b, { backend_term.cleanup b p with exited := true })
    else
      backend_term.sigint_tail now { b with m_stopped := true }
        { p with sc_stop_called := true,
                 force_resumed := p.force_resumed || p.simulation_suspended }
  else backend_term.sigint_tail now b p

/-- The `SIGINT`s handled at the given times, in order; none is handled after
the process has exited. -/
def backend_term.sigints : List ℚ → backend_term × term_process → backend_term × term_process
  | [], s => s
  | now :: rest, s =>
    if s.2.exited then s
    else backend_term.sigints rest (backend_term.handle_sigint now s.1 s.2)

/-- A process on a terminal with a running simulation, whose `SIGINT` and
`SIGTSTP` are handled by the handlers 1 and 2 of the program. -/
def test_process : term_process :=
  { handlers := { sigint := .other 1, sigtstp := .other 2 },
    singleton := false, isatty := true, tcgetattr_ok := true, tcsetattr_ok := true,
    sc_is_running := true, simulation_suspended := false, sc_stop_called := false,
    force_resumed := false, exited := false, chained := [] }

/-- The backend that `backend_term.construct` makes on `test_process` at the
time 0 with the characters 3 and 26. -/
def test_backend : backend_term :=
  { m_signal := 0, m_exit := false, m_stopped := false, vintr := 3, vsusp := 26, m_time := 0,
    m_sigint := .other 1, m_sigstp := .other 2 }

/-- The process that construction leaves. -/
def test_backend_process : term_process :=
  { test_process with
    singleton := true, handlers := { sigint := .handle_signal, sigtstp := .handle_signal } }

/-! ## broker_env -/

/-- The statement `std::replace(nm.begin(), nm.end(), SC_HIERARCHY_CHAR, '_')`
for the hierarchy separator `sep`. -/
def replace_hierarchy (sep : Char) (nm : List Char) : List Char :=
  nm.map (fun c => if c = sep then '_' else c)

/-- The text a C function reads at `s.c_str()`, and the `std::string` made
from a C string: the characters before the first NUL. -/
def c_text (s : List Char) : List Char := s.takeWhile (fun c => c != Char.ofNat 0)

/-- `broker_env::defines(name)`.  `sep` is SystemC's `SC_HIERARCHY_CHAR` and
`getenv` the environment of the process: the value of each variable that is
set. -/
def broker_env.defines (sep : Char) (getenv : List Char → Option (List Char))
    (name : List Char) : Bool :=
  (getenv (c_text (replace_hierarchy sep name))).isSome

/-- `broker_env::lookup(name, val)`: the value returned and `val` afterwards.
`string_max_size` is the library's `string().max_size()`. -/
def broker_env.lookup (sep : Char) (string_max_size : Nat)
    (getenv : List Char → Option (List Char)) (name val : List Char) : Bool × List Char :=
  match getenv (c_text (replace_hierarchy sep name)) with
  | none => (false, val)
  | some env =>
    if strlen env > u64_sub string_max_size 1 then (false, val) else (true, c_text env)

/-- An environment in which `system_cpu_clock` is `100` and nothing else is
set. -/
def test_env (nm : List Char) : Option (List Char) :=
  if nm = "system_cpu_clock".toList then some "100".toList else none

/-! ## vspserver -/

/-- The constant `property_base::ARRAY_DELIMITER`. -/
def ARRAY_DELIMITER : Char := ','

/-- What `find_attribute(name)` followed by `dynamic_cast<property_base*>`
yields: an attribute that is no property, or a property with its
`count()`. -/
inductive sc_attr_base where
  | plain
  | property (count : Nat)
  deriving DecidableEq, Repr

/-- The attributes of the simulation in the state `W`: `find_attribute(name)`
(`none` is the null pointer) and `prop->str(text)` on the property found
under `name`. -/
structure attribute_store (W : Type) where
  find_attribute : W → List Char → Option sc_attr_base
  str : W → List Char → List Char → W

/-- A number printed in decimal, as `%d` and `%zu` print a size. -/
def decimal (n : Nat) : List Char := (Nat.repr n).toList

/-- The text streamed by the loop of `handle_seta` and the statement after
it: `values[i]` and the delimiter for each `i` below `count - 1`, then
`values[count - 1]`. -/
def vspserver.seta_text (values : List (List Char)) (count : Nat) : List Char :=
  (List.range (u64_sub count 1)).flatMap (fun i => values.getD i [] ++ [ARRAY_DELIMITER])
    ++ values.getD (u64_sub count 1) []

/-- `vspserver::handle_seta(command)`, for a given `split`: the reply and the
state of the attributes afterwards.  The result is `none` where the counter
`unsigned int i` can never reach `count - 1`. -/
def vspserver.handle_seta {W : Type} (split : List Char → Char → List (List Char))
    (A : attribute_store W) (w : W) (command : List Char) : Option (List Char × W) :=
  let args := split command ','
  if args.length < 3 then
    some ("E,insufficient arguments ".toList ++ decimal args.length, w)
  else
    let name := args.getD 1 []
    let values := args.drop 2
    match A.find_attribute w name with
    | none => some ("E,attribute \x27".toList ++ c_text name ++ "\x27 not found".toList, w)
    | some sc_attr_base.plain =>
      some ("E,attribute \x27".toList ++ c_text name ++ "\x27 not writable".toList, w)
    | some (sc_attr_base.property count) =>
      if values.length ≠ count then
        some ("E,attribute \x27".toList ++ c_text name ++ "\x27 needs ".toList ++ decimal count
          ++ " initializers, ".toList ++ decimal values.length ++ " given".toList, w)
      else if U32 ≤ u64_sub count 1 then none
      else some ("OK".toList, A.str w name (vspserver.seta_text values count))

/-- The supplied values joined by the delimiter `d`, in the words of the
specification. -/
def joined (d : Char) : List (List Char) → List Char
  | [] => []
  | [v] => v
  | v :: w :: rest => v ++ d :: joined d (w :: rest)

/-- A state of the attributes for the tests: the texts assigned so far, the
latest first. -/
def test_attributes : attribute_store (List (List Char × List Char)) :=
  { find_attribute := fun _ name =>
      if name = "top.irq".toList then some (sc_attr_base.property 3)
      else if name = "top.name".toList then some sc_attr_base.plain
      else none
    str := fun w name text => (name, text) :: w }

/-! ## reg: the constructor -/

/-- Modelled from the spec: `property.h` is not part of the sources at hand.
The elements of a `property<DATA, N>(n, def, h)` after its construction: the
values a broker defines for the property, else `def` in each of them
(`TEST(property, init)` of `test/core/property.cpp`: `prop_array("prop_array", 7)`
holds `1 2 3 4` from the broker, and its `get_default()` is 7). -/
def property.construct {sz N : Nat} (def_ : DATA sz) (inited : Option (Fin N → DATA sz)) :
    Fin N → DATA sz :=
  inited.getD (fun _ => def_)

/-- The constructor `reg(n, addr, def, h)`: the base `property<DATA, N>(n, def, h)`,
no banks, no callbacks, and `m_init[i] = property<DATA, N>::get(i)`. -/
def reg.construct (HOST : Type) {sz N : Nat} (addr : Nat) (def_ : DATA sz)
    (inited : Option (Fin N → DATA sz)) : reg HOST sz N :=
  { address := addr, m_banked := false,
    m_init := property.construct def_ inited, m_value := property.construct def_ inited,
    m_default := def_, m_banks := fun _ => none,
    read := none, write := none, tag := 0, tagged_read := none, tagged_write := none }

/-- `reg::set_banked(set)`. -/
def reg.set_banked {HOST : Type} {sz N : Nat} (r : reg HOST sz N) (set : Bool) :
    reg HOST sz N :=
  { r with m_banked := set }

/-- A banked `reg<HOST, u32>` constructed with the default `0xffffffff`
while a broker defines its value as `0x12345678`. -/
def broker_reg : reg cpu_host 4 1 :=
  (reg.construct cpu_host 0 (DATA.fill 4 0xff)
    (some (fun _ => u32_of 0x78 0x56 0x34 0x12))).set_banked true

/-! ## master_socket::access: the debug path -/

/-- The payload `master_socket::send` hands to the transport once its checks
have passed: the response is reset to `TLM_INCOMPLETE_RESPONSE`, DMI is not
allowed and the sideband is `m_sbi | info`. -/
def master_socket.sent_payload {W : Type} (m : master_socket W) (tx : tlm_generic_payload)
    (info : tlm_sbi) : tlm_generic_payload :=
  tx_set_sbi { tx with response_status := .TLM_INCOMPLETE_RESPONSE, dmi_allowed := false }
    (m.m_sbi.or info)

/-- A socket like `quiet_socket` whose target refuses every debug transport:
it sets the response to `TLM_ADDRESS_ERROR_RESPONSE` and moves no byte. -/
def refusing_socket : master_socket (List (Nat × UInt8)) :=
  { quiet_socket with
    transport_dbg := fun w tx =>
      (w, { tx with response_status := .TLM_ADDRESS_ERROR_RESPONSE }, 0) }

/-! ## gdbserver: the order of the physical accesses -/

/-- The state of the target that an iteration of `access_vmem` leaves: the
state the stub's memory function returned for the physical access the
iteration made, and the state the iteration started in when it made none. -/
def vmem_chunk.after {S : Type} (stub : gdbstub S) (c : vmem_chunk S) : S :=
  match c.access with
  | none => c.before
  | some a =>
    if a.iswr then (stub.async_write_mem c.before a.addr a.bytes).1
    else (stub.async_read_mem c.before a.addr a.size).1

/-- The iterations `cs` are made one after the other on the target: the first
starts in the state `s`, each further one in the state the one before it
left, and `s1` is the state the last one leaves (`s` itself when there is
none). -/
def vmem_chain {S : Type} (stub : gdbstub S) : S → List (vmem_chunk S) → S → Prop
  | s, [], s1 => s1 = s
  | s, c :: cs, s1 => c.before = s ∧ vmem_chain stub (c.after stub) cs s1

/-! ## gdbserver: the register calls of g and G -/

/-- The register reads the description asks of `g`: one read of the stub for
each register of the list, of the register's width, made on the target one
after the other; the state of the target afterwards and the calls with what
they returned. -/
def gdbstub.read_regs {S : Type} (stub : gdbstub S) : List Nat → S → S × List stub_call
  | [], s => (s, [])
  | reg :: rest, s =>
    ((gdbstub.read_regs stub rest
        (stub.async_read_reg s reg (stub.async_register_width reg)).1).1,
      stub_call.read_reg reg (stub.async_register_width reg)
          (stub.async_read_reg s reg (stub.async_register_width reg)).2.1
          ((List.range (stub.async_register_width reg)).map
            (stub.async_read_reg s reg (stub.async_register_width reg)).2.2)
        :: (gdbstub.read_regs stub rest
          (stub.async_read_reg s reg (stub.async_register_width reg)).1).2)

/-- The register writes the description asks of `G`: one write of the stub
for each pair of a register and its bytes, made on the target one after the
other; the state of the target afterwards and the calls with what they
returned. -/
def gdbstub.write_regs {S : Type} (stub : gdbstub S) :
    List (Nat × List UInt8) → S → S × List stub_call
  | [], s => (s, [])
  | e :: rest, s =>
    ((gdbstub.write_regs stub rest (stub.async_write_reg s e.1 e.2).1).1,
      stub_call.write_reg e.1 e.2 (stub.async_write_reg s e.1 e.2).2
        :: (gdbstub.write_regs stub rest (stub.async_write_reg s e.1 e.2).1).2)

/-- A test target whose registers hold zeroes. -/
def blank_state : test_target :=
  { mem := [], regs := [[0, 0, 0, 0], [], [0, 0]] }

/-! ## Theorems -/

/-! ### master_socket::send: payload guardrails -/

/-- C1: a payload whose streaming width is 0, exceeds the data length, or does
not divide the data length makes `send` return 0 bytes with the response set
to `TLM_BURST_ERROR_RESPONSE`; nothing else of the payload and nothing of the
surroundings changes, so in particular no transport call is made. -/
theorem send_burst_error {W : Type} (m : master_socket W) (s : socket_state W)
    (tx : tlm_generic_payload) (info : tlm_sbi)
    (hw : tx.streaming_width = 0 ∨ tx.streaming_width > tx.data_length ∨
      tx.data_length % tx.streaming_width ≠ 0) :
    ∃ tx1 s1, m.send s tx info = .ok (0, tx1, s1) ∧
      tx1 = { tx with response_status := .TLM_BURST_ERROR_RESPONSE } ∧
      s1 = s ∧ s1.calls = s.calls := by
  refine ⟨_, s, ?_, rfl, rfl, rfl⟩
  unfold master_socket.send
  simp only [hw, if_true]

/-- Witness of `send_burst_error`: a 4-byte payload with streaming width 3 on
the counting socket. -/
theorem send_burst_error_witness :
    ∃ tx1 s1, counting_socket.send fresh_state (read_payload 3 none 0) SBI_NONE = .ok (0, tx1, s1) ∧
      tx1 = { read_payload 3 none 0 with response_status := .TLM_BURST_ERROR_RESPONSE } ∧
      s1 = fresh_state ∧ s1.calls = fresh_state.calls :=
  send_burst_error counting_socket fresh_state (read_payload 3 none 0) SBI_NONE
    (Or.inr (Or.inr (by decide)))

/-- C2: a payload with a valid streaming width, a non-null byte-enable pointer
and byte-enable length 0 makes `send` return 0 bytes with the response set to
`TLM_BYTE_ENABLE_ERROR_RESPONSE`; nothing else of the payload and nothing of
the surroundings changes, so in particular no transport call is made. -/
theorem send_byte_enable_error {W : Type} (m : master_socket W) (s : socket_state W)
    (tx : tlm_generic_payload) (info : tlm_sbi)
    (hw0 : tx.streaming_width ≠ 0) (hw1 : tx.streaming_width ≤ tx.data_length)
    (hw2 : tx.data_length % tx.streaming_width = 0)
    (hbe : tx.byte_enable_ptr.isSome = true) (hlen : tx.byte_enable_length = 0) :
    ∃ tx1 s1, m.send s tx info = .ok (0, tx1, s1) ∧
      tx1 = { tx with response_status := .TLM_BYTE_ENABLE_ERROR_RESPONSE } ∧
      s1 = s ∧ s1.calls = s.calls := by
  refine ⟨_, s, ?_, rfl, rfl, rfl⟩
  unfold master_socket.send
  have hn : ¬ (tx.streaming_width = 0 ∨ tx.streaming_width > tx.data_length ∨
      tx.data_length % tx.streaming_width ≠ 0) := by
    rintro (h | h | h)
    · exact hw0 h
    · exact absurd hw1 (Nat.not_le.mpr h)
    · exact h hw2
  simp only [hn, if_false, hbe, hlen, and_self, if_true]

/-- Witness of `send_byte_enable_error`: a 4-byte payload of width 4 with a
byte-enable array of length 0 on the counting socket. -/
theorem send_byte_enable_error_witness :
    ∃ tx1 s1, counting_socket.send fresh_state (read_payload 4 (some [0xff]) 0) SBI_NONE
        = .ok (0, tx1, s1) ∧
      tx1 = { read_payload 4 (some [0xff]) 0 with
        response_status := .TLM_BYTE_ENABLE_ERROR_RESPONSE } ∧
      s1 = fresh_state ∧ s1.calls = fresh_state.calls :=
  send_byte_enable_error counting_socket fresh_state (read_payload 4 (some [0xff]) 0) SBI_NONE
    (by decide) (by decide) (by decide) (by decide) (by decide)

/-! ### Bank selection -/

theorem bank_of_shared {HOST : Type} {sz N : Nat} (r : reg HOST sz N) (bk : Int) (idx : Nat)
    (h : idx < N) (hs : r.is_shared bk = true) :
    r.bank bk idx = .ok (r, .shared ⟨idx, h⟩) := by
  unfold reg.is_shared at hs
  unfold reg.bank
  rw [dif_pos h]
  have : bk = 0 ∨ (!r.m_banked) = true := by
    simpa [Bool.or_eq_true] using hs
  rw [if_pos this]

theorem bank_of_banked {HOST : Type} {sz N : Nat} (r : reg HOST sz N) (bk : Int) (idx : Nat)
    (h : idx < N) (hs : r.is_shared bk = false) :
    r.bank bk idx = .ok (r.touched bk, .banked bk ⟨idx, h⟩) := by
  have hs0 := hs
  unfold reg.is_shared at hs
  simp only [Bool.or_eq_false_iff, decide_eq_false_iff_not, Bool.not_eq_false'] at hs
  obtain ⟨hbk, hbanked⟩ := hs
  unfold reg.bank
  rw [dif_pos h]
  have hn : ¬ (bk = 0 ∨ (!r.m_banked) = true) := by simp [hbk, hbanked]
  rw [if_neg hn]
  unfold reg.touched reg.bank_cells
  rw [hs0]
  cases hb : r.m_banks bk with
  | none =>
    simp only [Option.isSome_none, Bool.not_false, if_true, reg.init_bank, hbanked,
      Bool.not_true, Bool.false_eq_true, if_false, hbk, hb, false_or, Option.getD_none]
  | some a =>
    simp only [Option.isSome_some, Bool.not_true, Bool.false_eq_true, if_false, Option.getD_some]
    congr 2
    cases r
    simp only [reg.mk.injEq, true_and, and_true] at *
    funext k
    by_cases hk : k = bk
    · simp [hk, hb]
    · simp [hk]

theorem bank_get_eq {HOST : Type} {sz N : Nat} (r : reg HOST sz N) (bk : Int) (idx : Nat)
    (h : idx < N) :
    r.bank_get bk idx = .ok (r.touched bk, r.seen bk ⟨idx, h⟩) := by
  unfold reg.bank_get
  cases hs : r.is_shared bk with
  | true => rw [bank_of_shared r bk idx h hs]; simp [reg.load, reg.touched, reg.seen, hs]
  | false =>
    rw [bank_of_banked r bk idx h hs]
    simp [reg.load, reg.touched, reg.seen, hs]

theorem bank_set_eq {HOST : Type} {sz N : Nat} (r : reg HOST sz N) (bk : Int) (idx : Nat)
    (h : idx < N) (v : DATA sz) :
    r.bank_set bk idx v = .ok (r.assigned bk ⟨idx, h⟩ v) := by
  unfold reg.bank_set
  cases hs : r.is_shared bk with
  | true => rw [bank_of_shared r bk idx h hs]; simp [reg.store, reg.assigned, hs]
  | false =>
    rw [bank_of_banked r bk idx h hs]
    simp only [reg.store, reg.touched, reg.assigned, hs, Bool.false_eq_true, if_false, if_true]
    congr 2
    funext k
    by_cases hk : k = bk
    · simp [hk]
    · simp [hk]

theorem is_shared_eq_false {HOST : Type} {sz N : Nat} (r : reg HOST sz N) (bk : Int)
    (hb : r.m_banked = true) (hbk : bk ≠ 0) : r.is_shared bk = false := by
  simp [reg.is_shared, hb, hbk]

theorem touched_of_existing {HOST : Type} {sz N : Nat} (r : reg HOST sz N) (bk : Int)
    (a : Fin N → DATA sz) (ha : r.m_banks bk = some a) : r.touched bk = r := by
  unfold reg.touched reg.bank_cells
  split
  · rfl
  · cases r
    simp only [reg.mk.injEq, true_and, and_true] at *
    funext k
    by_cases hk : k = bk
    · simp [hk, ha]
    · simp [hk]

/-- C9 (as stated, refuted): on a banked register the negative bank identifier
`-1` selects a private per-bank cell and creates that bank, although it is not
greater than 0. -/
theorem bank_negative_is_private :
    banked_reg.m_banked = true ∧ ¬ (0 < (-1 : Int)) ∧
    (banked_reg.m_banks (-1)).isSome = false ∧
    ∃ r1, banked_reg.bank (-1) 0 = .ok (r1, cell.banked (-1) ⟨0, by decide⟩) ∧
      (r1.m_banks (-1)).isSome = true := by
  refine ⟨rfl, by decide, rfl, _, bank_of_banked banked_reg (-1) 0 (by decide) rfl, rfl⟩

/-- C9 (amended): `bank(bk, idx)` selects a private per-bank cell if and only
if the register is banked and `bk` is not 0; in every other case (bank
identifier 0, or a register that is not banked) it selects the shared bank-0
storage and leaves the register, its set of banks included, unchanged. -/
theorem bank_private_iff {HOST : Type} {sz N : Nat} (r : reg HOST sz N) (bk : Int)
    (idx : Nat) (h : idx < N) :
    ((∃ r1, r.bank bk idx = .ok (r1, cell.banked bk ⟨idx, h⟩)) ↔
        (r.m_banked = true ∧ bk ≠ 0)) ∧
    (¬ (r.m_banked = true ∧ bk ≠ 0) → r.bank bk idx = .ok (r, cell.shared ⟨idx, h⟩)) := by
  cases hs : r.is_shared bk with
  | true =>
    have hn : ¬ (r.m_banked = true ∧ bk ≠ 0) := by
      rintro ⟨hb, hbk⟩
      rw [is_shared_eq_false r bk hb hbk] at hs
      exact Bool.noConfusion hs
    refine ⟨⟨?_, fun hc => absurd hc hn⟩, fun _ => bank_of_shared r bk idx h hs⟩
    rintro ⟨r1, h1⟩
    rw [bank_of_shared r bk idx h hs] at h1
    injection h1 with h1
    injection h1 with _ h2
    exact cell.noConfusion h2
  | false =>
    have hp : r.m_banked = true ∧ bk ≠ 0 := by
      unfold reg.is_shared at hs
      simp only [Bool.or_eq_false_iff, decide_eq_false_iff_not, Bool.not_eq_false'] at hs
      exact ⟨hs.2, hs.1⟩
    exact ⟨⟨fun _ => hp, fun _ => ⟨_, bank_of_banked r bk idx h hs⟩⟩, fun hn => absurd hp hn⟩

/-- Witness of `bank_private_iff`: cell 1 of the banked test register through
bank 3. -/
theorem bank_private_iff_witness :
    ((∃ r1, banked_reg.bank 3 1 = .ok (r1, cell.banked 3 ⟨1, by decide⟩)) ↔
        (banked_reg.m_banked = true ∧ (3 : Int) ≠ 0)) ∧
    (¬ (banked_reg.m_banked = true ∧ (3 : Int) ≠ 0) →
      banked_reg.bank 3 1 = .ok (banked_reg, cell.shared ⟨1, by decide⟩)) :=
  bank_private_iff banked_reg 3 1 (by decide)

/-- C10: on a banked register the first mutable access to a bank identifier
without storage creates that bank with every cell equal to the init value of
that cell, whatever the shared bank-0 storage holds, and touches nothing else;
an access to a bank that has storage returns that storage and leaves the
register as it is. -/
theorem bank_created_from_init {HOST : Type} {sz N : Nat} (r : reg HOST sz N) (bk : Int)
    (idx : Nat) (h : idx < N) (hb : r.m_banked = true) (hbk : bk ≠ 0)
    (hnone : r.m_banks bk = none) :
    (∃ r1, r.bank bk idx = .ok (r1, cell.banked bk ⟨idx, h⟩) ∧
      r1.m_banks bk = some r.m_init ∧
      (∀ k, k ≠ bk → r1.m_banks k = r.m_banks k) ∧
      r1.m_value = r.m_value ∧ r1.m_init = r.m_init ∧ r1.m_banked = true ∧
      (∀ j (hj : j < N), r1.bank bk j = .ok (r1, cell.banked bk ⟨j, hj⟩))) ∧
    (∀ shared : Fin N → DATA sz, ∃ r1,
      ({ r with m_value := shared }).bank bk idx = .ok (r1, cell.banked bk ⟨idx, h⟩) ∧
      r1.m_banks bk = some r.m_init) ∧
    (∀ (r2 : reg HOST sz N) (a : Fin N → DATA sz) (j : Nat) (hj : j < N),
      r2.m_banked = true → r2.m_banks bk = some a →
      r2.bank bk j = .ok (r2, cell.banked bk ⟨j, hj⟩)) := by
  have later : ∀ (r2 : reg HOST sz N) (a : Fin N → DATA sz) (j : Nat) (hj : j < N),
      r2.m_banked = true → r2.m_banks bk = some a →
      r2.bank bk j = .ok (r2, cell.banked bk ⟨j, hj⟩) := by
    intro r2 a j hj hb2 ha
    rw [bank_of_banked r2 bk j hj (is_shared_eq_false r2 bk hb2 hbk),
      touched_of_existing r2 bk a ha]
  have hs := is_shared_eq_false r bk hb hbk
  have ht : (r.touched bk).m_banks bk = some r.m_init := by
    simp [reg.touched, reg.bank_cells, hs, hnone]
  refine ⟨⟨r.touched bk, bank_of_banked r bk idx h hs, ht, ?_, ?_, ?_, ?_, ?_⟩, ?_, later⟩
  · intro k hk
    simp [reg.touched, hs, hk]
  · simp [reg.touched, hs]
  · simp [reg.touched, hs]
  · simp [reg.touched, hs, hb]
  · intro j hj
    exact later (r.touched bk) r.m_init j hj (by simp [reg.touched, hs, hb]) ht
  · intro shared
    have hs2 : ({ r with m_value := shared } : reg HOST sz N).is_shared bk = false :=
      is_shared_eq_false _ bk hb hbk
    refine ⟨_, bank_of_banked _ bk idx h hs2, ?_⟩
    simp [reg.touched, reg.bank_cells, hs2, hnone]

/-- Witness of `bank_created_from_init`: bank 1 of the banked test register,
whose init value `0xffffffff` differs from the zeroed shared storage. -/
theorem bank_created_from_init_witness :
    (∃ r1, banked_reg.bank 1 0 = .ok (r1, cell.banked 1 ⟨0, by decide⟩) ∧
      r1.m_banks 1 = some banked_reg.m_init ∧
      (∀ k, k ≠ 1 → r1.m_banks k = banked_reg.m_banks k) ∧
      r1.m_value = banked_reg.m_value ∧ r1.m_init = banked_reg.m_init ∧ r1.m_banked = true ∧
      (∀ j (hj : j < 2), r1.bank 1 j = .ok (r1, cell.banked 1 ⟨j, hj⟩))) ∧
    (∀ shared : Fin 2 → DATA 4, ∃ r1,
      ({ banked_reg with m_value := shared }).bank 1 0 = .ok (r1, cell.banked 1 ⟨0, by decide⟩) ∧
      r1.m_banks 1 = some banked_reg.m_init) ∧
    (∀ (r2 : reg cpu_host 4 2) (a : Fin 2 → DATA 4) (j : Nat) (hj : j < 2),
      r2.m_banked = true → r2.m_banks 1 = some a →
      r2.bank 1 j = .ok (r2, cell.banked 1 ⟨j, hj⟩)) :=
  bank_created_from_init banked_reg 1 0 (by decide) rfl (by decide) rfl

/-! ### Fields of the closed forms -/

theorem assigned_fixed {HOST : Type} {sz N : Nat} (r : reg HOST sz N) (bk : Int) (i : Fin N)
    (v : DATA sz) :
    (r.assigned bk i v).address = r.address ∧ (r.assigned bk i v).m_banked = r.m_banked ∧
    (r.assigned bk i v).m_init = r.m_init ∧ (r.assigned bk i v).m_default = r.m_default ∧
    (r.assigned bk i v).read = r.read ∧ (r.assigned bk i v).write = r.write ∧
    (r.assigned bk i v).tag = r.tag ∧ (r.assigned bk i v).tagged_read = r.tagged_read ∧
    (r.assigned bk i v).tagged_write = r.tagged_write := by
  unfold reg.assigned
  split <;> exact ⟨rfl, rfl, rfl, rfl, rfl, rfl, rfl, rfl, rfl⟩

theorem touched_fixed {HOST : Type} {sz N : Nat} (r : reg HOST sz N) (bk : Int) :
    (r.touched bk).address = r.address ∧ (r.touched bk).m_banked = r.m_banked ∧
    (r.touched bk).m_init = r.m_init ∧ (r.touched bk).m_default = r.m_default ∧
    (r.touched bk).read = r.read ∧ (r.touched bk).write = r.write ∧
    (r.touched bk).tag = r.tag ∧ (r.touched bk).tagged_read = r.tagged_read ∧
    (r.touched bk).tagged_write = r.tagged_write ∧ (r.touched bk).m_value = r.m_value := by
  unfold reg.touched
  split <;> exact ⟨rfl, rfl, rfl, rfl, rfl, rfl, rfl, rfl, rfl, rfl⟩

theorem assigned_shared_fields {HOST : Type} {sz N : Nat} (r : reg HOST sz N) (bk : Int)
    (i : Fin N) (v : DATA sz) (hs : r.is_shared bk = true) :
    (r.assigned bk i v).m_value = Function.update r.m_value i v ∧
    (r.assigned bk i v).m_banks = r.m_banks := by
  unfold reg.assigned
  rw [if_pos hs]
  exact ⟨rfl, rfl⟩

theorem assigned_banked_fields {HOST : Type} {sz N : Nat} (r : reg HOST sz N) (bk : Int)
    (i : Fin N) (v : DATA sz) (hs : r.is_shared bk = false) :
    (r.assigned bk i v).m_value = r.m_value ∧
    (r.assigned bk i v).m_banks bk = some (Function.update (r.bank_cells bk) i v) ∧
    (∀ k, k ≠ bk → (r.assigned bk i v).m_banks k = r.m_banks k) := by
  unfold reg.assigned
  rw [if_neg (by simp [hs])]
  refine ⟨rfl, ?_, ?_⟩
  · simp
  · intro k hk
    simp [hk]

theorem touched_shared {HOST : Type} {sz N : Nat} (r : reg HOST sz N) (bk : Int)
    (hs : r.is_shared bk = true) : r.touched bk = r := by
  unfold reg.touched
  rw [if_pos hs]

theorem touched_banked_fields {HOST : Type} {sz N : Nat} (r : reg HOST sz N) (bk : Int)
    (hs : r.is_shared bk = false) :
    (r.touched bk).m_banks bk = some (r.bank_cells bk) ∧
    (∀ k, k ≠ bk → (r.touched bk).m_banks k = r.m_banks k) := by
  unfold reg.touched
  rw [if_neg (by simp [hs])]
  refine ⟨?_, ?_⟩
  · simp
  · intro k hk
    simp [hk]

theorem is_shared_congr {HOST : Type} {sz N : Nat} (r r1 : reg HOST sz N) (bk : Int)
    (h : r1.m_banked = r.m_banked) : r1.is_shared bk = r.is_shared bk := by
  unfold reg.is_shared
  rw [h]

theorem bank_const_of_shared {HOST : Type} {sz N : Nat} (r : reg HOST sz N) (bk : Int)
    (idx : Nat) (h : idx < N) (hs : r.is_shared bk = true) :
    r.bank_const bk idx = .ok (r.m_value ⟨idx, h⟩) := by
  have h1 : bk = 0 ∨ (!r.m_banked) = true := by
    simpa [reg.is_shared, Bool.or_eq_true] using hs
  unfold reg.bank_const
  rw [dif_pos h, if_pos h1]

theorem bank_const_of_banked {HOST : Type} {sz N : Nat} (r : reg HOST sz N) (bk : Int)
    (idx : Nat) (h : idx < N) (hs : r.is_shared bk = false) (a : Fin N → DATA sz)
    (ha : r.m_banks bk = some a) :
    r.bank_const bk idx = .ok (a ⟨idx, h⟩) := by
  have h1 : ¬ (bk = 0 ∨ (!r.m_banked) = true) := by
    simp only [reg.is_shared, Bool.or_eq_false_iff, decide_eq_false_iff_not,
      Bool.not_eq_false'] at hs
    simp [hs.1, hs.2]
  unfold reg.bank_const
  rw [dif_pos h, if_neg h1, ha]

/-! ### Banking isolation -/

theorem bank_const_assigned {HOST : Type} {sz N : Nat} (r : reg HOST sz N) (bk : Int)
    (idx : Nat) (h : idx < N) (v : DATA sz) :
    (r.assigned bk ⟨idx, h⟩ v).bank_const bk idx = .ok v := by
  have hsc := is_shared_congr r (r.assigned bk ⟨idx, h⟩ v) bk (assigned_fixed r bk ⟨idx, h⟩ v).2.1
  cases hs : r.is_shared bk with
  | true =>
    rw [bank_const_of_shared _ bk idx h (hsc.trans hs),
      (assigned_shared_fields r bk ⟨idx, h⟩ v hs).1, Function.update_same]
  | false =>
    rw [bank_const_of_banked _ bk idx h (hsc.trans hs) _
      (assigned_banked_fields r bk ⟨idx, h⟩ v hs).2.1, Function.update_same]

/-- C4: on a banked register, for distinct non-zero bank identifiers `A` and
`B`, after `bank(A, idx) = vA; bank(B, idx) = vB;` reading cell `idx` through
bank `A` yields `vA` and through bank `B` yields `vB` (with either overload of
`bank`, and without changing the register); each of the two writes leaves the
shared bank-0 storage and every bank other than its own as they were. -/
theorem bank_isolation {HOST : Type} {sz N : Nat} (r : reg HOST sz N) (A B : Int)
    (idx : Nat) (h : idx < N) (vA vB : DATA sz)
    (hb : r.m_banked = true) (hA : A ≠ 0) (hB : B ≠ 0) (hAB : A ≠ B) :
    ∃ r1 r2, r.bank_set A idx vA = .ok r1 ∧ r1.bank_set B idx vB = .ok r2 ∧
      r2.bank_get A idx = .ok (r2, vA) ∧ r2.bank_get B idx = .ok (r2, vB) ∧
      r2.bank_const A idx = .ok vA ∧ r2.bank_const B idx = .ok vB ∧
      r1.m_value = r.m_value ∧ (∀ k, k ≠ A → r1.m_banks k = r.m_banks k) ∧
      r2.m_value = r1.m_value ∧ (∀ k, k ≠ B → r2.m_banks k = r1.m_banks k) := by
  have hsA := is_shared_eq_false r A hb hA
  have hb1 : (r.assigned A ⟨idx, h⟩ vA).m_banked = true :=
    (assigned_fixed r A ⟨idx, h⟩ vA).2.1.trans hb
  have hsB := is_shared_eq_false (r.assigned A ⟨idx, h⟩ vA) B hb1 hB
  have hb2 : ((r.assigned A ⟨idx, h⟩ vA).assigned B ⟨idx, h⟩ vB).m_banked = true :=
    (assigned_fixed _ B ⟨idx, h⟩ vB).2.1.trans hb1
  have hsA2 := is_shared_eq_false ((r.assigned A ⟨idx, h⟩ vA).assigned B ⟨idx, h⟩ vB) A hb2 hA
  have hsB2 := is_shared_eq_false ((r.assigned A ⟨idx, h⟩ vA).assigned B ⟨idx, h⟩ vB) B hb2 hB
  have fA := assigned_banked_fields r A ⟨idx, h⟩ vA hsA
  have fB := assigned_banked_fields (r.assigned A ⟨idx, h⟩ vA) B ⟨idx, h⟩ vB hsB
  have hbankA : ((r.assigned A ⟨idx, h⟩ vA).assigned B ⟨idx, h⟩ vB).m_banks A
      = some (Function.update (r.bank_cells A) ⟨idx, h⟩ vA) := by
    rw [fB.2.2 A hAB, fA.2.1]
  refine ⟨r.assigned A ⟨idx, h⟩ vA, (r.assigned A ⟨idx, h⟩ vA).assigned B ⟨idx, h⟩ vB,
    bank_set_eq r A idx h vA, bank_set_eq _ B idx h vB, ?_, ?_, ?_, ?_,
    fA.1, fA.2.2, fB.1, fB.2.2⟩
  · rw [bank_get_eq _ A idx h, touched_of_existing _ A _ hbankA]
    simp [reg.seen, hsA2, reg.bank_cells, hbankA]
  · rw [bank_get_eq _ B idx h, touched_of_existing _ B _ fB.2.1]
    simp [reg.seen, hsB2, reg.bank_cells, fB.2.1]
  · rw [bank_const_of_banked _ A idx h hsA2 _ hbankA, Function.update_same]
  · exact bank_const_assigned _ B idx h vB
/-- Witness of `bank_isolation`: the banking test, `0xab` through bank 1 and
`0xcd` through bank 2 of the banked test register. -/
theorem bank_isolation_witness :
    ∃ r1 r2, banked_reg.bank_set 1 0 (u32_of 0xab 0 0 0) = .ok r1 ∧
      r1.bank_set 2 0 (u32_of 0xcd 0 0 0) = .ok r2 ∧
      r2.bank_get 1 0 = .ok (r2, u32_of 0xab 0 0 0) ∧
      r2.bank_get 2 0 = .ok (r2, u32_of 0xcd 0 0 0) ∧
      r2.bank_const 1 0 = .ok (u32_of 0xab 0 0 0) ∧
      r2.bank_const 2 0 = .ok (u32_of 0xcd 0 0 0) ∧
      r1.m_value = banked_reg.m_value ∧ (∀ k, k ≠ 1 → r1.m_banks k = banked_reg.m_banks k) ∧
      r2.m_value = r1.m_value ∧ (∀ k, k ≠ 2 → r2.m_banks k = r1.m_banks k) :=
  bank_isolation banked_reg 1 2 0 (by decide) (u32_of 0xab 0 0 0) (u32_of 0xcd 0 0 0)
    rfl (by decide) (by decide) (by decide)

/-! ### One chunk inside one cell -/

theorem U64_eq : U64 = 18446744073709551616 := by norm_num [U64]

theorem cell_bound (sz : Nat) {N : Nat} (idx : Nat) (hidx : idx < N) : idx * sz + sz ≤ N * sz := by
  have h := Nat.mul_le_mul_right sz (Nat.succ_le_of_lt hidx)
  rwa [Nat.succ_mul] at h

theorem chunk_cell {HOST : Type} {sz N : Nat} (r : reg HOST sz N) (hwf : r.wf)
    (idx off n : Nat) (hidx : idx < N) (hoff : off + n ≤ sz) (hn : 0 < n) :
    r.chunk (r.cell_range idx off n) = (idx, off, n) := by
  obtain ⟨hsz, _, hT, hA⟩ := hwf
  have hb := cell_bound sz idx hidx
  have hU := U64_eq
  have e1 : u64_sub (r.address + idx * sz + off) r.address = idx * sz + off := by
    unfold u64_sub
    rw [Nat.mod_eq_of_lt (by omega : r.address < U64)]
    rw [show r.address + idx * sz + off + U64 - r.address = idx * sz + off + U64 by omega]
    rw [Nat.add_mod_right]
    exact Nat.mod_eq_of_lt (by omega)
  have e2 : (idx * sz + off) / sz = idx :=
    Nat.div_eq_of_lt_le (by omega) (by rw [Nat.succ_mul]; omega)
  have e3 : (idx * sz + off) % sz = off := by
    rw [Nat.mul_add_mod_of_lt (by omega)]
  have e4 : range.length (r.cell_range idx off n) = n := by
    unfold range.length reg.cell_range u64_add u64_sub
    simp only
    rw [Nat.mod_eq_of_lt (by omega : r.address + idx * sz + off < U64)]
    rw [show r.address + idx * sz + off + n - 1 + U64 - (r.address + idx * sz + off)
      = n - 1 + U64 by omega]
    rw [Nat.add_mod_right, Nat.mod_eq_of_lt (by omega : n - 1 < U64)]
    rw [show n - 1 + 1 = n by omega]
    exact Nat.mod_eq_of_lt (by omega)
  unfold reg.chunk
  rw [e4]
  simp only [reg.cell_range, e1, e2, e3]
  rw [Nat.min_eq_left (by omega)]

theorem next_start {HOST : Type} {sz N : Nat} (r : reg HOST sz N) (hwf : r.wf)
    (idx off n : Nat) (hidx : idx < N) (hoff : off + n ≤ sz) (hn : 0 < n) :
    u64_add (r.cell_range idx off n).start n =
      if (r.cell_range idx off n).end_ + 1 < U64 then (r.cell_range idx off n).end_ + 1 else 0 := by
  obtain ⟨hsz, _, hT, hA⟩ := hwf
  have hb := cell_bound sz idx hidx
  have hU := U64_eq
  unfold u64_add reg.cell_range
  simp only
  split
  · rw [Nat.mod_eq_of_lt (by omega)]; omega
  · rw [show r.address + idx * sz + off + n = U64 by omega]
    exact Nat.mod_self U64

theorem chunk_wrapped {HOST : Type} {sz N : Nat} (r : reg HOST sz N) (hwf : r.wf)
    (idx off n : Nat) (hidx : idx < N) (hoff : off + n ≤ sz) (hn : 0 < n)
    (hend : ¬ (r.cell_range idx off n).end_ + 1 < U64) (e : Nat) :
    (r.chunk ⟨0, e⟩).1 % U32 = N := by
  obtain ⟨hsz, hN, hT, hA⟩ := hwf
  have hb := cell_bound sz idx hidx
  have hU := U64_eq
  unfold reg.cell_range at hend
  simp only at hend
  have e1 : u64_sub 0 r.address = N * sz := by
    unfold u64_sub
    rw [Nat.mod_eq_of_lt (by omega : r.address < U64)]
    rw [show 0 + U64 - r.address = N * sz by omega]
    exact Nat.mod_eq_of_lt hT
  unfold reg.chunk
  simp only [e1]
  rw [Nat.mul_div_cancel _ hsz]
  exact Nat.mod_eq_of_lt hN

theorem bank_get_out_of_bounds {HOST : Type} {sz N : Nat} (r : reg HOST sz N) (bk : Int)
    (idx : Nat) (h : ¬ idx < N) :
    r.bank_get bk idx = .error (.raised (.index_out_of_bounds idx)) := by
  unfold reg.bank_get reg.bank
  rw [dif_neg h]

theorem poke_some {sz : Nat} (val : DATA sz) (off : Nat) (src : List UInt8) (n : Nat)
    (hoff : off + n ≤ sz) (hsrc : n ≤ src.length) :
    ∃ v, val.poke off src n = some v ∧
      v.bytes = val.bytes.take off ++ (src.take n ++ val.bytes.drop (off + n)) := by
  unfold DATA.poke
  rw [dif_pos ⟨hoff, hsrc⟩]
  exact ⟨_, rfl, rfl⟩

theorem do_write_body_cell {HOST : Type} {sz N : Nat} (cpu : HOST → Int)
    (s : wstate HOST sz N) (hwf : s.self.wf) (idx off n : Nat) (hidx : idx < N)
    (hoff : off + n ≤ sz) (hn : 0 < n) (haddr : s.addr = s.self.cell_range idx off n)
    (val1 : DATA sz)
    (hpoke : (s.self.seen (cpu s.host) ⟨idx, hidx⟩).poke off s.src n = some val1) :
    reg.do_write_body cpu s =
      ({ self := (s.self.touched (cpu s.host)).assigned
            (cpu ((s.self.touched (cpu s.host)).write_dispatch s.host val1 idx).2.1) ⟨idx, hidx⟩
            ((s.self.touched (cpu s.host)).write_dispatch s.host val1 idx).1,
         host := ((s.self.touched (cpu s.host)).write_dispatch s.host val1 idx).2.1,
         addr := ⟨u64_add s.addr.start n, s.addr.end_⟩,
         src := s.src.drop n,
         calls := s.calls ++ ((s.self.touched (cpu s.host)).write_dispatch s.host val1 idx).2.2 },
       none) := by
  have hc := chunk_cell s.self hwf idx off n hidx hoff hn
  have hm : idx % U32 = idx := Nat.mod_eq_of_lt (Nat.lt_trans hidx hwf.2.1)
  unfold reg.do_write_body
  simp only [haddr, hc, hm, bank_get_eq _ _ idx hidx, hpoke, bank_set_eq _ _ idx hidx]

theorem do_write_loop_cell {HOST : Type} {sz N : Nat} (cpu : HOST → Int)
    (s : wstate HOST sz N) (hwf : s.self.wf) (idx off n : Nat) (hidx : idx < N)
    (hoff : off + n ≤ sz) (hn : 0 < n) (haddr : s.addr = s.self.cell_range idx off n)
    (val1 : DATA sz)
    (hpoke : (s.self.seen (cpu s.host) ⟨idx, hidx⟩).poke off s.src n = some val1)
    (fuel : Nat) :
    reg.do_write_loop cpu (fuel + 2) s =
      ({ self := (s.self.touched (cpu s.host)).assigned
            (cpu ((s.self.touched (cpu s.host)).write_dispatch s.host val1 idx).2.1) ⟨idx, hidx⟩
            ((s.self.touched (cpu s.host)).write_dispatch s.host val1 idx).1,
         host := ((s.self.touched (cpu s.host)).write_dispatch s.host val1 idx).2.1,
         addr := ⟨u64_add s.addr.start n, s.addr.end_⟩,
         src := s.src.drop n,
         calls := s.calls ++ ((s.self.touched (cpu s.host)).write_dispatch s.host val1 idx).2.2 },
       if s.addr.end_ + 1 < U64 then outcome.completed
       else outcome.raised (report.index_out_of_bounds N)) := by
  have hb := do_write_body_cell cpu s hwf idx off n hidx hoff hn haddr val1 hpoke
  have hns := next_start s.self hwf idx off n hidx hoff hn
  have hle : s.addr.start ≤ s.addr.end_ := by
    rw [haddr]; unfold reg.cell_range; simp only; omega
  rw [← haddr] at hns
  rw [reg.do_write_loop, if_pos hle, hb]
  simp only
  by_cases hend : s.addr.end_ + 1 < U64
  · rw [if_pos hend] at hns
    rw [if_pos hend, reg.do_write_loop]
    have : ¬ (u64_add s.addr.start n ≤ s.addr.end_) := by rw [hns]; omega
    simp only [this, if_false]
  · rw [if_neg hend] at hns
    rw [if_neg hend, reg.do_write_loop]
    simp only [hns, Nat.zero_le, if_true]
    have haddr1 : ((s.self.touched (cpu s.host)).assigned
            (cpu ((s.self.touched (cpu s.host)).write_dispatch s.host val1 idx).2.1) ⟨idx, hidx⟩
            ((s.self.touched (cpu s.host)).write_dispatch s.host val1 idx).1).address
        = s.self.address :=
      (assigned_fixed _ _ _ _).1.trans (touched_fixed _ _).1
    have hw : ∀ e, (reg.chunk ((s.self.touched (cpu s.host)).assigned
            (cpu ((s.self.touched (cpu s.host)).write_dispatch s.host val1 idx).2.1) ⟨idx, hidx⟩
            ((s.self.touched (cpu s.host)).write_dispatch s.host val1 idx).1) ⟨0, e⟩).1 % U32 = N := by
      intro e
      have := chunk_wrapped s.self hwf idx off n hidx hoff hn (by rw [← haddr]; exact hend) e
      unfold reg.chunk at this ⊢
      rw [haddr1]
      exact this
    unfold reg.do_write_body
    simp only [hw, bank_get_out_of_bounds _ _ N (Nat.lt_irrefl N)]

theorem do_read_body_cell {HOST : Type} {sz N : Nat} (cpu : HOST → Int)
    (s : rstate HOST sz N) (hwf : s.self.wf) (idx off n : Nat) (hidx : idx < N)
    (hoff : off + n ≤ sz) (hn : 0 < n) (haddr : s.addr = s.self.cell_range idx off n) :
    reg.do_read_body cpu s =
      ({ self := (s.self.touched (cpu s.host)).assigned
            (cpu ((s.self.touched (cpu s.host)).read_dispatch s.host
              (s.self.seen (cpu s.host) ⟨idx, hidx⟩) idx).2.1) ⟨idx, hidx⟩
            ((s.self.touched (cpu s.host)).read_dispatch s.host
              (s.self.seen (cpu s.host) ⟨idx, hidx⟩) idx).1,
         host := ((s.self.touched (cpu s.host)).read_dispatch s.host
              (s.self.seen (cpu s.host) ⟨idx, hidx⟩) idx).2.1,
         addr := ⟨u64_add s.addr.start n, s.addr.end_⟩,
         dest := s.dest ++ (((s.self.touched (cpu s.host)).read_dispatch s.host
              (s.self.seen (cpu s.host) ⟨idx, hidx⟩) idx).1.bytes.drop off).take n,
         calls := s.calls ++ ((s.self.touched (cpu s.host)).read_dispatch s.host
              (s.self.seen (cpu s.host) ⟨idx, hidx⟩) idx).2.2 },
       none) := by
  have hc := chunk_cell s.self hwf idx off n hidx hoff hn
  have hm : idx % U32 = idx := Nat.mod_eq_of_lt (Nat.lt_trans hidx hwf.2.1)
  unfold reg.do_read_body
  simp only [haddr, hc, hm, bank_get_eq _ _ idx hidx, bank_set_eq _ _ idx hidx, DATA.peek,
    hoff, if_true]

theorem do_read_loop_cell {HOST : Type} {sz N : Nat} (cpu : HOST → Int)
    (s : rstate HOST sz N) (hwf : s.self.wf) (idx off n : Nat) (hidx : idx < N)
    (hoff : off + n ≤ sz) (hn : 0 < n) (haddr : s.addr = s.self.cell_range idx off n)
    (fuel : Nat) :
    reg.do_read_loop cpu (fuel + 2) s =
      ({ self := (s.self.touched (cpu s.host)).assigned
            (cpu ((s.self.touched (cpu s.host)).read_dispatch s.host
              (s.self.seen (cpu s.host) ⟨idx, hidx⟩) idx).2.1) ⟨idx, hidx⟩
            ((s.self.touched (cpu s.host)).read_dispatch s.host
              (s.self.seen (cpu s.host) ⟨idx, hidx⟩) idx).1,
         host := ((s.self.touched (cpu s.host)).read_dispatch s.host
              (s.self.seen (cpu s.host) ⟨idx, hidx⟩) idx).2.1,
         addr := ⟨u64_add s.addr.start n, s.addr.end_⟩,
         dest := s.dest ++ (((s.self.touched (cpu s.host)).read_dispatch s.host
              (s.self.seen (cpu s.host) ⟨idx, hidx⟩) idx).1.bytes.drop off).take n,
         calls := s.calls ++ ((s.self.touched (cpu s.host)).read_dispatch s.host
              (s.self.seen (cpu s.host) ⟨idx, hidx⟩) idx).2.2 },
       if s.addr.end_ + 1 < U64 then outcome.completed
       else outcome.raised (report.index_out_of_bounds N)) := by
  have hb := do_read_body_cell cpu s hwf idx off n hidx hoff hn haddr
  have hns := next_start s.self hwf idx off n hidx hoff hn
  have hle : s.addr.start ≤ s.addr.end_ := by
    rw [haddr]; unfold reg.cell_range; simp only; omega
  rw [← haddr] at hns
  rw [reg.do_read_loop, if_pos hle, hb]
  simp only
  by_cases hend : s.addr.end_ + 1 < U64
  · rw [if_pos hend] at hns
    rw [if_pos hend, reg.do_read_loop]
    have : ¬ (u64_add s.addr.start n ≤ s.addr.end_) := by rw [hns]; omega
    simp only [this, if_false]
  · rw [if_neg hend] at hns
    rw [if_neg hend, reg.do_read_loop]
    simp only [hns, Nat.zero_le, if_true]
    have haddr1 : ((s.self.touched (cpu s.host)).assigned
            (cpu ((s.self.touched (cpu s.host)).read_dispatch s.host
              (s.self.seen (cpu s.host) ⟨idx, hidx⟩) idx).2.1) ⟨idx, hidx⟩
            ((s.self.touched (cpu s.host)).read_dispatch s.host
              (s.self.seen (cpu s.host) ⟨idx, hidx⟩) idx).1).address
        = s.self.address :=
      (assigned_fixed _ _ _ _).1.trans (touched_fixed _ _).1
    have hw : ∀ e, (reg.chunk ((s.self.touched (cpu s.host)).assigned
            (cpu ((s.self.touched (cpu s.host)).read_dispatch s.host
              (s.self.seen (cpu s.host) ⟨idx, hidx⟩) idx).2.1) ⟨idx, hidx⟩
            ((s.self.touched (cpu s.host)).read_dispatch s.host
              (s.self.seen (cpu s.host) ⟨idx, hidx⟩) idx).1) ⟨0, e⟩).1 % U32 = N := by
      intro e
      have := chunk_wrapped s.self hwf idx off n hidx hoff hn (by rw [← haddr]; exact hend) e
      unfold reg.chunk at this ⊢
      rw [haddr1]
      exact this
    unfold reg.do_read_body
    simp only [hw, bank_get_out_of_bounds _ _ N (Nat.lt_irrefl N)]

theorem DATA.eq_of_bytes {sz : Nat} (a b : DATA sz) (h : a.bytes = b.bytes) : a = b := by
  cases a; cases b; cases h; rfl

theorem seen_touched {HOST : Type} {sz N : Nat} (r : reg HOST sz N) (bk bk1 : Int) (j : Fin N) :
    (r.touched bk).seen bk1 j = r.seen bk1 j := by
  cases hs : r.is_shared bk with
  | true => rw [touched_shared r bk hs]
  | false =>
    have hsc := is_shared_congr r (r.touched bk) bk1 (touched_fixed r bk).2.1
    unfold reg.seen
    rw [hsc]
    split
    · rw [(touched_fixed r bk).2.2.2.2.2.2.2.2.2]
    · unfold reg.bank_cells
      rw [(touched_fixed r bk).2.2.1]
      by_cases hk : bk1 = bk
      · subst hk
        rw [(touched_banked_fields r bk1 hs).1]
        rfl
      · rw [(touched_banked_fields r bk hs).2 bk1 hk]

theorem seen_assigned {HOST : Type} {sz N : Nat} (r : reg HOST sz N) (bk : Int) (i : Fin N)
    (v : DATA sz) : (r.assigned bk i v).seen bk i = v := by
  have hsc := is_shared_congr r (r.assigned bk i v) bk (assigned_fixed r bk i v).2.1
  unfold reg.seen
  rw [hsc]
  cases hs : r.is_shared bk with
  | true => simp only [if_true]; rw [(assigned_shared_fields r bk i v hs).1, Function.update_same]
  | false =>
    simp only [Bool.false_eq_true, if_false]
    unfold reg.bank_cells
    rw [(assigned_banked_fields r bk i v hs).2.1]
    simp

theorem seen_assigned_other {HOST : Type} {sz N : Nat} (r : reg HOST sz N) (bk bk1 : Int)
    (i j : Fin N) (v : DATA sz) (hne : j ≠ i ∨ (bk1 ≠ bk ∧ r.m_banked = true)) :
    (r.assigned bk i v).seen bk1 j = r.seen bk1 j := by
  have hsc := is_shared_congr r (r.assigned bk i v) bk1 (assigned_fixed r bk i v).2.1
  unfold reg.seen
  rw [hsc]
  cases hs : r.is_shared bk with
  | true =>
    rw [(assigned_shared_fields r bk i v hs).1]
    unfold reg.bank_cells
    rw [(assigned_shared_fields r bk i v hs).2, (assigned_fixed r bk i v).2.2.1]
    cases hs1 : r.is_shared bk1 with
    | false => rfl
    | true =>
      simp only [if_true]
      rcases hne with hji | ⟨hbk, hb⟩
      · rw [Function.update_noteq hji]
      · exfalso
        simp only [reg.is_shared, hb, Bool.not_true, Bool.or_false, decide_eq_true_eq] at hs hs1
        exact hbk (hs1.trans hs.symm)
  | false =>
    rw [(assigned_banked_fields r bk i v hs).1]
    split
    · rfl
    · unfold reg.bank_cells
      rw [(assigned_fixed r bk i v).2.2.1]
      by_cases hk : bk1 = bk
      · subst hk
        rw [(assigned_banked_fields r bk1 i v hs).2.1]
        rcases hne with hji | ⟨hbk, _⟩
        · simp only [Option.getD_some]
          rw [Function.update_noteq hji]
          rfl
        · exact absurd rfl hbk
      · rw [(assigned_banked_fields r bk i v hs).2.2 bk1 hk]

theorem banks_assigned_other {HOST : Type} {sz N : Nat} (r : reg HOST sz N) (bk k : Int)
    (i : Fin N) (v : DATA sz) (hk : k ≠ bk) :
    ((r.touched bk).assigned bk i v).m_banks k = r.m_banks k := by
  have hsc := is_shared_congr r (r.touched bk) bk (touched_fixed r bk).2.1
  cases hs : r.is_shared bk with
  | true =>
    rw [(assigned_shared_fields _ bk i v (hsc.trans hs)).2, touched_shared r bk hs]
  | false =>
    rw [(assigned_banked_fields _ bk i v (hsc.trans hs)).2.2 k hk,
      (touched_banked_fields r bk hs).2 k hk]

theorem value_assigned_other {HOST : Type} {sz N : Nat} (r : reg HOST sz N) (bk : Int)
    (i j : Fin N) (v : DATA sz) (hne : j ≠ i ∨ (bk ≠ 0 ∧ r.m_banked = true)) :
    ((r.touched bk).assigned bk i v).m_value j = r.m_value j := by
  have hsc := is_shared_congr r (r.touched bk) bk (touched_fixed r bk).2.1
  cases hs : r.is_shared bk with
  | true =>
    rw [(assigned_shared_fields _ bk i v (hsc.trans hs)).1, touched_shared r bk hs]
    rcases hne with hji | ⟨hbk, hb⟩
    · rw [Function.update_noteq hji]
    · exfalso
      simp only [reg.is_shared, hb, Bool.not_true, Bool.or_false, decide_eq_true_eq] at hs
      exact hbk hs
  | false =>
    rw [(assigned_banked_fields _ bk i v (hsc.trans hs)).1,
      (touched_fixed r bk).2.2.2.2.2.2.2.2.2]

theorem write_dispatch_none {HOST : Type} {sz N : Nat} (r : reg HOST sz N) (h : HOST)
    (val : DATA sz) (idx : Nat) (hw : r.write = none) (htw : r.tagged_write = none) :
    r.write_dispatch h val idx = (val, h, []) := by
  unfold reg.write_dispatch
  rw [htw, hw]

theorem write_dispatch_write {HOST : Type} {sz N : Nat} (r : reg HOST sz N) (h : HOST)
    (val : DATA sz) (idx : Nat) (f : HOST → DATA sz → DATA sz × HOST)
    (hw : r.write = some f) (htw : r.tagged_write = none) :
    r.write_dispatch h val idx = ((f h val).1, (f h val).2, [call.write val]) := by
  unfold reg.write_dispatch
  rw [htw, hw]

theorem read_dispatch_none {HOST : Type} {sz N : Nat} (r : reg HOST sz N) (h : HOST)
    (val : DATA sz) (idx : Nat) (hr : r.read = none) (htr : r.tagged_read = none) :
    r.read_dispatch h val idx = (val, h, []) := by
  unfold reg.read_dispatch
  rw [htr, hr]

theorem read_dispatch_read {HOST : Type} {sz N : Nat} (r : reg HOST sz N) (h : HOST)
    (val : DATA sz) (idx : Nat) (f : HOST → DATA sz × HOST)
    (hr : r.read = some f) (htr : r.tagged_read = none) :
    r.read_dispatch h val idx = ((f h).1, (f h).2, [call.read]) := by
  unfold reg.read_dispatch
  rw [htr, hr]

theorem end_succ {HOST : Type} {sz N : Nat} (r : reg HOST sz N) (idx off n : Nat) (hn : 0 < n) :
    (r.cell_range idx off n).end_ + 1 = r.address + idx * sz + off + n := by
  unfold reg.cell_range
  simp only
  omega

theorem do_write_plain {HOST : Type} {sz N : Nat} (cpu : HOST → Int) (r : reg HOST sz N)
    (h : HOST) (idx off n : Nat) (data : List UInt8) (fuel : Nat)
    (hwf : r.wf) (hidx : idx < N) (hoff : off + n ≤ sz) (hn : 0 < n)
    (hw : r.write = none) (htw : r.tagged_write = none) (val1 : DATA sz)
    (hpoke : (r.seen (cpu h) ⟨idx, hidx⟩).poke off data n = some val1) :
    reg.do_write cpu (fuel + 2) r h (r.cell_range idx off n) data =
      ({ self := (r.touched (cpu h)).assigned (cpu h) ⟨idx, hidx⟩ val1, host := h,
         addr := ⟨u64_add (r.cell_range idx off n).start n, (r.cell_range idx off n).end_⟩,
         src := data.drop n, calls := [] },
       if r.address + idx * sz + off + n < U64 then outcome.completed
       else outcome.raised (report.index_out_of_bounds N)) := by
  unfold reg.do_write
  rw [do_write_loop_cell cpu _ hwf idx off n hidx hoff hn rfl val1 hpoke fuel]
  have hd : (r.touched (cpu h)).write_dispatch h val1 idx = (val1, h, []) :=
    write_dispatch_none _ h val1 idx
      ((touched_fixed r (cpu h)).2.2.2.2.2.1.trans hw)
      ((touched_fixed r (cpu h)).2.2.2.2.2.2.2.2.1.trans htw)
  simp only [hd, end_succ r idx off n hn, List.nil_append]

theorem do_read_plain {HOST : Type} {sz N : Nat} (cpu : HOST → Int) (r : reg HOST sz N)
    (h : HOST) (idx off n : Nat) (fuel : Nat)
    (hwf : r.wf) (hidx : idx < N) (hoff : off + n ≤ sz) (hn : 0 < n)
    (hr : r.read = none) (htr : r.tagged_read = none) :
    reg.do_read cpu (fuel + 2) r h (r.cell_range idx off n) =
      ({ self := (r.touched (cpu h)).assigned (cpu h) ⟨idx, hidx⟩ (r.seen (cpu h) ⟨idx, hidx⟩),
         host := h,
         addr := ⟨u64_add (r.cell_range idx off n).start n, (r.cell_range idx off n).end_⟩,
         dest := ((r.seen (cpu h) ⟨idx, hidx⟩).bytes.drop off).take n, calls := [] },
       if r.address + idx * sz + off + n < U64 then outcome.completed
       else outcome.raised (report.index_out_of_bounds N)) := by
  unfold reg.do_read
  rw [do_read_loop_cell cpu _ hwf idx off n hidx hoff hn rfl fuel]
  have hd : (r.touched (cpu h)).read_dispatch h (r.seen (cpu h) ⟨idx, hidx⟩) idx
      = (r.seen (cpu h) ⟨idx, hidx⟩, h, []) :=
    read_dispatch_none _ h _ idx
      ((touched_fixed r (cpu h)).2.2.2.2.1.trans hr)
      ((touched_fixed r (cpu h)).2.2.2.2.2.2.2.1.trans htr)
  simp only [hd, end_succ r idx off n hn, List.nil_append]

/-! ### Register accesses -/

/-- C8: a `do_write` of `n` bytes at byte offset `off` of the single cell `idx`
(`off + n <= sizeof(DATA)`) on a register without write callbacks replaces
exactly the bytes `off .. off+n-1` of that cell (of the current bank) by the
first `n` source bytes in order and keeps the other bytes of the cell; every
other cell, of any bank and of the shared storage, reads as before, no
callback runs and the host is unchanged.  The call ends normally unless the
range ends at the last `u64` address. -/
theorem do_write_within_cell {HOST : Type} {sz N : Nat} (cpu : HOST → Int)
    (r : reg HOST sz N) (h : HOST) (idx off n : Nat) (data : List UInt8) (fuel : Nat)
    (hwf : r.wf) (hidx : idx < N) (hoff : off + n ≤ sz) (hn : 0 < n)
    (hdata : n ≤ data.length) (hw : r.write = none) (htw : r.tagged_write = none) :
    ∃ r0 old new, r.bank_get (cpu h) idx = .ok (r0, old) ∧
      (reg.do_write cpu (fuel + 2) r h (r.cell_range idx off n) data).1.self.bank_const
        (cpu h) idx = .ok new ∧
      new.bytes = old.bytes.take off ++ (data.take n ++ old.bytes.drop (off + n)) ∧
      (∀ (bk : Int) (j : Nat), j < N → (j ≠ idx ∨ (bk ≠ cpu h ∧ r.m_banked = true)) →
        ∃ ra rb u, r.bank_get bk j = .ok (ra, u) ∧
          (reg.do_write cpu (fuel + 2) r h (r.cell_range idx off n) data).1.self.bank_get bk j
            = .ok (rb, u)) ∧
      (∀ j : Fin N, (j.val ≠ idx ∨ (cpu h ≠ 0 ∧ r.m_banked = true)) →
        (reg.do_write cpu (fuel + 2) r h (r.cell_range idx off n) data).1.self.m_value j
          = r.m_value j) ∧
      (∀ k : Int, k ≠ cpu h →
        (reg.do_write cpu (fuel + 2) r h (r.cell_range idx off n) data).1.self.m_banks k
          = r.m_banks k) ∧
      (reg.do_write cpu (fuel + 2) r h (r.cell_range idx off n) data).1.calls = [] ∧
      (reg.do_write cpu (fuel + 2) r h (r.cell_range idx off n) data).1.host = h ∧
      (reg.do_write cpu (fuel + 2) r h (r.cell_range idx off n) data).2 =
        (if r.address + idx * sz + off + n < U64 then outcome.completed
         else outcome.raised (report.index_out_of_bounds N)) := by
  obtain ⟨val1, hpoke, hbytes⟩ := poke_some (r.seen (cpu h) ⟨idx, hidx⟩) off data n hoff hdata
  rw [do_write_plain cpu r h idx off n data fuel hwf hidx hoff hn hw htw val1 hpoke]
  refine ⟨_, _, val1, bank_get_eq r (cpu h) idx hidx, bank_const_assigned _ _ idx hidx val1,
    hbytes, ?_, ?_, ?_, rfl, rfl, rfl⟩
  · intro bk j hj hne
    refine ⟨r.touched bk, (((r.touched (cpu h)).assigned (cpu h) ⟨idx, hidx⟩ val1).touched bk),
      r.seen bk ⟨j, hj⟩, bank_get_eq r bk j hj, ?_⟩
    simp only
    rw [bank_get_eq _ bk j hj]
    have hne1 : (⟨j, hj⟩ : Fin N) ≠ ⟨idx, hidx⟩ ∨ (bk ≠ cpu h ∧ (r.touched (cpu h)).m_banked = true) := by
      rcases hne with hji | ⟨hbk, hb⟩
      · exact Or.inl (fun he => hji (Fin.mk.inj he))
      · exact Or.inr ⟨hbk, (touched_fixed r (cpu h)).2.1.trans hb⟩
    rw [seen_assigned_other _ (cpu h) bk ⟨idx, hidx⟩ ⟨j, hj⟩ val1 hne1, seen_touched]
  · intro j hne
    apply value_assigned_other
    rcases hne with hji | hb
    · exact Or.inl (fun he => hji (congrArg Fin.val he))
    · exact Or.inr hb
  · intro k hk
    exact banks_assigned_other r (cpu h) k ⟨idx, hidx⟩ val1 hk

/-- Witness of `do_write_within_cell`: the misaligned-access test, `11 22`
written at offset 1 of the zeroed 32-bit register `test_reg_a`, which then
holds `0x00221100`. -/
theorem do_write_within_cell_witness :
    ((reg.do_write id 2 zero_reg_a 0 (zero_reg_a.cell_range 0 1 2) [0x11, 0x22]).1.self.m_value
        ⟨0, by decide⟩).value = 0x00221100 ∧
    ∃ r0 old new, zero_reg_a.bank_get (id (0 : cpu_host)) 0 = .ok (r0, old) ∧
      (reg.do_write id (0 + 2) zero_reg_a 0 (zero_reg_a.cell_range 0 1 2)
        [0x11, 0x22]).1.self.bank_const (id (0 : cpu_host)) 0 = .ok new ∧
      new.bytes = old.bytes.take 1 ++ (([0x11, 0x22] : List UInt8).take 2 ++ old.bytes.drop (1 + 2)) ∧
      (∀ (bk : Int) (j : Nat), j < 1 →
        (j ≠ 0 ∨ (bk ≠ id (0 : cpu_host) ∧ zero_reg_a.m_banked = true)) →
        ∃ ra rb u, zero_reg_a.bank_get bk j = .ok (ra, u) ∧
          (reg.do_write id (0 + 2) zero_reg_a 0 (zero_reg_a.cell_range 0 1 2)
            [0x11, 0x22]).1.self.bank_get bk j = .ok (rb, u)) ∧
      (∀ j : Fin 1, (j.val ≠ 0 ∨ (id (0 : cpu_host) ≠ 0 ∧ zero_reg_a.m_banked = true)) →
        (reg.do_write id (0 + 2) zero_reg_a 0 (zero_reg_a.cell_range 0 1 2)
          [0x11, 0x22]).1.self.m_value j = zero_reg_a.m_value j) ∧
      (∀ k : Int, k ≠ id (0 : cpu_host) →
        (reg.do_write id (0 + 2) zero_reg_a 0 (zero_reg_a.cell_range 0 1 2)
          [0x11, 0x22]).1.self.m_banks k = zero_reg_a.m_banks k) ∧
      (reg.do_write id (0 + 2) zero_reg_a 0 (zero_reg_a.cell_range 0 1 2)
        [0x11, 0x22]).1.calls = [] ∧
      (reg.do_write id (0 + 2) zero_reg_a 0 (zero_reg_a.cell_range 0 1 2)
        [0x11, 0x22]).1.host = 0 ∧
      (reg.do_write id (0 + 2) zero_reg_a 0 (zero_reg_a.cell_range 0 1 2) [0x11, 0x22]).2 =
        (if zero_reg_a.address + 0 * 4 + 1 + 2 < U64 then outcome.completed
         else outcome.raised (report.index_out_of_bounds 1)) :=
  ⟨by decide,
   do_write_within_cell id zero_reg_a 0 0 1 2 [0x11, 0x22] 0 (by decide) (by decide)
    (by decide) (by decide) (by decide) rfl rfl⟩

/-- C6: a `do_write` confined to one cell of a register with a write callback
and no tagged-write callback invokes the callback exactly once (it is the
only callback invocation of the call); the argument is the previous value of
the cell with the bytes `off .. off+n-1` replaced by the source bytes; the
host is left as the callback leaves it, and the cell then holds the
callback's return value.  The call ends normally unless the range ends at the
last `u64` address. -/
theorem do_write_callback {HOST : Type} {sz N : Nat} (cpu : HOST → Int)
    (r : reg HOST sz N) (h : HOST) (idx off n : Nat) (data : List UInt8) (fuel : Nat)
    (f : HOST → DATA sz → DATA sz × HOST)
    (hwf : r.wf) (hidx : idx < N) (hoff : off + n ≤ sz) (hn : 0 < n)
    (hdata : n ≤ data.length) (hw : r.write = some f) (htw : r.tagged_write = none) :
    ∃ r0 old arg, r.bank_get (cpu h) idx = .ok (r0, old) ∧
      arg.bytes = old.bytes.take off ++ (data.take n ++ old.bytes.drop (off + n)) ∧
      (reg.do_write cpu (fuel + 2) r h (r.cell_range idx off n) data).1.calls
        = [call.write arg] ∧
      (reg.do_write cpu (fuel + 2) r h (r.cell_range idx off n) data).1.host = (f h arg).2 ∧
      (reg.do_write cpu (fuel + 2) r h (r.cell_range idx off n) data).1.self.bank_const
        (cpu (f h arg).2) idx = .ok (f h arg).1 ∧
      (reg.do_write cpu (fuel + 2) r h (r.cell_range idx off n) data).2 =
        (if r.address + idx * sz + off + n < U64 then outcome.completed
         else outcome.raised (report.index_out_of_bounds N)) := by
  obtain ⟨val1, hpoke, hbytes⟩ := poke_some (r.seen (cpu h) ⟨idx, hidx⟩) off data n hoff hdata
  have hd : (r.touched (cpu h)).write_dispatch h val1 idx
      = ((f h val1).1, (f h val1).2, [call.write val1]) :=
    write_dispatch_write _ h val1 idx f
      ((touched_fixed r (cpu h)).2.2.2.2.2.1.trans hw)
      ((touched_fixed r (cpu h)).2.2.2.2.2.2.2.2.1.trans htw)
  have hrun : reg.do_write cpu (fuel + 2) r h (r.cell_range idx off n) data =
      ({ self := (r.touched (cpu h)).assigned (cpu (f h val1).2) ⟨idx, hidx⟩ (f h val1).1,
         host := (f h val1).2,
         addr := ⟨u64_add (r.cell_range idx off n).start n, (r.cell_range idx off n).end_⟩,
         src := data.drop n, calls := [call.write val1] },
       if r.address + idx * sz + off + n < U64 then outcome.completed
       else outcome.raised (report.index_out_of_bounds N)) := by
    unfold reg.do_write
    rw [do_write_loop_cell cpu _ hwf idx off n hidx hoff hn rfl val1 hpoke fuel]
    simp only [hd, end_succ r idx off n hn, List.nil_append]
  rw [hrun]
  exact ⟨_, _, val1, bank_get_eq r (cpu h) idx hidx, hbytes, rfl, rfl,
    bank_const_assigned _ _ idx hidx _, rfl⟩

/-- Witness of `do_write_callback`: the write-callback test, `11 22 33 44`
written to `test_reg_b` whose write callback returns `0x98765432`; the
callback receives `0x44332211` and the register holds `0x98765432`. -/
theorem do_write_callback_witness :
    (reg.do_write id 2 (test_reg_b (u32_of 0 0 0 0) (u32_of 0x32 0x54 0x76 0x98)) 0 ⟨4, 7⟩
        [0x11, 0x22, 0x33, 0x44]).1.calls = [call.write (u32_of 0x11 0x22 0x33 0x44)] ∧
    (u32_of 0x11 0x22 0x33 0x44).value = 0x44332211 ∧
    (u32_of 0x32 0x54 0x76 0x98).value = 0x98765432 ∧
    ∃ r0 old arg,
      (test_reg_b (u32_of 0 0 0 0) (u32_of 0x32 0x54 0x76 0x98)).bank_get (id (0 : cpu_host)) 0
        = .ok (r0, old) ∧
      arg.bytes = old.bytes.take 0 ++
        (([0x11, 0x22, 0x33, 0x44] : List UInt8).take 4 ++ old.bytes.drop (0 + 4)) ∧
      (reg.do_write id (0 + 2) (test_reg_b (u32_of 0 0 0 0) (u32_of 0x32 0x54 0x76 0x98)) 0
        ((test_reg_b (u32_of 0 0 0 0) (u32_of 0x32 0x54 0x76 0x98)).cell_range 0 0 4)
        [0x11, 0x22, 0x33, 0x44]).1.calls = [call.write arg] ∧
      (reg.do_write id (0 + 2) (test_reg_b (u32_of 0 0 0 0) (u32_of 0x32 0x54 0x76 0x98)) 0
        ((test_reg_b (u32_of 0 0 0 0) (u32_of 0x32 0x54 0x76 0x98)).cell_range 0 0 4)
        [0x11, 0x22, 0x33, 0x44]).1.host
        = ((fun (h : cpu_host) (_ : DATA 4) => (u32_of 0x32 0x54 0x76 0x98, h)) 0 arg).2 ∧
      (reg.do_write id (0 + 2) (test_reg_b (u32_of 0 0 0 0) (u32_of 0x32 0x54 0x76 0x98)) 0
        ((test_reg_b (u32_of 0 0 0 0) (u32_of 0x32 0x54 0x76 0x98)).cell_range 0 0 4)
        [0x11, 0x22, 0x33, 0x44]).1.self.bank_const
        (id ((fun (h : cpu_host) (_ : DATA 4) => (u32_of 0x32 0x54 0x76 0x98, h)) 0 arg).2) 0
        = .ok ((fun (h : cpu_host) (_ : DATA 4) => (u32_of 0x32 0x54 0x76 0x98, h)) 0 arg).1 ∧
      (reg.do_write id (0 + 2) (test_reg_b (u32_of 0 0 0 0) (u32_of 0x32 0x54 0x76 0x98)) 0
        ((test_reg_b (u32_of 0 0 0 0) (u32_of 0x32 0x54 0x76 0x98)).cell_range 0 0 4)
        [0x11, 0x22, 0x33, 0x44]).2 =
        (if (test_reg_b (u32_of 0 0 0 0) (u32_of 0x32 0x54 0x76 0x98)).address + 0 * 4 + 0 + 4 < U64
         then outcome.completed else outcome.raised (report.index_out_of_bounds 1)) :=
  ⟨by decide, by decide, by decide,
   do_write_callback id (test_reg_b (u32_of 0 0 0 0) (u32_of 0x32 0x54 0x76 0x98)) 0 0 0 4
    [0x11, 0x22, 0x33, 0x44] 0 (fun h _ => (u32_of 0x32 0x54 0x76 0x98, h))
    (by decide) (by decide) (by decide) (by decide) (by decide) rfl rfl⟩

/-- C7: a `do_read` of one full cell of a register with a read callback and no
tagged-read callback invokes the callback exactly once (it is the only
callback invocation of the call); the destination buffer receives the bytes
of the callback's return value, the host is left as the callback leaves it,
and the cell then holds that return value.  The call ends normally unless the
cell ends at the last `u64` address. -/
theorem do_read_callback {HOST : Type} {sz N : Nat} (cpu : HOST → Int)
    (r : reg HOST sz N) (h : HOST) (idx : Nat) (fuel : Nat) (f : HOST → DATA sz × HOST)
    (hwf : r.wf) (hidx : idx < N) (hr : r.read = some f) (htr : r.tagged_read = none) :
    (reg.do_read cpu (fuel + 2) r h (r.cell_range idx 0 sz)).1.calls = [call.read] ∧
    (reg.do_read cpu (fuel + 2) r h (r.cell_range idx 0 sz)).1.dest = (f h).1.bytes ∧
    (reg.do_read cpu (fuel + 2) r h (r.cell_range idx 0 sz)).1.host = (f h).2 ∧
    (reg.do_read cpu (fuel + 2) r h (r.cell_range idx 0 sz)).1.self.bank_const
      (cpu (f h).2) idx = .ok (f h).1 ∧
    (reg.do_read cpu (fuel + 2) r h (r.cell_range idx 0 sz)).2 =
      (if r.address + idx * sz + sz < U64 then outcome.completed
       else outcome.raised (report.index_out_of_bounds N)) := by
  have hsz : 0 < sz := hwf.1
  have hd : (r.touched (cpu h)).read_dispatch h (r.seen (cpu h) ⟨idx, hidx⟩) idx
      = ((f h).1, (f h).2, [call.read]) :=
    read_dispatch_read _ h _ idx f
      ((touched_fixed r (cpu h)).2.2.2.2.1.trans hr)
      ((touched_fixed r (cpu h)).2.2.2.2.2.2.2.1.trans htr)
  have hrun : reg.do_read cpu (fuel + 2) r h (r.cell_range idx 0 sz) =
      ({ self := (r.touched (cpu h)).assigned (cpu (f h).2) ⟨idx, hidx⟩ (f h).1,
         host := (f h).2,
         addr := ⟨u64_add (r.cell_range idx 0 sz).start sz, (r.cell_range idx 0 sz).end_⟩,
         dest := (f h).1.bytes, calls := [call.read] },
       if r.address + idx * sz + sz < U64 then outcome.completed
       else outcome.raised (report.index_out_of_bounds N)) := by
    unfold reg.do_read
    rw [do_read_loop_cell cpu _ hwf idx 0 sz hidx (by omega) hsz rfl fuel]
    simp only [hd, end_succ r idx 0 sz hsz, List.nil_append, List.drop_zero, Nat.add_zero]
    rw [List.take_of_length_le (le_of_eq (f h).1.size_eq)]
  rw [hrun]
  exact ⟨rfl, rfl, rfl, bank_const_assigned _ _ idx hidx _, rfl⟩

/-- Witness of `do_read_callback`: the read-callback test, a 4-byte read of
`test_reg_b` whose read callback returns `0x1337`; the buffer receives
`37 13 00 00`. -/
theorem do_read_callback_witness :
    (reg.do_read id 2 (test_reg_b (u32_of 0x37 0x13 0 0) (u32_of 0 0 0 0)) 0 ⟨4, 7⟩).1.dest
      = [0x37, 0x13, 0x00, 0x00] ∧
    (u32_of 0x37 0x13 0 0).value = 0x1337 ∧
    ((reg.do_read id (0 + 2) (test_reg_b (u32_of 0x37 0x13 0 0) (u32_of 0 0 0 0)) 0
        ((test_reg_b (u32_of 0x37 0x13 0 0) (u32_of 0 0 0 0)).cell_range 0 0 4)).1.calls
        = [call.read] ∧
     (reg.do_read id (0 + 2) (test_reg_b (u32_of 0x37 0x13 0 0) (u32_of 0 0 0 0)) 0
        ((test_reg_b (u32_of 0x37 0x13 0 0) (u32_of 0 0 0 0)).cell_range 0 0 4)).1.dest
        = ((fun (h : cpu_host) => (u32_of 0x37 0x13 0 0, h)) 0).1.bytes ∧
     (reg.do_read id (0 + 2) (test_reg_b (u32_of 0x37 0x13 0 0) (u32_of 0 0 0 0)) 0
        ((test_reg_b (u32_of 0x37 0x13 0 0) (u32_of 0 0 0 0)).cell_range 0 0 4)).1.host
        = ((fun (h : cpu_host) => (u32_of 0x37 0x13 0 0, h)) 0).2 ∧
     (reg.do_read id (0 + 2) (test_reg_b (u32_of 0x37 0x13 0 0) (u32_of 0 0 0 0)) 0
        ((test_reg_b (u32_of 0x37 0x13 0 0) (u32_of 0 0 0 0)).cell_range 0 0 4)).1.self.bank_const
        (id ((fun (h : cpu_host) => (u32_of 0x37 0x13 0 0, h)) 0).2) 0
        = .ok ((fun (h : cpu_host) => (u32_of 0x37 0x13 0 0, h)) 0).1 ∧
     (reg.do_read id (0 + 2) (test_reg_b (u32_of 0x37 0x13 0 0) (u32_of 0 0 0 0)) 0
        ((test_reg_b (u32_of 0x37 0x13 0 0) (u32_of 0 0 0 0)).cell_range 0 0 4)).2 =
        (if (test_reg_b (u32_of 0x37 0x13 0 0) (u32_of 0 0 0 0)).address + 0 * 4 + 4 < U64
         then outcome.completed else outcome.raised (report.index_out_of_bounds 1))) :=
  ⟨by decide, by decide,
   do_read_callback id (test_reg_b (u32_of 0x37 0x13 0 0) (u32_of 0 0 0 0)) 0 0 0
    (fun h => (u32_of 0x37 0x13 0 0, h)) (by decide) (by decide) rfl rfl⟩

theorem wf_of_address {HOST : Type} {sz N : Nat} (r r1 : reg HOST sz N)
    (ha : r1.address = r.address) (hwf : r.wf) : r1.wf := by
  unfold reg.wf at hwf ⊢
  rw [ha]
  exact hwf

theorem cell_range_of_address {HOST : Type} {sz N : Nat} (r r1 : reg HOST sz N)
    (ha : r1.address = r.address) (idx off n : Nat) :
    r1.cell_range idx off n = r.cell_range idx off n := by
  unfold reg.cell_range
  rw [ha]

/-- C3: on a register without read, write, tagged-read and tagged-write
callback, a `do_write` of the bytes of `v` over the full address range of cell
`idx < N` followed by a `do_read` over the same range puts exactly the bytes
of `v` into the destination buffer, and the cell (of the current bank) holds
`v` after the write and after the read; no callback runs and the host is
unchanged.  Both calls end normally unless the cell ends at the last `u64`
address. -/
theorem register_round_trip {HOST : Type} {sz N : Nat} (cpu : HOST → Int)
    (r : reg HOST sz N) (h : HOST) (idx : Nat) (v : DATA sz) (fuel fuel1 : Nat)
    (hwf : r.wf) (hidx : idx < N)
    (hr : r.read = none) (hw : r.write = none)
    (htr : r.tagged_read = none) (htw : r.tagged_write = none) :
    ∃ w rd, w = reg.do_write cpu (fuel + 2) r h (r.cell_range idx 0 sz) v.bytes ∧
      rd = reg.do_read cpu (fuel1 + 2) w.1.self w.1.host (r.cell_range idx 0 sz) ∧
      rd.1.dest = v.bytes ∧
      w.1.self.bank_const (cpu h) idx = .ok v ∧
      rd.1.self.bank_const (cpu h) idx = .ok v ∧
      w.1.host = h ∧ rd.1.host = h ∧ w.1.calls = [] ∧ rd.1.calls = [] ∧
      w.2 = (if r.address + idx * sz + sz < U64 then outcome.completed
             else outcome.raised (report.index_out_of_bounds N)) ∧
      rd.2 = w.2 := by
  have hsz : 0 < sz := hwf.1
  obtain ⟨val1, hpoke, hbytes⟩ :=
    poke_some (r.seen (cpu h) ⟨idx, hidx⟩) 0 v.bytes sz (by omega) (le_of_eq v.size_eq.symm)
  have hv : val1 = v := by
    apply DATA.eq_of_bytes
    rw [hbytes, List.take_zero, List.nil_append,
      List.take_of_length_le (le_of_eq v.size_eq),
      List.drop_of_length_le (by rw [(r.seen (cpu h) ⟨idx, hidx⟩).size_eq]; omega),
      List.append_nil]
  subst hv
  have hW := do_write_plain cpu r h idx 0 sz val1.bytes fuel hwf hidx (by omega) hsz hw htw
    val1 hpoke
  have ha : ((r.touched (cpu h)).assigned (cpu h) ⟨idx, hidx⟩ val1).address = r.address :=
    (assigned_fixed _ _ _ _).1.trans (touched_fixed _ _).1
  have hcb : ((r.touched (cpu h)).assigned (cpu h) ⟨idx, hidx⟩ val1).read = none ∧
      ((r.touched (cpu h)).assigned (cpu h) ⟨idx, hidx⟩ val1).tagged_read = none :=
    ⟨((assigned_fixed _ _ _ _).2.2.2.2.1.trans (touched_fixed _ _).2.2.2.2.1).trans hr,
     ((assigned_fixed _ _ _ _).2.2.2.2.2.2.2.1.trans (touched_fixed _ _).2.2.2.2.2.2.2.1).trans htr⟩
  have hR := do_read_plain cpu ((r.touched (cpu h)).assigned (cpu h) ⟨idx, hidx⟩ val1) h idx 0 sz
    fuel1 (wf_of_address r _ ha hwf) hidx (by omega) hsz hcb.1 hcb.2
  rw [cell_range_of_address r _ ha, ha, seen_assigned] at hR
  simp only [Nat.add_zero] at hW hR
  rw [List.drop_zero, List.take_of_length_le (le_of_eq val1.size_eq)] at hR
  refine ⟨_, _, rfl, rfl, ?_⟩
  rw [hW]
  refine ⟨?_, bank_const_assigned _ _ idx hidx val1, ?_, rfl, ?_, rfl, ?_, rfl, ?_⟩
  · exact congrArg (fun x => x.1.dest) hR
  · exact (congrArg (fun x => x.1.self.bank_const (cpu h) idx) hR).trans
      (bank_const_assigned _ _ idx hidx val1)
  · exact congrArg (fun x => x.1.host) hR
  · exact congrArg (fun x => x.1.calls) hR
  · exact congrArg (fun x => x.2) hR

/-- Witness of `register_round_trip`: the write test, `11 22 33 44` written to
`test_reg_a` (which then holds `0x44332211`) and read back. -/
theorem register_round_trip_witness :
    ((reg.do_write id 2 test_reg_a 0 ⟨0, 3⟩ [0x11, 0x22, 0x33, 0x44]).1.self.m_value
        ⟨0, by decide⟩).value = 0x44332211 ∧
    ∃ w rd, w = reg.do_write id (0 + 2) test_reg_a 0 (test_reg_a.cell_range 0 0 4)
        (u32_of 0x11 0x22 0x33 0x44).bytes ∧
      rd = reg.do_read id (0 + 2) w.1.self w.1.host (test_reg_a.cell_range 0 0 4) ∧
      rd.1.dest = (u32_of 0x11 0x22 0x33 0x44).bytes ∧
      w.1.self.bank_const (id (0 : cpu_host)) 0 = .ok (u32_of 0x11 0x22 0x33 0x44) ∧
      rd.1.self.bank_const (id (0 : cpu_host)) 0 = .ok (u32_of 0x11 0x22 0x33 0x44) ∧
      w.1.host = 0 ∧ rd.1.host = 0 ∧ w.1.calls = [] ∧ rd.1.calls = [] ∧
      w.2 = (if test_reg_a.address + 0 * 4 + 4 < U64 then outcome.completed
             else outcome.raised (report.index_out_of_bounds 1)) ∧
      rd.2 = w.2 :=
  ⟨by decide,
   register_round_trip id test_reg_a 0 0 (u32_of 0x11 0x22 0x33 0x44) 0 0
    (by decide) (by decide) rfl rfl rfl rfl⟩

/-- C5 (the code at a failing input): on the array register
`reg<HOST, u32, 2>` at address 0 the range `[1, 4]` lies inside the
register's range `[0, 7]`, and the first chunk `do_read` and `do_write`
compute for it is `idx = 0`, `off = 1`, `size = 4 = min(length, sizeof(DATA))`
and not `3 = min(length, sizeof(DATA) - off)`: `off + size` exceeds
`sizeof(DATA)`, so the `memcpy` of both functions runs one byte past the
local cell copy. -/
theorem chunk_overruns_cell :
    array_reg.wf ∧ array_reg.get_range = ⟨0, 7⟩ ∧
    (⟨1, 4⟩ : range).inside array_reg.get_range ∧
    array_reg.chunk ⟨1, 4⟩ = (0, 1, 4) ∧
    min (range.length ⟨1, 4⟩) (4 - 1) = 3 ∧
    ¬ ((array_reg.chunk ⟨1, 4⟩).2.1 + (array_reg.chunk ⟨1, 4⟩).2.2 ≤ 4) ∧
    (reg.do_write id 8 array_reg 0 ⟨1, 4⟩ [0x11, 0x22, 0x33, 0x44]).2
      = outcome.undefined_behaviour ∧
    (reg.do_read id 8 array_reg 0 ⟨1, 4⟩).2 = outcome.undefined_behaviour := by
  refine ⟨by decide, by decide, by decide, by decide, by decide, by decide, by decide, by decide⟩

/-! ### reg::reset -/

theorem foldl_update_init {sz N : Nat} (init : Fin N → DATA sz) (l : List (Fin N))
    (cells : Fin N → DATA sz) (j : Fin N) :
    l.foldl (fun c i => Function.update c i (init i)) cells j
      = if j ∈ l then init j else cells j := by
  induction l generalizing cells with
  | nil => simp
  | cons a l ih =>
    rw [List.foldl_cons, ih]
    by_cases hj : j ∈ l
    · simp [hj]
    · by_cases hja : j = a
      · subst hja
        simp [hj]
      · simp [hj, hja, Function.update_noteq hja]

theorem fill_from_init_eq {HOST : Type} {sz N : Nat} (r : reg HOST sz N)
    (cells : Fin N → DATA sz) : r.fill_from_init cells = r.m_init := by
  funext j
  unfold reg.fill_from_init
  rw [foldl_update_init]
  simp [List.mem_finRange]

/-- C11: after `reg::reset()` every cell of the shared bank-0 storage and every
cell of every allocated bank equals the init value recorded for that cell; a
bank is allocated afterwards exactly if it was allocated before; the init
values and everything else of the register are untouched; and resetting twice
is the same as resetting once. -/
theorem reset_restores_init {HOST : Type} {sz N : Nat} (r : reg HOST sz N) :
    (∀ i, r.reset.m_value i = r.m_init i) ∧
    (∀ k a, r.reset.m_banks k = some a → ∀ i, a i = r.m_init i) ∧
    (∀ k, (r.reset.m_banks k).isSome = (r.m_banks k).isSome) ∧
    r.reset.m_init = r.m_init ∧ r.reset.m_banked = r.m_banked ∧
    r.reset.address = r.address ∧
    r.reset.reset = r.reset := by
  have hv : r.reset.m_value = r.m_init := fill_from_init_eq r r.m_value
  have hb : ∀ k, r.reset.m_banks k = (r.m_banks k).map (fun _ => r.m_init) := by
    intro k
    show (r.m_banks k).map (fun a => r.fill_from_init a) = _
    simp only [fill_from_init_eq]
  refine ⟨fun i => congrFun hv i, ?_, ?_, rfl, rfl, rfl, ?_⟩
  · intro k a ha i
    rw [hb k] at ha
    cases hk : r.m_banks k with
    | none => rw [hk] at ha; exact Option.noConfusion ha
    | some b =>
      rw [hk] at ha
      injection ha with ha
      rw [← ha]
  · intro k
    rw [hb k]
    cases r.m_banks k <;> rfl
  · have h2 : r.reset.reset = { r.reset with
        m_value := r.reset.fill_from_init r.reset.m_value,
        m_banks := fun k => (r.reset.m_banks k).map (fun a => r.reset.fill_from_init a) } := rfl
    rw [h2]
    have e1 : r.reset.fill_from_init r.reset.m_value = r.reset.m_value :=
      (fill_from_init_eq r.reset _).trans hv.symm
    have e2 : (fun k => (r.reset.m_banks k).map (fun a => r.reset.fill_from_init a))
        = r.reset.m_banks := by
      funext k
      simp only [fill_from_init_eq]
      rw [hb k]
      cases r.m_banks k <;> rfl
    rw [e1, e2]

/-! ### generic::memory -/

theorem memcpy_some (dst : List UInt8) (pos : Nat) (src : List UInt8) (n : Nat)
    (hd : pos + n ≤ dst.length) (hs : n ≤ src.length) :
    memcpy dst pos src n = some (dst.take pos ++ (src.take n ++ dst.drop (pos + n))) := by
  unfold memcpy
  rw [if_pos ⟨hd, hs⟩]

theorem spliced_length (dst : List UInt8) (pos : Nat) (src : List UInt8) (n : Nat)
    (hd : pos + n ≤ dst.length) (hs : n ≤ src.length) :
    (dst.take pos ++ (src.take n ++ dst.drop (pos + n))).length = dst.length := by
  simp only [List.length_append, List.length_take, List.length_drop]
  omega

theorem spliced_outside (dst : List UInt8) (pos : Nat) (src : List UInt8) (n : Nat)
    (hd : pos + n ≤ dst.length) (hs : n ≤ src.length) (i : Nat)
    (hi : i < pos ∨ pos + n ≤ i) :
    (dst.take pos ++ (src.take n ++ dst.drop (pos + n)))[i]? = dst[i]? := by
  rcases hi with hi | hi
  · rw [List.getElem?_append_left (by simp only [List.length_take]; omega),
      List.getElem?_take_of_lt hi]
  · have h1 : (dst.take pos).length = pos := by simp only [List.length_take]; omega
    have h2 : (src.take n).length = n := by simp only [List.length_take]; omega
    rw [List.getElem?_append_right (by omega), h1,
      List.getElem?_append_right (by omega), h2, List.getElem?_drop]
    congr 1
    omega

theorem spliced_inside (dst : List UInt8) (pos : Nat) (src : List UInt8) (n : Nat)
    (hd : pos + n ≤ dst.length) (hs : n ≤ src.length) (i : Nat) (hi : i < n) :
    (dst.take pos ++ (src.take n ++ dst.drop (pos + n)))[pos + i]? = src[i]? := by
  have h1 : (dst.take pos).length = pos := by simp only [List.length_take]; omega
  have h2 : (src.take n).length = n := by simp only [List.length_take]; omega
  rw [List.getElem?_append_right (by omega), h1,
    List.getElem?_append_left (by omega), show pos + i - pos = i by omega,
    List.getElem?_take_of_lt hi]

theorem length_in_range (addr : range) (size : Nat) (hr : addr.start ≤ addr.end_)
    (he : addr.end_ < size) (hu : size < U64) :
    addr.length = addr.end_ - addr.start + 1 := by
  have hU := U64_eq
  unfold range.length u64_add u64_sub
  rw [Nat.mod_eq_of_lt (by omega : addr.start < U64)]
  rw [show addr.end_ + U64 - addr.start = addr.end_ - addr.start + U64 by omega]
  rw [Nat.add_mod_right, Nat.mod_eq_of_lt (by omega : addr.end_ - addr.start < U64)]
  exact Nat.mod_eq_of_lt (by omega)

/-- C12: an in-range write (`addr.end < size`) to a read-only memory returns
`TLM_COMMAND_ERROR_RESPONSE` and leaves the memory as it is when the sideband
is not debug; with `is_debug` set it returns `TLM_OK_RESPONSE`, the bytes
`addr.start .. addr.end` of the memory hold the source bytes in order and
every other byte is unchanged. -/
theorem write_readonly (m : memory) (addr : range) (data : List UInt8) (info : tlm_sbi)
    (hwf : m.wf) (hr : addr.start ≤ addr.end_) (he : addr.end_ < m.size)
    (hd : addr.end_ - addr.start + 1 ≤ data.length) (hro : m.readonly = true) :
    (info.is_debug = false →
      m.write addr data info = some (.TLM_COMMAND_ERROR_RESPONSE, m)) ∧
    (info.is_debug = true →
      ∃ m1, m.write addr data info = some (.TLM_OK_RESPONSE, m1) ∧
        m1.size = m.size ∧ m1.readonly = m.readonly ∧
        m1.m_memory.length = m.m_memory.length ∧
        (∀ i, i < addr.end_ - addr.start + 1 → m1.m_memory[addr.start + i]? = data[i]?) ∧
        (∀ i, i < addr.start ∨ addr.end_ < i → m1.m_memory[i]? = m.m_memory[i]?)) := by
  obtain ⟨hlen, _, hu⟩ := hwf
  have hl := length_in_range addr m.size hr he hu
  have hne : ¬ (addr.end_ ≥ m.size) := Nat.not_le.mpr he
  constructor
  · intro hdbg
    unfold memory.write
    rw [if_neg hne]
    simp [hro, hdbg]
  · intro hdbg
    have hfit : addr.start + addr.length ≤ m.m_memory.length := by rw [hl, hlen]; omega
    have hsrc : addr.length ≤ data.length := by rw [hl]; exact hd
    refine ⟨{ m with m_memory := m.m_memory.take addr.start ++
        (data.take addr.length ++ m.m_memory.drop (addr.start + addr.length)) }, ?_, rfl, rfl,
      spliced_length _ _ _ _ hfit hsrc, ?_, ?_⟩
    · unfold memory.write
      rw [if_neg hne, memcpy_some _ _ _ _ hfit hsrc]
      simp [hro, hdbg]
    · intro i hi
      exact spliced_inside _ _ _ _ hfit hsrc i (by rw [hl]; exact hi)
    · intro i hi
      exact spliced_outside _ _ _ _ hfit hsrc i (by rw [hl]; omega)

/-- Witness of `write_readonly`: `aa bb` written to the bytes 2..3 of the
read-only 8-byte memory, without and with the debug flag. -/
theorem write_readonly_witness :
    rom8.write ⟨2, 3⟩ [0xaa, 0xbb] SBI_NONE = some (.TLM_COMMAND_ERROR_RESPONSE, rom8) ∧
    rom8.write ⟨2, 3⟩ [0xaa, 0xbb] SBI_DEBUG
      = some (.TLM_OK_RESPONSE, { rom8 with m_memory := [0, 1, 0xaa, 0xbb, 4, 5, 6, 7] }) ∧
    (∃ m1, rom8.write ⟨2, 3⟩ [0xaa, 0xbb] SBI_DEBUG = some (.TLM_OK_RESPONSE, m1) ∧
        m1.size = rom8.size ∧ m1.readonly = rom8.readonly ∧
        m1.m_memory.length = rom8.m_memory.length ∧
        (∀ i, i < 3 - 2 + 1 → m1.m_memory[2 + i]? = ([0xaa, 0xbb] : List UInt8)[i]?) ∧
        (∀ i, i < 2 ∨ 3 < i → m1.m_memory[i]? = rom8.m_memory[i]?)) :=
  ⟨(write_readonly rom8 ⟨2, 3⟩ [0xaa, 0xbb] SBI_NONE (by decide) (by decide) (by decide)
      (by decide) rfl).1 (by decide),
   by decide,
   (write_readonly rom8 ⟨2, 3⟩ [0xaa, 0xbb] SBI_DEBUG (by decide) (by decide) (by decide)
      (by decide) rfl).2 (by decide)⟩

/-- C13: `memory::read` and `memory::write` return
`TLM_ADDRESS_ERROR_RESPONSE` when `addr.end >= size`, and then the caller's
buffer and the memory are as before; when `addr.end < size` (for a range with
`start <= end` and a buffer that holds the range) neither returns
`TLM_ADDRESS_ERROR_RESPONSE`: `read` returns `TLM_OK_RESPONSE` and fills the
buffer with the memory bytes `addr.start .. addr.end` and nothing else,
`write` leaves every memory byte outside `addr.start .. addr.end` as it was. -/
theorem memory_address_error (m : memory) (addr : range) (data : List UInt8) (info : tlm_sbi)
    (hwf : m.wf) :
    (addr.end_ ≥ m.size →
      m.read addr data info = some (.TLM_ADDRESS_ERROR_RESPONSE, data) ∧
      m.write addr data info = some (.TLM_ADDRESS_ERROR_RESPONSE, m)) ∧
    (addr.end_ < m.size → addr.start ≤ addr.end_ →
      addr.end_ - addr.start + 1 ≤ data.length →
      (∃ d, m.read addr data info = some (.TLM_OK_RESPONSE, d) ∧
        d.length = data.length ∧
        (∀ i, i < addr.end_ - addr.start + 1 → d[i]? = m.m_memory[addr.start + i]?) ∧
        (∀ i, addr.end_ - addr.start + 1 ≤ i → d[i]? = data[i]?)) ∧
      (∃ rs m1, m.write addr data info = some (rs, m1) ∧
        rs ≠ .TLM_ADDRESS_ERROR_RESPONSE ∧
        m1.size = m.size ∧ m1.m_memory.length = m.m_memory.length ∧
        (∀ i, i < addr.start ∨ addr.end_ < i → m1.m_memory[i]? = m.m_memory[i]?))) := by
  obtain ⟨hlen, _, hu⟩ := hwf
  constructor
  · intro hge
    unfold memory.read memory.write
    rw [if_pos hge, if_pos hge]
    exact ⟨rfl, rfl⟩
  · intro he hr hd
    have hl := length_in_range addr m.size hr he hu
    have hne : ¬ (addr.end_ ≥ m.size) := Nat.not_le.mpr he
    have hfit : addr.start + addr.length ≤ m.m_memory.length := by rw [hl, hlen]; omega
    have hsrc : addr.length ≤ data.length := by rw [hl]; exact hd
    constructor
    · have hfit0 : 0 + addr.length ≤ data.length := by omega
      have hsrc0 : addr.length ≤ (m.m_memory.drop addr.start).length := by
        rw [List.length_drop]; omega
      refine ⟨_, ?_, spliced_length _ _ _ _ hfit0 hsrc0, ?_, ?_⟩
      · unfold memory.read
        rw [if_neg hne, memcpy_some _ _ _ _ hfit0 hsrc0]
      · intro i hi
        have := spliced_inside data 0 (m.m_memory.drop addr.start) addr.length hfit0 hsrc0 i
          (by rw [hl]; exact hi)
        simp only [Nat.zero_add] at this ⊢
        rw [this, List.getElem?_drop]
      · intro i hi
        exact spliced_outside data 0 (m.m_memory.drop addr.start) addr.length hfit0 hsrc0 i
          (Or.inr (by rw [hl]; omega))
    · cases hc : (m.readonly && !info.is_debug) with
      | true =>
        refine ⟨.TLM_COMMAND_ERROR_RESPONSE, m, ?_, by decide, rfl, rfl, fun _ _ => rfl⟩
        unfold memory.write
        rw [if_neg hne, hc]
        rfl
      | false =>
        refine ⟨.TLM_OK_RESPONSE, { m with m_memory := m.m_memory.take addr.start ++
          (data.take addr.length ++ m.m_memory.drop (addr.start + addr.length)) }, ?_,
          by decide, rfl, spliced_length _ _ _ _ hfit hsrc, ?_⟩
        · unfold memory.write
          rw [if_neg hne, hc, memcpy_some _ _ _ _ hfit hsrc]
          rfl
        · intro i hi
          exact spliced_outside _ _ _ _ hfit hsrc i (by rw [hl]; omega)

/-- Witness of `memory_address_error`: the 8-byte memory accessed at the
bytes 6..8 (one byte too far) and at the bytes 6..7. -/
theorem memory_address_error_witness :
    ram8.read ⟨6, 8⟩ [0xcc, 0xcc, 0xcc] SBI_NONE
      = some (.TLM_ADDRESS_ERROR_RESPONSE, [0xcc, 0xcc, 0xcc]) ∧
    ram8.write ⟨6, 8⟩ [0xaa, 0xbb, 0xcc] SBI_NONE = some (.TLM_ADDRESS_ERROR_RESPONSE, ram8) ∧
    ram8.read ⟨6, 7⟩ [0xcc, 0xcc, 0xcc] SBI_NONE = some (.TLM_OK_RESPONSE, [6, 7, 0xcc]) ∧
    ram8.write ⟨6, 7⟩ [0xaa, 0xbb, 0xcc] SBI_NONE
      = some (.TLM_OK_RESPONSE, { ram8 with m_memory := [0, 1, 2, 3, 4, 5, 0xaa, 0xbb] }) ∧
    ((8 : Nat) ≥ ram8.size →
      ram8.read ⟨6, 8⟩ [0xcc, 0xcc, 0xcc] SBI_NONE
        = some (.TLM_ADDRESS_ERROR_RESPONSE, [0xcc, 0xcc, 0xcc]) ∧
      ram8.write ⟨6, 8⟩ [0xcc, 0xcc, 0xcc] SBI_NONE
        = some (.TLM_ADDRESS_ERROR_RESPONSE, ram8)) :=
  ⟨by decide, by decide, by decide, by decide,
   (memory_address_error ram8 ⟨6, 8⟩ [0xcc, 0xcc, 0xcc] SBI_NONE (by decide)).1⟩

/-- C16: `memory::load(file, offset)` leaves the memory as it is when
`offset >= size` (and when the file cannot be opened); otherwise it copies the
first `min(file_length, size - offset)` bytes of the file to the memory bytes
from `offset` on, which all lie below `size`, and leaves every other memory
byte unchanged. -/
theorem load_copies (m : memory) (file : Option (List UInt8)) (offset : Nat) (hwf : m.wf) :
    (offset ≥ m.size → m.load file offset = some m) ∧
    (file = none → m.load file offset = some m) ∧
    (∀ content, file = some content → offset < m.size →
      ∃ m1, m.load file offset = some m1 ∧
        m1.size = m.size ∧ m1.readonly = m.readonly ∧ m1.m_memory.length = m.size ∧
        offset + min content.length (m.size - offset) ≤ m.size ∧
        (∀ i, i < min content.length (m.size - offset) →
          m1.m_memory[offset + i]? = content[i]?) ∧
        (∀ i, i < offset ∨ offset + min content.length (m.size - offset) ≤ i →
          m1.m_memory[i]? = m.m_memory[i]?)) := by
  obtain ⟨hlen, _, hu⟩ := hwf
  have hU := U64_eq
  refine ⟨?_, ?_, ?_⟩
  · intro hge
    unfold memory.load
    cases file with
    | none => rfl
    | some content => simp only; rw [if_pos hge]
  · intro hf
    rw [hf]
    rfl
  · intro content hf hlt
    have hsub : u64_sub m.size offset = m.size - offset := by
      unfold u64_sub
      rw [Nat.mod_eq_of_lt (by omega : offset < U64)]
      rw [show m.size + U64 - offset = m.size - offset + U64 by omega, Nat.add_mod_right]
      exact Nat.mod_eq_of_lt (by omega)
    have hn : (if content.length > u64_sub m.size offset then u64_sub m.size offset
        else content.length) = min content.length (m.size - offset) := by
      rw [hsub]
      split <;> omega
    have hfit : offset + min content.length (m.size - offset) ≤ m.m_memory.length := by
      rw [hlen]; omega
    have hsrc : min content.length (m.size - offset) ≤ content.length := Nat.min_le_left _ _
    refine ⟨{ m with m_memory := m.m_memory.take offset ++
        (content.take (min content.length (m.size - offset)) ++
          m.m_memory.drop (offset + min content.length (m.size - offset))) }, ?_, rfl, rfl,
      (spliced_length _ _ _ _ hfit hsrc).trans hlen, by omega, ?_, ?_⟩
    · rw [hf]
      unfold memory.load
      simp only
      rw [if_neg (Nat.not_le.mpr hlt), hn, memcpy_some _ _ _ _ hfit hsrc]
    · intro i hi
      exact spliced_inside _ _ _ _ hfit hsrc i hi
    · intro i hi
      exact spliced_outside _ _ _ _ hfit hsrc i hi

/-- Witness of `load_copies`: a 5-byte image loaded at offset 6 of the 8-byte
memory is truncated to 2 bytes; loaded at offset 8 it changes nothing. -/
theorem load_copies_witness :
    ram8.load (some [0xa0, 0xa1, 0xa2, 0xa3, 0xa4]) 6
      = some { ram8 with m_memory := [0, 1, 2, 3, 4, 5, 0xa0, 0xa1] } ∧
    ((8 : Nat) ≥ ram8.size → ram8.load (some [0xa0, 0xa1, 0xa2, 0xa3, 0xa4]) 8 = some ram8) :=
  ⟨by decide, (load_copies ram8 (some [0xa0, 0xa1, 0xa2, 0xa3, 0xa4]) 8 (by decide)).1⟩

/-! ### The placement of the memory -/

theorem two_pow_lt_U64 (a : Nat) (ha : a < 64) : 2 ^ a < U64 := by
  unfold U64
  exact Nat.pow_lt_pow_right (by decide) ha

theorem extra_eq (a : Nat) (ha : a < 64) : memory.extra a = 2 ^ a - 1 := by
  have hp := two_pow_lt_U64 a ha
  have hpos : 0 < 2 ^ a := Nat.two_pow_pos _
  have hU := U64_eq
  unfold memory.extra u64_sub
  rw [Nat.shiftLeft_eq, Nat.one_mul, Nat.mod_eq_of_lt hp,
    Nat.mod_eq_of_lt (by omega : 1 < U64)]
  rw [show 2 ^ a + U64 - 1 = 2 ^ a - 1 + U64 by omega, Nat.add_mod_right]
  exact Nat.mod_eq_of_lt (by omega)

theorem and_align_mask (x a : Nat) (hx : x < U64) (ha : a < 64) :
    x &&& (U64 - 1 - (2 ^ a - 1)) = x / 2 ^ a * 2 ^ a := by
  have hpos : 0 < 2 ^ a := Nat.two_pow_pos _
  have hsplit : 2 ^ a * 2 ^ (64 - a) = U64 := by
    unfold U64
    rw [← Nat.pow_add]
    congr 1
    omega
  have hmask : U64 - 1 - (2 ^ a - 1) = 2 ^ a * (2 ^ (64 - a) - 1) := by
    rw [Nat.mul_sub_one, hsplit]
    omega
  rw [hmask, Nat.mul_comm (x / 2 ^ a) (2 ^ a)]
  apply Nat.eq_of_testBit_eq
  intro i
  rw [Nat.testBit_and, Nat.testBit_mul_pow_two, Nat.testBit_mul_pow_two,
    Nat.testBit_two_pow_sub_one, ← Nat.shiftRight_eq_div_pow, Nat.testBit_shiftRight]
  by_cases hia : a ≤ i
  · have e : a + (i - a) = i := by omega
    rw [e]
    by_cases hi : i < 64
    · have : i - a < 64 - a := by omega
      simp [hia, this]
    · have hxi : x < 2 ^ i := by
        have : (2 : Nat) ^ 64 ≤ 2 ^ i := Nat.pow_le_pow_right (by decide) (by omega)
        unfold U64 at hx
        omega
      rw [Nat.testBit_lt_two_pow hxi]
      simp
  · simp [hia]

/-- The pointer arithmetic of the constructor where the mapping is granted: for
`align < 64`, a non-zero `size` and a mapping at `base` with
`base + 2^align - 1` below `2^64`, the constructor keeps `m_base = base` and
chooses `m_memory = (base + extra) & ~extra` with `extra = 2^align - 1`; that
pointer is a multiple of `2^align`, is the smallest multiple that is not below
`base`, lies in `base .. base + extra`, and the `size` bytes from it on end
within `size + extra` bytes from `base` (which is the length that was mapped
whenever `size + extra` is a `u64`).  An `align` of 64 or more is rejected
with an error, whatever the size and the mapping. -/
theorem aligned_pointer (sz align base : Nat) (mmap : Nat → Option Nat)
    (ha : align < 64) (hb : base + (2 ^ align - 1) < U64) (hsz : sz ≠ 0)
    (hm : mmap (u64_add sz (memory.extra align)) = some base) :
    memory.extra align = 2 ^ align - 1 ∧
    memory.place sz align mmap = .ok (base, memory.aligned base align) ∧
    2 ^ align ∣ memory.aligned base align ∧
    base ≤ memory.aligned base align ∧
    memory.aligned base align ≤ base + (2 ^ align - 1) ∧
    (∀ q, 2 ^ align ∣ q → base ≤ q → memory.aligned base align ≤ q) ∧
    memory.aligned base align + sz ≤ base + (sz + (2 ^ align - 1)) ∧
    (sz + (2 ^ align - 1) < U64 → u64_add sz (memory.extra align) = sz + (2 ^ align - 1)) ∧
    (∀ (s a : Nat) (f : Nat → Option Nat), 64 ≤ a →
      memory.place s a f = .error (if s = 0 then memory_report.memory_size_cannot_be_0
        else memory_report.requested_alignment_too_big)) := by
  have hpos : 0 < 2 ^ align := Nat.two_pow_pos _
  have hex := extra_eq align ha
  have hal : memory.aligned base align
      = (base + (2 ^ align - 1)) / 2 ^ align * 2 ^ align := by
    unfold memory.aligned u64_add
    rw [hex, Nat.mod_eq_of_lt hb]
    exact and_align_mask _ align hb ha
  have hdm := Nat.div_add_mod (base + (2 ^ align - 1)) (2 ^ align)
  have hmod := Nat.mod_lt (base + (2 ^ align - 1)) hpos
  have hcomm : (base + (2 ^ align - 1)) / 2 ^ align * 2 ^ align
      = 2 ^ align * ((base + (2 ^ align - 1)) / 2 ^ align) := Nat.mul_comm _ _
  have hlo : base ≤ memory.aligned base align := by rw [hal, hcomm]; omega
  have hhi : memory.aligned base align ≤ base + (2 ^ align - 1) := by
    rw [hal]; exact Nat.div_mul_le_self _ _
  refine ⟨hex, ?_, ?_, hlo, hhi, ?_, by omega, ?_, ?_⟩
  · unfold memory.place
    rw [if_neg hsz, if_neg (by omega : ¬ align ≥ 64), hm]
  · rw [hal]
    exact Dvd.intro_left _ rfl
  · rintro q ⟨k, rfl⟩ hq
    rw [hal, hcomm]
    apply Nat.mul_le_mul_left
    apply Nat.le_of_lt_succ
    apply Nat.div_lt_of_lt_mul
    rw [Nat.mul_succ]
    omega
  · intro hno
    unfold u64_add
    rw [hex]
    exact Nat.mod_eq_of_lt hno
  · intro s a f h64
    unfold memory.place
    by_cases hs : s = 0
    · rw [if_pos hs, if_pos hs]
    · rw [if_neg hs, if_pos h64, if_neg hs]

/-- Witness of `aligned_pointer`: a 4096-byte memory with `align = 12` whose
mapping starts at `0x7f0000000123` is placed at `0x7f0000001000`. -/
theorem aligned_pointer_witness :
    memory.aligned 0x7f0000000123 12 = 0x7f0000001000 ∧
    (memory.extra 12 = 2 ^ 12 - 1 ∧
    memory.place 4096 12 (fun _ => some 0x7f0000000123)
      = .ok (0x7f0000000123, memory.aligned 0x7f0000000123 12) ∧
    2 ^ 12 ∣ memory.aligned 0x7f0000000123 12 ∧
    0x7f0000000123 ≤ memory.aligned 0x7f0000000123 12 ∧
    memory.aligned 0x7f0000000123 12 ≤ 0x7f0000000123 + (2 ^ 12 - 1) ∧
    (∀ q, 2 ^ 12 ∣ q → 0x7f0000000123 ≤ q → memory.aligned 0x7f0000000123 12 ≤ q) ∧
    memory.aligned 0x7f0000000123 12 + 4096 ≤ 0x7f0000000123 + (4096 + (2 ^ 12 - 1)) ∧
    (4096 + (2 ^ 12 - 1) < U64 → u64_add 4096 (memory.extra 12) = 4096 + (2 ^ 12 - 1)) ∧
    (∀ (s a : Nat) (f : Nat → Option Nat), 64 ≤ a →
      memory.place s a f = .error (if s = 0 then memory_report.memory_size_cannot_be_0
        else memory_report.requested_alignment_too_big))) :=
  ⟨by decide,
   aligned_pointer 4096 12 0x7f0000000123 (fun _ => some 0x7f0000000123)
    (by decide) (by decide) (by decide) rfl⟩

/-- C14 at a memory of `2^64 - 1` bytes with `align = 2`: `extra` is 3 and
`size + extra = 2^64 + 2` wraps to 2 in `u64`, so `mmap` is asked for 2 bytes.
When it grants them at `0x7f0000001000` the constructor succeeds with
`m_memory = 0x7f0000001000`, a multiple of 4 within `base .. base + extra`;
but the `size` bytes from `m_memory` on are not inside the 2 bytes that were
mapped: already the byte at offset 2 lies outside. -/
theorem memory_mapping_wraps :
    memory.extra 2 = 3 ∧ (2 ^ 64 - 1) + memory.extra 2 = 2 ^ 64 + 2 ∧
    u64_add (2 ^ 64 - 1) (memory.extra 2) = 2 ∧
    (memory.place (2 ^ 64 - 1) 2
        (fun length => if length = 2 then some 0x7f0000001000 else none)).toOption
      = some (0x7f0000001000, 0x7f0000001000) ∧
    memory.aligned 0x7f0000001000 2 = 0x7f0000001000 ∧
    ¬ (memory.aligned 0x7f0000001000 2 + (2 ^ 64 - 1)
        ≤ 0x7f0000001000 + u64_add (2 ^ 64 - 1) (memory.extra 2)) ∧
    (memory.place (2 ^ 64 - 1) 2
        (fun length => if length = 2 ^ 64 + 2 then some 0x7f0000001000 else none)).toOption
      = none := by
  decide

/-! ### images_from_string -/

theorem split_eq (s : List Char) (d : Char) :
    split s d = s.takeWhile (fun c => c != d) ::
      (match s.dropWhile (fun c => c != d) with
        | [] => []
        | _ :: r => split r d) := by
  induction s with
  | nil => rfl
  | cons c cs ih =>
    by_cases hc : c = d
    · subst hc
      simp [split, List.takeWhile, List.dropWhile]
    · have hne : (c != d) = true := by simp [hc]
      rw [split, if_neg hc, ih]
      simp only [List.takeWhile, List.dropWhile, hne]

theorem filterMap_skip {α β : Type} (p : α → Bool) (g : α → β) (l : List α) :
    l.filterMap (fun x => if p x then none else some (g x))
      = (l.filter (fun x => !p x)).map g := by
  induction l with
  | nil => rfl
  | cons a l ih =>
    cases hp : p a <;> simp [List.filterMap_cons, List.filter_cons, hp, ih]

theorem images_entry (cur : List Char) :
    (match split cur '@' with
      | [] => none
      | file :: rest =>
        some ({ file := file,
                offset := match rest with
                  | [] => 0
                  | o :: _ => strtoull o } : image_info))
      = some (image_of_token cur) := by
  rw [split_eq cur '@']
  unfold image_of_token
  cases h : cur.dropWhile (fun c => c != '@') with
  | nil => rfl
  | cons a r =>
    simp only
    rw [split_eq r '@']

theorem images_from_string_eq (s : List Char) :
    images_from_string split s
      = ((split (s.filter (fun c => !isspace c)) ';').filter (fun cur => !cur.isEmpty)).map
          image_of_token := by
  unfold images_from_string
  simp only [images_entry]
  exact filterMap_skip (fun cur => cur.isEmpty) image_of_token _

theorem digits_value_all (base : Nat) (ds : List Char) (acc : Nat)
    (h : all_digits base ds = true) :
    digits_value base ds acc
      = ds.foldl (fun a c => a * base + (digit_of c).getD 0) acc := by
  induction ds generalizing acc with
  | nil => rfl
  | cons c cs ih =>
    unfold all_digits at h
    rw [List.all_cons, Bool.and_eq_true] at h
    obtain ⟨hc, hcs⟩ := h
    cases hd : digit_of c with
    | none => rw [hd] at hc; simp at hc
    | some v =>
      rw [hd] at hc
      have hv : v < base := by simpa using hc
      rw [digits_value, hd]
      simp only [hv, if_true, List.foldl_cons]
      rw [hd, Option.getD_some]
      exact ih _ hcs

theorem digit_lt_ten (c : Char) (h : (digit_of c).any (fun v => decide (v < 10)) = true) :
    48 ≤ c.toNat ∧ c.toNat ≤ 57 := by
  unfold digit_of at h
  split at h
  · assumption
  · split at h
    · simp at h
    · split at h
      · simp at h
      · simp at h

theorem toNat_of_eq (c d : Char) (h : c = d) : c.toNat = d.toNat := by rw [h]

theorem strtoull_base_decimal (c : Char) (cs : List Char) (hc : c ≠ '0') :
    strtoull_base (c :: cs) = (10, c :: cs) := by
  match cs with
  | [] => simp [strtoull_base, hc]
  | [x] => simp [strtoull_base, hc]
  | x :: d :: r => simp [strtoull_base, hc]

theorem strtoull_decimal (c : Char) (cs : List Char) (hd : all_digits 10 (c :: cs) = true)
    (hc : c ≠ '0') (hv : numeral 10 (c :: cs) < U64) :
    strtoull (c :: cs) = numeral 10 (c :: cs) := by
  have hc10 : 48 ≤ c.toNat ∧ c.toNat ≤ 57 := by
    unfold all_digits at hd
    rw [List.all_cons, Bool.and_eq_true] at hd
    exact digit_lt_ten c hd.1
  have hsp : isspace c = false := by
    unfold isspace
    simp only [Bool.or_eq_false_iff, Bool.and_eq_false_iff, decide_eq_false_iff_not]
    omega
  have hminus : c ≠ '-' := fun h => by
    have := toNat_of_eq c '-' h
    have h45 : ('-' : Char).toNat = 45 := by decide
    omega
  have hplus : c ≠ '+' := fun h => by
    have := toNat_of_eq c '+' h
    have h43 : ('+' : Char).toNat = 43 := by decide
    omega
  have hval : digits_value 10 (c :: cs) 0 = numeral 10 (c :: cs) :=
    digits_value_all 10 (c :: cs) 0 hd
  unfold strtoull
  simp only [List.dropWhile, hsp, strtoull_sign, hminus, hplus, if_false,
    strtoull_base_decimal c cs hc, hval]
  rw [if_neg (Nat.not_le.mpr hv)]
  simp

theorem strtoull_sign_zero (cs : List Char) :
    strtoull_sign ('0' :: cs) = (false, '0' :: cs) := by
  have h1 : ('0' : Char) ≠ '-' := by decide
  have h2 : ('0' : Char) ≠ '+' := by decide
  simp only [strtoull_sign, h1, h2, if_false]

theorem strtoull_base_octal (cs : List Char) (hd : all_digits 8 cs = true) :
    strtoull_base ('0' :: cs) = (8, '0' :: cs) := by
  match cs with
  | [] => simp [strtoull_base]
  | [x] => simp [strtoull_base]
  | x :: d :: r =>
    have hx : ¬ (x = 'x' ∨ x = 'X') := by
      unfold all_digits at hd
      rw [List.all_cons, Bool.and_eq_true] at hd
      have h1 := hd.1
      rintro (h | h) <;> subst h <;> simp [digit_of] at h1
    simp [strtoull_base, hx]

theorem strtoull_octal (cs : List Char) (hd : all_digits 8 cs = true)
    (hv : numeral 8 cs < U64) :
    strtoull ('0' :: cs) = numeral 8 cs := by
  have hd0 : all_digits 8 ('0' :: cs) = true := by
    unfold all_digits at hd ⊢
    rw [List.all_cons, hd]
    decide
  have hval : digits_value 8 ('0' :: cs) 0 = numeral 8 cs := by
    rw [digits_value_all 8 ('0' :: cs) 0 hd0]
    unfold numeral
    rw [List.foldl_cons]
    rfl
  have hsp : isspace '0' = false := by decide
  unfold strtoull
  simp only [List.dropWhile, hsp, strtoull_sign_zero, strtoull_base_octal cs hd, hval]
  rw [if_neg (Nat.not_le.mpr hv)]
  simp

theorem strtoull_hex (x d : Char) (ds : List Char) (hx : x = 'x' ∨ x = 'X')
    (hd : all_digits 16 (d :: ds) = true) (hv : numeral 16 (d :: ds) < U64) :
    strtoull ('0' :: x :: d :: ds) = numeral 16 (d :: ds) := by
  have hd1 : (digit_of d).any (fun v => decide (v < 16)) = true := by
    unfold all_digits at hd
    rw [List.all_cons, Bool.and_eq_true] at hd
    exact hd.1
  have hval : digits_value 16 (d :: ds) 0 = numeral 16 (d :: ds) :=
    digits_value_all 16 (d :: ds) 0 hd
  have hsp : isspace '0' = false := by decide
  have hb : strtoull_base ('0' :: x :: d :: ds) = (16, d :: ds) := by
    simp [strtoull_base, hx, hd1]
  unfold strtoull
  simp only [List.dropWhile, hsp, strtoull_sign_zero, hb, hval]
  rw [if_neg (Nat.not_le.mpr hv)]
  simp

/-- C15 (as stated, refuted): the entry `a@010` yields the offset 8, because
`strtoull` with base 0 reads the leading `0` as the octal prefix, while the
decimal reading of `010` is 10. -/
theorem images_octal_offset :
    images_from_string split "a@010".toList = [{ file := "a".toList, offset := 8 }] ∧
    decimal_or_hex "010".toList = 10 := by
  constructor <;> decide

/-- C15 (amended): `images_from_string(s)` returns, in order, exactly one entry
for each non-empty `;`-separated token of `s` with all white space removed;
the file is the token's text before the first `@`, the offset is 0 without
`@` and otherwise what `strtoull` with base 0 reads from the text after it:
the decimal value of a numeral without leading 0, the hexadecimal value after
`0x` or `0X`, and the octal value of a numeral with a leading 0.  Texts that
agree after removing white space give the same result, so inserting a
white-space character anywhere changes nothing. -/
theorem images_from_string_spec :
    (∀ s, images_from_string split s
      = ((split (s.filter (fun c => !isspace c)) ';').filter (fun cur => !cur.isEmpty)).map
          image_of_token) ∧
    (∀ (sp : List Char → Char → List (List Char)) (s t : List Char),
      s.filter (fun c => !isspace c) = t.filter (fun c => !isspace c) →
      images_from_string sp s = images_from_string sp t) ∧
    (∀ (sp : List Char → Char → List (List Char)) (a b : List Char) (w : Char),
      isspace w = true → images_from_string sp (a ++ w :: b) = images_from_string sp (a ++ b)) ∧
    (∀ (c : Char) (cs : List Char), all_digits 10 (c :: cs) = true → c ≠ '0' →
      numeral 10 (c :: cs) < U64 → strtoull (c :: cs) = numeral 10 (c :: cs)) ∧
    (∀ (x d : Char) (ds : List Char), x = 'x' ∨ x = 'X' → all_digits 16 (d :: ds) = true →
      numeral 16 (d :: ds) < U64 → strtoull ('0' :: x :: d :: ds) = numeral 16 (d :: ds)) ∧
    (∀ cs : List Char, all_digits 8 cs = true → numeral 8 cs < U64 →
      strtoull ('0' :: cs) = numeral 8 cs) := by
  refine ⟨images_from_string_eq, ?_, ?_, strtoull_decimal, strtoull_hex, strtoull_octal⟩
  · intro sp s t h
    unfold images_from_string
    simp only [h]
  · intro sp a b w hw
    unfold images_from_string
    simp only [List.filter_append, List.filter_cons, hw, Bool.not_true, Bool.false_eq_true,
      if_false]

/-! ### master_socket::send and master_socket::access -/

theorem send_transport_debug {W : Type} (m : master_socket W) (s : socket_state W)
    (tx : tlm_generic_payload) (info : tlm_sbi) (hdbg : info.is_debug = true) :
    m.send_transport s tx info =
      if (m.thctl_is_sysc_thread (m.transport_dbg s.world tx).1 &&
          m.sc_time_stamp s.world != m.sc_time_stamp (m.transport_dbg s.world tx).1) = true then
        .error .time_advanced_during_debug_call
      else
        .ok ((m.transport_dbg s.world tx).2.2 % U32, (m.transport_dbg s.world tx).2.1,
          { s with world := (m.transport_dbg s.world tx).1,
                   calls := s.calls ++ [socket_call.transport_dbg tx] }) := by
  unfold master_socket.send_transport
  rw [if_pos hdbg]

theorem send_dmi_local_time {W : Type} (m : master_socket W) (s : socket_state W)
    (tx : tlm_generic_payload) :
    (m.send_dmi s tx).2.local_time = s.local_time ∧
    ∀ c ∈ (m.send_dmi s tx).2.calls, c = socket_call.sync → c ∈ s.calls := by
  unfold master_socket.send_dmi
  by_cases h : (m.allow_dmi && tx.dmi_allowed) = true
  · rw [if_pos h]
    simp only
    cases hr : (m.get_direct_mem_ptr s.world tx).2.2 with
    | none =>
      refine ⟨rfl, ?_⟩
      intro c hc hs
      subst hs
      simp only [List.mem_append, List.mem_singleton] at hc
      rcases hc with hc | hc
      · exact hc
      · exact absurd hc (by simp)
    | some dmi =>
      refine ⟨rfl, ?_⟩
      intro c hc hs
      subst hs
      simp only [List.mem_append, List.mem_cons, List.mem_singleton, List.not_mem_nil,
        or_false] at hc
      rcases hc with hc | hc | hc
      · exact hc
      · exact absurd hc (by simp)
      · exact absurd hc (by simp)
  · rw [if_neg h]
    exact ⟨rfl, fun c hc _ => hc⟩

theorem send_debug {W : Type} (m : master_socket W) (s : socket_state W)
    (tx : tlm_generic_payload) (info : tlm_sbi) (hdbg : info.is_debug = true) :
    (m.send s tx info = .error .time_advanced_during_debug_call ∧
      ∃ w t, m.sc_time_stamp (m.transport_dbg w t).1 ≠ m.sc_time_stamp w) ∨
    (∃ n tx1 s1, m.send s tx info = .ok (n, tx1, s1) ∧ s1.local_time = s.local_time ∧
      ∀ c ∈ s1.calls, c = socket_call.sync → c ∈ s.calls) := by
  unfold master_socket.send
  simp only
  by_cases h1 : tx.streaming_width = 0 ∨ tx.streaming_width > tx.data_length ∨
      tx.data_length % tx.streaming_width ≠ 0
  · rw [if_pos h1]
    exact Or.inr ⟨_, _, _, rfl, rfl, fun c hc _ => hc⟩
  · rw [if_neg h1]
    by_cases h2 : tx.byte_enable_ptr.isSome = true ∧ tx.byte_enable_length = 0
    · rw [if_pos h2]
      exact Or.inr ⟨_, _, _, rfl, rfl, fun c hc _ => hc⟩
    · rw [if_neg h2]
      generalize tx_set_sbi _ (m.m_sbi.or info) = tx1
      rw [send_transport_debug m s tx1 info hdbg]
      by_cases hcond : (m.thctl_is_sysc_thread (m.transport_dbg s.world tx1).1 &&
          m.sc_time_stamp s.world != m.sc_time_stamp (m.transport_dbg s.world tx1).1) = true
      · rw [if_pos hcond]
        refine Or.inl ⟨rfl, s.world, tx1, ?_⟩
        simp only [Bool.and_eq_true, bne_iff_ne, ne_eq] at hcond
        exact fun h => hcond.2 h.symm
      · rw [if_neg hcond]
        refine Or.inr ⟨_, _, _, rfl, ?_, ?_⟩
        · exact (send_dmi_local_time m _ _).1
        · intro c hc hs
          have := (send_dmi_local_time m _ _).2 c hc hs
          subst hs
          simp only [List.mem_append, List.mem_singleton] at this
          rcases this with h | h
          · exact h
          · exact absurd h (by simp)

theorem dmi_copy_frame {W : Type} (hm : host_memory W) (s : socket_state W) (dmi : tlm_dmi)
    (cmd : tlm_command) (addr : Nat) (data : List UInt8) (size : Nat) :
    (master_socket.dmi_copy hm s dmi cmd addr data size).2.1.local_time = s.local_time ∧
    (master_socket.dmi_copy hm s dmi cmd addr data size).2.1.calls = s.calls ∧
    (master_socket.dmi_copy hm s dmi cmd addr data size).2.1.m_dmi_cache = s.m_dmi_cache := by
  cases cmd <;> exact ⟨rfl, rfl, rfl⟩

theorem access_dmi_status {W : Type} (m : master_socket W) (hm : host_memory W)
    (s : socket_state W) (cmd : tlm_command) (addr : Nat) (data : List UInt8) (size : Nat)
    (info : tlm_sbi) :
    (m.access_dmi hm s cmd addr data size info = (.TLM_INCOMPLETE_RESPONSE, data, s)) ∨
    (m.access_dmi hm s cmd addr data size info).1 = .TLM_OK_RESPONSE := by
  unfold master_socket.access_dmi
  by_cases h : (info.is_nodmi || info.is_excl) = true
  · rw [if_pos h]
    exact Or.inl rfl
  · rw [if_neg h]
    simp only
    cases dmi_cache_lookup s.m_dmi_cache addr size
        (if info.is_debug = true then tlm_command.TLM_READ_COMMAND else cmd) with
    | none => exact Or.inl rfl
    | some dmi => exact Or.inr rfl

theorem access_dmi_debug {W : Type} (m : master_socket W) (hm : host_memory W)
    (s : socket_state W) (cmd : tlm_command) (addr : Nat) (data : List UInt8) (size : Nat)
    (info : tlm_sbi) (hdbg : info.is_debug = true) :
    (m.access_dmi hm s cmd addr data size info).2.2.local_time = s.local_time ∧
    (m.access_dmi hm s cmd addr data size info).2.2.calls = s.calls := by
  unfold master_socket.access_dmi
  by_cases h : (info.is_nodmi || info.is_excl) = true
  · rw [if_pos h]
    exact ⟨rfl, rfl⟩
  · rw [if_neg h]
    simp only [hdbg, if_true, Bool.not_true, Bool.and_false, Bool.false_eq_true, if_false]
    cases dmi_cache_lookup s.m_dmi_cache addr size tlm_command.TLM_READ_COMMAND with
    | none => exact ⟨rfl, rfl⟩
    | some dmi =>
      exact ⟨(dmi_copy_frame hm s dmi cmd addr data size).1,
        (dmi_copy_frame hm s dmi cmd addr data size).2.1⟩

/-- C18: when a payload that passes the checks of `send` is sent with `is_excl`
set in the caller's sideband and the payload comes back from the transport
(debug or not) with a sideband extension in which `is_excl` is not set,
`send` returns 0 bytes, whatever the response status and the byte count of
the transport are; when the transport throws, `send` throws the same
report. -/
theorem send_exclusive_lost {W : Type} (m : master_socket W) (s : socket_state W)
    (tx : tlm_generic_payload) (info : tlm_sbi)
    (hw0 : tx.streaming_width ≠ 0) (hw1 : tx.streaming_width ≤ tx.data_length)
    (hw2 : tx.data_length % tx.streaming_width = 0)
    (hbe : ¬ (tx.byte_enable_ptr.isSome = true ∧ tx.byte_enable_length = 0))
    (hex : info.is_excl = true) :
    match m.send_transport s
        (tx_set_sbi { tx with response_status := tlm_response_status.TLM_INCOMPLETE_RESPONSE,
                              dmi_allowed := false } (m.m_sbi.or info)) info with
    | .ok (_, tx2, s2) =>
      tx_is_excl tx2 = false →
        m.send s tx info = .ok (0, (m.send_dmi s2 tx2).1, (m.send_dmi s2 tx2).2)
    | .error e => m.send s tx info = .error e := by
  have hn : ¬ (tx.streaming_width = 0 ∨ tx.streaming_width > tx.data_length ∨
      tx.data_length % tx.streaming_width ≠ 0) := by
    rintro (h | h | h)
    · exact hw0 h
    · exact absurd hw1 (Nat.not_le.mpr h)
    · exact h hw2
  unfold master_socket.send
  simp only [hn, hbe, if_false]
  cases m.send_transport s
      (tx_set_sbi { tx with response_status := tlm_response_status.TLM_INCOMPLETE_RESPONSE,
                            dmi_allowed := false } (m.m_sbi.or info)) info with
  | error e => rfl
  | ok r =>
    obtain ⟨n, tx2, s2⟩ := r
    intro hlost
    simp only [hex, hlost, Bool.not_false, Bool.and_self, if_true]

/-- Witness of `send_exclusive_lost`: the target of `quiet_socket` answers
`TLM_OK_RESPONSE` for the 4-byte payload but drops the sideband extension;
`send` with `SBI_EXCL` returns 0 bytes. -/
theorem send_exclusive_lost_witness :
    (∃ tx1 s1, quiet_socket.send uncached_state (read_payload 4 none 0) SBI_EXCL
        = .ok (0, tx1, s1) ∧
      tx1.response_status = .TLM_OK_RESPONSE ∧ tx1.data_length = 4 ∧ tx_is_excl tx1 = false) ∧
    (match quiet_socket.send_transport uncached_state
        (tx_set_sbi { read_payload 4 none 0 with
            response_status := tlm_response_status.TLM_INCOMPLETE_RESPONSE,
            dmi_allowed := false } (quiet_socket.m_sbi.or SBI_EXCL)) SBI_EXCL with
    | .ok (_, tx2, s2) =>
      tx_is_excl tx2 = false →
        quiet_socket.send uncached_state (read_payload 4 none 0) SBI_EXCL
          = .ok (0, (quiet_socket.send_dmi s2 tx2).1, (quiet_socket.send_dmi s2 tx2).2)
    | .error e => quiet_socket.send uncached_state (read_payload 4 none 0) SBI_EXCL = .error e) :=
  ⟨⟨_, _, rfl, rfl, rfl, rfl⟩,
   send_exclusive_lost quiet_socket uncached_state (read_payload 4 none 0) SBI_EXCL
    (by decide) (by decide) (by decide) (by decide) (by decide)⟩

theorem access_of_debug {W : Type} (m : master_socket W) (hm : host_memory W)
    (setup : tlm_generic_payload → tlm_command → Nat → List UInt8 → Nat → tlm_generic_payload)
    (s : socket_state W) (m_tx m_txd : tlm_generic_payload) (cmd : tlm_command) (addr : Nat)
    (data : List UInt8) (size : Nat) (info : tlm_sbi) (hdbg : info.is_debug = true) :
    (m.access hm setup s m_tx m_txd cmd addr data size info
        = m.access_payload setup s m_txd cmd addr data size info) ∨
    (∃ d s1, m.access hm setup s m_tx m_txd cmd addr data size info
        = .ok { rs := .TLM_OK_RESPONSE, bytes := size, data := d, tx := none, state := s1 } ∧
      s1.local_time = s.local_time ∧ s1.calls = s.calls) := by
  unfold master_socket.access
  simp only [hdbg, Bool.not_true, Bool.false_and, Bool.false_eq_true, if_false, if_true]
  by_cases hc : (cmd != tlm_command.TLM_IGNORE_COMMAND && m.allow_dmi) = true
  · rw [if_pos hc]
    rcases access_dmi_status m hm s cmd addr data size info with h | h
    · rw [h]
      exact Or.inl rfl
    · have hne : ¬ ((m.access_dmi hm s cmd addr data size info).1
          = tlm_response_status.TLM_INCOMPLETE_RESPONSE) := by rw [h]; decide
      rw [if_neg hne, h]
      exact Or.inr ⟨_, _, rfl, access_dmi_debug m hm s cmd addr data size info hdbg⟩
  · rw [if_neg hc]
    exact Or.inl rfl

theorem access_payload_debug {W : Type} (m : master_socket W)
    (setup : tlm_generic_payload → tlm_command → Nat → List UInt8 → Nat → tlm_generic_payload)
    (s : socket_state W) (tx : tlm_generic_payload) (cmd : tlm_command) (addr : Nat)
    (data : List UInt8) (size : Nat) (info : tlm_sbi) (hdbg : info.is_debug = true) :
    (m.access_payload setup s tx cmd addr data size info
        = .error .time_advanced_during_debug_call ∧
      ∃ w t, m.sc_time_stamp (m.transport_dbg w t).1 ≠ m.sc_time_stamp w) ∨
    (∃ n tx1 s1, m.access_payload setup s tx cmd addr data size info
        = .ok { rs := if tx1.response_status = .TLM_INCOMPLETE_RESPONSE then .TLM_OK_RESPONSE
                      else tx1.response_status,
                bytes := n, data := tx1.data, tx := some tx1, state := s1 } ∧
      s1.local_time = s.local_time ∧ ∀ c ∈ s1.calls, c = socket_call.sync → c ∈ s.calls) := by
  unfold master_socket.access_payload
  rcases send_debug m s (setup tx cmd addr data size) info hdbg with ⟨h, hw⟩ | ⟨n, tx1, s1, h, ht, hc⟩
  · rw [h]
    exact Or.inl ⟨rfl, hw⟩
  · rw [h]
    refine Or.inr ⟨n, tx1, s1, ?_, ht, hc⟩
    simp only [hdbg, and_true]

theorem access_debug_payload {W : Type} (m : master_socket W) (hm : host_memory W)
    (setup : tlm_generic_payload → tlm_command → Nat → List UInt8 → Nat → tlm_generic_payload)
    (s : socket_state W) (m_tx m_txd : tlm_generic_payload) (cmd : tlm_command) (addr : Nat)
    (data : List UInt8) (size : Nat) (info : tlm_sbi) (hdbg : info.is_debug = true)
    (hmiss : (cmd != tlm_command.TLM_IGNORE_COMMAND && m.allow_dmi) = true →
      (m.access_dmi hm s cmd addr data size info).1 = .TLM_INCOMPLETE_RESPONSE)
    (hwidth : ¬ ((setup m_txd cmd addr data size).streaming_width = 0 ∨
      (setup m_txd cmd addr data size).streaming_width
        > (setup m_txd cmd addr data size).data_length ∨
      (setup m_txd cmd addr data size).data_length
        % (setup m_txd cmd addr data size).streaming_width ≠ 0))
    (hbe : ¬ ((setup m_txd cmd addr data size).byte_enable_ptr.isSome = true ∧
      (setup m_txd cmd addr data size).byte_enable_length = 0))
    (htime : m.sc_time_stamp
        (m.transport_dbg s.world (m.sent_payload (setup m_txd cmd addr data size) info)).1
      = m.sc_time_stamp s.world) :
    m.access hm setup s m_tx m_txd cmd addr data size info
      = .ok
        { rs :=
            if (m.send_dmi
                  { s with
                    world := (m.transport_dbg s.world
                      (m.sent_payload (setup m_txd cmd addr data size) info)).1,
                    calls := s.calls ++ [socket_call.transport_dbg
                      (m.sent_payload (setup m_txd cmd addr data size) info)] }
                  (m.transport_dbg s.world
                    (m.sent_payload (setup m_txd cmd addr data size) info)).2.1).1.response_status
                = .TLM_INCOMPLETE_RESPONSE
            then .TLM_OK_RESPONSE
            else (m.send_dmi
                  { s with
                    world := (m.transport_dbg s.world
                      (m.sent_payload (setup m_txd cmd addr data size) info)).1,
                    calls := s.calls ++ [socket_call.transport_dbg
                      (m.sent_payload (setup m_txd cmd addr data size) info)] }
                  (m.transport_dbg s.world
                    (m.sent_payload (setup m_txd cmd addr data size) info)).2.1).1.response_status,
          bytes :=
            if (info.is_excl && !tx_is_excl (m.transport_dbg s.world
                (m.sent_payload (setup m_txd cmd addr data size) info)).2.1) = true then 0
            else (m.transport_dbg s.world
                (m.sent_payload (setup m_txd cmd addr data size) info)).2.2 % U32,
          data := (m.send_dmi
                  { s with
                    world := (m.transport_dbg s.world
                      (m.sent_payload (setup m_txd cmd addr data size) info)).1,
                    calls := s.calls ++ [socket_call.transport_dbg
                      (m.sent_payload (setup m_txd cmd addr data size) info)] }
                  (m.transport_dbg s.world
                    (m.sent_payload (setup m_txd cmd addr data size) info)).2.1).1.data,
          tx := some (m.send_dmi
                  { s with
                    world := (m.transport_dbg s.world
                      (m.sent_payload (setup m_txd cmd addr data size) info)).1,
                    calls := s.calls ++ [socket_call.transport_dbg
                      (m.sent_payload (setup m_txd cmd addr data size) info)] }
                  (m.transport_dbg s.world
                    (m.sent_payload (setup m_txd cmd addr data size) info)).2.1).1,
          state := (m.send_dmi
                  { s with
                    world := (m.transport_dbg s.world
                      (m.sent_payload (setup m_txd cmd addr data size) info)).1,
                    calls := s.calls ++ [socket_call.transport_dbg
                      (m.sent_payload (setup m_txd cmd addr data size) info)] }
                  (m.transport_dbg s.world
                    (m.sent_payload (setup m_txd cmd addr data size) info)).2.1).2 } := by
  have hpay : m.access hm setup s m_tx m_txd cmd addr data size info
      = m.access_payload setup s m_txd cmd addr data size info := by
    rcases access_of_debug m hm setup s m_tx m_txd cmd addr data size info hdbg with h | h
    · exact h
    · unfold master_socket.access
      simp only [hdbg, Bool.not_true, Bool.false_and, Bool.false_eq_true, if_false, if_true]
      by_cases hc : (cmd != tlm_command.TLM_IGNORE_COMMAND && m.allow_dmi) = true
      · rw [if_pos hc]
        rcases access_dmi_status m hm s cmd addr data size info with h1 | h1
        · rw [h1]
          rfl
        · have := hmiss hc
          rw [h1] at this
          exact absurd this (by decide)
      · rw [if_neg hc]
        rfl
  rw [hpay]
  unfold master_socket.access_payload master_socket.send
  simp only
  rw [if_neg hwidth, if_neg hbe]
  have htx : tx_set_sbi
      { setup m_txd cmd addr data size with
        response_status := .TLM_INCOMPLETE_RESPONSE, dmi_allowed := false }
      (m.m_sbi.or info) = m.sent_payload (setup m_txd cmd addr data size) info := rfl
  rw [htx, send_transport_debug m s _ info hdbg]
  rw [if_neg (by simp [htime])]
  simp only [hdbg, and_true]

/-- C17: a call of `master_socket::access` with `is_debug` set either returns a
status that is not `TLM_INCOMPLETE_RESPONSE`, or throws "time advanced during
debug call" (and returns nothing); if the debug transport of the target never
changes the kernel time, the call returns.  When the access is not served by
DMI and the payload `tx1` passes the checks of `send`, the target's
`transport_dbg` is called with `tx1` once and the status returned is read
from the payload the target leaves (after the DMI request that may follow):
`TLM_OK_RESPONSE` if that response is `TLM_INCOMPLETE_RESPONSE`, and that
response unchanged otherwise; without a DMI request it is the payload
`transport_dbg` returned.  When the access was served by DMI the status is
`TLM_OK_RESPONSE`. -/
theorem access_debug_never_incomplete {W : Type} (m : master_socket W) (hm : host_memory W)
    (setup : tlm_generic_payload → tlm_command → Nat → List UInt8 → Nat → tlm_generic_payload)
    (s : socket_state W) (m_tx m_txd : tlm_generic_payload) (cmd : tlm_command) (addr : Nat)
    (data : List UInt8) (size : Nat) (info : tlm_sbi) (hdbg : info.is_debug = true) :
    (match m.access hm setup s m_tx m_txd cmd addr data size info with
      | .ok r =>
        r.rs ≠ .TLM_INCOMPLETE_RESPONSE ∧
        (match r.tx with
          | some tx1 =>
            r.rs = if tx1.response_status = .TLM_INCOMPLETE_RESPONSE then .TLM_OK_RESPONSE
                   else tx1.response_status
          | none => r.rs = .TLM_OK_RESPONSE)
      | .error e => e = .time_advanced_during_debug_call) ∧
    ((∀ w t, m.sc_time_stamp (m.transport_dbg w t).1 = m.sc_time_stamp w) →
      ∃ r, m.access hm setup s m_tx m_txd cmd addr data size info = .ok r) ∧
    (∀ (tx1 : tlm_generic_payload) (t : W × tlm_generic_payload × Nat)
        (sd : tlm_generic_payload × socket_state W),
      tx1 = m.sent_payload (setup m_txd cmd addr data size) info →
      t = m.transport_dbg s.world tx1 →
      sd = m.send_dmi
        { s with world := t.1, calls := s.calls ++ [socket_call.transport_dbg tx1] } t.2.1 →
      ((cmd != tlm_command.TLM_IGNORE_COMMAND && m.allow_dmi) = true →
        (m.access_dmi hm s cmd addr data size info).1 = .TLM_INCOMPLETE_RESPONSE) →
      ¬ ((setup m_txd cmd addr data size).streaming_width = 0 ∨
        (setup m_txd cmd addr data size).streaming_width
          > (setup m_txd cmd addr data size).data_length ∨
        (setup m_txd cmd addr data size).data_length
          % (setup m_txd cmd addr data size).streaming_width ≠ 0) →
      ¬ ((setup m_txd cmd addr data size).byte_enable_ptr.isSome = true ∧
        (setup m_txd cmd addr data size).byte_enable_length = 0) →
      m.sc_time_stamp t.1 = m.sc_time_stamp s.world →
      m.access hm setup s m_tx m_txd cmd addr data size info
        = .ok
          { rs := if sd.1.response_status = .TLM_INCOMPLETE_RESPONSE then .TLM_OK_RESPONSE
                  else sd.1.response_status,
            bytes := if (info.is_excl && !tx_is_excl t.2.1) = true then 0 else t.2.2 % U32,
            data := sd.1.data, tx := some sd.1, state := sd.2 } ∧
      ((m.allow_dmi && t.2.1.dmi_allowed) = false →
        sd = (t.2.1,
          { s with world := t.1, calls := s.calls ++ [socket_call.transport_dbg tx1] }) ∧
        m.access hm setup s m_tx m_txd cmd addr data size info
          = .ok
            { rs := if t.2.1.response_status = .TLM_INCOMPLETE_RESPONSE then .TLM_OK_RESPONSE
                    else t.2.1.response_status,
              bytes := if (info.is_excl && !tx_is_excl t.2.1) = true then 0 else t.2.2 % U32,
              data := t.2.1.data, tx := some t.2.1,
              state :=
                { s with world := t.1,
                         calls := s.calls ++ [socket_call.transport_dbg tx1] } })) := by
  refine ⟨?_, ?_, ?_⟩
  · rcases access_of_debug m hm setup s m_tx m_txd cmd addr data size info hdbg with
      h | ⟨d, s1, h, _, _⟩
    · rw [h]
      rcases access_payload_debug m setup s m_txd cmd addr data size info hdbg with
        ⟨h1, w, t, hw⟩ | ⟨n, tx1, s1, h1, _, _⟩
      · rw [h1]
      · rw [h1]
        refine ⟨?_, rfl⟩
        simp only
        by_cases hi : tx1.response_status = tlm_response_status.TLM_INCOMPLETE_RESPONSE
        · rw [if_pos hi]; decide
        · rw [if_neg hi]; exact hi
    · rw [h]
      exact ⟨fun hh => tlm_response_status.noConfusion hh, rfl⟩
  · intro hall
    rcases access_of_debug m hm setup s m_tx m_txd cmd addr data size info hdbg with
      h | ⟨d, s1, h, _, _⟩
    · rw [h]
      rcases access_payload_debug m setup s m_txd cmd addr data size info hdbg with
        ⟨h1, w, t, hw⟩ | ⟨n, tx1, s1, h1, _, _⟩
      · exact absurd (hall w t) hw
      · rw [h1]
        exact ⟨_, rfl⟩
    · rw [h]
      exact ⟨_, rfl⟩
  · intro tx1 t sd htx ht hsd hmiss hwidth hbe htime
    subst htx
    subst ht
    subst hsd
    have hmain := access_debug_payload m hm setup s m_tx m_txd cmd addr data size info hdbg
      hmiss hwidth hbe htime
    refine ⟨hmain, ?_⟩
    intro hnd
    have hsd : m.send_dmi
        { s with
          world := (m.transport_dbg s.world
            (m.sent_payload (setup m_txd cmd addr data size) info)).1,
          calls := s.calls ++ [socket_call.transport_dbg
            (m.sent_payload (setup m_txd cmd addr data size) info)] }
        (m.transport_dbg s.world (m.sent_payload (setup m_txd cmd addr data size) info)).2.1
        = ((m.transport_dbg s.world
            (m.sent_payload (setup m_txd cmd addr data size) info)).2.1,
          { s with
            world := (m.transport_dbg s.world
              (m.sent_payload (setup m_txd cmd addr data size) info)).1,
            calls := s.calls ++ [socket_call.transport_dbg
              (m.sent_payload (setup m_txd cmd addr data size) info)] }) := by
      unfold master_socket.send_dmi
      rw [if_neg (by rw [hnd]; decide)]
    refine ⟨hsd, ?_⟩
    rw [hmain, hsd]

/-- Witness of `access_debug_never_incomplete`: a debug read through
`refusing_socket`, whose debug transport sets the response to
`TLM_ADDRESS_ERROR_RESPONSE`, returns that status; the same read through
`quiet_socket`, whose debug transport leaves the response at
`TLM_INCOMPLETE_RESPONSE`, returns `TLM_OK_RESPONSE`. -/
theorem access_debug_never_incomplete_witness :
    ((∃ r, refusing_socket.access store_log tx_setup uncached_state (read_payload 4 none 0)
        (read_payload 4 none 0) .TLM_READ_COMMAND 0 [0, 0, 0, 0] 4 SBI_DEBUG = .ok r ∧
      r.rs = .TLM_ADDRESS_ERROR_RESPONSE ∧ r.bytes = 0 ∧
      (r.tx.map (fun t => t.response_status)) = some .TLM_ADDRESS_ERROR_RESPONSE ∧
      r.state.calls.length = 1) ∧
     (∃ r, quiet_socket.access store_log tx_setup uncached_state (read_payload 4 none 0)
        (read_payload 4 none 0) .TLM_READ_COMMAND 0 [0, 0, 0, 0] 4 SBI_DEBUG = .ok r ∧
      r.rs = .TLM_OK_RESPONSE ∧ r.bytes = 4 ∧
      (r.tx.map (fun t => t.response_status)) = some .TLM_INCOMPLETE_RESPONSE) ∧
     (refusing_socket.transport_dbg uncached_state.world
        (refusing_socket.sent_payload
          (tx_setup (read_payload 4 none 0) .TLM_READ_COMMAND 0 [0, 0, 0, 0] 4)
          SBI_DEBUG)).2.1.response_status = .TLM_ADDRESS_ERROR_RESPONSE) ∧
    ((match refusing_socket.access store_log tx_setup uncached_state (read_payload 4 none 0)
        (read_payload 4 none 0) .TLM_READ_COMMAND 0 [0, 0, 0, 0] 4 SBI_DEBUG with
      | .ok r =>
        r.rs ≠ .TLM_INCOMPLETE_RESPONSE ∧
        (match r.tx with
          | some tx1 =>
            r.rs = if tx1.response_status = .TLM_INCOMPLETE_RESPONSE then .TLM_OK_RESPONSE
                   else tx1.response_status
          | none => r.rs = .TLM_OK_RESPONSE)
      | .error e => e = .time_advanced_during_debug_call) ∧
    ((∀ w t, refusing_socket.sc_time_stamp (refusing_socket.transport_dbg w t).1
        = refusing_socket.sc_time_stamp w) →
      ∃ r, refusing_socket.access store_log tx_setup uncached_state (read_payload 4 none 0)
        (read_payload 4 none 0) .TLM_READ_COMMAND 0 [0, 0, 0, 0] 4 SBI_DEBUG = .ok r) ∧
    (∀ (tx1 : tlm_generic_payload) (t : List (Nat × UInt8) × tlm_generic_payload × Nat)
        (sd : tlm_generic_payload × socket_state (List (Nat × UInt8))),
      tx1 = refusing_socket.sent_payload
        (tx_setup (read_payload 4 none 0) .TLM_READ_COMMAND 0 [0, 0, 0, 0] 4) SBI_DEBUG →
      t = refusing_socket.transport_dbg uncached_state.world tx1 →
      sd = refusing_socket.send_dmi
        { uncached_state with
          world := t.1, calls := uncached_state.calls ++ [socket_call.transport_dbg tx1] }
        t.2.1 →
      ((tlm_command.TLM_READ_COMMAND != tlm_command.TLM_IGNORE_COMMAND
          && refusing_socket.allow_dmi) = true →
        (refusing_socket.access_dmi store_log uncached_state .TLM_READ_COMMAND 0 [0, 0, 0, 0] 4
          SBI_DEBUG).1 = .TLM_INCOMPLETE_RESPONSE) →
      ¬ ((tx_setup (read_payload 4 none 0) .TLM_READ_COMMAND 0 [0, 0, 0, 0] 4).streaming_width
          = 0 ∨
        (tx_setup (read_payload 4 none 0) .TLM_READ_COMMAND 0 [0, 0, 0, 0] 4).streaming_width
          > (tx_setup (read_payload 4 none 0) .TLM_READ_COMMAND 0 [0, 0, 0, 0] 4).data_length ∨
        (tx_setup (read_payload 4 none 0) .TLM_READ_COMMAND 0 [0, 0, 0, 0] 4).data_length
          % (tx_setup (read_payload 4 none 0) .TLM_READ_COMMAND 0 [0, 0, 0, 0]
              4).streaming_width ≠ 0) →
      ¬ ((tx_setup (read_payload 4 none 0) .TLM_READ_COMMAND 0 [0, 0, 0, 0]
            4).byte_enable_ptr.isSome = true ∧
        (tx_setup (read_payload 4 none 0) .TLM_READ_COMMAND 0 [0, 0, 0, 0]
            4).byte_enable_length = 0) →
      refusing_socket.sc_time_stamp t.1 = refusing_socket.sc_time_stamp uncached_state.world →
      refusing_socket.access store_log tx_setup uncached_state (read_payload 4 none 0)
          (read_payload 4 none 0) .TLM_READ_COMMAND 0 [0, 0, 0, 0] 4 SBI_DEBUG
        = .ok
          { rs := if sd.1.response_status = .TLM_INCOMPLETE_RESPONSE then .TLM_OK_RESPONSE
                  else sd.1.response_status,
            bytes := if (SBI_DEBUG.is_excl && !tx_is_excl t.2.1) = true then 0 else t.2.2 % U32,
            data := sd.1.data, tx := some sd.1, state := sd.2 } ∧
      ((refusing_socket.allow_dmi && t.2.1.dmi_allowed) = false →
        sd = (t.2.1,
          { uncached_state with
            world := t.1,
            calls := uncached_state.calls ++ [socket_call.transport_dbg tx1] }) ∧
        refusing_socket.access store_log tx_setup uncached_state (read_payload 4 none 0)
            (read_payload 4 none 0) .TLM_READ_COMMAND 0 [0, 0, 0, 0] 4 SBI_DEBUG
          = .ok
            { rs := if t.2.1.response_status = .TLM_INCOMPLETE_RESPONSE then .TLM_OK_RESPONSE
                    else t.2.1.response_status,
              bytes := if (SBI_DEBUG.is_excl && !tx_is_excl t.2.1) = true then 0
                       else t.2.2 % U32,
              data := t.2.1.data, tx := some t.2.1,
              state :=
                { uncached_state with
                  world := t.1,
                  calls := uncached_state.calls ++ [socket_call.transport_dbg tx1] } }))) :=
  ⟨⟨⟨_, rfl, rfl, rfl, rfl, rfl⟩, ⟨_, rfl, rfl, rfl, rfl⟩, rfl⟩,
   access_debug_never_incomplete refusing_socket store_log tx_setup uncached_state
    (read_payload 4 none 0) (read_payload 4 none 0) .TLM_READ_COMMAND 0 [0, 0, 0, 0] 4
    SBI_DEBUG (by decide)⟩

/-- C19: for a sideband with `is_nodmi` or `is_excl` set, `access_dmi` returns
`TLM_INCOMPLETE_RESPONSE` and leaves the caller's buffer and the surroundings
(outside world, local time offset, calls made) exactly as they are, whatever
the DMI cache holds; `access` then runs the payload block, which sends the
payload with `send`. -/
theorem access_dmi_bypassed {W : Type} (m : master_socket W) (hm : host_memory W)
    (setup : tlm_generic_payload → tlm_command → Nat → List UInt8 → Nat → tlm_generic_payload)
    (s : socket_state W) (m_tx m_txd : tlm_generic_payload) (cmd : tlm_command) (addr : Nat)
    (data : List UInt8) (size : Nat) (info : tlm_sbi)
    (h : info.is_nodmi = true ∨ info.is_excl = true) :
    m.access_dmi hm s cmd addr data size info = (.TLM_INCOMPLETE_RESPONSE, data, s) ∧
    (∀ cache : List tlm_dmi,
      m.access_dmi hm { s with m_dmi_cache := cache } cmd addr data size info
        = (.TLM_INCOMPLETE_RESPONSE, data, { s with m_dmi_cache := cache })) ∧
    m.access hm setup s m_tx m_txd cmd addr data size info =
      (if (!info.is_debug && !m.is_thread s.world) = true then
        .error .non_debug_access_outside_thread
      else
        m.access_payload setup s (if info.is_debug = true then m_txd else m_tx) cmd addr data
          size info) := by
  have hc : (info.is_nodmi || info.is_excl) = true := by
    rcases h with h | h <;> simp [h]
  have hd : ∀ s1 : socket_state W,
      m.access_dmi hm s1 cmd addr data size info = (.TLM_INCOMPLETE_RESPONSE, data, s1) := by
    intro s1
    unfold master_socket.access_dmi
    rw [if_pos hc]
  refine ⟨hd s, fun cache => hd _, ?_⟩
  unfold master_socket.access
  by_cases hp : (!info.is_debug && !m.is_thread s.world) = true
  · rw [if_pos hp, if_pos hp]
  · rw [if_neg hp, if_neg hp, hd s]
    by_cases hcmd : (cmd != tlm_command.TLM_IGNORE_COMMAND && m.allow_dmi) = true
    · simp only [hcmd, if_true]
    · simp only [hcmd, Bool.false_eq_true, if_false, if_true]

/-- Witness of `access_dmi_bypassed`: with `page_dmi` cached, a read with
`SBI_NODMI` through `quiet_socket` is not served by DMI but sent to the
target, whose `b_transport` adds 10 to the local time offset 3. -/
theorem access_dmi_bypassed_witness :
    (∃ r, quiet_socket.access store_log tx_setup cached_state (read_payload 4 none 0)
        (read_payload 4 none 0) .TLM_READ_COMMAND 0 [0, 0, 0, 0] 4 SBI_NODMI = .ok r ∧
      r.tx.isSome = true ∧ r.state.local_time = 13 ∧ r.state.calls.length = 1) ∧
    (quiet_socket.access_dmi store_log cached_state .TLM_READ_COMMAND 0 [0, 0, 0, 0] 4 SBI_NODMI
        = (.TLM_INCOMPLETE_RESPONSE, [0, 0, 0, 0], cached_state) ∧
    (∀ cache : List tlm_dmi,
      quiet_socket.access_dmi store_log { cached_state with m_dmi_cache := cache }
          .TLM_READ_COMMAND 0 [0, 0, 0, 0] 4 SBI_NODMI
        = (.TLM_INCOMPLETE_RESPONSE, [0, 0, 0, 0], { cached_state with m_dmi_cache := cache })) ∧
    quiet_socket.access store_log tx_setup cached_state (read_payload 4 none 0)
        (read_payload 4 none 0) .TLM_READ_COMMAND 0 [0, 0, 0, 0] 4 SBI_NODMI =
      (if (!SBI_NODMI.is_debug && !quiet_socket.is_thread cached_state.world) = true then
        .error .non_debug_access_outside_thread
      else
        quiet_socket.access_payload tx_setup cached_state
          (if SBI_NODMI.is_debug = true then read_payload 4 none 0 else read_payload 4 none 0)
          .TLM_READ_COMMAND 0 [0, 0, 0, 0] 4 SBI_NODMI)) :=
  ⟨⟨_, rfl, rfl, rfl, rfl⟩,
   access_dmi_bypassed quiet_socket store_log tx_setup cached_state (read_payload 4 none 0)
    (read_payload 4 none 0) .TLM_READ_COMMAND 0 [0, 0, 0, 0] 4 SBI_NODMI (Or.inl (by decide))⟩

theorem send_dmi_shift {W : Type} (m : master_socket W) (s : socket_state W)
    (tx : tlm_generic_payload) (t : Nat) :
    m.send_dmi { s with local_time := t } tx
      = ((m.send_dmi s tx).1, { (m.send_dmi s tx).2 with local_time := t }) := by
  unfold master_socket.send_dmi
  by_cases h : (m.allow_dmi && tx.dmi_allowed) = true
  · rw [if_pos h, if_pos h]
    simp only
    cases (m.get_direct_mem_ptr s.world tx).2.2 <;> rfl
  · rw [if_neg h, if_neg h]

theorem send_debug_shift {W : Type} (m : master_socket W) (s : socket_state W)
    (tx : tlm_generic_payload) (info : tlm_sbi) (hdbg : info.is_debug = true) (t : Nat) :
    m.send { s with local_time := t } tx info
      = (m.send s tx info).map (fun r => (r.1, r.2.1, { r.2.2 with local_time := t })) := by
  unfold master_socket.send
  simp only
  by_cases h1 : tx.streaming_width = 0 ∨ tx.streaming_width > tx.data_length ∨
      tx.data_length % tx.streaming_width ≠ 0
  · rw [if_pos h1, if_pos h1]
    rfl
  · rw [if_neg h1, if_neg h1]
    by_cases h2 : tx.byte_enable_ptr.isSome = true ∧ tx.byte_enable_length = 0
    · rw [if_pos h2, if_pos h2]
      rfl
    · rw [if_neg h2, if_neg h2]
      generalize tx_set_sbi _ (m.m_sbi.or info) = tx1
      rw [send_transport_debug m s tx1 info hdbg,
        send_transport_debug m { s with local_time := t } tx1 info hdbg]
      by_cases hcond : (m.thctl_is_sysc_thread (m.transport_dbg s.world tx1).1 &&
          m.sc_time_stamp s.world != m.sc_time_stamp (m.transport_dbg s.world tx1).1) = true
      · rw [if_pos hcond, if_pos hcond]
        rfl
      · rw [if_neg hcond, if_neg hcond]
        have hs := send_dmi_shift m
          { s with world := (m.transport_dbg s.world tx1).1,
                   calls := s.calls ++ [socket_call.transport_dbg tx1] }
          (m.transport_dbg s.world tx1).2.1 t
        simp only [Except.map]
        simp only at hs
        rw [hs]

/-- C20: for an access with `is_debug` set the host's local time offset after
`master_socket::access` equals its value before, and `sync` is not called:
`access_dmi` leaves the offset and the list of calls as they are (no latency
is added and no sync is made on a DMI hit), and `send` neither changes the
offset nor depends on it.  The only other way the call can end is the report
"time advanced during debug call"; if the debug transport of the target never
changes the kernel time, the call returns. -/
theorem access_debug_keeps_local_time {W : Type} (m : master_socket W) (hm : host_memory W)
    (setup : tlm_generic_payload → tlm_command → Nat → List UInt8 → Nat → tlm_generic_payload)
    (s : socket_state W) (m_tx m_txd : tlm_generic_payload) (cmd : tlm_command) (addr : Nat)
    (data : List UInt8) (size : Nat) (info : tlm_sbi) (hdbg : info.is_debug = true) :
    (m.access_dmi hm s cmd addr data size info).2.2.local_time = s.local_time ∧
    (m.access_dmi hm s cmd addr data size info).2.2.calls = s.calls ∧
    (∀ tx, m.send s tx info = .error .time_advanced_during_debug_call ∨
      ∃ n tx1 s1, m.send s tx info = .ok (n, tx1, s1) ∧ s1.local_time = s.local_time ∧
        ∀ c ∈ s1.calls, c = socket_call.sync → c ∈ s.calls) ∧
    (∀ tx t, m.send { s with local_time := t } tx info
      = (m.send s tx info).map (fun r => (r.1, r.2.1, { r.2.2 with local_time := t }))) ∧
    (match m.access hm setup s m_tx m_txd cmd addr data size info with
      | .ok r => r.state.local_time = s.local_time ∧
          ∀ c ∈ r.state.calls, c = socket_call.sync → c ∈ s.calls
      | .error e => e = .time_advanced_during_debug_call) ∧
    ((∀ w t, m.sc_time_stamp (m.transport_dbg w t).1 = m.sc_time_stamp w) →
      ∃ r, m.access hm setup s m_tx m_txd cmd addr data size info = .ok r) := by
  refine ⟨(access_dmi_debug m hm s cmd addr data size info hdbg).1,
    (access_dmi_debug m hm s cmd addr data size info hdbg).2, ?_,
    fun tx t => send_debug_shift m s tx info hdbg t, ?_⟩
  · intro tx
    rcases send_debug m s tx info hdbg with ⟨h, _⟩ | h
    · exact Or.inl h
    · exact Or.inr h
  · rcases access_of_debug m hm setup s m_tx m_txd cmd addr data size info hdbg with
      h | ⟨d, s1, h, ht, hcalls⟩
    · rw [h]
      rcases access_payload_debug m setup s m_txd cmd addr data size info hdbg with
        ⟨h1, w, t, hw⟩ | ⟨n, tx1, s1, h1, ht, hc⟩
      · rw [h1]
        exact ⟨rfl, fun hall => absurd (hall w t) hw⟩
      · rw [h1]
        exact ⟨⟨ht, hc⟩, fun _ => ⟨_, rfl⟩⟩
    · rw [h]
      refine ⟨⟨ht, ?_⟩, fun _ => ⟨_, rfl⟩⟩
      intro c hc _
      rw [hcalls] at hc
      exact hc

/-- Witness of `access_debug_keeps_local_time`: a debug write served by DMI and
a debug read sent as a payload through `quiet_socket` both leave the local
time offset at 3, while the same write without the debug flag adds the write
latency 7. -/
theorem access_debug_keeps_local_time_witness :
    (∃ r, quiet_socket.access store_log tx_setup cached_state (read_payload 4 none 0)
        (read_payload 4 none 0) .TLM_WRITE_COMMAND 0 [1, 2, 3, 4] 4 SBI_DEBUG = .ok r ∧
      r.tx = none ∧ r.state.local_time = 3 ∧ r.state.calls = [] ∧
      store_log.read_bytes r.state.world 0x1000 4 = [1, 2, 3, 4]) ∧
    (∃ r, quiet_socket.access store_log tx_setup uncached_state (read_payload 4 none 0)
        (read_payload 4 none 0) .TLM_READ_COMMAND 0 [0, 0, 0, 0] 4 SBI_DEBUG = .ok r ∧
      r.tx.isSome = true ∧ r.state.local_time = 3) ∧
    (∃ r, quiet_socket.access store_log tx_setup cached_state (read_payload 4 none 0)
        (read_payload 4 none 0) .TLM_WRITE_COMMAND 0 [1, 2, 3, 4] 4 SBI_NONE = .ok r ∧
      r.tx = none ∧ r.state.local_time = 10) ∧
    ((quiet_socket.access_dmi store_log cached_state .TLM_WRITE_COMMAND 0 [1, 2, 3, 4] 4
        SBI_DEBUG).2.2.local_time = cached_state.local_time ∧
    (quiet_socket.access_dmi store_log cached_state .TLM_WRITE_COMMAND 0 [1, 2, 3, 4] 4
        SBI_DEBUG).2.2.calls = cached_state.calls ∧
    (∀ tx, quiet_socket.send cached_state tx SBI_DEBUG
        = .error .time_advanced_during_debug_call ∨
      ∃ n tx1 s1, quiet_socket.send cached_state tx SBI_DEBUG = .ok (n, tx1, s1) ∧
        s1.local_time = cached_state.local_time ∧
        ∀ c ∈ s1.calls, c = socket_call.sync → c ∈ cached_state.calls) ∧
    (∀ tx t,
      quiet_socket.send
          { world := cached_state.world, local_time := t,
            m_dmi_cache := cached_state.m_dmi_cache, calls := cached_state.calls } tx SBI_DEBUG
      = (quiet_socket.send cached_state tx SBI_DEBUG).map
          (fun r => (r.1, r.2.1, { r.2.2 with local_time := t }))) ∧
    (match quiet_socket.access store_log tx_setup cached_state (read_payload 4 none 0)
        (read_payload 4 none 0) .TLM_WRITE_COMMAND 0 [1, 2, 3, 4] 4 SBI_DEBUG with
      | .ok r => r.state.local_time = cached_state.local_time ∧
          ∀ c ∈ r.state.calls, c = socket_call.sync → c ∈ cached_state.calls
      | .error e => e = .time_advanced_during_debug_call) ∧
    ((∀ w t, quiet_socket.sc_time_stamp (quiet_socket.transport_dbg w t).1
        = quiet_socket.sc_time_stamp w) →
      ∃ r, quiet_socket.access store_log tx_setup cached_state (read_payload 4 none 0)
        (read_payload 4 none 0) .TLM_WRITE_COMMAND 0 [1, 2, 3, 4] 4 SBI_DEBUG = .ok r)) :=
  ⟨⟨_, rfl, rfl, rfl, rfl, by decide⟩, ⟨_, rfl, rfl, rfl⟩, ⟨_, rfl, rfl, rfl⟩,
   access_debug_keeps_local_time quiet_socket store_log tx_setup cached_state
    (read_payload 4 none 0) (read_payload 4 none 0) .TLM_WRITE_COMMAND 0 [1, 2, 3, 4] 4
    SBI_DEBUG (by decide)⟩

/-! ### master_socket::access_dmi on a cache hit -/

theorem read_bytes_length {W : Type} (hm : host_memory W) (w : W) (ptr n : Nat) :
    (hm.read_bytes w ptr n).length = n := by
  simp [host_memory.read_bytes]

/-- C21: on a DMI cache hit for a non-debug READ or WRITE of `size` bytes,
`access_dmi` returns OK; the READ puts the `size` bytes at the host pointer for
`addr` into the first `size` bytes of the buffer, the WRITE stores the first
`size` bytes of the buffer from that host pointer on; the local time offset
grows by the read, respectively write, latency of the descriptor; with
`is_sync` the host syncs once before the copy and once after the latency was
added, without it there is no sync; and `access` reports `bytes = size`. -/
theorem access_dmi_hit {W : Type} (m : master_socket W) (hm : host_memory W)
    (setup : tlm_generic_payload → tlm_command → Nat → List UInt8 → Nat → tlm_generic_payload)
    (s : socket_state W) (m_tx m_txd : tlm_generic_payload) (cmd : tlm_command) (addr : Nat)
    (data : List UInt8) (size : Nat) (info : tlm_sbi) (dmi : tlm_dmi)
    (hcmd : cmd = .TLM_READ_COMMAND ∨ cmd = .TLM_WRITE_COMMAND)
    (hdbg : info.is_debug = false) (hnodmi : info.is_nodmi = false)
    (hexcl : info.is_excl = false)
    (hhit : dmi_cache_lookup s.m_dmi_cache addr size cmd = some dmi)
    (hlen : size ≤ data.length) :
    (m.access_dmi hm s cmd addr data size info).1 = .TLM_OK_RESPONSE ∧
    (info.is_sync = false →
      (m.access_dmi hm s cmd addr data size info).2.1
        = (if cmd = .TLM_READ_COMMAND then
            hm.read_bytes s.world (dmi_get_ptr dmi addr) size ++ data.drop size
          else data) ∧
      (m.access_dmi hm s cmd addr data size info).2.2
        = { s with
              world := (if cmd = .TLM_READ_COMMAND then s.world
                else hm.write_bytes s.world (dmi_get_ptr dmi addr) (data.take size)),
              local_time := s.local_time +
                (if cmd = .TLM_READ_COMMAND then dmi.read_latency else dmi.write_latency) } ∧
      (m.access_dmi hm s cmd addr data size info).2.2.calls = s.calls) ∧
    (info.is_sync = true →
      (m.access_dmi hm s cmd addr data size info).2.1
        = (if cmd = .TLM_READ_COMMAND then
            hm.read_bytes (m.host_sync s).world (dmi_get_ptr dmi addr) size ++ data.drop size
          else data) ∧
      (m.access_dmi hm s cmd addr data size info).2.2
        = m.host_sync { m.host_sync s with
              world := (if cmd = .TLM_READ_COMMAND then (m.host_sync s).world
                else hm.write_bytes (m.host_sync s).world (dmi_get_ptr dmi addr)
                  (data.take size)),
              local_time := (m.host_sync s).local_time +
                (if cmd = .TLM_READ_COMMAND then dmi.read_latency else dmi.write_latency) } ∧
      (m.access_dmi hm s cmd addr data size info).2.2.calls
        = s.calls ++ [socket_call.sync, socket_call.sync]) ∧
    (hm.read_bytes s.world (dmi_get_ptr dmi addr) size).length = size ∧
    (data.take size).length = size ∧
    (m.access_dmi hm s cmd addr data size info).2.1.length = data.length ∧
    (m.allow_dmi = true → m.is_thread s.world = true →
      m.access hm setup s m_tx m_txd cmd addr data size info
        = .ok { rs := .TLM_OK_RESPONSE, bytes := size,
                data := (m.access_dmi hm s cmd addr data size info).2.1, tx := none,
                state := (m.access_dmi hm s cmd addr data size info).2.2 }) := by
  have hcmd2 : (cmd != tlm_command.TLM_IGNORE_COMMAND) = true := by
    rcases hcmd with h | h <;> subst h <;> decide
  have hacc : ∀ r : tlm_response_status × List UInt8 × socket_state W,
      m.access_dmi hm s cmd addr data size info = r → r.1 = .TLM_OK_RESPONSE →
      (m.allow_dmi = true → m.is_thread s.world = true →
        m.access hm setup s m_tx m_txd cmd addr data size info
          = .ok { rs := .TLM_OK_RESPONSE, bytes := size, data := r.2.1, tx := none,
                  state := r.2.2 }) := by
    intro r hr h1 ha ht
    unfold master_socket.access
    simp only [hdbg, ht, ha, hcmd2, Bool.not_false, Bool.not_true, Bool.and_false,
      Bool.false_eq_true, if_false, Bool.and_true, if_true, hr, h1]
    rw [if_neg (by decide)]
  have hkey : m.access_dmi hm s cmd addr data size info
      = (.TLM_OK_RESPONSE,
          (master_socket.dmi_copy hm (if info.is_sync = true then m.host_sync s else s)
            dmi cmd addr data size).1,
          (if info.is_sync = true then
            m.host_sync
              { (master_socket.dmi_copy hm (m.host_sync s) dmi cmd addr data size).2.1 with
                local_time :=
                  (master_socket.dmi_copy hm (m.host_sync s) dmi cmd addr data size).2.1.local_time
                  + (master_socket.dmi_copy hm (m.host_sync s) dmi cmd addr data size).2.2 }
          else
            { (master_socket.dmi_copy hm s dmi cmd addr data size).2.1 with
              local_time :=
                (master_socket.dmi_copy hm s dmi cmd addr data size).2.1.local_time
                + (master_socket.dmi_copy hm s dmi cmd addr data size).2.2 })) := by
    unfold master_socket.access_dmi
    simp only [hdbg, hnodmi, hexcl, Bool.or_false, Bool.false_eq_true, if_false, hhit,
      Bool.not_false, Bool.and_true, if_true]
    cases info.is_sync <;> simp
  have hlen1 : (hm.read_bytes s.world (dmi_get_ptr dmi addr) size).length = size :=
    read_bytes_length hm _ _ _
  have hlen2 : (data.take size).length = size := by
    rw [List.length_take]; exact Nat.min_eq_left hlen
  refine ⟨by rw [hkey], ?_, ?_, hlen1, hlen2, ?_, hacc _ rfl (by rw [hkey])⟩
  · intro hs
    rw [hkey]
    simp only [hs, Bool.false_eq_true, if_false]
    rcases hcmd with h | h <;> subst h <;> exact ⟨rfl, rfl, rfl⟩
  · intro hs
    rw [hkey]
    simp only [hs, if_true]
    rcases hcmd with h | h <;> subst h
    · refine ⟨rfl, rfl, ?_⟩
      simp [master_socket.dmi_copy, master_socket.host_sync]
    · refine ⟨rfl, rfl, ?_⟩
      simp [master_socket.dmi_copy, master_socket.host_sync]
  · rw [hkey]
    rcases hcmd with h | h <;> subst h
    · simp only [master_socket.dmi_copy, List.length_append, read_bytes_length,
        List.length_drop]
      omega
    · rfl


theorem access_dmi_hit_witness :
    ((syncing_socket.access_dmi store_log cached_state .TLM_WRITE_COMMAND 0x10 [1, 2, 3, 4] 2
        SBI_SYNC).2.2.world = [(0, 7), (0x1011, 2), (0x1010, 1), (0, 3)] ∧
      (syncing_socket.access_dmi store_log cached_state .TLM_WRITE_COMMAND 0x10 [1, 2, 3, 4] 2
        SBI_NONE).2.2.world = [(0x1011, 2), (0x1010, 1)] ∧
      (syncing_socket.access_dmi store_log cached_state .TLM_WRITE_COMMAND 0x10 [1, 2, 3, 4] 2
        SBI_NONE).2.2.local_time = 10 ∧
      (syncing_socket.access_dmi store_log cached_state .TLM_READ_COMMAND 0x10 [1, 2, 3, 4] 2
        SBI_NONE).2.2.local_time = 8 ∧
      (syncing_socket.access_dmi store_log
        { world := [(0x1011, 9)], local_time := 3, m_dmi_cache := [page_dmi], calls := [] }
        .TLM_READ_COMMAND 0x10 [1, 2, 3, 4] 2 SBI_NONE).2.1 = [0, 9, 3, 4]) ∧
    ((syncing_socket.access_dmi store_log cached_state .TLM_WRITE_COMMAND 0x10 [1, 2, 3, 4] 2
        SBI_SYNC).1 = .TLM_OK_RESPONSE ∧
    (SBI_SYNC.is_sync = false →
      (syncing_socket.access_dmi store_log cached_state .TLM_WRITE_COMMAND 0x10 [1, 2, 3, 4] 2
          SBI_SYNC).2.1
        = (if tlm_command.TLM_WRITE_COMMAND = .TLM_READ_COMMAND then
            store_log.read_bytes cached_state.world (dmi_get_ptr page_dmi 0x10) 2
              ++ [1, 2, 3, 4].drop 2
          else [1, 2, 3, 4]) ∧
      (syncing_socket.access_dmi store_log cached_state .TLM_WRITE_COMMAND 0x10 [1, 2, 3, 4] 2
          SBI_SYNC).2.2
        = { cached_state with
              world := (if tlm_command.TLM_WRITE_COMMAND = .TLM_READ_COMMAND then
                  cached_state.world
                else store_log.write_bytes cached_state.world (dmi_get_ptr page_dmi 0x10)
                  ([1, 2, 3, 4].take 2)),
              local_time := cached_state.local_time +
                (if tlm_command.TLM_WRITE_COMMAND = .TLM_READ_COMMAND then page_dmi.read_latency
                 else page_dmi.write_latency) } ∧
      (syncing_socket.access_dmi store_log cached_state .TLM_WRITE_COMMAND 0x10 [1, 2, 3, 4] 2
          SBI_SYNC).2.2.calls = cached_state.calls) ∧
    (SBI_SYNC.is_sync = true →
      (syncing_socket.access_dmi store_log cached_state .TLM_WRITE_COMMAND 0x10 [1, 2, 3, 4] 2
          SBI_SYNC).2.1
        = (if tlm_command.TLM_WRITE_COMMAND = .TLM_READ_COMMAND then
            store_log.read_bytes (syncing_socket.host_sync cached_state).world
              (dmi_get_ptr page_dmi 0x10) 2 ++ [1, 2, 3, 4].drop 2
          else [1, 2, 3, 4]) ∧
      (syncing_socket.access_dmi store_log cached_state .TLM_WRITE_COMMAND 0x10 [1, 2, 3, 4] 2
          SBI_SYNC).2.2
        = syncing_socket.host_sync { syncing_socket.host_sync cached_state with
              world := (if tlm_command.TLM_WRITE_COMMAND = .TLM_READ_COMMAND then
                  (syncing_socket.host_sync cached_state).world
                else store_log.write_bytes (syncing_socket.host_sync cached_state).world
                  (dmi_get_ptr page_dmi 0x10) ([1, 2, 3, 4].take 2)),
              local_time := (syncing_socket.host_sync cached_state).local_time +
                (if tlm_command.TLM_WRITE_COMMAND = .TLM_READ_COMMAND then page_dmi.read_latency
                 else page_dmi.write_latency) } ∧
      (syncing_socket.access_dmi store_log cached_state .TLM_WRITE_COMMAND 0x10 [1, 2, 3, 4] 2
          SBI_SYNC).2.2.calls
        = cached_state.calls ++ [socket_call.sync, socket_call.sync]) ∧
    (store_log.read_bytes cached_state.world (dmi_get_ptr page_dmi 0x10) 2).length = 2 ∧
    ([1, 2, 3, 4].take 2 : List UInt8).length = 2 ∧
    (syncing_socket.access_dmi store_log cached_state .TLM_WRITE_COMMAND 0x10 [1, 2, 3, 4] 2
        SBI_SYNC).2.1.length = ([1, 2, 3, 4] : List UInt8).length ∧
    (syncing_socket.allow_dmi = true → syncing_socket.is_thread cached_state.world = true →
      syncing_socket.access store_log tx_setup cached_state (read_payload 4 none 0)
          (read_payload 4 none 0) .TLM_WRITE_COMMAND 0x10 [1, 2, 3, 4] 2 SBI_SYNC
        = .ok { rs := .TLM_OK_RESPONSE, bytes := 2,
                data := (syncing_socket.access_dmi store_log cached_state .TLM_WRITE_COMMAND
                  0x10 [1, 2, 3, 4] 2 SBI_SYNC).2.1,
                tx := none,
                state := (syncing_socket.access_dmi store_log cached_state .TLM_WRITE_COMMAND
                  0x10 [1, 2, 3, 4] 2 SBI_SYNC).2.2 })) :=
  ⟨⟨by decide, by decide, by decide, by decide, by decide⟩,
   access_dmi_hit syncing_socket store_log tx_setup cached_state (read_payload 4 none 0)
    (read_payload 4 none 0) .TLM_WRITE_COMMAND 0x10 [1, 2, 3, 4] 2 SBI_SYNC page_dmi
    (Or.inr rfl) (by decide) (by decide) (by decide) (by decide) (by decide)⟩

/-! ### tlm_sbi -/

theorem sbi_ext (a b : tlm_sbi) : a = b ↔ a.code = b.code := by
  cases a; cases b; simp

/-- C22: `a | b` has the code `a.code OR b.code`, `a & b` has the code
`a.code AND b.code`, both stay 64-bit words, and `a == b` holds iff the codes
are equal; so `|` and `&` are commutative, associative and idempotent,
`SBI_NONE` is the identity of `|`, and each of the six flags of `a | b` is the
disjunction of that flag in `a` and in `b`. -/
theorem sbi_operators (a b c : tlm_sbi) :
    (a.or b).code = a.code ||| b.code ∧ (a.and b).code = a.code &&& b.code ∧
    (a.code < U64 ∧ b.code < U64 → (a.or b).code < U64 ∧ (a.and b).code < U64) ∧
    (a.eq b = true ↔ a.code = b.code) ∧ (a.eq b = true ↔ a = b) ∧ a.ne b = !a.eq b ∧
    a.or b = b.or a ∧ a.and b = b.and a ∧
    (a.or b).or c = a.or (b.or c) ∧ (a.and b).and c = a.and (b.and c) ∧
    a.or a = a ∧ a.and a = a ∧
    a.or SBI_NONE = a ∧ SBI_NONE.or a = a ∧
    (a.or b).is_debug = (a.is_debug || b.is_debug) ∧
    (a.or b).is_nodmi = (a.is_nodmi || b.is_nodmi) ∧
    (a.or b).is_sync = (a.is_sync || b.is_sync) ∧
    (a.or b).is_insn = (a.is_insn || b.is_insn) ∧
    (a.or b).is_excl = (a.is_excl || b.is_excl) ∧
    (a.or b).is_lock = (a.is_lock || b.is_lock) := by
  refine ⟨rfl, rfl, ?_, ?_, ?_, ?_, ?_, ?_, ?_, ?_, ?_, ?_, ?_, ?_, ?_, ?_, ?_, ?_, ?_, ?_⟩
  · intro h
    exact ⟨Nat.or_lt_two_pow h.1 h.2, Nat.and_lt_two_pow _ h.2⟩
  · simp [tlm_sbi.eq]
  · rw [sbi_ext]; simp [tlm_sbi.eq]
  · simp [tlm_sbi.eq, tlm_sbi.ne, bne]
  · rw [sbi_ext]; exact Nat.or_comm _ _
  · rw [sbi_ext]; exact Nat.and_comm _ _
  · rw [sbi_ext]; exact Nat.or_assoc _ _ _
  · rw [sbi_ext]; exact Nat.and_assoc _ _ _
  · rw [sbi_ext]; exact Nat.or_self _
  · rw [sbi_ext]; exact Nat.and_self _
  · rw [sbi_ext]; exact Nat.or_zero _
  · rw [sbi_ext]; exact Nat.zero_or _
  · exact Nat.testBit_or _ _ _
  · exact Nat.testBit_or _ _ _
  · exact Nat.testBit_or _ _ _
  · exact Nat.testBit_or _ _ _
  · exact Nat.testBit_or _ _ _
  · exact Nat.testBit_or _ _ _

theorem sbi_operators_witness :
    ((SBI_DEBUG.or SBI_EXCL).code = 17 ∧ ((SBI_DEBUG.or SBI_EXCL).and SBI_EXCL).code = 16 ∧
      SBI_DEBUG.eq SBI_EXCL = false ∧ (SBI_DEBUG.or SBI_EXCL).eq (SBI_EXCL.or SBI_DEBUG) = true) ∧
    ((SBI_DEBUG.or SBI_EXCL).code = SBI_DEBUG.code ||| SBI_EXCL.code ∧
    (SBI_DEBUG.and SBI_EXCL).code = SBI_DEBUG.code &&& SBI_EXCL.code ∧
    (SBI_DEBUG.code < U64 ∧ SBI_EXCL.code < U64 →
      (SBI_DEBUG.or SBI_EXCL).code < U64 ∧ (SBI_DEBUG.and SBI_EXCL).code < U64) ∧
    (SBI_DEBUG.eq SBI_EXCL = true ↔ SBI_DEBUG.code = SBI_EXCL.code) ∧
    (SBI_DEBUG.eq SBI_EXCL = true ↔ SBI_DEBUG = SBI_EXCL) ∧
    SBI_DEBUG.ne SBI_EXCL = !SBI_DEBUG.eq SBI_EXCL ∧
    SBI_DEBUG.or SBI_EXCL = SBI_EXCL.or SBI_DEBUG ∧
    SBI_DEBUG.and SBI_EXCL = SBI_EXCL.and SBI_DEBUG ∧
    (SBI_DEBUG.or SBI_EXCL).or SBI_SYNC = SBI_DEBUG.or (SBI_EXCL.or SBI_SYNC) ∧
    (SBI_DEBUG.and SBI_EXCL).and SBI_SYNC = SBI_DEBUG.and (SBI_EXCL.and SBI_SYNC) ∧
    SBI_DEBUG.or SBI_DEBUG = SBI_DEBUG ∧ SBI_DEBUG.and SBI_DEBUG = SBI_DEBUG ∧
    SBI_DEBUG.or SBI_NONE = SBI_DEBUG ∧ SBI_NONE.or SBI_DEBUG = SBI_DEBUG ∧
    (SBI_DEBUG.or SBI_EXCL).is_debug = (SBI_DEBUG.is_debug || SBI_EXCL.is_debug) ∧
    (SBI_DEBUG.or SBI_EXCL).is_nodmi = (SBI_DEBUG.is_nodmi || SBI_EXCL.is_nodmi) ∧
    (SBI_DEBUG.or SBI_EXCL).is_sync = (SBI_DEBUG.is_sync || SBI_EXCL.is_sync) ∧
    (SBI_DEBUG.or SBI_EXCL).is_insn = (SBI_DEBUG.is_insn || SBI_EXCL.is_insn) ∧
    (SBI_DEBUG.or SBI_EXCL).is_excl = (SBI_DEBUG.is_excl || SBI_EXCL.is_excl) ∧
    (SBI_DEBUG.or SBI_EXCL).is_lock = (SBI_DEBUG.is_lock || SBI_EXCL.is_lock)) :=
  ⟨⟨by decide, by decide, by decide, by decide⟩, sbi_operators SBI_DEBUG SBI_EXCL SBI_SYNC⟩

/-- C23: each predefined constant is the sideband constructed with its one
flag: that flag is set, the other five flags are clear, `cpuid` and `level` are
zero, and its code is the single bit of the flag; `SBI_NONE` has code 0; and
`(x | SBI_DEBUG).is_debug` is true for every sideband `x`. -/
theorem sbi_constants (x : tlm_sbi) :
    (SBI_NONE = tlm_sbi.of_fields false false false false false false 0 0 ∧
      SBI_DEBUG = tlm_sbi.of_fields true false false false false false 0 0 ∧
      SBI_NODMI = tlm_sbi.of_fields false true false false false false 0 0 ∧
      SBI_SYNC = tlm_sbi.of_fields false false true false false false 0 0 ∧
      SBI_INSN = tlm_sbi.of_fields false false false true false false 0 0 ∧
      SBI_EXCL = tlm_sbi.of_fields false false false false true false 0 0 ∧
      SBI_LOCK = tlm_sbi.of_fields false false false false false true 0 0) ∧
    (SBI_NONE.code = 0 ∧ SBI_DEBUG.code = 2 ^ 0 ∧ SBI_NODMI.code = 2 ^ 1 ∧ SBI_SYNC.code = 2 ^ 2 ∧
      SBI_INSN.code = 2 ^ 3 ∧ SBI_EXCL.code = 2 ^ 4 ∧ SBI_LOCK.code = 2 ^ 5) ∧
    (∀ i, SBI_DEBUG.code.testBit i = decide (0 = i)) ∧
    (∀ i, SBI_NODMI.code.testBit i = decide (1 = i)) ∧
    (∀ i, SBI_SYNC.code.testBit i = decide (2 = i)) ∧
    (∀ i, SBI_INSN.code.testBit i = decide (3 = i)) ∧
    (∀ i, SBI_EXCL.code.testBit i = decide (4 = i)) ∧
    (∀ i, SBI_LOCK.code.testBit i = decide (5 = i)) ∧
    (SBI_NONE.is_debug, SBI_NONE.is_nodmi, SBI_NONE.is_sync, SBI_NONE.is_insn, SBI_NONE.is_excl,
        SBI_NONE.is_lock, SBI_NONE.cpuid, SBI_NONE.level)
      = (false, false, false, false, false, false, 0, 0) ∧
    (SBI_DEBUG.is_debug, SBI_DEBUG.is_nodmi, SBI_DEBUG.is_sync, SBI_DEBUG.is_insn, SBI_DEBUG.is_excl,
        SBI_DEBUG.is_lock, SBI_DEBUG.cpuid, SBI_DEBUG.level)
      = (true, false, false, false, false, false, 0, 0) ∧
    (SBI_NODMI.is_debug, SBI_NODMI.is_nodmi, SBI_NODMI.is_sync, SBI_NODMI.is_insn, SBI_NODMI.is_excl,
        SBI_NODMI.is_lock, SBI_NODMI.cpuid, SBI_NODMI.level)
      = (false, true, false, false, false, false, 0, 0) ∧
    (SBI_SYNC.is_debug, SBI_SYNC.is_nodmi, SBI_SYNC.is_sync, SBI_SYNC.is_insn, SBI_SYNC.is_excl,
        SBI_SYNC.is_lock, SBI_SYNC.cpuid, SBI_SYNC.level)
      = (false, false, true, false, false, false, 0, 0) ∧
    (SBI_INSN.is_debug, SBI_INSN.is_nodmi, SBI_INSN.is_sync, SBI_INSN.is_insn, SBI_INSN.is_excl,
        SBI_INSN.is_lock, SBI_INSN.cpuid, SBI_INSN.level)
      = (false, false, false, true, false, false, 0, 0) ∧
    (SBI_EXCL.is_debug, SBI_EXCL.is_nodmi, SBI_EXCL.is_sync, SBI_EXCL.is_insn, SBI_EXCL.is_excl,
        SBI_EXCL.is_lock, SBI_EXCL.cpuid, SBI_EXCL.level)
      = (false, false, false, false, true, false, 0, 0) ∧
    (SBI_LOCK.is_debug, SBI_LOCK.is_nodmi, SBI_LOCK.is_sync, SBI_LOCK.is_insn, SBI_LOCK.is_excl,
        SBI_LOCK.is_lock, SBI_LOCK.cpuid, SBI_LOCK.level)
      = (false, false, false, false, false, true, 0, 0) ∧
    (x.or SBI_DEBUG).is_debug = true := by
  refine ⟨by decide, by decide, ?_, ?_, ?_, ?_, ?_, ?_, rfl, rfl, rfl, rfl, rfl, rfl, rfl, ?_⟩
  · intro i; exact (Nat.testBit_two_pow : (2 ^ 0).testBit i = decide (0 = i))
  · intro i; exact (Nat.testBit_two_pow : (2 ^ 1).testBit i = decide (1 = i))
  · intro i; exact (Nat.testBit_two_pow : (2 ^ 2).testBit i = decide (2 = i))
  · intro i; exact (Nat.testBit_two_pow : (2 ^ 3).testBit i = decide (3 = i))
  · intro i; exact (Nat.testBit_two_pow : (2 ^ 4).testBit i = decide (4 = i))
  · intro i; exact (Nat.testBit_two_pow : (2 ^ 5).testBit i = decide (5 = i))
  · show (x.code ||| 1).testBit 0 = true
    rw [Nat.testBit_or]
    simp

theorem bitfield_store_lt (v : Int) : bitfield_store 20 v < 2 ^ 20 := by
  unfold bitfield_store
  have h1 : 0 ≤ v % (2 : Int) ^ 20 := Int.emod_nonneg _ (by norm_num)
  have h2 : v % (2 : Int) ^ 20 < (2 : Int) ^ 20 := Int.emod_lt_of_pos _ (by norm_num)
  omega

theorem bitfield_round_trip (v : Int) :
    bitfield_load 20 (bitfield_store 20 v)
      = if v % (2 : Int) ^ 20 < (2 : Int) ^ 19 then v % (2 : Int) ^ 20
        else v % (2 : Int) ^ 20 - (2 : Int) ^ 20 := by
  have hlt := bitfield_store_lt v
  have h1 : 0 ≤ v % (2 : Int) ^ 20 := Int.emod_nonneg _ (by norm_num)
  have hs : ((bitfield_store 20 v : Nat) : Int) = v % (2 : Int) ^ 20 := by
    unfold bitfield_store
    exact Int.toNat_of_nonneg h1
  unfold bitfield_load
  rw [Nat.mod_eq_of_lt hlt, hs]
  by_cases h : bitfield_store 20 v < 2 ^ (20 - 1)
  · rw [if_pos h, if_pos]
    have : ((bitfield_store 20 v : Nat) : Int) < (2 : Int) ^ 19 := by
      have h' : bitfield_store 20 v < 2 ^ 19 := h
      exact_mod_cast h'
    rw [← hs]; exact this
  · rw [if_neg h, if_neg]
    intro hc
    apply h
    rw [← hs] at hc
    have : bitfield_store 20 v < 2 ^ 19 := by exact_mod_cast hc
    exact this

theorem sbi_padding_zero : tlm_sbi.padding 0 = 0 := by decide

theorem sbi_cpuid_code (cpu : Int) (word : Nat) :
    (SBI_CPUID cpu word).code
      = 2 ^ 6 * (bitfield_store 20 cpu + 2 ^ 20 * (word / 2 ^ 26 % 2 ^ 6)
          + 2 ^ 46 * (word / 2 ^ 52 % 2 ^ 12)) := by
  simp only [SBI_CPUID, tlm_sbi.construct, tlm_sbi.padding, bitfield_store, Bool.toNat_false]
  norm_num
  omega

theorem sbi_level_code (lvl : Int) (word : Nat) :
    (SBI_LEVEL lvl word).code
      = 2 ^ 6 * (2 ^ 20 * (word / 2 ^ 26 % 2 ^ 6) + 2 ^ 26 * bitfield_store 20 lvl
          + 2 ^ 46 * (word / 2 ^ 52 % 2 ^ 12)) := by
  simp only [SBI_LEVEL, tlm_sbi.construct, tlm_sbi.padding, bitfield_store, Bool.toNat_false]
  norm_num
  omega

theorem sbi_cpuid_fields (cpu : Int) (word : Nat) :
    (SBI_CPUID cpu word).cpuid = bitfield_load 20 (bitfield_store 20 cpu) ∧
    (SBI_CPUID cpu word).level = 0 ∧
    (SBI_CPUID cpu word).is_debug = false ∧ (SBI_CPUID cpu word).is_nodmi = false ∧
    (SBI_CPUID cpu word).is_sync = false ∧ (SBI_CPUID cpu word).is_insn = false ∧
    (SBI_CPUID cpu word).is_excl = false ∧ (SBI_CPUID cpu word).is_lock = false := by
  have hlt := bitfield_store_lt cpu
  have hc := sbi_cpuid_code cpu word
  have hlow : (SBI_CPUID cpu word).code / 2 ^ 6 % 2 ^ 20 = bitfield_store 20 cpu := by
    rw [hc, Nat.mul_div_cancel_left _ (by norm_num)]
    norm_num at hlt ⊢
    omega
  have hhigh : (SBI_CPUID cpu word).code / 2 ^ 32 % 2 ^ 20 = 0 := by
    rw [hc]
    norm_num at hlt ⊢
    omega
  refine ⟨?_, ?_, ?_, ?_, ?_, ?_, ?_, ?_⟩
  · unfold tlm_sbi.cpuid bitfield_load
    rw [hlow, Nat.mod_eq_of_lt hlt]
  · unfold tlm_sbi.level bitfield_load
    rw [hhigh]
    simp
  all_goals
    simp only [tlm_sbi.is_debug, tlm_sbi.is_nodmi, tlm_sbi.is_sync, tlm_sbi.is_insn,
      tlm_sbi.is_excl, tlm_sbi.is_lock]
    rw [hc, Nat.testBit_mul_pow_two]
    simp

theorem sbi_level_fields (lvl : Int) (word : Nat) :
    (SBI_LEVEL lvl word).level = bitfield_load 20 (bitfield_store 20 lvl) ∧
    (SBI_LEVEL lvl word).cpuid = 0 ∧
    (SBI_LEVEL lvl word).is_debug = false ∧ (SBI_LEVEL lvl word).is_nodmi = false ∧
    (SBI_LEVEL lvl word).is_sync = false ∧ (SBI_LEVEL lvl word).is_insn = false ∧
    (SBI_LEVEL lvl word).is_excl = false ∧ (SBI_LEVEL lvl word).is_lock = false := by
  have hlt := bitfield_store_lt lvl
  have hc := sbi_level_code lvl word
  have hhigh : (SBI_LEVEL lvl word).code / 2 ^ 32 % 2 ^ 20 = bitfield_store 20 lvl := by
    rw [hc]
    norm_num at hlt ⊢
    omega
  have hlow : (SBI_LEVEL lvl word).code / 2 ^ 6 % 2 ^ 20 = 0 := by
    rw [hc, Nat.mul_div_cancel_left _ (by norm_num)]
    norm_num at hlt ⊢
    omega
  refine ⟨?_, ?_, ?_, ?_, ?_, ?_, ?_, ?_⟩
  · unfold tlm_sbi.level bitfield_load
    rw [hhigh, Nat.mod_eq_of_lt hlt]
  · unfold tlm_sbi.cpuid bitfield_load
    rw [hlow]
    simp
  all_goals
    simp only [tlm_sbi.is_debug, tlm_sbi.is_nodmi, tlm_sbi.is_sync, tlm_sbi.is_insn,
      tlm_sbi.is_excl, tlm_sbi.is_lock]
    rw [hc, Nat.testBit_mul_pow_two]
    simp

/-- Counterexample to C24: the identifier `2^19` is below `2^20`, yet
`SBI_CPUID(2^19).cpuid` and `SBI_LEVEL(2^19).level` read back as `-2^19`
(here on zeroed storage, where the two code words are `0x2000000` and
`0x8000000000000`). -/
theorem sbi_cpuid_negative :
    (0 : Int) ≤ 2 ^ 19 ∧ (2 : Int) ^ 19 < 2 ^ 20 ∧
    (SBI_CPUID (2 ^ 19) 0).code = 0x2000000 ∧ (SBI_LEVEL (2 ^ 19) 0).code = 0x8000000000000 ∧
    (SBI_CPUID (2 ^ 19) 0).cpuid = -(2 ^ 19) ∧ (SBI_CPUID (2 ^ 19) 0).cpuid ≠ 2 ^ 19 ∧
    (SBI_LEVEL (2 ^ 19) 0).level = -(2 ^ 19) ∧ (SBI_LEVEL (2 ^ 19) 0).level ≠ 2 ^ 19 := by
  decide

/-- C24 (amended): `cpuid` and `level` are signed 20-bit fields, `cpuid` in
the bits 6..25 and `level` in the bits 32..51 of the code.  For every `v` with
`-2^19 ≤ v < 2^19`, `SBI_CPUID(v).cpuid = v` and `SBI_LEVEL(v).level = v`, with
all six flags false and the other field zero, whatever the bits that belong
to no member hold; an identifier `u` with `2^19 ≤ u < 2^20` reads back as
`u - 2^20`.  On zeroed storage the code of `SBI_CPUID(v)` is
`2^6 * (v mod 2^20)` and that of `SBI_LEVEL(v)` is `2^32 * (v mod 2^20)`. -/
theorem sbi_cpuid_level (v : Int) (word : Nat) (hlo : -(2 : Int) ^ 19 ≤ v)
    (hhi : v < (2 : Int) ^ 19) :
    ((SBI_CPUID v word).cpuid = v ∧ (SBI_CPUID v word).level = 0 ∧
      (SBI_CPUID v word).is_debug = false ∧ (SBI_CPUID v word).is_nodmi = false ∧
      (SBI_CPUID v word).is_sync = false ∧ (SBI_CPUID v word).is_insn = false ∧
      (SBI_CPUID v word).is_excl = false ∧ (SBI_CPUID v word).is_lock = false) ∧
    ((SBI_LEVEL v word).level = v ∧ (SBI_LEVEL v word).cpuid = 0 ∧
      (SBI_LEVEL v word).is_debug = false ∧ (SBI_LEVEL v word).is_nodmi = false ∧
      (SBI_LEVEL v word).is_sync = false ∧ (SBI_LEVEL v word).is_insn = false ∧
      (SBI_LEVEL v word).is_excl = false ∧ (SBI_LEVEL v word).is_lock = false) ∧
    (∀ u : Int, (2 : Int) ^ 19 ≤ u ∧ u < (2 : Int) ^ 20 →
      (SBI_CPUID u word).cpuid = u - (2 : Int) ^ 20 ∧
      (SBI_LEVEL u word).level = u - (2 : Int) ^ 20) ∧
    (SBI_CPUID v 0).code = 2 ^ 6 * (v % (2 : Int) ^ 20).toNat ∧
    (SBI_LEVEL v 0).code = 2 ^ 32 * (v % (2 : Int) ^ 20).toNat ∧
    (SBI_CPUID v word).code = (SBI_CPUID v 0).code + tlm_sbi.padding word ∧
    (SBI_LEVEL v word).code = (SBI_LEVEL v 0).code + tlm_sbi.padding word := by
  have hround : bitfield_load 20 (bitfield_store 20 v) = v := by
    rw [bitfield_round_trip]
    norm_num at hlo hhi ⊢
    split <;> omega
  have hc := sbi_cpuid_fields v word
  have hl := sbi_level_fields v word
  refine ⟨⟨hc.1.trans hround, hc.2⟩, ⟨hl.1.trans hround, hl.2⟩, ?_, ?_, ?_, ?_, ?_⟩
  · intro u hu
    have hr : bitfield_load 20 (bitfield_store 20 u) = u - (2 : Int) ^ 20 := by
      rw [bitfield_round_trip]
      have h1 := hu.1
      have h2 := hu.2
      norm_num at h1 h2 ⊢
      split <;> omega
    exact ⟨(sbi_cpuid_fields u word).1.trans hr, (sbi_level_fields u word).1.trans hr⟩
  · simp [SBI_CPUID, tlm_sbi.construct, sbi_padding_zero, bitfield_store]
  · simp [SBI_LEVEL, tlm_sbi.construct, sbi_padding_zero, bitfield_store]
  · simp [SBI_CPUID, tlm_sbi.construct, sbi_padding_zero]
  · simp [SBI_LEVEL, tlm_sbi.construct, sbi_padding_zero]

theorem sbi_cpuid_level_witness :
    ((SBI_CPUID (-1) 0).code = 0x3ffffc0 ∧ (SBI_LEVEL 5 0).code = 0x500000000 ∧
     (tlm_sbi.construct 0 true true true true true true (-1) (-1)).code = 0xfffff03ffffff ∧
     (tlm_sbi.construct 0xffffffffffffffff false false false false false false 0 0).code
        = 0xfff00000fc000000 ∧
     (⟨2 ^ 26⟩ : tlm_sbi).level = 0 ∧ (⟨2 ^ 32⟩ : tlm_sbi).level = 1 ∧
     (SBI_LEVEL 5 0xffffffffffffffff).level = 5) ∧
    (((SBI_CPUID 5 0).cpuid = 5 ∧ (SBI_CPUID 5 0).level = 0 ∧
      (SBI_CPUID 5 0).is_debug = false ∧ (SBI_CPUID 5 0).is_nodmi = false ∧
      (SBI_CPUID 5 0).is_sync = false ∧ (SBI_CPUID 5 0).is_insn = false ∧
      (SBI_CPUID 5 0).is_excl = false ∧ (SBI_CPUID 5 0).is_lock = false) ∧
    ((SBI_LEVEL 5 0).level = 5 ∧ (SBI_LEVEL 5 0).cpuid = 0 ∧
      (SBI_LEVEL 5 0).is_debug = false ∧ (SBI_LEVEL 5 0).is_nodmi = false ∧
      (SBI_LEVEL 5 0).is_sync = false ∧ (SBI_LEVEL 5 0).is_insn = false ∧
      (SBI_LEVEL 5 0).is_excl = false ∧ (SBI_LEVEL 5 0).is_lock = false) ∧
    (∀ u : Int, (2 : Int) ^ 19 ≤ u ∧ u < (2 : Int) ^ 20 →
      (SBI_CPUID u 0).cpuid = u - (2 : Int) ^ 20 ∧ (SBI_LEVEL u 0).level = u - (2 : Int) ^ 20) ∧
    (SBI_CPUID 5 0).code = 2 ^ 6 * ((5 : Int) % (2 : Int) ^ 20).toNat ∧
    (SBI_LEVEL 5 0).code = 2 ^ 32 * ((5 : Int) % (2 : Int) ^ 20).toNat ∧
    (SBI_CPUID 5 0).code = (SBI_CPUID 5 0).code + tlm_sbi.padding 0 ∧
    (SBI_LEVEL 5 0).code = (SBI_LEVEL 5 0).code + tlm_sbi.padding 0) :=
  ⟨by decide, sbi_cpuid_level 5 0 (by decide) (by decide)⟩

/-! ### gdbserver: reading packets -/

theorem xdigit_range (c : Char) (h : isxdigit c = true) :
    (48 ≤ c.toNat ∧ c.toNat ≤ 57) ∨ (97 ≤ c.toNat ∧ c.toNat ≤ 102) ∨
      (65 ≤ c.toNat ∧ c.toNat ≤ 70) := by
  unfold isxdigit digit_of at h
  split at h
  · left; assumption
  · split at h
    · simp at h; omega
    · split at h
      · simp at h; omega
      · simp at h

theorem xdigit_of_all (c : Char) (cs : List Char) (h : all_digits 16 (c :: cs) = true) :
    isxdigit c = true ∧ all_digits 16 cs = true := by
  unfold all_digits at h
  rw [List.all_cons, Bool.and_eq_true] at h
  exact h

theorem xdigit_ne (c d : Char) (h : isxdigit c = true)
    (hd : d.toNat < 48 ∨ (57 < d.toNat ∧ d.toNat < 65) ∨ (70 < d.toNat ∧ d.toNat < 97) ∨
      102 < d.toNat) : c ≠ d := by
  intro hc
  have := xdigit_range c h
  rw [hc] at this
  omega

theorem xdigit_not_space (c : Char) (h : isxdigit c = true) : isspace c = false := by
  have := xdigit_range c h
  unfold isspace
  simp
  omega

theorem takeWhile_run (ds rest : List Char) (h : all_digits 16 ds = true)
    (hr : ∀ c ∈ rest.head?, isxdigit c = false) :
    (ds ++ rest).takeWhile isxdigit = ds ∧ (ds ++ rest).dropWhile isxdigit = rest := by
  induction ds with
  | nil =>
    cases rest with
    | nil => exact ⟨rfl, rfl⟩
    | cons c r =>
      have hc := hr c (by simp)
      simp [List.takeWhile, List.dropWhile, hc]
  | cons d ds ih =>
    obtain ⟨h1, h2⟩ := xdigit_of_all d ds h
    have := ih h2
    simp [List.takeWhile, List.dropWhile, h1, this.1, this.2]

theorem digits_value_run (ds rest : List Char) (acc : Nat) (h : all_digits 16 ds = true)
    (hr : ∀ c ∈ rest.head?, isxdigit c = false) :
    digits_value 16 (ds ++ rest) acc
      = ds.foldl (fun a c => a * 16 + (digit_of c).getD 0) acc := by
  induction ds generalizing acc with
  | nil =>
    cases rest with
    | nil => rfl
    | cons c r =>
      have hc := hr c (by simp)
      unfold isxdigit at hc
      simp only [List.nil_append, List.foldl_nil]
      unfold digits_value
      cases hd : digit_of c with
      | none => rfl
      | some v =>
        rw [hd] at hc
        simp at hc
        simp only
        rw [if_neg (by omega)]
  | cons d ds ih =>
    obtain ⟨h1, h2⟩ := xdigit_of_all d ds h
    unfold isxdigit at h1
    cases hd : digit_of d with
    | none => rw [hd] at h1; simp at h1
    | some v =>
      rw [hd] at h1
      simp at h1
      simp only [List.cons_append, List.foldl_cons]
      unfold digits_value
      simp only [hd]
      rw [if_pos h1, ih _ h2]
      rfl

theorem scan_hex_numeral (ds rest : List Char) (v : Nat) (h : is_hex_of ds v = true)
    (hr : ∀ c ∈ rest.head?, isxdigit c = false ∧ c ≠ 'x' ∧ c ≠ 'X') :
    scan_hex (ds ++ rest) = some (v, rest) := by
  unfold is_hex_of at h
  simp only [Bool.and_eq_true, Bool.not_eq_true', decide_eq_true_eq] at h
  obtain ⟨⟨⟨hne, hd⟩, hv⟩, hlt⟩ := h
  have hr1 : ∀ c ∈ rest.head?, isxdigit c = false := fun c hc => (hr c hc).1
  cases ds with
  | nil => simp at hne
  | cons d ds =>
    obtain ⟨h1, h2⟩ := xdigit_of_all d ds hd
    have hsp := xdigit_not_space d h1
    have hm : d ≠ '-' := xdigit_ne d '-' h1 (by decide)
    have hp : d ≠ '+' := xdigit_ne d '+' h1 (by decide)
    have hdrop : ((d :: ds) ++ rest).dropWhile isspace = (d :: ds) ++ rest := by
      simp [List.dropWhile, hsp]
    have hsign : strtoull_sign ((d :: ds) ++ rest) = (false, (d :: ds) ++ rest) := by
      simp [strtoull_sign, hm, hp]
    have hu : (match (d :: ds) ++ rest with
        | c :: x :: d' :: r =>
          if c = '0' ∧ (x = 'x' ∨ x = 'X') ∧ isxdigit d' = true then d' :: r
          else c :: x :: d' :: r
        | v => v) = (d :: ds) ++ rest := by
      cases ds with
      | nil =>
        cases rest with
        | nil => rfl
        | cons x r =>
          cases r with
          | nil => rfl
          | cons d' r' =>
            have hx := hr x (by simp)
            simp [hx.2.1, hx.2.2]
      | cons x ds' =>
        obtain ⟨hx1, _⟩ := xdigit_of_all x ds' h2
        have hx : x ≠ 'x' := xdigit_ne x 'x' hx1 (by decide)
        have hX : x ≠ 'X' := xdigit_ne x 'X' hx1 (by decide)
        cases ds' with
        | nil =>
          cases rest with
          | nil => rfl
          | cons d' r' => simp [hx, hX]
        | cons d' r' => simp [hx, hX]
    have htw := takeWhile_run (d :: ds) rest hd hr1
    have hval := digits_value_run (d :: ds) rest 0 hd hr1
    unfold scan_hex
    simp only [hdrop, hsign, hu, htw.1, htw.2, hval]
    have hnum : List.foldl (fun a c => a * 16 + (digit_of c).getD 0) 0 (d :: ds) = v := hv
    rw [hnum]
    simp
    omega

theorem xdigit_head (c : Char) (rest : List Char)
    (hc : c.toNat < 48 ∨ (57 < c.toNat ∧ c.toNat < 65) ∨ (70 < c.toNat ∧ c.toNat < 88) ∨
      (88 < c.toNat ∧ c.toNat < 97) ∨ (102 < c.toNat ∧ c.toNat < 120) ∨ 120 < c.toNat) :
    ∀ x ∈ (c :: rest).head?, isxdigit x = false ∧ x ≠ 'x' ∧ x ≠ 'X' := by
  intro x hx
  simp at hx
  subst hx
  refine ⟨?_, ?_, ?_⟩
  · cases h : isxdigit c with
    | false => rfl
    | true =>
      have := xdigit_range c h
      omega
  · intro h
    have := toNat_of_eq _ _ h
    have h2 : ('x' : Char).toNat = 120 := by decide
    omega
  · intro h
    have := toNat_of_eq _ _ h
    have h2 : ('X' : Char).toNat = 88 := by decide
    omega

theorem sscanf_reg_packet (c : Char) (rtxt rest : List Char) (r : Nat)
    (h : is_hex_of rtxt r = true) (hr : ∀ x ∈ rest.head?, isxdigit x = false ∧ x ≠ 'x' ∧ x ≠ 'X') :
    sscanf_reg c (c :: (rtxt ++ rest)) = some (r % U32) := by
  unfold sscanf_reg
  simp only [if_true]
  rw [scan_hex_numeral rtxt rest r h hr]
  rfl

theorem sscanf_mem_packet (c : Char) (atxt ntxt rest : List Char) (a n : Nat)
    (ha : is_hex_of atxt a = true) (hn : is_hex_of ntxt n = true)
    (hr : ∀ x ∈ rest.head?, isxdigit x = false ∧ x ≠ 'x' ∧ x ≠ 'X') :
    sscanf_mem c (c :: (atxt ++ ',' :: (ntxt ++ rest))) = some (a, n) := by
  unfold sscanf_mem
  simp only [if_true]
  rw [scan_hex_numeral atxt (',' :: (ntxt ++ rest)) a ha (xdigit_head ',' _ (by decide))]
  simp only [if_true]
  rw [scan_hex_numeral ntxt rest n hn hr]
  rfl

theorem strchr_skip (pre rest : List Char) (c : Char)
    (h : ∀ x ∈ pre, x ≠ c ∧ x ≠ Char.ofNat 0) :
    strchr (pre ++ c :: rest) c = some (c :: rest) := by
  induction pre with
  | nil => simp [strchr]
  | cons x pre ih =>
    have hx := h x (by simp)
    have := ih (fun y hy => h y (by simp [hy]))
    simp [strchr, hx.1, hx.2, this]

theorem all_digits_mem (ds : List Char) (h : all_digits 16 ds = true) :
    ∀ x ∈ ds, isxdigit x = true := by
  intro x hx
  unfold all_digits at h
  rw [List.all_eq_true] at h
  exact h x hx

theorem hex_of_digits (txt : List Char) (v : Nat) (h : is_hex_of txt v = true) :
    all_digits 16 txt = true ∧ v < U64 := by
  unfold is_hex_of at h
  simp only [Bool.and_eq_true, Bool.not_eq_true', decide_eq_true_eq] at h
  exact ⟨h.1.1.2, h.2⟩

theorem strlen_eq_length (s : List Char) (h : ∀ x ∈ s, x ≠ Char.ofNat 0) :
    strlen s = s.length := by
  unfold strlen
  congr 1
  rw [List.takeWhile_eq_self_iff]
  intro x hx
  simp [h x hx]

theorem strchr_packet (c : Char) (atxt ntxt data : List Char)
    (hc : c ≠ ':' ∧ c ≠ Char.ofNat 0)
    (ha : all_digits 16 atxt = true) (hn : all_digits 16 ntxt = true) :
    strchr (c :: (atxt ++ ',' :: (ntxt ++ ':' :: data))) ':' = some (':' :: data) := by
  have hre : c :: (atxt ++ ',' :: (ntxt ++ ':' :: data))
      = (c :: (atxt ++ ',' :: ntxt)) ++ ':' :: data := by simp
  rw [hre]
  apply strchr_skip
  intro x hx
  simp only [List.mem_cons, List.mem_append] at hx
  rcases hx with hx | hx | hx | hx
  · subst hx; exact hc
  · have h1 := all_digits_mem atxt ha x hx
    exact ⟨xdigit_ne x ':' h1 (by decide), xdigit_ne x (Char.ofNat 0) h1 (by decide)⟩
  · subst hx; exact ⟨by decide, by decide⟩
  · have h1 := all_digits_mem ntxt hn x hx
    exact ⟨xdigit_ne x ':' h1 (by decide), xdigit_ne x (Char.ofNat 0) h1 (by decide)⟩

theorem unescape_loop_rule (data : List Char) :
    ∀ n, n ≤ (unescape_rule data).length →
      gdbserver.unescape_loop n (cstr data) = some ((unescape_rule data).take n) := by
  induction data using unescape_rule.induct with
  | case1 =>
    intro n hn
    simp [unescape_rule] at hn
    subst hn
    rfl
  | case2 c hc =>
    intro n hn
    simp [unescape_rule, hc] at hn
    subst hn
    rfl
  | case3 c hc =>
    intro n hn
    simp only [unescape_rule, if_neg hc, List.length_singleton] at hn ⊢
    match n, hn with
    | 0, _ => rfl
    | 1, _ =>
      simp [gdbserver.unescape_loop, cstr, char_unescape, hc]
  | case4 c d r hc ih =>
    intro n hn
    simp only [unescape_rule, if_pos hc, List.length_cons] at hn ⊢
    match n, hn with
    | 0, _ => rfl
    | m + 1, hm =>
      have := ih m (by omega)
      simp only [cstr] at this
      simp [gdbserver.unescape_loop, cstr, char_unescape, hc, this]
  | case5 c d r hc ih =>
    intro n hn
    simp only [unescape_rule, if_neg hc, List.length_cons] at hn ⊢
    match n, hn with
    | 0, _ => rfl
    | m + 1, hm =>
      have := ih m (by omega)
      simp only [cstr] at this
      simp only [List.cons_append] at this
      simp [gdbserver.unescape_loop, cstr, char_unescape, hc, this]

theorem u8_of_toNat (b : UInt8) : UInt8.ofNat b.toNat = b := by
  cases b with
  | mk v => simp [UInt8.ofNat, UInt8.toNat]

theorem xor_escape (b : UInt8) : UInt8.ofNat (((b.toNat ^^^ 0x20) % 256) ^^^ 0x20) = b := by
  have hb : b.toNat < 256 := b.val.isLt
  have h1 : b.toNat ^^^ 0x20 < 2 ^ 8 := Nat.xor_lt_two_pow (by omega) (by norm_num)
  rw [Nat.mod_eq_of_lt (by omega), Nat.xor_assoc, Nat.xor_self, Nat.xor_zero]
  exact u8_of_toNat b

theorem escape_char (b : UInt8) : (Char.ofNat (b.toNat ^^^ 0x20)).toNat = b.toNat ^^^ 0x20 := by
  have hb : b.toNat < 256 := b.val.isLt
  have h1 : b.toNat ^^^ 0x20 < 2 ^ 8 := Nat.xor_lt_two_pow (by omega) (by norm_num)
  have hv : (b.toNat ^^^ 0x20).isValidChar := Or.inl (by omega)
  unfold Char.ofNat
  rw [dif_pos hv]
  rfl

/-! ### gdbserver: hexadecimal text -/

theorem nibbles_join : ∀ hi, hi < 16 → ∀ lo, lo < 16 →
    ((int_bits (char2int (hex_digit hi)) * 16) % U32 ||| int_bits (char2int (hex_digit lo)))
      = hi * 16 + lo := by
  decide

theorem byte_of_hex_byte (b : UInt8) :
    byte_of_hex (hex_digit (b.toNat / 16)) (hex_digit (b.toNat % 16)) = b := by
  have hb : b.toNat < 256 := b.val.isLt
  unfold byte_of_hex
  rw [nibbles_join (b.toNat / 16) (by omega) (b.toNat % 16) (by omega)]
  rw [show b.toNat / 16 * 16 + b.toNat % 16 = b.toNat by omega]
  exact u8_of_toNat b

theorem hex_digit_lower : ∀ d, d < 16 →
    hex_digit d ∈ lower_hex := by
  decide

theorem hex_text_cons (b : UInt8) (bs : List UInt8) :
    hex_text (b :: bs)
      = hex_digit (b.toNat / 16) :: hex_digit (b.toNat % 16) :: hex_text bs := by
  simp [hex_text, hex_byte]

theorem hex_text_length (bs : List UInt8) : (hex_text bs).length = 2 * bs.length := by
  induction bs with
  | nil => rfl
  | cons b bs ih =>
    rw [hex_text_cons]
    simp only [List.length_cons, ih]
    omega

theorem hex_text_lower (bs : List UInt8) :
    ∀ c ∈ hex_text bs, c ∈ lower_hex := by
  induction bs with
  | nil => intro c hc; simp [hex_text] at hc
  | cons b bs ih =>
    have hb : b.toNat < 256 := b.val.isLt
    intro c hc
    rw [hex_text_cons] at hc
    simp only [List.mem_cons] at hc
    rcases hc with hc | hc | hc
    · rw [hc]; exact hex_digit_lower _ (by omega)
    · rw [hc]; exact hex_digit_lower _ (by omega)
    · exact ih c hc

theorem hex_text_no_nul (bs : List UInt8) : ∀ c ∈ hex_text bs, c ≠ Char.ofNat 0 := by
  intro c hc h
  have := hex_text_lower bs c hc
  rw [h] at this
  revert this
  decide

theorem hex_decode_text (bs : List UInt8) (rest : List Char) :
    hex_decode bs.length (hex_text bs ++ rest) = some (bs, rest) := by
  induction bs with
  | nil => rfl
  | cons b bs ih =>
    rw [hex_text_cons]
    show (hex_decode bs.length (hex_text bs ++ rest)).map
        (fun t => (byte_of_hex (hex_digit (b.toNat / 16)) (hex_digit (b.toNat % 16)) :: t.1, t.2))
      = some (b :: bs, rest)
    rw [ih, byte_of_hex_byte]
    rfl

theorem reg_text_ok (f : Nat → UInt8) (w : Nat) :
    reg_text true f w = hex_text ((List.range w).map f) := by
  simp [reg_text, hex_text, List.flatMap_map]

theorem strchr_reg (rtxt data : List Char) (hd : all_digits 16 rtxt = true) :
    strchr ('P' :: (rtxt ++ '=' :: data)) '=' = some ('=' :: data) := by
  have hre : 'P' :: (rtxt ++ '=' :: data) = ('P' :: rtxt) ++ '=' :: data := by simp
  rw [hre]
  apply strchr_skip
  intro x hx
  simp only [List.mem_cons] at hx
  rcases hx with hx | hx
  · subst hx; exact ⟨by decide, by decide⟩
  · have h1 := all_digits_mem rtxt hd x hx
    exact ⟨xdigit_ne x '=' h1 (by decide), xdigit_ne x (Char.ofNat 0) h1 (by decide)⟩

theorem hex_text_append (xs ys : List UInt8) : hex_text (xs ++ ys) = hex_text xs ++ hex_text ys := by
  simp [hex_text]

theorem range_hex_text (l : List UInt8) (n : Nat) (h : n ≤ l.length) :
    (List.range n).flatMap (fun i => hex_byte (l.getD i 0)) = hex_text (l.take n) := by
  induction n with
  | zero => rfl
  | succ n ih =>
    have hn : n < l.length := by omega
    rw [List.range_succ, List.flatMap_append, ih (by omega), List.take_succ, hex_text_append]
    congr 1
    rw [List.getElem?_eq_getElem hn]
    simp [hex_text, List.getD, List.getElem?_eq_getElem hn]

theorem hex_text_group (bs : List UInt8) :
    ∀ (i : Nat) (b : UInt8), bs[i]? = some b →
      ((hex_text bs).drop (2 * i)).take 2 = hex_byte b := by
  induction bs with
  | nil => intro i b h; simp at h
  | cons x xs ih =>
    intro i b h
    rw [hex_text_cons]
    cases i with
    | zero =>
      simp only [List.getElem?_cons_zero, Option.some.injEq] at h
      subst h
      rfl
    | succ i =>
      simp only [List.getElem?_cons_succ] at h
      rw [show 2 * (i + 1) = 2 * i + 2 by omega]
      simp only [List.drop_succ_cons]
      exact ih i b h

/-! ### gdbserver::access_vmem -/

theorem vmem_step_spec {S : Type} (stub : gdbstub S) (iswr : Bool) (s : S) (addr : Nat)
    (buf : List UInt8) (pos todo : Nat) (h : pos + todo ≤ buf.length) :
    ∃ s1 b1 c, gdbserver.access_vmem_step stub iswr s addr buf pos todo = some (s1, b1, c) ∧
      b1.length = buf.length ∧
      (∀ i, i < pos ∨ pos + todo ≤ i → b1[i]? = buf[i]?) ∧
      c.addr = addr ∧ c.todo = todo ∧ c.served stub iswr buf b1 pos := by
  unfold gdbserver.access_vmem_step
  cases hv : stub.async_virt_to_phys s addr with
  | none =>
    have hl : todo ≤ (List.replicate todo (0xee : UInt8)).length := by simp
    simp only
    rw [memcpy_some buf pos _ todo h hl]
    refine ⟨_, _, _, rfl, spliced_length buf pos _ todo h hl,
      fun i hi => spliced_outside buf pos _ todo h hl i hi, rfl, rfl, ?_⟩
    refine ⟨hv.symm, ?_, ?_⟩
    · intro _
      refine ⟨rfl, ?_⟩
      intro i hi
      show (buf.take pos ++ ((List.replicate todo (0xee : UInt8)).take todo
        ++ buf.drop (pos + todo)))[pos + i]? = some 0xee
      rw [spliced_inside buf pos _ todo h hl i hi]
      simp [List.getElem?_replicate, hi]
    · intro p hp
      exact absurd hp (by simp)
  | some pa =>
    simp only
    unfold gdbserver.access_pmem
    cases iswr with
    | true =>
      rw [if_pos rfl, if_pos h]
      refine ⟨_, _, _, rfl, rfl, fun _ _ => rfl, rfl, rfl, ?_⟩
      refine ⟨hv.symm, ?_, ?_⟩
      · intro hp
        exact absurd hp (by simp)
      · intro p hp
        have hpp : pa = p := by simpa using hp
        subst hpp
        exact ⟨_, rfl, rfl, rfl, rfl, fun _ => ⟨rfl, rfl⟩, fun hf => absurd hf (by simp)⟩
    | false =>
      have hl : todo ≤ ((List.range todo).map (stub.async_read_mem s pa todo).2.2).length := by
        simp
      rw [if_neg (by simp), memcpy_some buf pos _ todo h hl]
      refine ⟨_, _, _, rfl, spliced_length buf pos _ todo h hl,
        fun i hi => spliced_outside buf pos _ todo h hl i hi, rfl, rfl, ?_⟩
      refine ⟨hv.symm, ?_, ?_⟩
      · intro hp
        exact absurd hp (by simp)
      · intro p hp
        have hpp : pa = p := by simpa using hp
        subst hpp
        refine ⟨_, rfl, rfl, rfl, rfl, fun hf => absurd hf (by simp), fun _ => ⟨rfl, rfl, ?_⟩⟩
        intro i hi
        exact spliced_inside buf pos _ todo h hl i hi

theorem drop_congr (l1 l2 : List UInt8) (off : Nat) (h : ∀ i, off ≤ i → l1[i]? = l2[i]?) :
    l1.drop off = l2.drop off := by
  apply List.ext_getElem?
  intro i
  rw [List.getElem?_drop, List.getElem?_drop]
  exact h _ (by omega)

theorem served_rebase {S : Type} (stub : gdbstub S) (iswr : Bool) (buf b1 buf' : List UInt8)
    (off : Nat) (c : vmem_chunk S) (h : ∀ i, off ≤ i → b1[i]? = buf[i]?)
    (hc : c.served stub iswr b1 buf' off) : c.served stub iswr buf buf' off := by
  obtain ⟨h1, h2, h3⟩ := hc
  refine ⟨h1, h2, ?_⟩
  intro p hp
  obtain ⟨a, ha1, ha2, ha3, ha4, ha5, ha6⟩ := h3 p hp
  refine ⟨a, ha1, ha2, ha3, ha4, ?_, ha6⟩
  intro hw
  rw [← drop_congr b1 buf off h]
  exact ha5 hw

theorem served_final {S : Type} (stub : gdbstub S) (iswr : Bool) (buf b1 buf' : List UInt8)
    (off : Nat) (c : vmem_chunk S) (h : ∀ i, i < off + c.todo → buf'[i]? = b1[i]?)
    (hc : c.served stub iswr buf b1 off) : c.served stub iswr buf buf' off := by
  obtain ⟨h1, h2, h3⟩ := hc
  refine ⟨h1, ?_, ?_⟩
  · intro hp
    refine ⟨(h2 hp).1, ?_⟩
    intro i hi
    rw [h _ (by omega)]
    exact (h2 hp).2 i hi
  · intro p hp
    obtain ⟨a, ha1, ha2, ha3, ha4, ha5, ha6⟩ := h3 p hp
    refine ⟨a, ha1, ha2, ha3, ha4, ha5, ?_⟩
    intro hr
    refine ⟨(ha6 hr).1, (ha6 hr).2.1, ?_⟩
    intro i hi
    rw [h _ (by omega)]
    exact (ha6 hr).2.2 i hi

theorem same_page (P addr t : Nat) (hP : 0 < P) (ht : 0 < t) (hle : t ≤ P - addr % P) :
    addr / P = (addr + t - 1) / P := by
  have hq := Nat.div_add_mod addr P
  have hr := Nat.mod_lt addr hP
  symm
  apply Nat.div_eq_of_lt_le
  · rw [Nat.mul_comm]
    omega
  · rw [Nat.succ_mul, Nat.mul_comm]
    omega

theorem u64_sub_le (a b : Nat) (hb : b ≤ a) (ha : a < U64) : u64_sub a b = a - b := by
  have hU := U64_eq
  unfold u64_sub
  rw [Nat.mod_eq_of_lt (by omega : b < U64)]
  rw [show a + U64 - b = a - b + U64 by omega, Nat.add_mod_right]
  exact Nat.mod_eq_of_lt (by omega)

theorem vmem_loop_spec {S : Type} (stub : gdbstub S) (iswr : Bool) (P end_ : Nat)
    (hP : 0 < P) (hP64 : P < U64) (hend : end_ < U64) :
    ∀ (fuel : Nat) (s : S) (va : Nat) (buf : List UInt8) (pos : Nat),
      va ≤ end_ → end_ - va ≤ fuel → pos + (end_ - va) ≤ buf.length →
      ∃ s' buf' cs,
        gdbserver.access_vmem_loop stub iswr P end_ fuel s va buf pos = some (s', buf', cs) ∧
        buf'.length = buf.length ∧
        (∀ i, i < pos ∨ pos + (end_ - va) ≤ i → buf'[i]? = buf[i]?) ∧
        (cs.map (fun c => c.todo)).sum = end_ - va ∧
        (∀ j c, cs[j]? = some c → c.addr = va + ((cs.take j).map (fun c => c.todo)).sum) ∧
        (∀ c ∈ cs, va ≤ c.addr ∧ c.addr + c.todo ≤ end_ ∧ 0 < c.todo ∧
          c.todo = min (end_ - c.addr) (P - c.addr % P) ∧
          c.addr / P = (c.addr + c.todo - 1) / P ∧
          c.served stub iswr buf buf' (pos + (c.addr - va))) := by
  intro fuel
  induction fuel with
  | zero =>
    intro s va buf pos hva hfuel hbuf
    refine ⟨s, buf, [], ?_, rfl, fun _ _ => rfl, ?_, ?_, ?_⟩
    · unfold gdbserver.access_vmem_loop
      rw [if_neg (by omega)]
    · simp; omega
    · intro j c hc; simp at hc
    · intro c hc; simp at hc
  | succ fuel ih =>
    intro s va buf pos hva hfuel hbuf
    by_cases hlt : va < end_
    · have hmod := Nat.mod_lt va hP
      have ht1 : u64_sub end_ va = end_ - va := u64_sub_le end_ va hva hend
      have ht2 : u64_sub P (va % P) = P - va % P := u64_sub_le P (va % P) (by omega) hP64
      have htodo : min (u64_sub end_ va) (u64_sub P (va % P)) = min (end_ - va) (P - va % P) := by
        rw [ht1, ht2]
      generalize hT : min (end_ - va) (P - va % P) = t at htodo
      have htpos : 0 < t := by omega
      have htle : t ≤ end_ - va := by omega
      have htP : t ≤ P - va % P := by omega
      have hadd : u64_add va t = va + t := by
        have hU := U64_eq
        unfold u64_add
        exact Nat.mod_eq_of_lt (by omega)
      obtain ⟨s1, b1, c0, hstep, hlen1, hframe1, hc0a, hc0t, hc0s⟩ :=
        vmem_step_spec stub iswr s va buf pos t (by omega)
      obtain ⟨s', buf', cs, hloop, hlen, hframe, hsum, hchain, hall⟩ :=
        ih s1 (va + t) b1 (pos + t) (by omega) (by omega) (by omega)
      refine ⟨s', buf', c0 :: cs, ?_, by omega, ?_, ?_, ?_, ?_⟩
      · unfold gdbserver.access_vmem_loop
        rw [if_pos hlt, if_neg (by omega), htodo, hstep]
        simp only
        rw [hadd, hloop]
        rfl
      · intro i hi
        rw [hframe i (by omega), hframe1 i (by omega)]
      · simp only [List.map_cons, List.sum_cons, hsum, hc0t]
        omega
      · intro j c hj
        cases j with
        | zero =>
          simp only [List.getElem?_cons_zero, Option.some.injEq] at hj
          subst hj
          simp [hc0a]
        | succ j =>
          simp only [List.getElem?_cons_succ] at hj
          have := hchain j c hj
          simp only [List.take_succ_cons, List.map_cons, List.sum_cons, hc0t]
          omega
      · intro c hc
        simp only [List.mem_cons] at hc
        rcases hc with hc | hc
        · subst hc
          rw [hc0a, hc0t]
          refine ⟨le_refl _, by omega, htpos, by omega, same_page P va t hP htpos htP, ?_⟩
          rw [Nat.sub_self, Nat.add_zero]
          apply served_final stub iswr buf b1 buf' pos c _ hc0s
          intro i hi
          rw [hc0t] at hi
          exact hframe i (Or.inl hi)
        · obtain ⟨h1, h2, h3, h4, h5, h6⟩ := hall c hc
          refine ⟨by omega, h2, h3, h4, h5, ?_⟩
          have hoff : pos + t + (c.addr - (va + t)) = pos + (c.addr - va) := by omega
          rw [hoff] at h6
          apply served_rebase stub iswr buf b1 buf' _ c _ h6
          intro i hi
          exact hframe1 i (Or.inr (by omega))
    · refine ⟨s, buf, [], ?_, rfl, fun _ _ => rfl, ?_, ?_, ?_⟩
      · unfold gdbserver.access_vmem_loop
        rw [if_neg hlt]
      · simp; omega
      · intro j c hc; simp at hc
      · intro c hc; simp at hc

theorem access_vmem_spec {S : Type} (stub : gdbstub S) (iswr : Bool) (s : S) (addr : Nat)
    (buffer : List UInt8) (size P : Nat)
    (hpage : stub.async_page_size s = some P) (hP : 0 < P) (hP64 : P < U64)
    (hov : addr + size < U64) (hbuf : size ≤ buffer.length) :
    ∃ r, gdbserver.access_vmem stub iswr s addr buffer size = some r ∧ r.ok = true ∧
      r.buffer.length = buffer.length ∧
      (∀ i, size ≤ i → r.buffer[i]? = buffer[i]?) ∧
      r.log = r.chunks.filterMap (fun c => c.access) ∧
      (r.chunks.map (fun c => c.todo)).sum = size ∧
      (∀ j c, r.chunks[j]? = some c →
        c.addr = addr + ((r.chunks.take j).map (fun c => c.todo)).sum) ∧
      (∀ c ∈ r.chunks, addr ≤ c.addr ∧ c.addr + c.todo ≤ addr + size ∧ 0 < c.todo ∧
        c.todo = min (addr + size - c.addr) (P - c.addr % P) ∧
        c.addr / P = (c.addr + c.todo - 1) / P ∧
        c.served stub iswr buffer r.buffer (c.addr - addr)) := by
  have hU := U64_eq
  have hend : u64_add addr size = addr + size := by
    unfold u64_add
    exact Nat.mod_eq_of_lt hov
  obtain ⟨s', buf', cs, hloop, hlen, hframe, hsum, hchain, hall⟩ :=
    vmem_loop_spec stub iswr P (addr + size) hP hP64 hov size s addr buffer 0 (by omega)
      (by omega) (by omega)
  refine ⟨{ ok := true, stub := s', buffer := buf', chunks := cs,
            log := cs.filterMap (fun c => c.access) }, ?_, rfl, hlen, ?_, rfl, ?_, hchain, ?_⟩
  · unfold gdbserver.access_vmem
    rw [hpage]
    simp only
    rw [hend, hloop]
    rfl
  · intro i hi
    exact hframe i (Or.inr (by omega))
  · simp only [hsum]
    omega
  · intro c hc
    obtain ⟨h1, h2, h3, h4, h5, h6⟩ := hall c hc
    rw [Nat.zero_add] at h6
    exact ⟨h1, h2, h3, h4, h5, h6⟩

/-! ### gdbserver: the register loops -/

theorem bufsz_fold {S : Type} (stub : gdbstub S) (regs : List Nat) (acc : Nat)
    (h : acc + 2 * (regs.map stub.async_register_width).sum < U64) :
    regs.foldl (fun acc reg => u64_add acc ((stub.async_register_width reg * 2) % U64)) acc
      = acc + 2 * (regs.map stub.async_register_width).sum := by
  induction regs generalizing acc with
  | nil => simp
  | cons reg rest ih =>
    simp only [List.map_cons, List.sum_cons] at h
    simp only [List.foldl_cons, List.map_cons, List.sum_cons]
    have h1 : (stub.async_register_width reg * 2) % U64 = stub.async_register_width reg * 2 :=
      Nat.mod_eq_of_lt (by omega)
    have h2 : u64_add acc (stub.async_register_width reg * 2)
        = acc + stub.async_register_width reg * 2 := by
      unfold u64_add
      exact Nat.mod_eq_of_lt (by omega)
    rw [h1, h2, ih _ (by omega)]
    omega

theorem bufsz_eq {S : Type} (stub : gdbstub S)
    (h : 2 * ((List.range stub.async_num_registers).map stub.async_register_width).sum < U64) :
    gdbserver.bufsz stub
      = 2 * ((List.range stub.async_num_registers).map stub.async_register_width).sum := by
  unfold gdbserver.bufsz
  rw [bufsz_fold stub _ 0 (by omega)]
  omega

theorem reg_read_loop_regs {S : Type} (stub : gdbstub S) (regs : List Nat) (s : S) :
    (((gdbserver.reg_read_loop stub regs s).2.2.filterMap stub_call.reg_bytes).map
        (fun e => e.1)
      = regs.filter (fun reg => decide (stub.async_register_width reg ≠ 0))) ∧
    (∀ e ∈ (gdbserver.reg_read_loop stub regs s).2.2.filterMap stub_call.reg_bytes,
      e.2.length = stub.async_register_width e.1) := by
  induction regs generalizing s with
  | nil => simp [gdbserver.reg_read_loop]
  | cons reg rest ih =>
    by_cases hz : stub.async_register_width reg = 0
    · simp only [gdbserver.reg_read_loop, if_pos hz]
      rw [List.filter_cons_of_neg (by simp [hz])]
      exact ih s
    · simp only [gdbserver.reg_read_loop, if_neg hz]
      rw [List.filter_cons_of_pos (by simp [hz])]
      have := ih (stub.async_read_reg s reg (stub.async_register_width reg)).1
      simp only [List.filterMap_cons, stub_call.reg_bytes, List.map_cons, this.1]
      refine ⟨trivial, ?_⟩
      intro e he
      simp only [List.mem_cons] at he
      rcases he with he | he
      · subst he
        simp
      · exact this.2 e he

theorem reg_read_loop_text {S : Type} (stub : gdbstub S) (regs : List Nat) (s : S)
    (hgood : ∀ e ∈ (gdbserver.reg_read_loop stub regs s).2.2, e.is_good_read = true) :
    (gdbserver.reg_read_loop stub regs s).2.1
      = ((gdbserver.reg_read_loop stub regs s).2.2.filterMap stub_call.reg_bytes).flatMap
          (fun e => hex_text e.2) ∧
    (gdbserver.reg_read_loop stub regs s).2.1.length
      = 2 * (regs.map stub.async_register_width).sum := by
  induction regs generalizing s with
  | nil => simp [gdbserver.reg_read_loop]
  | cons reg rest ih =>
    by_cases hz : stub.async_register_width reg = 0
    · simp only [gdbserver.reg_read_loop, if_pos hz] at hgood ⊢
      have := ih s hgood
      refine ⟨this.1, ?_⟩
      rw [this.2]
      simp [hz]
    · simp only [gdbserver.reg_read_loop, if_neg hz] at hgood ⊢
      have hok : (stub.async_read_reg s reg (stub.async_register_width reg)).2.1 = true :=
        hgood _ (List.mem_cons_self _ _)
      have := ih (stub.async_read_reg s reg (stub.async_register_width reg)).1
        (fun e he => hgood e (List.mem_cons_of_mem _ he))
      rw [hok, reg_text_ok]
      refine ⟨?_, ?_⟩
      · simp only [List.filterMap_cons, stub_call.reg_bytes, List.flatMap_cons]
        rw [← this.1]
      · rw [List.length_append, this.2, hex_text_length]
        simp
        omega

theorem reg_write_loop_text {S : Type} (stub : gdbstub S) (regs : List Nat) (s s2 : S)
    (rest : List Char)
    (hgood : ∀ e ∈ (gdbserver.reg_read_loop stub regs s).2.2, e.is_good_read = true) :
    ∃ s3 wlog,
      gdbserver.reg_write_loop stub regs s2 ((gdbserver.reg_read_loop stub regs s).2.1 ++ rest)
        = some (s3, wlog) ∧
      wlog.filterMap stub_call.reg_bytes
        = (gdbserver.reg_read_loop stub regs s).2.2.filterMap stub_call.reg_bytes ∧
      ∀ e ∈ wlog, e.is_write_reg = true := by
  induction regs generalizing s s2 with
  | nil => exact ⟨s2, [], rfl, rfl, by simp⟩
  | cons reg tl ih =>
    by_cases hz : stub.async_register_width reg = 0
    · simp only [gdbserver.reg_read_loop, gdbserver.reg_write_loop, if_pos hz] at hgood ⊢
      exact ih s s2 hgood
    · simp only [gdbserver.reg_read_loop, gdbserver.reg_write_loop, if_neg hz] at hgood ⊢
      have hok : (stub.async_read_reg s reg (stub.async_register_width reg)).2.1 = true :=
        hgood _ (List.mem_cons_self _ _)
      rw [hok, reg_text_ok, List.append_assoc]
      have hdec := hex_decode_text
        ((List.range (stub.async_register_width reg)).map
          (stub.async_read_reg s reg (stub.async_register_width reg)).2.2)
        ((gdbserver.reg_read_loop stub tl
          (stub.async_read_reg s reg (stub.async_register_width reg)).1).2.1 ++ rest)
      rw [List.length_map, List.length_range] at hdec
      rw [hdec]
      simp only
      obtain ⟨s3, wlog, h1, h2, h3⟩ :=
        ih (stub.async_read_reg s reg (stub.async_register_width reg)).1
          (stub.async_write_reg s2 reg
            ((List.range (stub.async_register_width reg)).map
              (stub.async_read_reg s reg (stub.async_register_width reg)).2.2)).1
          (fun e he => hgood e (List.mem_cons_of_mem _ he))
      rw [h1]
      refine ⟨s3, _, rfl, ?_, ?_⟩
      · simp only [List.filterMap_cons, stub_call.reg_bytes, h2]
      · intro e he
        simp only [List.mem_cons] at he
        rcases he with he | he
        · subst he; rfl
        · exact h3 e he

theorem flatMap_hex_lower (l : List (Nat × List UInt8)) :
    ∀ c ∈ l.flatMap (fun e => hex_text e.2), c ∈ lower_hex := by
  intro c hc
  rw [List.mem_flatMap] at hc
  obtain ⟨e, _, he⟩ := hc
  exact hex_text_lower e.2 c he

/-! ### gdbserver: the packet handlers -/

/-- C25 at the packet `M0,2:1234`: the handler replies `OK` but hands the
bytes `0x21`, `0x32` to the memory write at address 0, not `0x12`, `0x34`:
`str2int` reads the low nibble first and the data pointer advances by one
character per byte.  The loop of the register write decodes the same text to
`0x12`, `0x34`. -/
theorem handle_mem_write_nibbles :
    (gdbserver.handle_mem_write test_constants flat_stub test_state (List.replicate 16 0)
        "M0,2:1234".toList).map (fun r => (r.reply, r.log))
      = some ("OK".toList,
          [stub_call.mem
            { iswr := true, addr := 0, size := 2, bytes := [0x21, 0x32], ok := true }]) ∧
    is_hex_of "0".toList 0 = true ∧ is_hex_of "2".toList 2 = true ∧
    all_digits 16 "1234".toList = true ∧ "1234".toList.length = 2 * 2 ∧
    2 ≤ test_constants.BUFFER_SIZE ∧
    ([0x21, 0x32] : List UInt8) ≠ [UInt8.ofNat (16 * 1 + 2), UInt8.ofNat (16 * 3 + 4)] ∧
    gdbserver.mem_write_decode 2 (cstr "1234".toList) = some [0x21, 0x32] ∧
    (hex_decode 2 (cstr "1234".toList)).map (fun d => d.1) = some [0x12, 0x34] := by
  decide

/-- The binary write where the packet holds its data: for a packet
`X<a>,<n>:<data>` with `0 < n ≤ BUFFER_SIZE` whose data
holds at least `n` escaped bytes, the `n` bytes `handle_mem_write_bin` decodes
and hands to `access_vmem` for address `a` (and, without paging, to the
stub's memory write) are the first `n` bytes that the rule gives for `data`
read from left to right: a byte other than `0x7d` stands for itself and takes
one input byte, `0x7d` followed by `c` stands for `c XOR 0x20` and takes two.
Escaping a byte `b` as `0x7d` followed by `b XOR 0x20` decodes back to `b`. -/
theorem handle_mem_write_bin_unescape {S : Type} (k : gdb_constants) (stub : gdbstub S) (s : S)
    (buffer : List UInt8) (atxt ntxt data : List Char) (a n : Nat)
    (ha : is_hex_of atxt a = true) (hn : is_hex_of ntxt n = true)
    (hpos : 0 < n) (hsz : n ≤ k.BUFFER_SIZE) (hdata : n ≤ (unescape_rule data).length) :
    gdbserver.unescape_loop n (cstr data) = some ((unescape_rule data).take n) ∧
    gdbserver.handle_mem_write_bin k stub s buffer ('X' :: (atxt ++ ',' :: (ntxt ++ ':' :: data)))
      = (gdbserver.access_vmem stub true s a ((unescape_rule data).take n ++ buffer.drop n)
          n).map (fun r => gdbserver.mem_reply k r ['O', 'K']) ∧
    (stub.async_page_size s = none →
      gdbserver.handle_mem_write_bin k stub s buffer
          ('X' :: (atxt ++ ',' :: (ntxt ++ ':' :: data)))
        = some
          { reply := if (stub.async_write_mem s a ((unescape_rule data).take n)).2 then ['O', 'K']
                     else k.ERR_UNKNOWN,
            stub := (stub.async_write_mem s a ((unescape_rule data).take n)).1,
            log := [stub_call.mem
              { iswr := true, addr := a, size := n, bytes := (unescape_rule data).take n,
                ok := (stub.async_write_mem s a ((unescape_rule data).take n)).2 }] }) ∧
    (∀ (c : Char) (r : List Char), char_to_u8 c ≠ 125 →
      char_unescape (c :: r) = some (char_to_u8 c, r)) ∧
    (∀ (c d : Char) (r : List Char), char_to_u8 c = 125 →
      char_unescape (c :: d :: r) = some (UInt8.ofNat ((d.toNat % 256) ^^^ 0x20), r)) ∧
    (∀ (b : UInt8) (r : List Char),
      char_unescape (Char.ofNat 125 :: Char.ofNat (b.toNat ^^^ 0x20) :: r) = some (b, r)) ∧
    (∀ (b : UInt8) (r : List Char),
      unescape_rule (Char.ofNat 125 :: Char.ofNat (b.toNat ^^^ 0x20) :: r) = b :: unescape_rule r) := by
  have hloop := unescape_loop_rule data n hdata
  have hscan : sscanf_mem 'X' ('X' :: (atxt ++ ',' :: (ntxt ++ ':' :: data))) = some (a, n) :=
    sscanf_mem_packet 'X' atxt ntxt (':' :: data) a n ha hn (xdigit_head ':' _ (by decide))
  have hchr : strchr ('X' :: (atxt ++ ',' :: (ntxt ++ ':' :: data))) ':' = some (':' :: data) :=
    strchr_packet 'X' atxt ntxt data ⟨by decide, by decide⟩ (hex_of_digits atxt a ha).1
      (hex_of_digits ntxt n hn).1
  have hmain : gdbserver.handle_mem_write_bin k stub s buffer
      ('X' :: (atxt ++ ',' :: (ntxt ++ ':' :: data)))
      = (gdbserver.access_vmem stub true s a ((unescape_rule data).take n ++ buffer.drop n)
          n).map (fun r => gdbserver.mem_reply k r ['O', 'K']) := by
    unfold gdbserver.handle_mem_write_bin
    rw [hscan]
    simp only
    rw [if_neg (by omega), if_neg (by omega), hchr]
    simp only [List.tail_cons]
    rw [hloop]
  have hesc : ∀ (b : UInt8) (r : List Char),
      char_unescape (Char.ofNat 125 :: Char.ofNat (b.toNat ^^^ 0x20) :: r) = some (b, r) := by
    intro b r
    have h125 : char_to_u8 (Char.ofNat 125) = 125 := by decide
    simp only [char_unescape, h125, if_true]
    rw [escape_char, xor_escape]
  refine ⟨hloop, hmain, ?_, ?_, ?_, hesc, ?_⟩
  · intro hp
    rw [hmain]
    have hlen : ((unescape_rule data).take n).length = n := by
      rw [List.length_take]; exact Nat.min_eq_left hdata
    have htake : (((unescape_rule data).take n ++ buffer.drop n).drop 0).take n
        = (unescape_rule data).take n := by
      rw [List.drop_zero, List.take_append_of_le_length (by omega), List.take_of_length_le (by omega)]
    unfold gdbserver.access_vmem
    rw [hp]
    simp only
    unfold gdbserver.access_pmem
    rw [if_pos rfl, if_pos (by simp only [List.length_append, hlen]; omega), htake]
    rfl
  · intro c r hc
    simp only [char_unescape, if_neg hc]
  · intro c d r hc
    simp only [char_unescape, if_pos hc]
  · intro b r
    have h125 : char_to_u8 (Char.ofNat 125) = 125 := by decide
    simp only [unescape_rule, h125, if_true]
    rw [escape_char, xor_escape]

theorem handle_mem_write_bin_unescape_witness :
    ((gdbserver.handle_mem_write_bin test_constants flat_stub test_state (List.replicate 16 0)
        "X10,3:a\x7d]b".toList).map (fun r => (r.reply, r.log))
      = some ("OK".toList,
          [stub_call.mem
            { iswr := true, addr := 0x10, size := 3, bytes := [0x61, 0x7d, 0x62], ok := true }])) ∧
    (gdbserver.unescape_loop 3 (cstr "a\x7d]b".toList) = some ((unescape_rule "a\x7d]b".toList).take 3) ∧
    gdbserver.handle_mem_write_bin test_constants flat_stub test_state (List.replicate 16 0)
        ('X' :: ("10".toList ++ ',' :: ("3".toList ++ ':' :: "a\x7d]b".toList)))
      = (gdbserver.access_vmem flat_stub true test_state 0x10
          ((unescape_rule "a\x7d]b".toList).take 3 ++ (List.replicate 16 0).drop 3) 3).map
          (fun r => gdbserver.mem_reply test_constants r ['O', 'K']) ∧
    (flat_stub.async_page_size test_state = none →
      gdbserver.handle_mem_write_bin test_constants flat_stub test_state (List.replicate 16 0)
          ('X' :: ("10".toList ++ ',' :: ("3".toList ++ ':' :: "a\x7d]b".toList)))
        = some
          { reply := if (flat_stub.async_write_mem test_state 0x10
                ((unescape_rule "a\x7d]b".toList).take 3)).2 then ['O', 'K']
              else test_constants.ERR_UNKNOWN,
            stub := (flat_stub.async_write_mem test_state 0x10
              ((unescape_rule "a\x7d]b".toList).take 3)).1,
            log := [stub_call.mem
              { iswr := true, addr := 0x10, size := 3,
                bytes := (unescape_rule "a\x7d]b".toList).take 3,
                ok := (flat_stub.async_write_mem test_state 0x10
                  ((unescape_rule "a\x7d]b".toList).take 3)).2 }] }) ∧
    (∀ (c : Char) (r : List Char), char_to_u8 c ≠ 125 →
      char_unescape (c :: r) = some (char_to_u8 c, r)) ∧
    (∀ (c d : Char) (r : List Char), char_to_u8 c = 125 →
      char_unescape (c :: d :: r) = some (UInt8.ofNat ((d.toNat % 256) ^^^ 0x20), r)) ∧
    (∀ (b : UInt8) (r : List Char),
      char_unescape (Char.ofNat 125 :: Char.ofNat (b.toNat ^^^ 0x20) :: r) = some (b, r)) ∧
    (∀ (b : UInt8) (r : List Char),
      unescape_rule (Char.ofNat 125 :: Char.ofNat (b.toNat ^^^ 0x20) :: r) = b :: unescape_rule r)) :=
  ⟨by decide,
   handle_mem_write_bin_unescape test_constants flat_stub test_state (List.replicate 16 0)
    "10".toList "3".toList "a\x7d]b".toList 0x10 3 (by decide) (by decide) (by decide) (by decide)
    (by decide)⟩

/-- C26 at the packet `X0,3:ab`, which announces three bytes and holds two:
the rule decodes `ab` to the two bytes `0x61`, `0x62`, yet the handler replies
`OK` and writes three bytes, the third being the terminating NUL of the
command, which `char_unescape` reads as data.  For `X0,4:ab` the fourth call
of `char_unescape` reads past the terminator (no result in this model).  The
register handlers compare the length of their data with the width first:
`P2=a0`, one byte for a register of two, is answered with `ERR_COMMAND`. -/
theorem handle_mem_write_bin_short_data :
    is_hex_of "0".toList 0 = true ∧ is_hex_of "3".toList 3 = true ∧
    0 < 3 ∧ 3 ≤ test_constants.BUFFER_SIZE ∧
    unescape_rule "ab".toList = [0x61, 0x62] ∧
    gdbserver.unescape_loop 3 (cstr "ab".toList) = some [0x61, 0x62, 0x00] ∧
    (gdbserver.handle_mem_write_bin test_constants flat_stub test_state (List.replicate 16 0xff)
        "X0,3:ab".toList).map (fun r => (r.reply, r.log))
      = some ("OK".toList,
          [stub_call.mem
            { iswr := true, addr := 0, size := 3, bytes := [0x61, 0x62, 0x00], ok := true }]) ∧
    gdbserver.unescape_loop 4 (cstr "ab".toList) = none ∧
    (gdbserver.handle_mem_write_bin test_constants flat_stub test_state (List.replicate 16 0xff)
        "X0,4:ab".toList).isNone = true ∧
    (gdbserver.handle_reg_write test_constants flat_stub test_state "P2=a0".toList).map
        (fun r => (r.reply, r.log))
      = some (test_constants.ERR_COMMAND, []) := by
  decide

theorem vmem_step_state {S : Type} (stub : gdbstub S) (iswr : Bool) (s : S) (addr : Nat)
    (buf : List UInt8) (pos todo : Nat) (r : S × List UInt8 × vmem_chunk S)
    (h : gdbserver.access_vmem_step stub iswr s addr buf pos todo = some r) :
    r.2.2.before = s ∧ r.1 = r.2.2.after stub := by
  unfold gdbserver.access_vmem_step at h
  cases hv : stub.async_virt_to_phys s addr with
  | none =>
    rw [hv] at h
    simp only [Option.map_eq_some'] at h
    obtain ⟨b, _, hb⟩ := h
    subst hb
    exact ⟨rfl, rfl⟩
  | some pa =>
    rw [hv] at h
    simp only [Option.map_eq_some'] at h
    obtain ⟨q, hq, hb⟩ := h
    subst hb
    refine ⟨rfl, ?_⟩
    unfold gdbserver.access_pmem at hq
    cases iswr with
    | true =>
      rw [if_pos rfl] at hq
      split at hq
      · cases hq
        rfl
      · cases hq
    | false =>
      rw [if_neg (by decide)] at hq
      simp only [Option.map_eq_some'] at hq
      obtain ⟨b, _, hb⟩ := hq
      subst hb
      rfl

theorem vmem_loop_state {S : Type} (stub : gdbstub S) (iswr : Bool) (P end_ : Nat) :
    ∀ (fuel : Nat) (s : S) (va : Nat) (buf : List UInt8) (pos : Nat)
      (r : S × List UInt8 × List (vmem_chunk S)),
      gdbserver.access_vmem_loop stub iswr P end_ fuel s va buf pos = some r →
      vmem_chain stub s r.2.2 r.1 := by
  intro fuel
  induction fuel with
  | zero =>
    intro s va buf pos r h
    unfold gdbserver.access_vmem_loop at h
    split at h
    · cases h
    · cases h
      exact rfl
  | succ fuel ih =>
    intro s va buf pos r h
    rw [gdbserver.access_vmem_loop] at h
    split at h
    · split at h
      · cases h
      · cases hstep : gdbserver.access_vmem_step stub iswr s va buf pos
            (min (u64_sub end_ va) (u64_sub P (va % P))) with
        | none =>
          rw [hstep] at h
          cases h
        | some q =>
          rw [hstep] at h
          simp only [Option.map_eq_some'] at h
          obtain ⟨t, ht, hr⟩ := h
          subst hr
          have hq := vmem_step_state stub iswr s va buf pos _ q hstep
          have := ih _ _ _ _ t ht
          rw [hq.2] at this
          exact ⟨hq.1, this⟩
    · cases h
      exact rfl

theorem access_vmem_state {S : Type} (stub : gdbstub S) (iswr : Bool) (s : S) (addr : Nat)
    (buffer : List UInt8) (size P : Nat) (hpage : stub.async_page_size s = some P)
    (r : vmem_result S) (h : gdbserver.access_vmem stub iswr s addr buffer size = some r) :
    vmem_chain stub s r.chunks r.stub := by
  unfold gdbserver.access_vmem at h
  rw [hpage] at h
  simp only [Option.map_eq_some'] at h
  obtain ⟨t, ht, hr⟩ := h
  subst hr
  exact vmem_loop_state stub iswr P _ _ _ _ _ _ t ht

theorem vmem_chain_spec {S : Type} (stub : gdbstub S) :
    ∀ (cs : List (vmem_chunk S)) (s s1 : S), vmem_chain stub s cs s1 →
      (∀ c, cs.head? = some c → c.before = s) ∧
      (∀ j c d, cs[j]? = some c → cs[j + 1]? = some d → d.before = c.after stub) ∧
      s1 = (cs.getLast?.map (fun c => c.after stub)).getD s := by
  intro cs
  induction cs with
  | nil =>
    intro s s1 h
    refine ⟨fun c hc => by simp at hc, fun j c d hc => by simp at hc, ?_⟩
    exact h
  | cons c0 cs ih =>
    intro s s1 h
    obtain ⟨hb, hrest⟩ := h
    obtain ⟨h1, h2, h3⟩ := ih _ _ hrest
    refine ⟨?_, ?_, ?_⟩
    · intro c hc
      simp only [List.head?_cons, Option.some.injEq] at hc
      rw [← hc]
      exact hb
    · intro j c d hc hd
      cases j with
      | zero =>
        simp only [List.getElem?_cons_zero, Option.some.injEq] at hc
        simp only [zero_add, List.getElem?_cons_succ] at hd
        rw [← hc]
        apply h1
        cases cs with
        | nil => simp at hd
        | cons x xs =>
          simp only [List.getElem?_cons_zero] at hd
          simpa using hd
      | succ j =>
        simp only [List.getElem?_cons_succ] at hc hd
        exact h2 j c d hc hd
    · rw [h3]
      cases cs with
      | nil => rfl
      | cons x xs =>
        rw [List.getLast?_cons_cons]
        cases hl : (x :: xs).getLast? with
        | none => simp at hl
        | some y => rfl

/-- C27: when the stub reports a page size `P > 0` and `addr + size` does not
overflow, `access_vmem` returns true after cutting `[addr, addr+size)` into
consecutive chunks, each of the length `min(remaining, P - addr mod P)`, which
is positive and keeps the chunk within one page; the lengths sum to `size`.
A chunk whose start address the stub translates makes one physical access of
its length at the translated address (a write with the chunk's slice of the
buffer, a read into that slice); a chunk that does not translate makes no
physical access and leaves its bytes of the buffer as `0xee`.  The physical
accesses made are those of the translated chunks, in order, and they are made
on the target one after the other: the first chunk starts in the state the
call starts in, each further chunk in the state the stub's memory function
returned for the chunk before it (the same state when that chunk made no
access), and the state `access_vmem` leaves is the one after the last
chunk. -/
theorem access_vmem_chunks {S : Type} (stub : gdbstub S) (iswr : Bool) (s : S) (addr : Nat)
    (buffer : List UInt8) (size P : Nat)
    (hpage : stub.async_page_size s = some P) (hP : 0 < P) (hP64 : P < U64)
    (hov : addr + size < U64) (hbuf : size ≤ buffer.length) :
    ∃ r, gdbserver.access_vmem stub iswr s addr buffer size = some r ∧ r.ok = true ∧
      r.buffer.length = buffer.length ∧
      (∀ i, size ≤ i → r.buffer[i]? = buffer[i]?) ∧
      r.log = r.chunks.filterMap (fun c => c.access) ∧
      (r.chunks.map (fun c => c.todo)).sum = size ∧
      (∀ j c, r.chunks[j]? = some c →
        c.addr = addr + ((r.chunks.take j).map (fun c => c.todo)).sum) ∧
      (∀ c ∈ r.chunks, addr ≤ c.addr ∧ c.addr + c.todo ≤ addr + size ∧ 0 < c.todo ∧
        c.todo = min (addr + size - c.addr) (P - c.addr % P) ∧
        c.addr / P = (c.addr + c.todo - 1) / P ∧
        c.pa = stub.async_virt_to_phys c.before c.addr ∧
        (c.pa = none →
          c.access = none ∧ ∀ i, i < c.todo → r.buffer[c.addr - addr + i]? = some 0xee) ∧
        (∀ p, c.pa = some p →
          ∃ a, c.access = some a ∧ a.iswr = iswr ∧ a.addr = p ∧ a.size = c.todo ∧
            (iswr = true →
              a.bytes = (buffer.drop (c.addr - addr)).take c.todo ∧
              a.ok = (stub.async_write_mem c.before p a.bytes).2) ∧
            (iswr = false →
              a.bytes = (List.range c.todo).map (stub.async_read_mem c.before p c.todo).2.2 ∧
              a.ok = (stub.async_read_mem c.before p c.todo).2.1 ∧
              ∀ i, i < c.todo → r.buffer[c.addr - addr + i]? = a.bytes[i]?))) ∧
      vmem_chain stub s r.chunks r.stub ∧
      (∀ c, r.chunks.head? = some c → c.before = s) ∧
      (∀ j c d, r.chunks[j]? = some c → r.chunks[j + 1]? = some d →
        d.before = c.after stub) ∧
      r.stub = (r.chunks.getLast?.map (fun c => c.after stub)).getD s ∧
      (∀ c ∈ r.chunks,
        (c.access = none → c.after stub = c.before) ∧
        (∀ a, c.access = some a → iswr = true →
          c.after stub = (stub.async_write_mem c.before a.addr a.bytes).1) ∧
        (∀ a, c.access = some a → iswr = false →
          c.after stub = (stub.async_read_mem c.before a.addr a.size).1)) := by
  obtain ⟨r, h1, h2, h3, h4, h5, h6, h7, h8⟩ :=
    access_vmem_spec stub iswr s addr buffer size P hpage hP hP64 hov hbuf
  have hchain := access_vmem_state stub iswr s addr buffer size P hpage r h1
  obtain ⟨c1, c2, c3⟩ := vmem_chain_spec stub r.chunks s r.stub hchain
  refine ⟨r, h1, h2, h3, h4, h5, h6, h7, h8, hchain, c1, c2, c3, ?_⟩
  intro c hc
  obtain ⟨_, _, _, _, _, _, hnone, hsome⟩ := h8 c hc
  refine ⟨?_, ?_, ?_⟩
  · intro ha
    unfold vmem_chunk.after
    rw [ha]
  · intro a ha hw
    have hiw : a.iswr = true := by
      cases hpa : c.pa with
      | none =>
        have := (hnone hpa).1
        rw [ha] at this
        cases this
      | some p =>
        obtain ⟨a1, ha1, hi, _⟩ := hsome p hpa
        rw [ha] at ha1
        cases ha1
        rw [hi, hw]
    unfold vmem_chunk.after
    rw [ha]
    simp only [hiw, if_true]
  · intro a ha hw
    have hiw : a.iswr = false := by
      cases hpa : c.pa with
      | none =>
        have := (hnone hpa).1
        rw [ha] at this
        cases this
      | some p =>
        obtain ⟨a1, ha1, hi, _⟩ := hsome p hpa
        rw [ha] at ha1
        cases ha1
        rw [hi, hw]
    unfold vmem_chunk.after
    rw [ha]
    simp only [hiw, Bool.false_eq_true, if_false]

/-- Witness of `access_vmem_chunks`: a write of the bytes 1, 2, 3, 4 to the
virtual addresses `0x1e .. 0x21` through `paged_stub`: the chunk `0x1e, 0x1f`
is written to the physical addresses `0x11e, 0x11f` of the target, the chunk
`0x20, 0x21` does not translate and is dropped. -/
theorem access_vmem_chunks_witness :
    ((gdbserver.access_vmem paged_stub true test_state 0x1e [1, 2, 3, 4] 4).map
        (fun r => (r.ok, r.buffer, r.log, r.chunks.map (fun c => (c.addr, c.todo, c.pa)),
          r.stub.mem))
      = some (true, [1, 2, 0xee, 0xee],
          [{ iswr := true, addr := 0x11e, size := 2, bytes := [1, 2], ok := true }],
          [(0x1e, 2, some 0x11e), (0x20, 2, none)],
          [(0x11f, 2), (0x11e, 1), (0x10f, 0xab), (0x110, 0xcd)]) ∧
     (gdbserver.access_vmem paged_stub false test_state 0xe [1, 1, 1, 1] 4).map
        (fun r => (r.ok, r.buffer, r.log, r.chunks.map (fun c => (c.addr, c.todo, c.pa)),
          r.stub.mem))
      = some (true, [0, 0xab, 0xcd, 0],
          [{ iswr := false, addr := 0x10e, size := 2, bytes := [0, 0xab], ok := true },
           { iswr := false, addr := 0x110, size := 2, bytes := [0xcd, 0], ok := true }],
          [(0xe, 2, some 0x10e), (0x10, 2, some 0x110)],
          [(0x10f, 0xab), (0x110, 0xcd)])) ∧
    (∃ r, gdbserver.access_vmem paged_stub true test_state 0x1e [1, 2, 3, 4] 4
        = some r ∧ r.ok = true ∧
      r.buffer.length = ([1, 2, 3, 4] : List UInt8).length ∧
      (∀ i, 4 ≤ i → r.buffer[i]? = ([1, 2, 3, 4] : List UInt8)[i]?) ∧
      r.log = r.chunks.filterMap (fun c => c.access) ∧
      (r.chunks.map (fun c => c.todo)).sum = 4 ∧
      (∀ j c, r.chunks[j]? = some c →
        c.addr = 0x1e + ((r.chunks.take j).map (fun c => c.todo)).sum) ∧
      (∀ c ∈ r.chunks, 0x1e ≤ c.addr ∧ c.addr + c.todo ≤ 0x1e + 4 ∧ 0 < c.todo ∧
        c.todo = min (0x1e + 4 - c.addr) (16 - c.addr % 16) ∧
        c.addr / 16 = (c.addr + c.todo - 1) / 16 ∧
        c.pa = paged_stub.async_virt_to_phys c.before c.addr ∧
        (c.pa = none →
          c.access = none ∧ ∀ i, i < c.todo → r.buffer[c.addr - 0x1e + i]? = some 0xee) ∧
        (∀ p, c.pa = some p →
          ∃ a, c.access = some a ∧ a.iswr = true ∧ a.addr = p ∧ a.size = c.todo ∧
            (true = true →
              a.bytes = (([1, 2, 3, 4] : List UInt8).drop (c.addr - 0x1e)).take c.todo ∧
              a.ok = (paged_stub.async_write_mem c.before p a.bytes).2) ∧
            (true = false →
              a.bytes = (List.range c.todo).map (paged_stub.async_read_mem c.before p c.todo).2.2 ∧
              a.ok = (paged_stub.async_read_mem c.before p c.todo).2.1 ∧
              ∀ i, i < c.todo → r.buffer[c.addr - 0x1e + i]? = a.bytes[i]?))) ∧
      vmem_chain paged_stub test_state r.chunks r.stub ∧
      (∀ c, r.chunks.head? = some c → c.before = test_state) ∧
      (∀ j c d, r.chunks[j]? = some c → r.chunks[j + 1]? = some d →
        d.before = c.after paged_stub) ∧
      r.stub = (r.chunks.getLast?.map (fun c => c.after paged_stub)).getD test_state ∧
      (∀ c ∈ r.chunks,
        (c.access = none → c.after paged_stub = c.before) ∧
        (∀ a, c.access = some a → true = true →
          c.after paged_stub = (paged_stub.async_write_mem c.before a.addr a.bytes).1) ∧
        (∀ a, c.access = some a → true = false →
          c.after paged_stub = (paged_stub.async_read_mem c.before a.addr a.size).1))) :=
  ⟨⟨rfl, rfl⟩,
   access_vmem_chunks paged_stub true test_state 0x1e [1, 2, 3, 4] 4 16 rfl
    (by decide) (by decide) (by decide) (by decide)⟩

/-- Counterexample to C28: with pages of 16 bytes of which only the first two
translate, the reply to `m1e,4` is `0000eeee`: the two bytes at `0x20` and
`0x21`, which cannot be read, are reported as `ee`, not as `xx`.  With a stub
without paging whose read fails, the reply to the same packet is the error
`ERR_UNKNOWN`, not four groups `xx`. -/
theorem handle_mem_read_no_xx :
    is_hex_of "1e".toList 0x1e = true ∧ is_hex_of "4".toList 4 = true ∧
    4 ≤ test_constants.BUFFER_SIZE ∧
    paged_stub.async_virt_to_phys test_state 0x20 = none ∧
    (gdbserver.handle_mem_read test_constants paged_stub test_state (List.replicate 16 7)
        "m1e,4".toList).map (fun r => (r.reply, r.log))
      = some ("0000eeee".toList,
          [stub_call.mem
            { iswr := false, addr := 0x11e, size := 2, bytes := [0, 0], ok := true }]) ∧
    "0000eeee".toList ≠ "0000xxxx".toList ∧
    (gdbserver.handle_mem_read test_constants deaf_stub test_state (List.replicate 16 7)
        "m1e,4".toList).map (fun r => (r.reply, r.log))
      = some (test_constants.ERR_UNKNOWN,
          [stub_call.mem
            { iswr := false, addr := 0x1e, size := 4, bytes := [0, 0, 0, 0], ok := false }]) ∧
    test_constants.ERR_UNKNOWN ≠ "xxxxxxxx".toList := by
  decide

/-- C28 (amended): for a well-formed packet `m<a>,<n>` with `n ≤ BUFFER_SIZE`.
Without paging the reply is the `2n` hexadecimal digits of the bytes read when
the physical read succeeds and `ERR_UNKNOWN` when it fails.  With a page size
`P > 0` (and `a + n` not overflowing) the reply consists of exactly `n` groups
of two lowercase hexadecimal digits in address order, group `i` being the
digits of byte `i` of the buffer that `access_vmem` leaves: for a chunk that
does not translate every group is `ee`, for a chunk that translates the groups
are the digits of the bytes of the stub's physical read.  No reply of this
kind holds an `x`. -/
theorem handle_mem_read_groups {S : Type} (k : gdb_constants) (stub : gdbstub S) (s : S)
    (buffer : List UInt8) (atxt ntxt : List Char) (a n : Nat)
    (ha : is_hex_of atxt a = true) (hn : is_hex_of ntxt n = true)
    (hsz : n ≤ k.BUFFER_SIZE) (hbuf : buffer.length = k.BUFFER_SIZE) :
    (stub.async_page_size s = none →
      gdbserver.handle_mem_read k stub s buffer ('m' :: (atxt ++ ',' :: ntxt))
        = some
          { reply := if (stub.async_read_mem s a n).2.1 then
                hex_text ((List.range n).map (stub.async_read_mem s a n).2.2)
              else k.ERR_UNKNOWN,
            stub := (stub.async_read_mem s a n).1,
            log := [stub_call.mem
              { iswr := false, addr := a, size := n,
                bytes := (List.range n).map (stub.async_read_mem s a n).2.2,
                ok := (stub.async_read_mem s a n).2.1 }] }) ∧
    (∀ P, stub.async_page_size s = some P ∧ 0 < P ∧ P < U64 ∧ a + n < U64 →
      ∃ r, gdbserver.access_vmem stub false s a buffer n = some r ∧
        gdbserver.handle_mem_read k stub s buffer ('m' :: (atxt ++ ',' :: ntxt))
          = some { reply := hex_text (r.buffer.take n), stub := r.stub,
                   log := r.log.map stub_call.mem } ∧
        (hex_text (r.buffer.take n)).length = 2 * n ∧
        (∀ i b, i < n → r.buffer[i]? = some b →
          ((hex_text (r.buffer.take n)).drop (2 * i)).take 2 = hex_byte b) ∧
        (∀ c ∈ hex_text (r.buffer.take n), c ∈ lower_hex) ∧
        (∀ c ∈ r.chunks, c.pa = none → ∀ i, i < c.todo →
          ((hex_text (r.buffer.take n)).drop (2 * (c.addr - a + i))).take 2 = ['e', 'e']) ∧
        (∀ c ∈ r.chunks, ∀ p, c.pa = some p → ∀ i, i < c.todo →
          ((hex_text (r.buffer.take n)).drop (2 * (c.addr - a + i))).take 2
            = hex_byte ((stub.async_read_mem c.before p c.todo).2.2 i))) := by
  have hscan : sscanf_mem 'm' ('m' :: (atxt ++ ',' :: ntxt)) = some (a, n) := by
    have := sscanf_mem_packet 'm' atxt ntxt [] a n ha hn (by simp)
    rw [List.append_nil] at this
    exact this
  have hhead : gdbserver.handle_mem_read k stub s buffer ('m' :: (atxt ++ ',' :: ntxt))
      = (gdbserver.access_vmem stub false s a buffer n).map
          (fun r => gdbserver.mem_reply k r
            ((List.range n).flatMap (fun i => hex_byte (r.buffer.getD i 0)))) := by
    unfold gdbserver.handle_mem_read
    rw [hscan]
    simp only
    rw [if_neg (by omega)]
  refine ⟨?_, ?_⟩
  · intro hp
    have hl : n ≤ ((List.range n).map (stub.async_read_mem s a n).2.2).length := by simp
    have hl2 : ((List.range n).map (stub.async_read_mem s a n).2.2).length = n := by simp
    rw [hhead]
    unfold gdbserver.access_vmem
    rw [hp]
    simp only
    unfold gdbserver.access_pmem
    rw [if_neg (by simp), memcpy_some buffer 0 _ n (by omega) hl]
    simp only [Option.map_some', gdbserver.mem_reply, List.take_zero, List.nil_append,
      List.map_cons, List.map_nil, Nat.zero_add]
    rw [range_hex_text _ n (by
      rw [List.length_append, List.length_take, List.length_drop, hl2]; omega)]
    rw [List.take_of_length_le (by omega : ((List.range n).map
      (stub.async_read_mem s a n).2.2).length ≤ n)]
    rw [List.take_append_of_le_length (by omega), List.take_of_length_le (by omega)]
  · intro P hP
    obtain ⟨hpage, hPpos, hP64, hov⟩ := hP
    obtain ⟨r, h1, h2, h3, _, _, _, _, h8⟩ :=
      access_vmem_spec stub false s a buffer n P hpage hPpos hP64 hov (by omega)
    have hlen : (r.buffer.take n).length = n := by
      rw [List.length_take]; omega
    have hgroup : ∀ i b, i < n → r.buffer[i]? = some b →
        ((hex_text (r.buffer.take n)).drop (2 * i)).take 2 = hex_byte b := by
      intro i b hi hb
      apply hex_text_group
      rw [List.getElem?_take_of_lt hi]
      exact hb
    refine ⟨r, h1, ?_, ?_, hgroup, hex_text_lower _, ?_, ?_⟩
    · rw [hhead, h1]
      simp only [Option.map_some', gdbserver.mem_reply, h2, if_true]
      rw [range_hex_text _ n (by omega)]
    · rw [hex_text_length, hlen]
    · intro c hc hpa i hi
      obtain ⟨g1, g2, _, _, _, g6⟩ := h8 c hc
      have := (g6.2.1 hpa).2 i hi
      exact hgroup _ _ (by omega) this
    · intro c hc p hpa i hi
      obtain ⟨g1, g2, _, _, _, g6⟩ := h8 c hc
      obtain ⟨acc, _, _, _, _, _, g7⟩ := g6.2.2 p hpa
      obtain ⟨gb, _, gbuf⟩ := g7 rfl
      have hb := gbuf i hi
      rw [gb] at hb
      rw [List.getElem?_map, List.getElem?_range hi] at hb
      exact hgroup _ _ (by omega) hb

theorem handle_mem_read_groups_witness :
    ((gdbserver.handle_mem_read test_constants paged_stub test_state (List.replicate 16 7)
        "mf,2".toList).map (fun r => (r.reply, r.log))
      = some ("abcd".toList,
          [stub_call.mem { iswr := false, addr := 0x10f, size := 1, bytes := [0xab], ok := true },
           stub_call.mem
            { iswr := false, addr := 0x110, size := 1, bytes := [0xcd], ok := true }])) ∧
    ((paged_stub.async_page_size test_state = none →
      gdbserver.handle_mem_read test_constants paged_stub test_state (List.replicate 16 7)
          ('m' :: ("1e".toList ++ ',' :: "4".toList))
        = some
          { reply := if (paged_stub.async_read_mem test_state 0x1e 4).2.1 then
                hex_text ((List.range 4).map (paged_stub.async_read_mem test_state 0x1e 4).2.2)
              else test_constants.ERR_UNKNOWN,
            stub := (paged_stub.async_read_mem test_state 0x1e 4).1,
            log := [stub_call.mem
              { iswr := false, addr := 0x1e, size := 4,
                bytes := (List.range 4).map (paged_stub.async_read_mem test_state 0x1e 4).2.2,
                ok := (paged_stub.async_read_mem test_state 0x1e 4).2.1 }] }) ∧
    (∀ P, paged_stub.async_page_size test_state = some P ∧ 0 < P ∧ P < U64 ∧ 0x1e + 4 < U64 →
      ∃ r, gdbserver.access_vmem paged_stub false test_state 0x1e (List.replicate 16 7) 4
          = some r ∧
        gdbserver.handle_mem_read test_constants paged_stub test_state (List.replicate 16 7)
            ('m' :: ("1e".toList ++ ',' :: "4".toList))
          = some { reply := hex_text (r.buffer.take 4), stub := r.stub,
                   log := r.log.map stub_call.mem } ∧
        (hex_text (r.buffer.take 4)).length = 2 * 4 ∧
        (∀ i b, i < 4 → r.buffer[i]? = some b →
          ((hex_text (r.buffer.take 4)).drop (2 * i)).take 2 = hex_byte b) ∧
        (∀ c ∈ hex_text (r.buffer.take 4), c ∈ lower_hex) ∧
        (∀ c ∈ r.chunks, c.pa = none → ∀ i, i < c.todo →
          ((hex_text (r.buffer.take 4)).drop (2 * (c.addr - 0x1e + i))).take 2 = ['e', 'e']) ∧
        (∀ c ∈ r.chunks, ∀ p, c.pa = some p → ∀ i, i < c.todo →
          ((hex_text (r.buffer.take 4)).drop (2 * (c.addr - 0x1e + i))).take 2
            = hex_byte ((paged_stub.async_read_mem c.before p c.todo).2.2 i)))) :=
  ⟨by decide,
   handle_mem_read_groups test_constants paged_stub test_state (List.replicate 16 7)
    "1e".toList "4".toList 0x1e 4 (by decide) (by decide) (by decide) (by decide)⟩

/-- C29: for a register `r` of width `w > 0` (index and width within an
`unsigned int`) and bytes `b` of length `w`: when the stub's read succeeds
with the buffer holding `b`, `handle_reg_read` replies the `2w` lowercase
hexadecimal digits of `b` in buffer order; `handle_reg_write` on `P<r>=` with
that text hands exactly `b` to the stub's register write (and replies `OK`
when the write succeeds); data whose length is not `2w` is rejected with
`ERR_COMMAND` without any call of the stub. -/
theorem reg_hex_round_trip {S : Type} (k : gdb_constants) (stub : gdbstub S) (s s2 : S)
    (rtxt : List Char) (r w : Nat) (b : List UInt8)
    (hr : is_hex_of rtxt r = true) (hr32 : r < U32)
    (hw : stub.async_register_width r = w) (hpos : 0 < w) (hw32 : w < U32)
    (hb : b.length = w) :
    ((stub.async_read_reg s r w).2.1 = true ∧
        (List.range w).map (stub.async_read_reg s r w).2.2 = b →
      gdbserver.handle_reg_read k stub s ('p' :: rtxt)
        = some { reply := hex_text b, stub := (stub.async_read_reg s r w).1,
                 log := [stub_call.read_reg r w true b] }) ∧
    (hex_text b).length = 2 * w ∧
    (∀ c ∈ hex_text b, c ∈ lower_hex) ∧
    hex_text b = b.flatMap (fun x => [hex_digit (x.toNat / 16), hex_digit (x.toNat % 16)]) ∧
    gdbserver.handle_reg_write k stub s2 ('P' :: (rtxt ++ '=' :: hex_text b))
      = some { reply := if (stub.async_write_reg s2 r b).2 then ['O', 'K'] else k.ERR_INTERNAL,
               stub := (stub.async_write_reg s2 r b).1,
               log := [stub_call.write_reg r b (stub.async_write_reg s2 r b).2] } ∧
    (∀ data : List Char, strlen data ≠ 2 * w →
      gdbserver.handle_reg_write k stub s2 ('P' :: (rtxt ++ '=' :: data))
        = some { reply := k.ERR_COMMAND, stub := s2, log := [] }) ∧
    (∀ data : List Char, (∀ c ∈ data, c ≠ Char.ofNat 0) → strlen data = data.length) := by
  have hU32 : U32 = 4294967296 := by decide
  have hU64 := U64_eq
  have hdig := (hex_of_digits rtxt r hr).1
  have hscanp : sscanf_reg 'p' ('p' :: rtxt) = some r := by
    have := sscanf_reg_packet 'p' rtxt [] r hr (by simp)
    rw [List.append_nil, Nat.mod_eq_of_lt hr32] at this
    exact this
  have hscanP : ∀ data : List Char, sscanf_reg 'P' ('P' :: (rtxt ++ '=' :: data)) = some r := by
    intro data
    have := sscanf_reg_packet 'P' rtxt ('=' :: data) r hr (xdigit_head '=' _ (by decide))
    rw [Nat.mod_eq_of_lt hr32] at this
    exact this
  have hw2 : (w * 2) % U64 = 2 * w := by
    rw [Nat.mod_eq_of_lt (by omega)]; omega
  refine ⟨?_, ?_, hex_text_lower b, rfl, ?_, ?_, strlen_eq_length⟩
  · intro hrd
    unfold gdbserver.handle_reg_read
    rw [hscanp]
    simp only [hw]
    rw [if_neg (by omega), if_neg (by omega), hrd.1, reg_text_ok, hrd.2]
  · rw [hex_text_length, hb]
  · unfold gdbserver.handle_reg_write
    rw [hscanP]
    simp only [hw]
    rw [if_neg (by omega), strchr_reg rtxt _ hdig]
    simp only [List.tail_cons]
    rw [strlen_eq_length _ (hex_text_no_nul b), hex_text_length, hb, hw2, if_neg (by simp),
      if_neg (by omega)]
    have := hex_decode_text b [Char.ofNat 0]
    rw [hb] at this
    unfold cstr
    rw [this]
  · intro data hlen
    unfold gdbserver.handle_reg_write
    rw [hscanP]
    simp only [hw]
    rw [if_neg (by omega), strchr_reg rtxt _ hdig]
    simp only [List.tail_cons]
    rw [hw2, if_pos hlen]

theorem reg_hex_round_trip_witness :
    ((gdbserver.handle_reg_read test_constants flat_stub test_state "p2".toList).map
        (fun x => (x.reply, x.log))
      = some ("a00b".toList, [stub_call.read_reg 2 2 true [0xa0, 0x0b]]) ∧
     (gdbserver.handle_reg_write test_constants flat_stub test_state "P2=a00b".toList).map
        (fun x => (x.reply, x.log))
      = some ("OK".toList, [stub_call.write_reg 2 [0xa0, 0x0b] true]) ∧
     (gdbserver.handle_reg_write test_constants flat_stub test_state "P2=a00".toList).map
        (fun x => (x.reply, x.log))
      = some ("E01".toList, [])) ∧
    (((flat_stub.async_read_reg test_state 2 2).2.1 = true ∧
        (List.range 2).map (flat_stub.async_read_reg test_state 2 2).2.2 = [0xa0, 0x0b] →
      gdbserver.handle_reg_read test_constants flat_stub test_state ('p' :: "2".toList)
        = some { reply := hex_text [0xa0, 0x0b],
                 stub := (flat_stub.async_read_reg test_state 2 2).1,
                 log := [stub_call.read_reg 2 2 true [0xa0, 0x0b]] }) ∧
    (hex_text [0xa0, 0x0b]).length = 2 * 2 ∧
    (∀ c ∈ hex_text [0xa0, 0x0b], c ∈ lower_hex) ∧
    hex_text [0xa0, 0x0b]
      = ([0xa0, 0x0b] : List UInt8).flatMap
          (fun x => [hex_digit (x.toNat / 16), hex_digit (x.toNat % 16)]) ∧
    gdbserver.handle_reg_write test_constants flat_stub test_state
        ('P' :: ("2".toList ++ '=' :: hex_text [0xa0, 0x0b]))
      = some { reply := if (flat_stub.async_write_reg test_state 2 [0xa0, 0x0b]).2 then ['O', 'K']
                        else test_constants.ERR_INTERNAL,
               stub := (flat_stub.async_write_reg test_state 2 [0xa0, 0x0b]).1,
               log := [stub_call.write_reg 2 [0xa0, 0x0b]
                 (flat_stub.async_write_reg test_state 2 [0xa0, 0x0b]).2] } ∧
    (∀ data : List Char, strlen data ≠ 2 * 2 →
      gdbserver.handle_reg_write test_constants flat_stub test_state
          ('P' :: ("2".toList ++ '=' :: data))
        = some { reply := test_constants.ERR_COMMAND, stub := test_state, log := [] }) ∧
    (∀ data : List Char, (∀ c ∈ data, c ≠ Char.ofNat 0) → strlen data = data.length)) :=
  ⟨by decide,
   reg_hex_round_trip test_constants flat_stub test_state test_state "2".toList 2 2 [0xa0, 0x0b]
    (by decide) (by decide) (by decide) (by decide) (by decide) (by decide)⟩

theorem reg_read_loop_calls {S : Type} (stub : gdbstub S) (regs : List Nat) (s : S) :
    (gdbserver.reg_read_loop stub regs s).2.2
      = (stub.read_regs (regs.filter (fun reg => decide (stub.async_register_width reg ≠ 0)))
          s).2 ∧
    (gdbserver.reg_read_loop stub regs s).1
      = (stub.read_regs (regs.filter (fun reg => decide (stub.async_register_width reg ≠ 0)))
          s).1 := by
  induction regs generalizing s with
  | nil => exact ⟨rfl, rfl⟩
  | cons reg rest ih =>
    by_cases hz : stub.async_register_width reg = 0
    · simp only [gdbserver.reg_read_loop, if_pos hz]
      rw [List.filter_cons_of_neg (by simp [hz])]
      exact ih s
    · simp only [gdbserver.reg_read_loop, if_neg hz]
      rw [List.filter_cons_of_pos (by simp [hz])]
      have := ih (stub.async_read_reg s reg (stub.async_register_width reg)).1
      simp only [gdbstub.read_regs]
      rw [this.1, this.2]
      exact ⟨rfl, rfl⟩

theorem reg_write_loop_calls {S : Type} (stub : gdbstub S) (regs : List Nat) (s s2 : S)
    (rest : List Char)
    (hgood : ∀ e ∈ (gdbserver.reg_read_loop stub regs s).2.2, e.is_good_read = true) :
    gdbserver.reg_write_loop stub regs s2 ((gdbserver.reg_read_loop stub regs s).2.1 ++ rest)
      = some (stub.write_regs
          ((gdbserver.reg_read_loop stub regs s).2.2.filterMap stub_call.reg_bytes) s2) := by
  induction regs generalizing s s2 with
  | nil => rfl
  | cons reg tl ih =>
    by_cases hz : stub.async_register_width reg = 0
    · simp only [gdbserver.reg_read_loop, gdbserver.reg_write_loop, if_pos hz] at hgood ⊢
      exact ih s s2 hgood
    · simp only [gdbserver.reg_read_loop, gdbserver.reg_write_loop, if_neg hz] at hgood ⊢
      have hok : (stub.async_read_reg s reg (stub.async_register_width reg)).2.1 = true :=
        hgood _ (List.mem_cons_self _ _)
      rw [hok, reg_text_ok, List.append_assoc]
      have hdec := hex_decode_text
        ((List.range (stub.async_register_width reg)).map
          (stub.async_read_reg s reg (stub.async_register_width reg)).2.2)
        ((gdbserver.reg_read_loop stub tl
          (stub.async_read_reg s reg (stub.async_register_width reg)).1).2.1 ++ rest)
      rw [List.length_map, List.length_range] at hdec
      rw [hdec]
      simp only
      rw [ih (stub.async_read_reg s reg (stub.async_register_width reg)).1
          (stub.async_write_reg s2 reg
            ((List.range (stub.async_register_width reg)).map
              (stub.async_read_reg s reg (stub.async_register_width reg)).2.2)).1
          (fun e he => hgood e (List.mem_cons_of_mem _ he))]
      simp only [List.filterMap_cons, stub_call.reg_bytes, gdbstub.write_regs, Option.map_some']

/-- C30: when every register read of `g` succeeds, the reads are those of the
registers of non-zero width in ascending index, each of its width in bytes,
made on the target one after the other, and the reply is the concatenation of
their `2*width` lowercase hexadecimal digits (total length
`2 * sum of widths`); `G` with that reply as data is accepted with `OK` and
calls the stub's register write, for the same registers in the same order,
with exactly the bytes read, each call on the state of the target that the
call before it returned; the state the handler leaves is the one the last
call returned.  A `G` packet whose data length differs from
`2 * sum of widths` is rejected with `ERR_COMMAND` without any call of the
stub. -/
theorem reg_all_round_trip {S : Type} (k : gdb_constants) (stub : gdbstub S) (s s2 : S)
    (hgood : ∀ e ∈ (gdbserver.handle_reg_read_all stub s).log, e.is_good_read = true)
    (hsum : 2 * ((List.range stub.async_num_registers).map stub.async_register_width).sum
      < U64) :
    (((gdbserver.handle_reg_read_all stub s).log.filterMap stub_call.reg_bytes).map
        (fun e => e.1)
      = (List.range stub.async_num_registers).filter
          (fun reg => decide (stub.async_register_width reg ≠ 0))) ∧
    (∀ e ∈ (gdbserver.handle_reg_read_all stub s).log.filterMap stub_call.reg_bytes,
      e.2.length = stub.async_register_width e.1) ∧
    (gdbserver.handle_reg_read_all stub s).reply
      = ((gdbserver.handle_reg_read_all stub s).log.filterMap stub_call.reg_bytes).flatMap
          (fun e => hex_text e.2) ∧
    (gdbserver.handle_reg_read_all stub s).reply.length
      = 2 * ((List.range stub.async_num_registers).map stub.async_register_width).sum ∧
    (∀ c ∈ (gdbserver.handle_reg_read_all stub s).reply, c ∈ lower_hex) ∧
    (∃ r2, gdbserver.handle_reg_write_all k stub s2
          ('G' :: (gdbserver.handle_reg_read_all stub s).reply) = some r2 ∧
      r2.reply = ['O', 'K'] ∧
      r2.log.filterMap stub_call.reg_bytes
        = (gdbserver.handle_reg_read_all stub s).log.filterMap stub_call.reg_bytes ∧
      ∀ e ∈ r2.log, e.is_write_reg = true) ∧
    (∀ data : List Char,
      strlen data
        ≠ 2 * ((List.range stub.async_num_registers).map stub.async_register_width).sum →
      gdbserver.handle_reg_write_all k stub s2 ('G' :: data)
        = some { reply := k.ERR_COMMAND, stub := s2, log := [] }) ∧
    (gdbserver.handle_reg_read_all stub s).log
      = (stub.read_regs ((List.range stub.async_num_registers).filter
          (fun reg => decide (stub.async_register_width reg ≠ 0))) s).2 ∧
    (gdbserver.handle_reg_read_all stub s).stub
      = (stub.read_regs ((List.range stub.async_num_registers).filter
          (fun reg => decide (stub.async_register_width reg ≠ 0))) s).1 ∧
    gdbserver.handle_reg_write_all k stub s2
        ('G' :: (gdbserver.handle_reg_read_all stub s).reply)
      = some
        { reply := ['O', 'K'],
          stub := (stub.write_regs
            ((gdbserver.handle_reg_read_all stub s).log.filterMap stub_call.reg_bytes) s2).1,
          log := (stub.write_regs
            ((gdbserver.handle_reg_read_all stub s).log.filterMap stub_call.reg_bytes) s2).2 } ∧
    (∀ (e : Nat × List UInt8) (rest : List (Nat × List UInt8)) (st : S),
      stub.write_regs (e :: rest) st
        = ((stub.write_regs rest (stub.async_write_reg st e.1 e.2).1).1,
            stub_call.write_reg e.1 e.2 (stub.async_write_reg st e.1 e.2).2
              :: (stub.write_regs rest (stub.async_write_reg st e.1 e.2).1).2)) := by
  have hregs := reg_read_loop_regs stub (List.range stub.async_num_registers) s
  have htext := reg_read_loop_text stub (List.range stub.async_num_registers) s hgood
  have hcalls := reg_read_loop_calls stub (List.range stub.async_num_registers) s
  have hlow : ∀ c ∈ (gdbserver.handle_reg_read_all stub s).reply, c ∈ lower_hex := by
    intro c hc
    have h1 : (gdbserver.handle_reg_read_all stub s).reply
        = ((gdbserver.reg_read_loop stub (List.range stub.async_num_registers)
            s).2.2.filterMap stub_call.reg_bytes).flatMap (fun e => hex_text e.2) := htext.1
    rw [h1] at hc
    exact flatMap_hex_lower _ c hc
  have hnul : ∀ c ∈ (gdbserver.handle_reg_read_all stub s).reply, c ≠ Char.ofNat 0 := by
    intro c hc h
    have := hlow c hc
    rw [h] at this
    revert this
    decide
  have hwrite : gdbserver.handle_reg_write_all k stub s2
        ('G' :: (gdbserver.handle_reg_read_all stub s).reply)
      = some
        { reply := ['O', 'K'],
          stub := (stub.write_regs
            ((gdbserver.handle_reg_read_all stub s).log.filterMap stub_call.reg_bytes) s2).1,
          log := (stub.write_regs
            ((gdbserver.handle_reg_read_all stub s).log.filterMap stub_call.reg_bytes) s2).2 } := by
    have h1 := reg_write_loop_calls stub (List.range stub.async_num_registers) s s2
      [Char.ofNat 0] hgood
    unfold gdbserver.handle_reg_write_all
    simp only
    rw [strlen_eq_length _ hnul, bufsz_eq stub hsum, if_neg (fun hne => hne htext.2)]
    have h1c : gdbserver.reg_write_loop stub (List.range stub.async_num_registers) s2
        (cstr (gdbserver.handle_reg_read_all stub s).reply)
        = some (stub.write_regs
          ((gdbserver.handle_reg_read_all stub s).log.filterMap stub_call.reg_bytes) s2) := h1
    rw [h1c]
    rfl
  refine ⟨hregs.1, hregs.2, htext.1, htext.2, hlow, ?_, ?_, hcalls.1, hcalls.2, hwrite,
    fun _ _ _ => rfl⟩
  · obtain ⟨s3, wlog, h1, h2, h3⟩ :=
      reg_write_loop_text stub (List.range stub.async_num_registers) s s2 [Char.ofNat 0] hgood
    refine ⟨{ reply := ['O', 'K'], stub := s3, log := wlog }, ?_, rfl, h2, h3⟩
    unfold gdbserver.handle_reg_write_all
    simp only
    rw [strlen_eq_length _ hnul, bufsz_eq stub hsum, if_neg (fun hne => hne htext.2)]
    have h1c : gdbserver.reg_write_loop stub (List.range stub.async_num_registers) s2
        (cstr (gdbserver.handle_reg_read_all stub s).reply) = some (s3, wlog) := h1
    rw [h1c]
    rfl
  · intro data hlen
    unfold gdbserver.handle_reg_write_all
    simp only
    rw [bufsz_eq stub hsum, if_pos hlen]

/-- Witness of `reg_all_round_trip`: the registers `01 02 03 04` and `a0 0b`
of `test_state` are read as `01020304a00b`; sent back with `G` to a target
whose registers hold zeroes, they are written to its registers 0 and 2. -/
theorem reg_all_round_trip_witness :
    ((gdbserver.handle_reg_read_all flat_stub test_state).reply = "01020304a00b".toList ∧
     (gdbserver.handle_reg_write_all test_constants flat_stub blank_state
          "G01020304a00b".toList).map (fun x => (x.reply, x.log, x.stub.regs))
       = some ("OK".toList,
           [stub_call.write_reg 0 [1, 2, 3, 4] true, stub_call.write_reg 2 [0xa0, 0x0b] true],
           [[1, 2, 3, 4], [], [0xa0, 0x0b]]) ∧
     (gdbserver.handle_reg_write_all test_constants flat_stub blank_state
          "G01020304a00".toList).map (fun x => (x.reply, x.log, x.stub.regs))
       = some ("E01".toList, [], [[0, 0, 0, 0], [], [0, 0]])) ∧
    ((((gdbserver.handle_reg_read_all flat_stub test_state).log.filterMap stub_call.reg_bytes).map
        (fun e => e.1)
      = (List.range flat_stub.async_num_registers).filter
          (fun reg => decide (flat_stub.async_register_width reg ≠ 0))) ∧
    (∀ e ∈ (gdbserver.handle_reg_read_all flat_stub test_state).log.filterMap stub_call.reg_bytes,
      e.2.length = flat_stub.async_register_width e.1) ∧
    (gdbserver.handle_reg_read_all flat_stub test_state).reply
      = ((gdbserver.handle_reg_read_all flat_stub test_state).log.filterMap stub_call.reg_bytes).flatMap
          (fun e => hex_text e.2) ∧
    (gdbserver.handle_reg_read_all flat_stub test_state).reply.length
      = 2 * ((List.range flat_stub.async_num_registers).map flat_stub.async_register_width).sum ∧
    (∀ c ∈ (gdbserver.handle_reg_read_all flat_stub test_state).reply, c ∈ lower_hex) ∧
    (∃ r2, gdbserver.handle_reg_write_all test_constants flat_stub blank_state
          ('G' :: (gdbserver.handle_reg_read_all flat_stub test_state).reply) = some r2 ∧
      r2.reply = ['O', 'K'] ∧
      r2.log.filterMap stub_call.reg_bytes
        = (gdbserver.handle_reg_read_all flat_stub test_state).log.filterMap stub_call.reg_bytes ∧
      ∀ e ∈ r2.log, e.is_write_reg = true) ∧
    (∀ data : List Char,
      strlen data
        ≠ 2 * ((List.range flat_stub.async_num_registers).map flat_stub.async_register_width).sum →
      gdbserver.handle_reg_write_all test_constants flat_stub blank_state ('G' :: data)
        = some { reply := test_constants.ERR_COMMAND, stub := blank_state, log := [] }) ∧
    (gdbserver.handle_reg_read_all flat_stub test_state).log
      = (flat_stub.read_regs ((List.range flat_stub.async_num_registers).filter
          (fun reg => decide (flat_stub.async_register_width reg ≠ 0))) test_state).2 ∧
    (gdbserver.handle_reg_read_all flat_stub test_state).stub
      = (flat_stub.read_regs ((List.range flat_stub.async_num_registers).filter
          (fun reg => decide (flat_stub.async_register_width reg ≠ 0))) test_state).1 ∧
    gdbserver.handle_reg_write_all test_constants flat_stub blank_state
        ('G' :: (gdbserver.handle_reg_read_all flat_stub test_state).reply)
      = some
        { reply := ['O', 'K'],
          stub := (flat_stub.write_regs
            ((gdbserver.handle_reg_read_all flat_stub test_state).log.filterMap stub_call.reg_bytes) blank_state).1,
          log := (flat_stub.write_regs
            ((gdbserver.handle_reg_read_all flat_stub test_state).log.filterMap stub_call.reg_bytes) blank_state).2 } ∧
    (∀ (e : Nat × List UInt8) (rest : List (Nat × List UInt8)) (st : test_target),
      flat_stub.write_regs (e :: rest) st
        = ((flat_stub.write_regs rest (flat_stub.async_write_reg st e.1 e.2).1).1,
            stub_call.write_reg e.1 e.2 (flat_stub.async_write_reg st e.1 e.2).2
              :: (flat_stub.write_regs rest (flat_stub.async_write_reg st e.1 e.2).1).2))) :=
  ⟨⟨rfl, rfl, rfl⟩,
   reg_all_round_trip test_constants flat_stub test_state blank_state (by decide) (by decide)⟩

/-! ### gdbserver: breakpoints and watchpoints -/

theorem sscanf_bp_packet (c : Char) (ttxt atxt ltxt : List Char) (t a l : Nat)
    (ht : is_hex_of ttxt t = true) (ha : is_hex_of atxt a = true)
    (hl : is_hex_of ltxt l = true) :
    sscanf_bp c (c :: (ttxt ++ ',' :: (atxt ++ ',' :: ltxt))) = some (t, a, l) := by
  unfold sscanf_bp
  simp only [if_true]
  rw [scan_hex_numeral ttxt (',' :: (atxt ++ ',' :: ltxt)) t ht (xdigit_head ',' _ (by decide))]
  simp only [if_true]
  rw [scan_hex_numeral atxt (',' :: ltxt) a ha (xdigit_head ',' _ (by decide))]
  simp only [if_true]
  have := scan_hex_numeral ltxt [] l hl (by simp)
  rw [List.append_nil] at this
  rw [this]
  rfl

theorem breakpoint_range_eq (a l : Nat) (ha : a < U64) (hl : l < U64) :
    (gdbserver.breakpoint_range a l).start = a ∧
    (gdbserver.breakpoint_range a l).end_ = (a + l + U64 - 1) % U64 ∧
    ((gdbserver.breakpoint_range a l).start ≤ (gdbserver.breakpoint_range a l).end_
      ↔ (1 ≤ l ∧ a + l ≤ U64) ∨ (a = 0 ∧ l = 0)) ∧
    (1 ≤ l ∧ a + l ≤ U64 → gdbserver.breakpoint_range a l = ⟨a, a + l - 1⟩) := by
  have hU := U64_eq
  have he : (gdbserver.breakpoint_range a l).end_ = (a + l + U64 - 1) % U64 := by
    simp only [gdbserver.breakpoint_range, u64_sub, u64_add, hU]
    omega
  refine ⟨rfl, he, ?_, ?_⟩
  · rw [he]
    show a ≤ (a + l + U64 - 1) % U64 ↔ _
    rw [hU] at ha hl ⊢
    omega
  · intro h
    have : (gdbserver.breakpoint_range a l).end_ = a + l - 1 := by
      rw [he]
      rw [hU] at ha hl h ⊢
      omega
    show (⟨a, (gdbserver.breakpoint_range a l).end_⟩ : range) = ⟨a, a + l - 1⟩
    rw [this]

/-- C31: for a well-formed packet `Z<t>,<a>,<l>` (respectively `z<t>,<a>,<l>`):
with `t` 0 or 1 the handler makes the one stub call insert (respectively
remove) breakpoint at `a`; with `t` 2, 3, 4 the one stub call insert
(respectively remove) watchpoint over the range `[a, a+l-1]` (computed in
`u64`) with access WRITE, READ, READ_WRITE; the reply is `OK` when that call
returned true and `ERR_INTERNAL` otherwise; any other `t` gives `ERR_COMMAND`
and no stub call. -/
theorem handle_breakpoint_calls {S : Type} (k : gdb_constants) (bp : gdb_breakpoints S) (s : S)
    (ttxt atxt ltxt : List Char) (t a l : Nat)
    (ht : is_hex_of ttxt t = true) (ha : is_hex_of atxt a = true)
    (hl : is_hex_of ltxt l = true) :
    (t = 0 ∨ t = 1 →
      gdbserver.handle_breakpoint_set k bp s ('Z' :: (ttxt ++ ',' :: (atxt ++ ',' :: ltxt)))
        = gdbserver.breakpoint_reply k (bp.async_insert_breakpoint s a)
            (.insert_breakpoint a) ∧
      gdbserver.handle_breakpoint_delete k bp s ('z' :: (ttxt ++ ',' :: (atxt ++ ',' :: ltxt)))
        = gdbserver.breakpoint_reply k (bp.async_remove_breakpoint s a)
            (.remove_breakpoint a)) ∧
    (∀ acs : vcml_access,
      (t = 2 ∧ acs = .VCML_ACCESS_WRITE) ∨ (t = 3 ∧ acs = .VCML_ACCESS_READ) ∨
        (t = 4 ∧ acs = .VCML_ACCESS_READ_WRITE) →
      gdbserver.handle_breakpoint_set k bp s ('Z' :: (ttxt ++ ',' :: (atxt ++ ',' :: ltxt)))
        = gdbserver.breakpoint_reply k
            (bp.async_insert_watchpoint s (gdbserver.breakpoint_range a l) acs)
            (.insert_watchpoint (gdbserver.breakpoint_range a l) acs) ∧
      gdbserver.handle_breakpoint_delete k bp s ('z' :: (ttxt ++ ',' :: (atxt ++ ',' :: ltxt)))
        = gdbserver.breakpoint_reply k
            (bp.async_remove_watchpoint s (gdbserver.breakpoint_range a l) acs)
            (.remove_watchpoint (gdbserver.breakpoint_range a l) acs)) ∧
    (4 < t →
      gdbserver.handle_breakpoint_set k bp s ('Z' :: (ttxt ++ ',' :: (atxt ++ ',' :: ltxt)))
        = { reply := k.ERR_COMMAND, stub := s, log := [] } ∧
      gdbserver.handle_breakpoint_delete k bp s ('z' :: (ttxt ++ ',' :: (atxt ++ ',' :: ltxt)))
        = { reply := k.ERR_COMMAND, stub := s, log := [] }) ∧
    (∀ (r : S × Bool) (c : bp_call),
      (gdbserver.breakpoint_reply k r c).log = [c] ∧
      (gdbserver.breakpoint_reply k r c).stub = r.1 ∧
      (gdbserver.breakpoint_reply k r c).reply = if r.2 then ['O', 'K'] else k.ERR_INTERNAL) ∧
    (1 ≤ l ∧ a + l ≤ U64 → gdbserver.breakpoint_range a l = ⟨a, a + l - 1⟩) := by
  have hZ := sscanf_bp_packet 'Z' ttxt atxt ltxt t a l ht ha hl
  have hz := sscanf_bp_packet 'z' ttxt atxt ltxt t a l ht ha hl
  refine ⟨?_, ?_, ?_, fun _ _ => ⟨rfl, rfl, rfl⟩,
    (breakpoint_range_eq a l (hex_of_digits atxt a ha).2 (hex_of_digits ltxt l hl).2).2.2.2⟩
  · intro h
    unfold gdbserver.handle_breakpoint_set gdbserver.handle_breakpoint_delete
    rw [hZ, hz]
    simp only [GDB_BREAKPOINT_SW, GDB_BREAKPOINT_HW]
    rw [if_pos h, if_pos h]
    exact ⟨rfl, rfl⟩
  · intro acs h
    unfold gdbserver.handle_breakpoint_set gdbserver.handle_breakpoint_delete
    rw [hZ, hz]
    simp only [GDB_BREAKPOINT_SW, GDB_BREAKPOINT_HW, GDB_WATCHPOINT_WRITE, GDB_WATCHPOINT_READ,
      GDB_WATCHPOINT_ACCESS]
    rcases h with ⟨h1, h2⟩ | ⟨h1, h2⟩ | ⟨h1, h2⟩ <;> subst h1 <;> subst h2 <;>
      simp
  · intro h
    unfold gdbserver.handle_breakpoint_set gdbserver.handle_breakpoint_delete
    rw [hZ, hz]
    simp only [GDB_BREAKPOINT_SW, GDB_BREAKPOINT_HW, GDB_WATCHPOINT_WRITE, GDB_WATCHPOINT_READ,
      GDB_WATCHPOINT_ACCESS]
    have h0 : ¬ (t = 0 ∨ t = 1) := fun hc => by omega
    have h2 : t ≠ 2 := fun hc => by omega
    have h3 : t ≠ 3 := fun hc => by omega
    have h4 : t ≠ 4 := fun hc => by omega
    simp only [h0, h2, h3, h4, if_false]
    exact ⟨trivial, trivial⟩

theorem handle_breakpoint_calls_witness :
    ((fun r => (r.reply, r.stub, r.log))
        (gdbserver.handle_breakpoint_set test_constants listing_stub [] "Z4,1000,4".toList)
      = ("OK".toList,
          [bp_call.insert_watchpoint ⟨0x1000, 0x1003⟩ .VCML_ACCESS_READ_WRITE],
          [bp_call.insert_watchpoint ⟨0x1000, 0x1003⟩ .VCML_ACCESS_READ_WRITE]) ∧
     (fun r => (r.reply, r.stub, r.log))
        (gdbserver.handle_breakpoint_delete test_constants listing_stub [] "z0,1000,4".toList)
      = (test_constants.ERR_INTERNAL, [], [bp_call.remove_breakpoint 0x1000]) ∧
     (fun r => (r.reply, r.stub, r.log))
        (gdbserver.handle_breakpoint_set test_constants listing_stub [] "Z5,1000,4".toList)
      = (test_constants.ERR_COMMAND, [], [])) ∧
    ((4 = 0 ∨ 4 = 1 →
      gdbserver.handle_breakpoint_set test_constants listing_stub []
          ('Z' :: ("4".toList ++ ',' :: ("1000".toList ++ ',' :: "4".toList)))
        = gdbserver.breakpoint_reply test_constants
            (listing_stub.async_insert_breakpoint [] 0x1000) (.insert_breakpoint 0x1000) ∧
      gdbserver.handle_breakpoint_delete test_constants listing_stub []
          ('z' :: ("4".toList ++ ',' :: ("1000".toList ++ ',' :: "4".toList)))
        = gdbserver.breakpoint_reply test_constants
            (listing_stub.async_remove_breakpoint [] 0x1000) (.remove_breakpoint 0x1000)) ∧
    (∀ acs : vcml_access,
      (4 = 2 ∧ acs = .VCML_ACCESS_WRITE) ∨ (4 = 3 ∧ acs = .VCML_ACCESS_READ) ∨
        (4 = 4 ∧ acs = .VCML_ACCESS_READ_WRITE) →
      gdbserver.handle_breakpoint_set test_constants listing_stub []
          ('Z' :: ("4".toList ++ ',' :: ("1000".toList ++ ',' :: "4".toList)))
        = gdbserver.breakpoint_reply test_constants
            (listing_stub.async_insert_watchpoint [] (gdbserver.breakpoint_range 0x1000 4) acs)
            (.insert_watchpoint (gdbserver.breakpoint_range 0x1000 4) acs) ∧
      gdbserver.handle_breakpoint_delete test_constants listing_stub []
          ('z' :: ("4".toList ++ ',' :: ("1000".toList ++ ',' :: "4".toList)))
        = gdbserver.breakpoint_reply test_constants
            (listing_stub.async_remove_watchpoint [] (gdbserver.breakpoint_range 0x1000 4) acs)
            (.remove_watchpoint (gdbserver.breakpoint_range 0x1000 4) acs)) ∧
    (4 < 4 →
      gdbserver.handle_breakpoint_set test_constants listing_stub []
          ('Z' :: ("4".toList ++ ',' :: ("1000".toList ++ ',' :: "4".toList)))
        = { reply := test_constants.ERR_COMMAND, stub := [], log := [] } ∧
      gdbserver.handle_breakpoint_delete test_constants listing_stub []
          ('z' :: ("4".toList ++ ',' :: ("1000".toList ++ ',' :: "4".toList)))
        = { reply := test_constants.ERR_COMMAND, stub := [], log := [] }) ∧
    (∀ (r : List bp_call × Bool) (c : bp_call),
      (gdbserver.breakpoint_reply test_constants r c).log = [c] ∧
      (gdbserver.breakpoint_reply test_constants r c).stub = r.1 ∧
      (gdbserver.breakpoint_reply test_constants r c).reply
        = if r.2 then ['O', 'K'] else test_constants.ERR_INTERNAL) ∧
    (1 ≤ 4 ∧ 0x1000 + 4 ≤ U64 → gdbserver.breakpoint_range 0x1000 4 = ⟨0x1000, 0x1000 + 4 - 1⟩)) :=
  ⟨by decide,
   handle_breakpoint_calls test_constants listing_stub [] "4".toList "1000".toList "4".toList
    4 0x1000 4 (by decide) (by decide) (by decide)⟩

theorem update_status_default (g : gdbserver_state) (st : gdb_status) :
    (gdbserver.update_status g st).m_default = g.m_default ∧
    (gdbserver.update_status g st).m_status = st := by
  unfold gdbserver.update_status
  by_cases h : g.m_status = st
  · rw [if_pos h]; exact ⟨rfl, h⟩
  · rw [if_neg h]; exact ⟨rfl, rfl⟩

theorem apply_default (e : gdb_event) (g : gdbserver_state) :
    (gdbserver.apply e g).m_default = g.m_default := by
  cases e with
  | connect => exact (update_status_default g _).1
  | disconnect => exact (update_status_default g _).1
  | step => exact (update_status_default g _).1
  | cont => exact (update_status_default g _).1
  | loop_signal => rfl
  | detach c =>
    cases c
    · rfl
    · exact (update_status_default g _).1
  | kill c =>
    cases c
    · exact (update_status_default g _).1
    · show (gdbserver.update_status (gdbserver.handle_disconnect g) _).m_default = _
      rw [(update_status_default _ _).1]
      exact (update_status_default g _).1
  | notify sig => rfl
  | packet => rfl

theorem run_default (evs : List gdb_event) (g : gdbserver_state) :
    (gdbserver.run evs g).m_default = g.m_default := by
  induction evs generalizing g with
  | nil => rfl
  | cons e es ih =>
    show (gdbserver.run es (gdbserver.apply e g)).m_default = _
    rw [ih, apply_default]

/-- C32: in every state a `gdbserver` constructed with `status` reaches,
`handle_connect` leaves the status `GDB_STOPPED` and `handle_disconnect` leaves
it `status`; the stored default is `status` and no event changes it;
`update_status` sets the status, and it calls `resume` once when the status
changes and not at all (leaving the server as it is) when it does not. -/
theorem status_after_connect (status st : gdb_status) (evs : List gdb_event) (e : gdb_event) :
    (gdbserver.handle_connect (gdbserver.run evs (gdbserver.construct status))).m_status
      = .GDB_STOPPED ∧
    (gdbserver.handle_disconnect (gdbserver.run evs (gdbserver.construct status))).m_status
      = status ∧
    (gdbserver.run evs (gdbserver.construct status)).m_default = status ∧
    (gdbserver.apply e (gdbserver.run evs (gdbserver.construct status))).m_default = status ∧
    (gdbserver.update_status (gdbserver.run evs (gdbserver.construct status)) st).m_default
      = status ∧
    (gdbserver.update_status (gdbserver.run evs (gdbserver.construct status)) st).m_status
      = st ∧
    (gdbserver.update_status (gdbserver.run evs (gdbserver.construct status)) st).resumes
      = (if (gdbserver.run evs (gdbserver.construct status)).m_status = st then
          (gdbserver.run evs (gdbserver.construct status)).resumes
        else (gdbserver.run evs (gdbserver.construct status)).resumes + 1) ∧
    gdbserver.update_status (gdbserver.run evs (gdbserver.construct status))
        (gdbserver.run evs (gdbserver.construct status)).m_status
      = gdbserver.run evs (gdbserver.construct status) := by
  have hd : (gdbserver.run evs (gdbserver.construct status)).m_default = status :=
    run_default evs _
  generalize gdbserver.run evs (gdbserver.construct status) = g at hd ⊢
  refine ⟨(update_status_default g _).2, ?_, hd, ?_, ?_, (update_status_default g st).2, ?_, ?_⟩
  · unfold gdbserver.handle_disconnect
    rw [(update_status_default g _).2, hd]
  · rw [apply_default, hd]
  · rw [(update_status_default g st).1, hd]
  · unfold gdbserver.update_status
    by_cases h : g.m_status = st
    · rw [if_pos h, if_pos h]
    · rw [if_neg h, if_neg h]
  · unfold gdbserver.update_status
    rw [if_pos rfl]

/-! ### backend_term -/

theorem sigint_late (now : ℚ) (b : backend_term) (p : term_process)
    (h : 1 ≤ now - b.m_time) :
    backend_term.handle_sigint now b p = backend_term.sigint_tail now b p := by
  unfold backend_term.handle_sigint
  rw [if_neg (not_lt.mpr h)]

theorem sigint_stops (now : ℚ) (b : backend_term) (p : term_process)
    (h : now - b.m_time < 1) (hs : b.m_stopped = false) (he : b.m_exit = false)
    (hr : p.sc_is_running = true) :
    backend_term.handle_sigint now b p
      = backend_term.sigint_tail now { b with m_stopped := true }
          { p with sc_stop_called := true,
                   force_resumed := p.force_resumed || p.simulation_suspended } := by
  unfold backend_term.handle_sigint
  rw [if_pos h, if_neg (by simp [hs, he, hr])]

theorem sigint_exits (now : ℚ) (b : backend_term) (p : term_process)
    (h : now - b.m_time < 1)
    (hs : b.m_stopped = true ∨ b.m_exit = true ∨ p.sc_is_running = false) :
    backend_term.handle_sigint now b p
      = (b, { backend_term.cleanup b p with exited := true }) := by
  unfold backend_term.handle_sigint
  rw [if_pos h, if_pos]
  rcases hs with h1 | h1 | h1 <;> simp [h1]

theorem sigint_tail_fields (now : ℚ) (b : backend_term) (p : term_process) :
    (backend_term.sigint_tail now b p).1.m_time = now ∧
    (backend_term.sigint_tail now b p).1.m_stopped = b.m_stopped ∧
    (backend_term.sigint_tail now b p).1.m_exit = b.m_exit ∧
    (backend_term.sigint_tail now b p).2.sc_stop_called = p.sc_stop_called ∧
    (backend_term.sigint_tail now b p).2.exited = p.exited ∧
    (backend_term.sigint_tail now b p).2.sc_is_running = p.sc_is_running := by
  unfold backend_term.sigint_tail
  refine ⟨rfl, rfl, rfl, ?_, ?_, ?_⟩ <;> simp only <;> split <;> rfl

/-- Counterexample to C33: a backend is constructed at the time 0 on a running
simulation; the first `SIGINT`, handled at the time 5 with no `SIGINT` in the
second before it, neither calls `sc_stop` nor marks the backend stopped; the
second `SIGINT`, half a second later, stops the simulation and does not exit
the process. -/
theorem sigint_first_is_kept :
    backend_term.construct 0 3 26 test_process = .ok (test_backend, test_backend_process) ∧
    (1 : ℚ) ≤ 5 - test_backend.m_time ∧ (11 / 2 : ℚ) - 5 < 1 ∧
    test_backend_process.sc_is_running = true ∧
    (backend_term.sigints [5] (test_backend, test_backend_process)).2.sc_stop_called = false ∧
    (backend_term.sigints [5] (test_backend, test_backend_process)).1.m_stopped = false ∧
    (backend_term.sigints [5, 11 / 2] (test_backend, test_backend_process)).2.sc_stop_called
      = true ∧
    (backend_term.sigints [5, 11 / 2] (test_backend, test_backend_process)).2.exited = false := by
  have h1 : (1 : ℚ) ≤ 5 - test_backend.m_time := by norm_num [test_backend]
  have h2 : (11 / 2 : ℚ) - 5 < 1 := by norm_num
  have e1 : backend_term.sigints [5] (test_backend, test_backend_process)
      = backend_term.sigint_tail 5 test_backend test_backend_process := by
    simp only [backend_term.sigints]
    rw [if_neg (by decide), sigint_late 5 _ _ h1]
  have e2 : backend_term.sigints [5, 11 / 2] (test_backend, test_backend_process)
      = backend_term.sigint_tail (11 / 2)
          { (backend_term.sigint_tail 5 test_backend test_backend_process).1 with
            m_stopped := true }
          { (backend_term.sigint_tail 5 test_backend test_backend_process).2 with
            sc_stop_called := true,
            force_resumed :=
              (backend_term.sigint_tail 5 test_backend test_backend_process).2.force_resumed
              || (backend_term.sigint_tail 5 test_backend
                    test_backend_process).2.simulation_suspended } := by
    simp only [backend_term.sigints]
    rw [if_neg (by decide), sigint_late 5 _ _ h1,
      if_neg (by rw [(sigint_tail_fields _ _ _).2.2.2.2.1]; decide)]
    exact sigint_stops _ _ _ (by rw [(sigint_tail_fields _ _ _).1]; exact h2)
      (sigint_tail_fields _ _ _).2.1 (sigint_tail_fields _ _ _).2.2.1
      (sigint_tail_fields _ _ _).2.2.2.2.2
  refine ⟨rfl, h1, h2, rfl, ?_, ?_, ?_, ?_⟩
  · rw [e1, (sigint_tail_fields _ _ _).2.2.2.1]; rfl
  · rw [e1, (sigint_tail_fields _ _ _).2.1]; rfl
  · rw [e2, (sigint_tail_fields _ _ _).2.2.2.1]
  · rw [e2, (sigint_tail_fields _ _ _).2.2.2.2.1]
    exact (sigint_tail_fields _ _ _).2.2.2.2.1

/-- C33 (amended): a `SIGINT` handled one second or more after the time stored
in the backend (the previous `SIGINT`, or the construction) neither stops the
simulation nor exits: it only stores its time.  A `SIGINT` handled less than
one second after it stops a running simulation that the backend has not
stopped yet (`sc_stop` is called, the backend is marked stopped), and exits
the process when the backend is stopped already.  So from a running
simulation with no `SIGINT` in the second before, the first `SIGINT` is only
recorded, a second one within a second stops the simulation, a third one
within a second of the second exits the process; a second one that comes a
second or more after the first neither stops nor exits. -/
theorem sigint_escalation (b : backend_term) (p : term_process) (t1 t2 t3 : ℚ)
    (hs : b.m_stopped = false) (he : b.m_exit = false) (hr : p.sc_is_running = true)
    (hx : p.exited = false)
    (h1 : 1 ≤ t1 - b.m_time) (h2 : t2 - t1 < 1) (h3 : t3 - t2 < 1) :
    ((backend_term.sigints [t1] (b, p)).1.m_stopped = false ∧
      (backend_term.sigints [t1] (b, p)).2.sc_stop_called = p.sc_stop_called ∧
      (backend_term.sigints [t1] (b, p)).2.exited = false ∧
      (backend_term.sigints [t1] (b, p)).1.m_time = t1) ∧
    ((backend_term.sigints [t1, t2] (b, p)).1.m_stopped = true ∧
      (backend_term.sigints [t1, t2] (b, p)).2.sc_stop_called = true ∧
      (backend_term.sigints [t1, t2] (b, p)).2.exited = false ∧
      (backend_term.sigints [t1, t2] (b, p)).1.m_time = t2) ∧
    (backend_term.sigints [t1, t2, t3] (b, p)).2.exited = true ∧
    (∀ t : ℚ, 1 ≤ t - t1 →
      (backend_term.sigints [t1, t] (b, p)).1.m_stopped = false ∧
      (backend_term.sigints [t1, t] (b, p)).2.sc_stop_called = p.sc_stop_called ∧
      (backend_term.sigints [t1, t] (b, p)).2.exited = false) := by
  have f1 := sigint_tail_fields t1 b p
  have e1 : backend_term.sigints [t1] (b, p) = backend_term.sigint_tail t1 b p := by
    simp only [backend_term.sigints]
    rw [if_neg (by simp [hx]), sigint_late t1 b p h1]
  have hx1 : (backend_term.sigint_tail t1 b p).2.exited = false := by rw [f1.2.2.2.2.1, hx]
  have e2 : backend_term.sigints [t1, t2] (b, p)
      = backend_term.sigint_tail t2
          { (backend_term.sigint_tail t1 b p).1 with m_stopped := true }
          { (backend_term.sigint_tail t1 b p).2 with
            sc_stop_called := true,
            force_resumed := (backend_term.sigint_tail t1 b p).2.force_resumed
              || (backend_term.sigint_tail t1 b p).2.simulation_suspended } := by
    simp only [backend_term.sigints]
    rw [if_neg (by simp [hx]), sigint_late t1 b p h1, if_neg (by simp [hx1])]
    exact sigint_stops _ _ _ (by rw [f1.1]; exact h2) (by rw [f1.2.1, hs])
      (by rw [f1.2.2.1, he]) (by rw [f1.2.2.2.2.2, hr])
  have e2' : ∀ l : List ℚ, backend_term.sigints (t1 :: t2 :: l) (b, p)
      = backend_term.sigints l (backend_term.sigints [t1, t2] (b, p)) := by
    intro l
    simp only [backend_term.sigints]
    by_cases hb : (b, p).2.exited = true
    · simp [hx] at hb
    · rw [if_neg hb, if_neg hb]
      by_cases hc : (backend_term.handle_sigint t1 (b, p).1 (b, p).2).2.exited = true
      · rw [if_pos hc, if_pos hc]
        cases l with
        | nil => rfl
        | cons x xs => simp only [backend_term.sigints]; rw [if_pos hc]
      · rw [if_neg hc, if_neg hc]
  have g2 := sigint_tail_fields t2
    { (backend_term.sigint_tail t1 b p).1 with m_stopped := true }
    { (backend_term.sigint_tail t1 b p).2 with
      sc_stop_called := true,
      force_resumed := (backend_term.sigint_tail t1 b p).2.force_resumed
        || (backend_term.sigint_tail t1 b p).2.simulation_suspended }
  refine ⟨?_, ?_, ?_, ?_⟩
  · rw [e1]
    exact ⟨by rw [f1.2.1, hs], f1.2.2.2.1, hx1, f1.1⟩
  · rw [e2]
    exact ⟨g2.2.1, g2.2.2.2.1, by rw [g2.2.2.2.2.1]; exact hx1, g2.1⟩
  · rw [e2' [t3], e2]
    simp only [backend_term.sigints]
    rw [if_neg (by rw [g2.2.2.2.2.1]; simp [hx1])]
    rw [sigint_exits t3 _ _ (by rw [g2.1]; exact h3) (Or.inl g2.2.1)]
  · intro t ht
    have e3 : backend_term.sigints [t1, t] (b, p)
        = backend_term.sigint_tail t (backend_term.sigint_tail t1 b p).1
            (backend_term.sigint_tail t1 b p).2 := by
      simp only [backend_term.sigints]
      rw [if_neg (by simp [hx]), sigint_late t1 b p h1, if_neg (by simp [hx1])]
      exact sigint_late _ _ _ (by rw [f1.1]; exact ht)
    have g3 := sigint_tail_fields t (backend_term.sigint_tail t1 b p).1
      (backend_term.sigint_tail t1 b p).2
    rw [e3]
    exact ⟨by rw [g3.2.1, f1.2.1, hs], by rw [g3.2.2.2.1, f1.2.2.2.1],
      by rw [g3.2.2.2.2.1]; exact hx1⟩

theorem sigint_escalation_witness :
    ((backend_term.sigints [5] (test_backend, test_backend_process)).1.m_stopped = false ∧
      (backend_term.sigints [5] (test_backend, test_backend_process)).2.sc_stop_called
        = test_backend_process.sc_stop_called ∧
      (backend_term.sigints [5] (test_backend, test_backend_process)).2.exited = false ∧
      (backend_term.sigints [5] (test_backend, test_backend_process)).1.m_time = 5) ∧
    ((backend_term.sigints [5, 11 / 2] (test_backend, test_backend_process)).1.m_stopped
        = true ∧
      (backend_term.sigints [5, 11 / 2] (test_backend, test_backend_process)).2.sc_stop_called
        = true ∧
      (backend_term.sigints [5, 11 / 2] (test_backend, test_backend_process)).2.exited = false ∧
      (backend_term.sigints [5, 11 / 2] (test_backend, test_backend_process)).1.m_time
        = 11 / 2) ∧
    (backend_term.sigints [5, 11 / 2, 6] (test_backend, test_backend_process)).2.exited = true ∧
    (∀ t : ℚ, 1 ≤ t - 5 →
      (backend_term.sigints [5, t] (test_backend, test_backend_process)).1.m_stopped = false ∧
      (backend_term.sigints [5, t] (test_backend, test_backend_process)).2.sc_stop_called
        = test_backend_process.sc_stop_called ∧
      (backend_term.sigints [5, t] (test_backend, test_backend_process)).2.exited = false) :=
  sigint_escalation test_backend test_backend_process 5 (11 / 2) 6 rfl rfl rfl rfl
    (by norm_num [test_backend]) (by norm_num) (by norm_num)

/-- C39 at a process whose `SIGINT` and `SIGTSTP` were handled by the handlers
1 and 2 of the program: construction stores both and installs
`backend_term::handle_signal` for both; `cleanup` then calls
`signal(SIGINT, m_sigint)` and `signal(SIGINT, m_sigstp)`, which leaves the old
`SIGTSTP` handler 2 installed for `SIGINT` and `handle_signal` installed for
`SIGTSTP`: neither disposition is what it was. -/
theorem cleanup_swaps_handlers :
    test_process.handlers = { sigint := .other 1, sigtstp := .other 2 } ∧
    backend_term.construct 0 3 26 test_process = .ok (test_backend, test_backend_process) ∧
    test_backend_process.handlers = { sigint := .handle_signal, sigtstp := .handle_signal } ∧
    test_backend.m_sigint = .other 1 ∧ test_backend.m_sigstp = .other 2 ∧
    (backend_term.cleanup test_backend test_backend_process).handlers
      = { sigint := .other 2, sigtstp := .handle_signal } ∧
    (backend_term.cleanup test_backend test_backend_process).handlers.sigint
      ≠ test_process.handlers.sigint ∧
    (backend_term.cleanup test_backend test_backend_process).handlers.sigtstp
      ≠ test_process.handlers.sigtstp :=
  ⟨rfl, rfl, rfl, rfl, rfl, rfl, by decide, by decide⟩

/-! ### broker_env -/

theorem c_text_self (s : List Char) (h : ∀ c ∈ s, c ≠ Char.ofNat 0) : c_text s = s := by
  unfold c_text
  rw [List.takeWhile_eq_self_iff]
  intro x hx
  simp [h x hx]

/-- C34: in an environment of the process, where every value is a C string (no
NUL inside) that `std::string` can hold (at most `string().max_size() - 1`
characters), `broker_env::lookup(name, val)` succeeds if and only if the
variable whose name is `name` with every hierarchy separator replaced by `_`
is set; on success `val` is exactly that variable's value, on failure `val`
is left unchanged; and `broker_env::defines(name)` returns the same
boolean. -/
theorem broker_env_lookup (sep : Char) (string_max_size : Nat)
    (getenv : List Char → Option (List Char)) (name val : List Char)
    (henv : ∀ nm v, getenv nm = some v →
      (∀ c ∈ v, c ≠ Char.ofNat 0) ∧ v.length ≤ u64_sub string_max_size 1) :
    ((broker_env.lookup sep string_max_size getenv name val).1 = true ↔
      ∃ v, getenv (c_text (replace_hierarchy sep name)) = some v) ∧
    (∀ v, getenv (c_text (replace_hierarchy sep name)) = some v →
      broker_env.lookup sep string_max_size getenv name val = (true, v)) ∧
    (getenv (c_text (replace_hierarchy sep name)) = none →
      broker_env.lookup sep string_max_size getenv name val = (false, val)) ∧
    ((broker_env.lookup sep string_max_size getenv name val).1 = false →
      (broker_env.lookup sep string_max_size getenv name val).2 = val) ∧
    broker_env.defines sep getenv name
      = (broker_env.lookup sep string_max_size getenv name val).1 ∧
    (replace_hierarchy sep name).length = name.length ∧
    (∀ i : Nat, (replace_hierarchy sep name)[i]?
      = name[i]?.map (fun c => if c = sep then '_' else c)) := by
  have hset : ∀ v, getenv (c_text (replace_hierarchy sep name)) = some v →
      broker_env.lookup sep string_max_size getenv name val = (true, v) := by
    intro v hv
    obtain ⟨hnul, hlen⟩ := henv _ v hv
    unfold broker_env.lookup
    rw [hv]
    simp only
    rw [strlen_eq_length v hnul, if_neg (by omega), c_text_self v hnul]
  have hunset : getenv (c_text (replace_hierarchy sep name)) = none →
      broker_env.lookup sep string_max_size getenv name val = (false, val) := by
    intro hv
    unfold broker_env.lookup
    rw [hv]
  refine ⟨?_, hset, hunset, ?_, ?_, ?_, ?_⟩
  · cases hg : getenv (c_text (replace_hierarchy sep name)) with
    | none => rw [hunset hg]; simp
    | some v => rw [hset v hg]; simp
  · cases hg : getenv (c_text (replace_hierarchy sep name)) with
    | none => rw [hunset hg]; simp
    | some v => rw [hset v hg]; simp
  · unfold broker_env.defines
    cases hg : getenv (c_text (replace_hierarchy sep name)) with
    | none => rw [hunset hg]; rfl
    | some v => rw [hset v hg]; rfl
  · simp [replace_hierarchy]
  · intro i
    simp [replace_hierarchy]

theorem broker_env_lookup_witness :
    (broker_env.lookup '.' (2 ^ 62) test_env "system.cpu.clock".toList "old".toList
        = (true, "100".toList) ∧
     broker_env.lookup '.' (2 ^ 62) test_env "system.cpu.reset".toList "old".toList
        = (false, "old".toList) ∧
     broker_env.defines '.' test_env "system.cpu.clock".toList = true ∧
     broker_env.defines '.' test_env "system.cpu.reset".toList = false ∧
     replace_hierarchy '.' "system.cpu.clock".toList = "system_cpu_clock".toList) ∧
    (∀ nm v, test_env nm = some v →
      (∀ c ∈ v, c ≠ Char.ofNat 0) ∧ v.length ≤ u64_sub (2 ^ 62) 1) ∧
    (((broker_env.lookup '.' (2 ^ 62) test_env "system.cpu.clock".toList "old".toList).1 = true
      ↔ ∃ v, test_env (c_text (replace_hierarchy '.' "system.cpu.clock".toList)) = some v) ∧
    (∀ v, test_env (c_text (replace_hierarchy '.' "system.cpu.clock".toList)) = some v →
      broker_env.lookup '.' (2 ^ 62) test_env "system.cpu.clock".toList "old".toList
        = (true, v)) ∧
    (test_env (c_text (replace_hierarchy '.' "system.cpu.clock".toList)) = none →
      broker_env.lookup '.' (2 ^ 62) test_env "system.cpu.clock".toList "old".toList
        = (false, "old".toList)) ∧
    ((broker_env.lookup '.' (2 ^ 62) test_env "system.cpu.clock".toList "old".toList).1 = false →
      (broker_env.lookup '.' (2 ^ 62) test_env "system.cpu.clock".toList "old".toList).2
        = "old".toList) ∧
    broker_env.defines '.' test_env "system.cpu.clock".toList
      = (broker_env.lookup '.' (2 ^ 62) test_env "system.cpu.clock".toList "old".toList).1 ∧
    (replace_hierarchy '.' "system.cpu.clock".toList).length = "system.cpu.clock".toList.length ∧
    (∀ i : Nat, (replace_hierarchy '.' "system.cpu.clock".toList)[i]?
      = "system.cpu.clock".toList[i]?.map (fun c => if c = '.' then '_' else c))) :=
  have henv : ∀ nm v, test_env nm = some v →
      (∀ c ∈ v, c ≠ Char.ofNat 0) ∧ v.length ≤ u64_sub (2 ^ 62) 1 := by
    intro nm v h
    unfold test_env at h
    split at h
    · cases h
      decide
    · cases h
  ⟨by decide, henv,
    broker_env_lookup '.' (2 ^ 62) test_env "system.cpu.clock".toList "old".toList henv⟩

/-! ### vspserver -/

theorem seta_loop_joined (d : Char) (n : Nat) :
    ∀ l : List (List Char), l.length = n + 1 →
      (List.range n).flatMap (fun i => l.getD i [] ++ [d]) ++ l.getD n [] = joined d l := by
  induction n with
  | zero =>
    intro l hl
    match l, hl with
    | [v], _ => simp [joined]
  | succ m ih =>
    intro l hl
    match l, hl with
    | v :: w :: rest, hl =>
      have h := ih (w :: rest) (by simpa using hl)
      rw [List.range_succ_eq_map, List.flatMap_cons, List.flatMap_map]
      simp only [joined, List.getD_cons_zero, List.getD_cons_succ, List.append_assoc,
        List.singleton_append, Function.comp]
      rw [← h]
      simp

theorem seta_text_joined (values : List (List Char)) (count : Nat)
    (hc : values.length = count) (h1 : 1 ≤ count) (hU : count < U64) :
    vspserver.seta_text values count = joined ARRAY_DELIMITER values := by
  have hs : u64_sub count 1 = count - 1 := by
    unfold u64_sub
    rw [U64_eq] at hU ⊢
    omega
  unfold vspserver.seta_text
  rw [hs]
  exact seta_loop_joined ARRAY_DELIMITER (count - 1) values (by omega)

/-- C35: `vspserver::handle_seta` replies `OK` and assigns the property the
supplied values joined by the array delimiter if and only if the command has
at least one value, the named attribute exists, is a property, and the number
of values equals the property's element count; otherwise the reply starts
with `E,` and the attributes are left as they were.  On the success path
the index `count - 1` of the last value is in bounds. -/
theorem handle_seta_reply {W : Type} (split : List Char → Char → List (List Char))
    (A : attribute_store W) (w : W) (command : List Char)
    (hlen : (split command ',').length < U32) :
    ((1 ≤ ((split command ',').drop 2).length ∧
      ∃ count, A.find_attribute w ((split command ',').getD 1 []) = some (sc_attr_base.property count)
        ∧ ((split command ',').drop 2).length = count) →
      vspserver.handle_seta split A w command
        = some ("OK".toList, A.str w ((split command ',').getD 1 [])
            (joined ARRAY_DELIMITER ((split command ',').drop 2))) ∧
      ∀ count, A.find_attribute w ((split command ',').getD 1 []) = some (sc_attr_base.property count)
        → u64_sub count 1 < ((split command ',').drop 2).length) ∧
    (¬ (1 ≤ ((split command ',').drop 2).length ∧
      ∃ count, A.find_attribute w ((split command ',').getD 1 []) = some (sc_attr_base.property count)
        ∧ ((split command ',').drop 2).length = count) →
      ∃ msg, vspserver.handle_seta split A w command = some ('E' :: ',' :: msg, w)) ∧
    (∀ reply w1, vspserver.handle_seta split A w command = some (reply, w1) →
      (reply = "OK".toList ↔
        (1 ≤ ((split command ',').drop 2).length ∧
          ∃ count, A.find_attribute w ((split command ',').getD 1 [])
              = some (sc_attr_base.property count)
            ∧ ((split command ',').drop 2).length = count))) ∧
    (vspserver.handle_seta split A w command).isSome = true := by
  have hU : U32 = 4294967296 := by unfold U32; norm_num
  have hdrop : ((split command ',').drop 2).length = (split command ',').length - 2 :=
    List.length_drop 2 _
  have hsub : ∀ count, 1 ≤ count → count < U32 → u64_sub count 1 = count - 1 := by
    intro count h1 h2
    unfold u64_sub
    rw [U64_eq]
    rw [hU] at h2
    omega
  have hok : ∀ count, 1 ≤ ((split command ',').drop 2).length →
      A.find_attribute w ((split command ',').getD 1 []) = some (sc_attr_base.property count) →
      ((split command ',').drop 2).length = count →
      vspserver.handle_seta split A w command
        = some ("OK".toList, A.str w ((split command ',').getD 1 [])
            (joined ARRAY_DELIMITER ((split command ',').drop 2))) := by
    intro count h1 hf hc
    unfold vspserver.handle_seta
    simp only
    rw [if_neg (by omega), hf]
    simp only
    rw [if_neg (fun hne => hne hc), if_neg (by rw [hsub count (by omega) (by omega)]; omega),
      seta_text_joined _ count hc (by omega) (by rw [U64_eq]; rw [hU] at hlen; omega)]
  have herr : ¬ (1 ≤ ((split command ',').drop 2).length ∧
      ∃ count, A.find_attribute w ((split command ',').getD 1 []) = some (sc_attr_base.property count)
        ∧ ((split command ',').drop 2).length = count) →
      ∃ msg, vspserver.handle_seta split A w command = some ('E' :: ',' :: msg, w) := by
    intro hn
    unfold vspserver.handle_seta
    simp only
    by_cases h3 : (split command ',').length < 3
    · rw [if_pos h3]
      exact ⟨_, rfl⟩
    · rw [if_neg h3]
      cases hf : A.find_attribute w ((split command ',').getD 1 []) with
      | none => exact ⟨_, rfl⟩
      | some a =>
        cases a with
        | plain => exact ⟨_, rfl⟩
        | property count =>
          simp only
          by_cases hc : ((split command ',').drop 2).length = count
          · exact absurd ⟨by omega, count, hf, hc⟩ hn
          · rw [if_pos hc]
            exact ⟨_, rfl⟩
  refine ⟨?_, herr, ?_, ?_⟩
  · rintro ⟨h1, count, hf, hc⟩
    refine ⟨hok count h1 hf hc, ?_⟩
    intro c hfc
    rw [hf] at hfc
    cases hfc
    rw [hsub count (by omega) (by omega)]
    omega
  · intro reply w1 hr
    by_cases hC : (1 ≤ ((split command ',').drop 2).length ∧
      ∃ count, A.find_attribute w ((split command ',').getD 1 []) = some (sc_attr_base.property count)
        ∧ ((split command ',').drop 2).length = count)
    · obtain ⟨h1, count, hf, hc⟩ := hC
      rw [hok count h1 hf hc] at hr
      cases hr
      exact ⟨fun _ => ⟨h1, count, hf, hc⟩, fun _ => rfl⟩
    · obtain ⟨msg, hm⟩ := herr hC
      rw [hm] at hr
      cases hr
      constructor
      · intro h
        have hh : some 'E' = some 'O' := congrArg List.head? h
        exact absurd hh (by decide)
      · intro h
        exact absurd h hC
  · by_cases hC : (1 ≤ ((split command ',').drop 2).length ∧
      ∃ count, A.find_attribute w ((split command ',').getD 1 []) = some (sc_attr_base.property count)
        ∧ ((split command ',').drop 2).length = count)
    · obtain ⟨h1, count, hf, hc⟩ := hC
      rw [hok count h1 hf hc]
      rfl
    · obtain ⟨msg, hm⟩ := herr hC
      rw [hm]
      rfl

theorem handle_seta_reply_witness :
    (vspserver.handle_seta split test_attributes [] "A,top.irq,1,2,3".toList
        = some ("OK".toList, [("top.irq".toList, "1,2,3".toList)]) ∧
     vspserver.handle_seta split test_attributes [] "A,top.irq,1,2".toList
        = some ("E,attribute \x27top.irq\x27 needs 3 initializers, 2 given".toList, []) ∧
     vspserver.handle_seta split test_attributes [] "A,top.name,1".toList
        = some ("E,attribute \x27top.name\x27 not writable".toList, []) ∧
     vspserver.handle_seta split test_attributes [] "A,top.none,1".toList
        = some ("E,attribute \x27top.none\x27 not found".toList, []) ∧
     vspserver.handle_seta split test_attributes [] "A,top.irq".toList
        = some ("E,insufficient arguments 2".toList, [])) ∧
    (split "A,top.irq,1,2,3".toList ',').length < U32 ∧
    ((1 ≤ ((split "A,top.irq,1,2,3".toList ',').drop 2).length ∧
      ∃ count, test_attributes.find_attribute [] ((split "A,top.irq,1,2,3".toList ',').getD 1 [])
          = some (sc_attr_base.property count)
        ∧ ((split "A,top.irq,1,2,3".toList ',').drop 2).length = count) →
      vspserver.handle_seta split test_attributes [] "A,top.irq,1,2,3".toList
        = some ("OK".toList, test_attributes.str [] ((split "A,top.irq,1,2,3".toList ',').getD 1 [])
            (joined ARRAY_DELIMITER ((split "A,top.irq,1,2,3".toList ',').drop 2))) ∧
      ∀ count, test_attributes.find_attribute [] ((split "A,top.irq,1,2,3".toList ',').getD 1 [])
          = some (sc_attr_base.property count)
        → u64_sub count 1 < ((split "A,top.irq,1,2,3".toList ',').drop 2).length) ∧
    (¬ (1 ≤ ((split "A,top.irq,1,2,3".toList ',').drop 2).length ∧
      ∃ count, test_attributes.find_attribute [] ((split "A,top.irq,1,2,3".toList ',').getD 1 [])
          = some (sc_attr_base.property count)
        ∧ ((split "A,top.irq,1,2,3".toList ',').drop 2).length = count) →
      ∃ msg, vspserver.handle_seta split test_attributes [] "A,top.irq,1,2,3".toList
        = some ('E' :: ',' :: msg, [])) ∧
    (∀ reply w1, vspserver.handle_seta split test_attributes [] "A,top.irq,1,2,3".toList
        = some (reply, w1) →
      (reply = "OK".toList ↔
        (1 ≤ ((split "A,top.irq,1,2,3".toList ',').drop 2).length ∧
          ∃ count, test_attributes.find_attribute []
              ((split "A,top.irq,1,2,3".toList ',').getD 1 [])
              = some (sc_attr_base.property count)
            ∧ ((split "A,top.irq,1,2,3".toList ',').drop 2).length = count))) ∧
    (vspserver.handle_seta split test_attributes [] "A,top.irq,1,2,3".toList).isSome = true :=
  ⟨⟨by decide, by decide, by decide, by decide, by decide⟩, by decide,
    handle_seta_reply split test_attributes [] "A,top.irq,1,2,3".toList (by decide)⟩

/-! ### do_read / do_write inside the register -/

theorem reg_end_bound {HOST : Type} {sz N : Nat} (r : reg HOST sz N) (hwf : r.wf) (e : Nat)
    (he : e ≤ r.get_range.end_) (hend : r.get_range.end_ < U64 - 1) :
    e < r.address + N * sz ∧ e + 1 < U64 := by
  obtain ⟨_, _, _, hA⟩ := hwf
  unfold reg.get_range at he hend
  simp only [u64_add, u64_sub, U64_eq] at he hend hA ⊢
  omega

theorem chunk_inside {HOST : Type} {sz N : Nat} (r : reg HOST sz N) (hwf : r.wf)
    (start e : Nat) (h1 : r.address ≤ start) (h2 : start ≤ e)
    (h3 : e < r.address + N * sz) (h4 : e + 1 < U64) :
    (r.chunk ⟨start, e⟩).1 < N ∧ (r.chunk ⟨start, e⟩).1 % U32 = (r.chunk ⟨start, e⟩).1 ∧
    1 ≤ (r.chunk ⟨start, e⟩).2.2 ∧ start + (r.chunk ⟨start, e⟩).2.2 ≤ e + 1 ∧
    u64_add start (r.chunk ⟨start, e⟩).2.2 = start + (r.chunk ⟨start, e⟩).2.2 := by
  obtain ⟨hsz, hN, _, _⟩ := hwf
  have hU := U64_eq
  have e1 : u64_sub start r.address = start - r.address := by
    unfold u64_sub
    rw [hU] at h4 ⊢
    omega
  have e2 : (⟨start, e⟩ : range).length = e - start + 1 := by
    unfold range.length u64_add u64_sub
    simp only
    rw [hU] at h4 ⊢
    omega
  have hidx : (start - r.address) / sz < N :=
    Nat.div_lt_of_lt_mul (by rw [Nat.mul_comm]; omega)
  unfold reg.chunk
  simp only [e1, e2]
  refine ⟨hidx, Nat.mod_eq_of_lt (by omega), ?_, ?_, ?_⟩
  · omega
  · omega
  · unfold u64_add
    exact Nat.mod_eq_of_lt (by omega)

theorem do_write_body_inside {HOST : Type} {sz N : Nat} (cpu : HOST → Int)
    (s : wstate HOST sz N) (hwf : s.self.wf) (h1 : s.self.address ≤ s.addr.start)
    (h2 : s.addr.start ≤ s.addr.end_) (h3 : s.addr.end_ < s.self.address + N * sz)
    (h4 : s.addr.end_ + 1 < U64) :
    (reg.do_write_body cpu s).2 = some outcome.undefined_behaviour ∨
    ((reg.do_write_body cpu s).2 = none ∧
      (reg.do_write_body cpu s).1.self.address = s.self.address ∧
      (reg.do_write_body cpu s).1.addr.end_ = s.addr.end_ ∧
      s.addr.start < (reg.do_write_body cpu s).1.addr.start ∧
      (reg.do_write_body cpu s).1.addr.start ≤ s.addr.end_ + 1) := by
  obtain ⟨c1, c2, c3, c4, c5⟩ := chunk_inside s.self hwf s.addr.start s.addr.end_ h1 h2 h3 h4
  have c1a : (s.self.chunk s.addr).1 < N := c1
  have c2a : (s.self.chunk s.addr).1 % U32 = (s.self.chunk s.addr).1 := c2
  have c3a : 1 ≤ (s.self.chunk s.addr).2.2 := c3
  have c4a : s.addr.start + (s.self.chunk s.addr).2.2 ≤ s.addr.end_ + 1 := c4
  have c5a : u64_add s.addr.start (s.self.chunk s.addr).2.2
      = s.addr.start + (s.self.chunk s.addr).2.2 := c5
  have hidx : (s.self.chunk s.addr).1 % U32 < N := by rw [c2a]; exact c1a
  unfold reg.do_write_body
  simp only
  rw [bank_get_eq s.self _ _ hidx]
  simp only
  cases hp : (s.self.seen (cpu s.host) ⟨(s.self.chunk s.addr).1 % U32, hidx⟩).poke
      (s.self.chunk s.addr).2.1 s.src (s.self.chunk s.addr).2.2 with
  | none => left; rfl
  | some val1 =>
    right
    simp only
    rw [bank_set_eq _ _ _ hidx]
    simp only
    refine ⟨trivial, (assigned_fixed _ _ _ _).1.trans (touched_fixed _ _).1, trivial, ?_, ?_⟩
    · rw [c5a]; omega
    · rw [c5a]; omega

theorem do_read_body_inside {HOST : Type} {sz N : Nat} (cpu : HOST → Int)
    (s : rstate HOST sz N) (hwf : s.self.wf) (h1 : s.self.address ≤ s.addr.start)
    (h2 : s.addr.start ≤ s.addr.end_) (h3 : s.addr.end_ < s.self.address + N * sz)
    (h4 : s.addr.end_ + 1 < U64) :
    (reg.do_read_body cpu s).2 = some outcome.undefined_behaviour ∨
    ((reg.do_read_body cpu s).2 = none ∧
      (reg.do_read_body cpu s).1.self.address = s.self.address ∧
      (reg.do_read_body cpu s).1.addr.end_ = s.addr.end_ ∧
      s.addr.start < (reg.do_read_body cpu s).1.addr.start ∧
      (reg.do_read_body cpu s).1.addr.start ≤ s.addr.end_ + 1) := by
  obtain ⟨c1, c2, c3, c4, c5⟩ := chunk_inside s.self hwf s.addr.start s.addr.end_ h1 h2 h3 h4
  have c1a : (s.self.chunk s.addr).1 < N := c1
  have c2a : (s.self.chunk s.addr).1 % U32 = (s.self.chunk s.addr).1 := c2
  have c3a : 1 ≤ (s.self.chunk s.addr).2.2 := c3
  have c4a : s.addr.start + (s.self.chunk s.addr).2.2 ≤ s.addr.end_ + 1 := c4
  have c5a : u64_add s.addr.start (s.self.chunk s.addr).2.2
      = s.addr.start + (s.self.chunk s.addr).2.2 := c5
  have hidx : (s.self.chunk s.addr).1 % U32 < N := by rw [c2a]; exact c1a
  unfold reg.do_read_body
  simp only
  rw [bank_get_eq s.self _ _ hidx]
  simp only
  rw [bank_set_eq _ _ _ hidx]
  simp only
  cases hp : ((s.self.touched (cpu s.host)).read_dispatch s.host
      (s.self.seen (cpu s.host) ⟨(s.self.chunk s.addr).1 % U32, hidx⟩)
      (s.self.chunk s.addr).1).1.peek (s.self.chunk s.addr).2.1 (s.self.chunk s.addr).2.2 with
  | none => left; rfl
  | some bs =>
    right
    simp only
    refine ⟨trivial, (assigned_fixed _ _ _ _).1.trans (touched_fixed _ _).1, trivial, ?_, ?_⟩
    · rw [c5a]; omega
    · rw [c5a]; omega

theorem do_write_loop_inside {HOST : Type} {sz N : Nat} (cpu : HOST → Int) (fuel : Nat) :
    ∀ s : wstate HOST sz N, s.self.wf → s.self.address ≤ s.addr.start →
      s.addr.end_ < s.self.address + N * sz → s.addr.end_ + 1 < U64 →
      s.addr.end_ + 1 - s.addr.start ≤ fuel →
      (reg.do_write_loop cpu fuel s).2 = outcome.completed ∨
      (reg.do_write_loop cpu fuel s).2 = outcome.undefined_behaviour := by
  induction fuel with
  | zero =>
    intro s _ _ _ _ hf
    rw [reg.do_write_loop, if_neg (by omega)]
    exact Or.inl rfl
  | succ n ih =>
    intro s hwf h1 h3 h4 hf
    rw [reg.do_write_loop]
    by_cases h2 : s.addr.start ≤ s.addr.end_
    · rw [if_pos h2]
      have hb := do_write_body_inside cpu s hwf h1 h2 h3 h4
      rcases hs : reg.do_write_body cpu s with ⟨s1, o⟩
      rw [hs] at hb
      simp only at hb
      rcases hb with hb | ⟨hb, ha, he, hlt, hle⟩
      · subst hb
        exact Or.inr rfl
      · subst hb
        simp only
        exact ih s1 (wf_of_address s.self s1.self ha hwf) (by rw [ha]; omega)
          (by rw [ha, he]; exact h3) (by rw [he]; exact h4) (by rw [he]; omega)
    · rw [if_neg h2]
      exact Or.inl rfl

theorem do_read_loop_inside {HOST : Type} {sz N : Nat} (cpu : HOST → Int) (fuel : Nat) :
    ∀ s : rstate HOST sz N, s.self.wf → s.self.address ≤ s.addr.start →
      s.addr.end_ < s.self.address + N * sz → s.addr.end_ + 1 < U64 →
      s.addr.end_ + 1 - s.addr.start ≤ fuel →
      (reg.do_read_loop cpu fuel s).2 = outcome.completed ∨
      (reg.do_read_loop cpu fuel s).2 = outcome.undefined_behaviour := by
  induction fuel with
  | zero =>
    intro s _ _ _ _ hf
    rw [reg.do_read_loop, if_neg (by omega)]
    exact Or.inl rfl
  | succ n ih =>
    intro s hwf h1 h3 h4 hf
    rw [reg.do_read_loop]
    by_cases h2 : s.addr.start ≤ s.addr.end_
    · rw [if_pos h2]
      have hb := do_read_body_inside cpu s hwf h1 h2 h3 h4
      rcases hs : reg.do_read_body cpu s with ⟨s1, o⟩
      rw [hs] at hb
      simp only at hb
      rcases hb with hb | ⟨hb, ha, he, hlt, hle⟩
      · subst hb
        exact Or.inr rfl
      · subst hb
        simp only
        exact ih s1 (wf_of_address s.self s1.self ha hwf) (by rw [ha]; omega)
          (by rw [ha, he]; exact h3) (by rw [he]; exact h4) (by rw [he]; omega)
    · rw [if_neg h2]
      exact Or.inl rfl

/-- C37: for a register and an access range with `reg.start <= range.start <=
range.end <= reg.end` and `reg.end < 2^64 - 1`, `do_write` and `do_read` end
within `range.length` iterations of their loop: with that many steps the
outcome is never "out of fuel" and never a report, so neither `index out of
bounds` nor `cannot create banks` is raised (the only other way for an
iteration to stop is a `memcpy` leaving its buffer).  In every iteration the
cell index is below `N`, also as an `unsigned int`, and `addr.start` advances
by at least one byte and to at most `range.end + 1`. -/
theorem do_read_write_inside {HOST : Type} {sz N : Nat} (cpu : HOST → Int)
    (r : reg HOST sz N) (h : HOST) (txaddr : range) (data : List UInt8) (hwf : r.wf)
    (hstart : r.get_range.start ≤ txaddr.start) (hle : txaddr.start ≤ txaddr.end_)
    (hin : txaddr.end_ ≤ r.get_range.end_) (hend : r.get_range.end_ < U64 - 1) :
    ((r.do_write cpu txaddr.length h txaddr data).2 = outcome.completed ∨
      (r.do_write cpu txaddr.length h txaddr data).2 = outcome.undefined_behaviour) ∧
    ((r.do_read cpu txaddr.length h txaddr).2 = outcome.completed ∨
      (r.do_read cpu txaddr.length h txaddr).2 = outcome.undefined_behaviour) ∧
    (r.do_write cpu txaddr.length h txaddr data).2 ≠ outcome.out_of_fuel ∧
    (r.do_read cpu txaddr.length h txaddr).2 ≠ outcome.out_of_fuel ∧
    (∀ e, (r.do_write cpu txaddr.length h txaddr data).2 ≠ outcome.raised e ∧
      (r.do_read cpu txaddr.length h txaddr).2 ≠ outcome.raised e) ∧
    (∀ start, txaddr.start ≤ start → start ≤ txaddr.end_ →
      (r.chunk ⟨start, txaddr.end_⟩).1 < N ∧
      (r.chunk ⟨start, txaddr.end_⟩).1 % U32 = (r.chunk ⟨start, txaddr.end_⟩).1 ∧
      1 ≤ (r.chunk ⟨start, txaddr.end_⟩).2.2 ∧
      u64_add start (r.chunk ⟨start, txaddr.end_⟩).2.2
        = start + (r.chunk ⟨start, txaddr.end_⟩).2.2 ∧
      start + (r.chunk ⟨start, txaddr.end_⟩).2.2 ≤ txaddr.end_ + 1) := by
  have hA : r.address ≤ txaddr.start := hstart
  obtain ⟨h3, h4⟩ := reg_end_bound r hwf txaddr.end_ hin hend
  have hlen : txaddr.length = txaddr.end_ - txaddr.start + 1 := by
    unfold range.length u64_add u64_sub
    rw [U64_eq] at h4 ⊢
    omega
  have hw := do_write_loop_inside cpu txaddr.length
    { self := r, host := h, addr := txaddr, src := data, calls := [] } hwf hA h3 h4
    (by rw [hlen]; show txaddr.end_ + 1 - txaddr.start ≤ _; omega)
  have hr := do_read_loop_inside cpu txaddr.length
    { self := r, host := h, addr := txaddr, dest := [], calls := [] } hwf hA h3 h4
    (by rw [hlen]; show txaddr.end_ + 1 - txaddr.start ≤ _; omega)
  have hw1 : (r.do_write cpu txaddr.length h txaddr data).2 = outcome.completed ∨
      (r.do_write cpu txaddr.length h txaddr data).2 = outcome.undefined_behaviour := hw
  have hr1 : (r.do_read cpu txaddr.length h txaddr).2 = outcome.completed ∨
      (r.do_read cpu txaddr.length h txaddr).2 = outcome.undefined_behaviour := hr
  refine ⟨hw1, hr1, ?_, ?_, ?_, ?_⟩
  · rcases hw1 with hx | hx <;> rw [hx] <;> exact fun hc => by cases hc
  · rcases hr1 with hx | hx <;> rw [hx] <;> exact fun hc => by cases hc
  · intro e
    constructor
    · rcases hw1 with hx | hx <;> rw [hx] <;> exact fun hc => by cases hc
    · rcases hr1 with hx | hx <;> rw [hx] <;> exact fun hc => by cases hc
  · intro start hs1 hs2
    obtain ⟨c1, c2, c3, c4, c5⟩ := chunk_inside r hwf start txaddr.end_ (by omega) hs2 h3 h4
    exact ⟨c1, c2, c3, c5, c4⟩

theorem do_read_write_inside_witness :
    ((banked_reg.do_write id 8 1 ⟨0, 7⟩ [1, 2, 3, 4, 5, 6, 7, 8]).2 = outcome.completed ∧
     (banked_reg.do_read id 8 1 ⟨0, 7⟩).2 = outcome.completed ∧
     (banked_reg.do_read id 8 1 ⟨0, 7⟩).1.dest = List.replicate 8 0xff ∧
     (banked_reg.do_write id 7 1 ⟨1, 7⟩ [1, 2, 3, 4, 5, 6, 7]).2
        = outcome.undefined_behaviour ∧
     (⟨0, 7⟩ : range).length = 8) ∧
    (banked_reg.wf ∧ banked_reg.get_range.start ≤ (⟨0, 7⟩ : range).start ∧
      (⟨0, 7⟩ : range).start ≤ (⟨0, 7⟩ : range).end_ ∧
      (⟨0, 7⟩ : range).end_ ≤ banked_reg.get_range.end_ ∧
      banked_reg.get_range.end_ < U64 - 1) ∧
    (((banked_reg.do_write id (⟨0, 7⟩ : range).length 1 ⟨0, 7⟩ [1, 2, 3, 4, 5, 6, 7, 8]).2
        = outcome.completed ∨
      (banked_reg.do_write id (⟨0, 7⟩ : range).length 1 ⟨0, 7⟩ [1, 2, 3, 4, 5, 6, 7, 8]).2
        = outcome.undefined_behaviour) ∧
    ((banked_reg.do_read id (⟨0, 7⟩ : range).length 1 ⟨0, 7⟩).2 = outcome.completed ∨
      (banked_reg.do_read id (⟨0, 7⟩ : range).length 1 ⟨0, 7⟩).2
        = outcome.undefined_behaviour) ∧
    (banked_reg.do_write id (⟨0, 7⟩ : range).length 1 ⟨0, 7⟩ [1, 2, 3, 4, 5, 6, 7, 8]).2
      ≠ outcome.out_of_fuel ∧
    (banked_reg.do_read id (⟨0, 7⟩ : range).length 1 ⟨0, 7⟩).2 ≠ outcome.out_of_fuel ∧
    (∀ e, (banked_reg.do_write id (⟨0, 7⟩ : range).length 1 ⟨0, 7⟩
          [1, 2, 3, 4, 5, 6, 7, 8]).2 ≠ outcome.raised e ∧
      (banked_reg.do_read id (⟨0, 7⟩ : range).length 1 ⟨0, 7⟩).2 ≠ outcome.raised e) ∧
    (∀ start, (⟨0, 7⟩ : range).start ≤ start → start ≤ (⟨0, 7⟩ : range).end_ →
      (banked_reg.chunk ⟨start, (⟨0, 7⟩ : range).end_⟩).1 < 2 ∧
      (banked_reg.chunk ⟨start, (⟨0, 7⟩ : range).end_⟩).1 % U32
        = (banked_reg.chunk ⟨start, (⟨0, 7⟩ : range).end_⟩).1 ∧
      1 ≤ (banked_reg.chunk ⟨start, (⟨0, 7⟩ : range).end_⟩).2.2 ∧
      u64_add start (banked_reg.chunk ⟨start, (⟨0, 7⟩ : range).end_⟩).2.2
        = start + (banked_reg.chunk ⟨start, (⟨0, 7⟩ : range).end_⟩).2.2 ∧
      start + (banked_reg.chunk ⟨start, (⟨0, 7⟩ : range).end_⟩).2.2
        ≤ (⟨0, 7⟩ : range).end_ + 1)) :=
  ⟨⟨by decide, by decide, by decide, by decide, by decide⟩,
    ⟨by decide, by decide, by decide, by decide, by decide⟩,
    do_read_write_inside id banked_reg 1 ⟨0, 7⟩ [1, 2, 3, 4, 5, 6, 7, 8] (by decide) (by decide)
      (by decide) (by decide) (by decide)⟩

/-! ### reg: the two overloads of bank -/

theorem bank_of_missing {HOST : Type} {sz N : Nat} (r : reg HOST sz N) (bk : Int) (idx : Nat)
    (h : idx < N) (hb : r.m_banked = true) (hbk : bk ≠ 0) (hm : r.m_banks bk = none) :
    r.bank_const bk idx = .ok r.m_default ∧
    r.bank_get bk idx = .ok (r.touched bk, r.m_init ⟨idx, h⟩) ∧
    (r.touched bk).m_banks bk = some r.m_init := by
  have hs := is_shared_eq_false r bk hb hbk
  refine ⟨?_, ?_, ?_⟩
  · unfold reg.bank_const
    rw [dif_pos h, if_neg (by simp [hb, hbk]), hm]
  · rw [bank_get_eq r bk idx h]
    simp [reg.seen, reg.bank_cells, hs, hm]
  · simp [reg.touched, reg.bank_cells, hs, hm]

/-- C38: on the banked register `broker_reg` (default `0xffffffff`, value
`0x12345678` from a broker), where bank 1 has no storage, the const
`bank(1, 0)` returns the default `0xffffffff`, while the non-const
`bank(1, 0)` creates the bank and returns the init value `0x12345678` of
cell 0. -/
theorem bank_const_returns_default :
    broker_reg.m_banked = true ∧ (broker_reg.m_banks 1).isSome = false ∧
    (broker_reg.m_init ⟨0, by decide⟩).value = 0x12345678 ∧
    ((broker_reg.bank_const 1 0).toOption.map DATA.value) = some 0xffffffff ∧
    ((broker_reg.bank_get 1 0).toOption.map (fun p => p.2.value)) = some 0x12345678 ∧
    ((broker_reg.bank_get 1 0).toOption.map (fun p => (p.1.m_banks 1).isSome)) = some true := by
  decide

end vcml
